import Mathlib

/-!
# Option configuration engine of Tk (`generic/tkConfig.c`)

A shallow embedding of the option tables of `tkConfig.c` and of the functions
that create them, look names up in them, apply values to a record and undo
such changes.

Conventions of the embedding.

* A C string is the list of its characters before the terminating NUL.
* A NULL-terminated linked list (a chain of option tables, a chain of saved
  option nodes, a chain of templates) is a `List`; the empty list is `NULL`.
* A pointer to an entry of a table of a chain is the pair of the position of
  the table in the chain and the index of the entry in the table.
* The record being configured is given by the `Tcl_Obj *` fields and the
  internal-form fields at its byte offsets; a cell is the content of one
  internal-form field.
* Functions of Tcl and of the rest of Tk that `tkConfig.c` calls (parsers,
  resource allocators) and the constants of `tk.h` are fields of `Env`.

The file also embeds `TkParsePadAmount` of `generic/tkObj.c` and
`TkGetBitmapData` with `NextBitmapWord` of `generic/tkImgBmap.c`; a variable
of type `int` holds an integer converted with `castInt`.  The array
`bit_reverse` of `ImgBmapPsImagemask` is embedded as a list of its entries.
-/

set_option autoImplicit false

namespace TkConfig

/-! ## Definitions -/

/-- A C string: the characters before the terminating NUL. -/
abbrev CString := List Char

/-- The option types of `tk.h` (`Tk_OptionType`); `OTHER` stands for any
integer that is none of the enumerators. -/
inductive Tk_OptionType
  | TK_OPTION_BOOLEAN
  | TK_OPTION_INT
  | TK_OPTION_INDEX
  | TK_OPTION_DOUBLE
  | TK_OPTION_STRING
  | TK_OPTION_STRING_TABLE
  | TK_OPTION_COLOR
  | TK_OPTION_FONT
  | TK_OPTION_STYLE
  | TK_OPTION_BITMAP
  | TK_OPTION_BORDER
  | TK_OPTION_RELIEF
  | TK_OPTION_CURSOR
  | TK_OPTION_JUSTIFY
  | TK_OPTION_ANCHOR
  | TK_OPTION_SYNONYM
  | TK_OPTION_PIXELS
  | TK_OPTION_WINDOW
  | TK_OPTION_END
  | TK_OPTION_CUSTOM
  | OTHER (code : Nat)
  deriving DecidableEq, Repr

open Tk_OptionType

/-- The tag of the type of a `Tcl_Obj` (`objPtr->typePtr`): `NULL`, the
`optionObjType` of `tkConfig.c`, or some other type. -/
inductive ObjTypeTag
  | NULL
  | optionObjType
  | other (n : Nat)
  deriving DecidableEq, Repr

/-- A `Tcl_Obj`: its string value, its type tag and the two pointers of its
internal representation.  When the tag is `optionObjType`, `ptr1` is the
address of the table the name was looked up in and `ptr2` the entry found
(position of its table in the chain, index in that table). -/
structure Tcl_Obj where
  bytes : CString
  typePtr : ObjTypeTag
  ptr1 : Nat
  ptr2 : Nat × Nat
  deriving DecidableEq, Repr

/-- A value of C type `double`: a NaN or a number. -/
inductive DoubleVal
  | NAN
  | num (q : Rat)
  deriving DecidableEq

/-- The content of one internal-form field of a record.  `int` is a cell of an
integer type (`char`, `short`, `int`, `long`), `dbl` a `double`, `str` a
`char *` to an owned string, `handle` a resource handle or window
(`XColor *`, `Tk_Font`, `Tk_Style`, `Pixmap`, `Tk_3DBorder`, `Tk_Cursor`,
`Tk_Window`; `0` is `NULL` or `None`) and `custom` the internal form of a
custom option. -/
inductive Cell
  | int (v : Int)
  | dbl (d : DoubleVal)
  | str (s : Option CString)
  | handle (h : Nat)
  | custom (x : Nat)
  deriving DecidableEq

/-- The record being configured: the `Tcl_Obj *` field (`none` is `NULL`) and
the internal-form field at each byte offset. -/
@[ext] structure Record where
  objs : Nat → Option Tcl_Obj
  internals : Nat → Cell

/-- Store the pointer `p` in the `Tcl_Obj *` field at offset `off`. -/
def Record.setObj (r : Record) (off : Nat) (p : Option Tcl_Obj) : Record :=
  { r with objs := fun o => if o = off then p else r.objs o }

/-- Store `c` in the internal-form field at offset `off`. -/
def Record.set (r : Record) (off : Nat) (c : Cell) : Record :=
  { r with internals := fun o => if o = off then c else r.internals o }

/-- An offset into the record, a `Tcl_Size`: `none` is `TCL_INDEX_NONE`,
`some n` the `offsetof` of a field.  On these values the tests `>= 0` and
`!= TCL_INDEX_NONE` of the source agree. -/
abbrev Offset := Option Nat

/-- `TCL_INDEX_NONE`, that is `((Tcl_Size)-1)`, as an offset. -/
def TCL_INDEX_NONE : Offset := none

/-- A `Tk_Window`; `0` is `NULL`. -/
abbrev Tk_Window := Nat

/-- The four functions of a custom option (`Tk_ObjCustomOption`).

`setProc tkwin value record internalOffset flags` is `none` when it returns
`TCL_ERROR`, together with the record as it left it; otherwise it gives the
value pointer it left in `*value`, the record, and what it stored at
`oldInternalPtr`.  `restoreProc` and `freeProc` may be `NULL`. -/
structure Tk_ObjCustomOption where
  setProc : Tk_Window → Option Tcl_Obj → Record → Offset → Nat →
    Record × Option (Option Tcl_Obj × Cell)
  getProc : Tk_Window → Record → Offset → Option Tcl_Obj
  restoreProc : Option (Tk_Window → Record → Offset → Cell → Record)
  freeProc : Option (Tk_Window → Cell → Cell)

/-- The `clientData` field of a `Tk_OptionSpec`, a `void *` that the code
casts according to the option type: a C string (target of a synonym,
monochrome default of a colour or border), a table of strings, or the
functions of a custom option. -/
inductive ClientData
  | NULL
  | string (s : CString)
  | stringTable (t : List CString)
  | custom (c : Tk_ObjCustomOption)

/-- The cast `(char *)clientData`; `none` when the data is no C string. -/
def ClientData.asString : ClientData → Option CString
  | .string s => some s
  | _ => none

/-- One declaration of a template (`Tk_OptionSpec`). -/
structure Tk_OptionSpec where
  type : Tk_OptionType
  optionName : CString
  dbName : Option CString
  dbClass : Option CString
  defValue : Option CString
  objOffset : Offset
  internalOffset : Offset
  flags : Nat
  clientData : ClientData
  typeMask : Nat

/-- The union `extra` of an `Option` of `tkConfig.c`. -/
inductive Extra
  | monoColorPtr (p : Option Tcl_Obj)
  | synonymPtr (i : Nat)
  | custom (c : Option Tk_ObjCustomOption)

/-- The `Option` structure of `tkConfig.c` (`struct TkOption`): the dynamic
information kept for one declaration.  `synonymPtr i` points to entry `i` of
the same table. -/
structure TkOption where
  specPtr : Tk_OptionSpec
  dbNameUID : Option CString
  dbClassUID : Option CString
  defaultPtr : Option Tcl_Obj
  extra : Extra
  flags : Nat

/-- The flag `OPTION_NEEDS_FREEING`. -/
def OPTION_NEEDS_FREEING : Nat := 1

/-- One table (`OptionTable`).  `hashEntryPtr` is the key of the hash entry
that refers to the table and serves as the address of the table; `nextPtr` is
the address of the next table of the chain.  The functions that walk a chain
are given the chain as a list. -/
structure OptionTable where
  refCount : Nat
  hashEntryPtr : Nat
  nextPtr : Option Nat
  options : List TkOption

/-- A chain of tables: the table, then `nextPtr`, and so on. -/
abbrev TableChain := List OptionTable

/-- A pointer to an entry: position of its table in the chain, index of the
entry in the table. -/
abbrev OptionPtr := Nat × Nat

/-- What the character loop of `GetOption` finds for one option name. -/
inductive NameMatch
  | exact
  | abbreviation
  | differ
  deriving DecidableEq, Repr

/-- The loop `for (p1 = name, p2 = optionName; *p1 == *p2; p1++, p2++)` of
`GetOption` with the test `*p1 == 0` inside it and after it. -/
def compareName : CString → CString → NameMatch
  | [], [] => .exact
  | [], _ :: _ => .abbreviation
  | _ :: _, [] => .differ
  | c :: p1, d :: p2 => if c = d then compareName p1 p2 else .differ

/-- The state of the search of `GetOption`: still running with the current
`bestPtr` (and the full name of that entry), or returned. -/
inductive Search
  | running (bestPtr : Option (OptionPtr × CString))
  | returned (r : Option OptionPtr)

/-- The inner loop of `GetOption` over the options of one table, from index
`i` on; `t` is the position of the table in the chain. -/
def GetOption.scanTable (name : CString) (t : Nat) :
    List TkOption → Nat → Option (OptionPtr × CString) → Search
  | [], _, bestPtr => .running bestPtr
  | o :: rest, i, bestPtr =>
    match compareName name o.specPtr.optionName with
    | .exact => .returned (some (t, i))
    | .abbreviation =>
      match bestPtr with
      | none => GetOption.scanTable name t rest (i + 1) (some ((t, i), o.specPtr.optionName))
      | some (b, bname) =>
        if bname ≠ o.specPtr.optionName then .returned none
        else GetOption.scanTable name t rest (i + 1) (some (b, bname))
    | .differ => GetOption.scanTable name t rest (i + 1) bestPtr

/-- The outer loop of `GetOption` over the tables of the chain. -/
def GetOption.scanChain (name : CString) :
    TableChain → Nat → Option (OptionPtr × CString) → Option OptionPtr
  | [], _, bestPtr => bestPtr.map Prod.fst
  | tbl :: rest, t, bestPtr =>
    match GetOption.scanTable name t tbl.options 0 bestPtr with
    | .returned r => r
    | .running best => GetOption.scanChain name rest (t + 1) best

/-- The function `GetOption`: the entry for `name` in the chain, or `none`
(`NULL`). -/
def GetOption (name : CString) (tablePtr : TableChain) : Option OptionPtr :=
  GetOption.scanChain name tablePtr 0 none

/-- A template: a static array of declarations.  `addr` is the address of the
array, the key under which its table is registered; `specs` are the
declarations before the `TK_OPTION_END` sentinel. -/
structure Template where
  addr : Nat
  specs : List Tk_OptionSpec

/-- A template together with the templates it chains to through the
`clientData` of its sentinel: the array, the array it chains to, and so on
(`[]` is a `NULL` template pointer). -/
abbrev TemplateChain := List Template

/-- The hash table of `ThreadSpecificData`: the table registered for the
template at an address, if any.  A table is stored at the address of its
template. -/
abbrev Registry := Nat → Option OptionTable

/-- The largest value of `size_t` plus one. -/
@[irreducible] def SIZE_MOD : Nat := 2 ^ 64

/-- The object made by `Tcl_NewStringObj`. -/
def Tcl_NewStringObj (s : CString) : Tcl_Obj :=
  { bytes := s, typePtr := .NULL, ptr1 := 0, ptr2 := (0, 0) }

/-- The cast `(const Tk_ObjCustomOption *)clientData`. -/
def ClientData.asCustom : ClientData → Option Tk_ObjCustomOption
  | .custom c => some c
  | _ => none

/-- The test `clientData != NULL`. -/
def ClientData.isNull : ClientData → Bool
  | .NULL => true
  | _ => false

/-- The loop of `Tk_CreateOptionTable` that looks for the declaration a
synonym refers to: the index of the first declaration, from index `i` on,
whose name is the target; `none` when the sentinel is reached
(`Tcl_Panic`). -/
def findSynonym (target : Option CString) : List Tk_OptionSpec → Nat → Option Nat
  | [], _ => none
  | specPtr2 :: rest, i =>
    if some specPtr2.optionName = target then some i
    else findSynonym target rest (i + 1)

/-- The condition under which `Tk_CreateOptionTable` sets
`OPTION_NEEDS_FREEING`. -/
def needsFreeing (specPtr : Tk_OptionSpec) : Bool :=
  (specPtr.type = TK_OPTION_STRING && specPtr.internalOffset != TCL_INDEX_NONE)
    || specPtr.type = TK_OPTION_COLOR
    || specPtr.type = TK_OPTION_FONT
    || specPtr.type = TK_OPTION_BITMAP
    || specPtr.type = TK_OPTION_BORDER
    || specPtr.type = TK_OPTION_CURSOR
    || specPtr.type = TK_OPTION_CUSTOM

/-- The body of the loop of `Tk_CreateOptionTable` that initialises the
`Option` of one declaration of `templatePtr`; `none` is `Tcl_Panic`. -/
def initOption (templatePtr : List Tk_OptionSpec) (specPtr : Tk_OptionSpec) :
    Option TkOption :=
  let flags := if needsFreeing specPtr then OPTION_NEEDS_FREEING else 0
  if specPtr.type = TK_OPTION_SYNONYM then
    match findSynonym specPtr.clientData.asString templatePtr 0 with
    | none => none
    | some i =>
      some { specPtr := specPtr, dbNameUID := none, dbClassUID := none,
             defaultPtr := none, extra := .synonymPtr i, flags := flags }
  else
    some { specPtr := specPtr, dbNameUID := specPtr.dbName, dbClassUID := specPtr.dbClass,
           defaultPtr := specPtr.defValue.map Tcl_NewStringObj,
           extra :=
             if specPtr.type = TK_OPTION_CUSTOM then .custom specPtr.clientData.asCustom
             else if (specPtr.type = TK_OPTION_COLOR || specPtr.type = TK_OPTION_BORDER)
                 && !specPtr.clientData.isNull then
               .monoColorPtr (specPtr.clientData.asString.map Tcl_NewStringObj)
             else .monoColorPtr none,
           flags := flags }

/-- The loop of `Tk_CreateOptionTable` over the declarations of
`templatePtr`; `none` is `Tcl_Panic`. -/
def initOptions (templatePtr : List Tk_OptionSpec) : List Tk_OptionSpec → Option (List TkOption)
  | [] => some []
  | specPtr :: rest =>
    match initOption templatePtr specPtr with
    | none => none
    | some o =>
      match initOptions templatePtr rest with
      | none => none
      | some os => some (o :: os)

/-- How `Tk_CreateOptionTable` ends: with the registry as it leaves it and
the table it returns, or in `Tcl_Panic`, or by reading through a `NULL`
template pointer. -/
inductive CreateResult
  | ok (reg : Registry) (tablePtr : Nat)
  | panic
  | nullTemplate

/-- Store a table at an address of the registry (or remove it). -/
def Registry.set (reg : Registry) (a : Nat) (t : Option OptionTable) : Registry :=
  fun b => if b = a then t else reg b

/-- The function `Tk_CreateOptionTable` applied to a template and the
templates it chains to. -/
def Tk_CreateOptionTable (reg : Registry) : TemplateChain → CreateResult
  | [] => .nullTemplate
  | templatePtr :: chained =>
    match reg templatePtr.addr with
    | some tablePtr =>
      .ok (reg.set templatePtr.addr
            (some { tablePtr with refCount := (tablePtr.refCount + 1) % SIZE_MOD }))
          templatePtr.addr
    | none =>
      match initOptions templatePtr.specs templatePtr.specs with
      | none => .panic
      | some options =>
        let tablePtr : OptionTable :=
          { refCount := 1, hashEntryPtr := templatePtr.addr, nextPtr := none,
            options := options }
        let reg1 := reg.set templatePtr.addr (some tablePtr)
        match chained with
        | [] => .ok reg1 templatePtr.addr
        | _ :: _ =>
          match Tk_CreateOptionTable reg1 chained with
          | .ok reg2 nextPtr =>
            .ok (reg2.set templatePtr.addr
                  ((reg2 templatePtr.addr).map fun t => { t with nextPtr := some nextPtr }))
                templatePtr.addr
          | .panic => .panic
          | .nullTemplate => .nullTemplate

/-- The values released by the loop of `Tk_DeleteOptionTable` over the
options of a table: the default and, for colours and borders, the monochrome
default. -/
def releasedDefaults : List TkOption → List Tcl_Obj
  | [] => []
  | optionPtr :: rest =>
    (match optionPtr.defaultPtr with
      | some d => [d]
      | none => [])
    ++ (if optionPtr.specPtr.type = TK_OPTION_COLOR
          || optionPtr.specPtr.type = TK_OPTION_BORDER then
        match optionPtr.extra with
        | .monoColorPtr (some m) => [m]
        | _ => []
      else [])
    ++ releasedDefaults rest

/-- How `Tk_DeleteOptionTable` ends: with the registry as it leaves it and
the values whose reference count it lowered, or by reading a table that is
not there. -/
inductive DeleteResult
  | done (reg : Registry) (released : List Tcl_Obj)
  | dangling

/-- The function `Tk_DeleteOptionTable`.  The recursion on `nextPtr` is
bounded by `fuel`; `none` means that the fuel did not suffice. -/
def Tk_DeleteOptionTable : Nat → Registry → Nat → Option DeleteResult
  | 0, _, _ => none
  | fuel + 1, reg, optionTable =>
    match reg optionTable with
    | none => some .dangling
    | some tablePtr =>
      let reg1 := reg.set optionTable
        (some { tablePtr with refCount := (tablePtr.refCount + SIZE_MOD - 1) % SIZE_MOD })
      if tablePtr.refCount > 1 then some (.done reg1 [])
      else
        let next : Option DeleteResult :=
          match tablePtr.nextPtr with
          | some nextPtr => Tk_DeleteOptionTable fuel reg1 nextPtr
          | none => some (.done reg1 [])
        match next with
        | none => none
        | some .dangling => some .dangling
        | some (.done reg2 released) =>
          match reg2 optionTable with
          | none => some .dangling
          | some tablePtr2 =>
            some (.done ((reg2.set tablePtr2.hashEntryPtr none).set optionTable none)
              (released ++ releasedDefaults tablePtr2.options))

/-- The entries of one table with their pointers and names, from index `i`
on. -/
def tableEntries (t : Nat) : List TkOption → Nat → List (OptionPtr × CString)
  | [], _ => []
  | o :: rest, i => ((t, i), o.specPtr.optionName) :: tableEntries t rest (i + 1)

/-- The entries of a chain in chain order (first table first, declaration
order within a table), the first table having position `t`. -/
def chainEntriesFrom : TableChain → Nat → List (OptionPtr × CString)
  | [], _ => []
  | tbl :: rest, t => tableEntries t tbl.options 0 ++ chainEntriesFrom rest (t + 1)

/-- The entries of a chain in chain order, each with its pointer and its full
name. -/
def chainEntries (chain : TableChain) : List (OptionPtr × CString) :=
  chainEntriesFrom chain 0

/-- The search of `GetOption` over a list of entries given with their
names. -/
def scanEntries (name : CString) :
    List (OptionPtr × CString) → Option (OptionPtr × CString) → Option OptionPtr
  | [], bestPtr => bestPtr.map Prod.fst
  | (p, s) :: rest, bestPtr =>
    match compareName name s with
    | .exact => some p
    | .abbreviation =>
      match bestPtr with
      | none => scanEntries name rest (some (p, s))
      | some (b, bname) =>
        if bname ≠ s then none else scanEntries name rest (some (b, bname))
    | .differ => scanEntries name rest bestPtr

/-- A table that holds the given declarations and nothing else. -/
def plainTable (specs : List Tk_OptionSpec) : OptionTable :=
  { refCount := 1, hashEntryPtr := 0, nextPtr := none,
    options := specs.map fun s =>
      { specPtr := s, dbNameUID := none, dbClassUID := none, defaultPtr := none,
        extra := .monoColorPtr none, flags := 0 } }

/-- A string option with the given name and a value slot at offset 0. -/
def stringSpec (name : String) : Tk_OptionSpec :=
  { type := TK_OPTION_STRING, optionName := name.toList, dbName := none, dbClass := none,
    defValue := none, objOffset := some 0, internalOffset := TCL_INDEX_NONE, flags := 0,
    clientData := .NULL, typeMask := 0 }

/-- Entry `j` is the first declaration of `specs` whose name is `target`. -/
def IsFirstNamed (specs : List Tk_OptionSpec) (target : Option CString) (j : Nat) : Prop :=
  (∃ s, specs[j]? = some s ∧ some s.optionName = target) ∧
    ∀ k < j, ∀ s, specs[k]? = some s → some s.optionName ≠ target

/-- A synonym declaration whose target is the name of no declaration of
`specs`. -/
def BadSynonym (specs : List Tk_OptionSpec) (s : Tk_OptionSpec) : Prop :=
  s.type = TK_OPTION_SYNONYM ∧ ∀ s2 ∈ specs, some s2.optionName ≠ s.clientData.asString

/-- The templates of a chain for which `Tk_CreateOptionTable` builds a table:
those before the first one that already has a table in the registry. -/
def builtTemplates (reg : Registry) (chain : TemplateChain) : List Template :=
  chain.takeWhile fun t => (reg t.addr).isNone

/-- The table of the options `-foreground` and `-font`. -/
def fontTable : TableChain :=
  [plainTable [stringSpec "-foreground", stringSpec "-font"]]

/-- A table in which the name `-fo` is declared after two options it
abbreviates. -/
def exactLastTable : TableChain :=
  [plainTable [stringSpec "-foreground", stringSpec "-font", stringSpec "-fo"]]

/-- A chain of two tables that both declare `-color`; the first table
declares `-colormap` and `-colors` before it. -/
def shadowChain : TableChain :=
  [plainTable [stringSpec "-colormap", stringSpec "-colors", stringSpec "-color"],
   plainTable [stringSpec "-color"]]

/-- The registry in which no table is registered. -/
def emptyRegistry : Registry := fun _ => none

/-- A synonym declaration `name` for the option `target`. -/
def synonymSpec (name target : String) : Tk_OptionSpec :=
  { type := TK_OPTION_SYNONYM, optionName := name.toList, dbName := none, dbClass := none,
    defValue := none, objOffset := TCL_INDEX_NONE, internalOffset := TCL_INDEX_NONE, flags := 0,
    clientData := .string target.toList, typeMask := 0 }

/-- A template at address 1 that declares `-bd` as a synonym of the string
option `-borderwidth`. -/
def borderTemplate : TemplateChain :=
  [{ addr := 1, specs := [synonymSpec "-bd" "-borderwidth", stringSpec "-borderwidth"] }]

/-- A template at address 1 in which the synonym `-bw` names the synonym
`-bd`. -/
def synonymOfSynonymTemplate : TemplateChain :=
  [{ addr := 1, specs := [synonymSpec "-bw" "-bd", synonymSpec "-bd" "-borderwidth",
      stringSpec "-borderwidth"] }]

/-- In a table, the target of every synonym entry is an entry of the table
whose type is not `TK_OPTION_SYNONYM`. -/
def SynonymTargetsCanonical (options : List TkOption) : Prop :=
  ∀ o ∈ options, o.specPtr.type = TK_OPTION_SYNONYM →
    ∃ j tgt, o.extra = .synonymPtr j ∧ options[j]? = some tgt ∧
      tgt.specPtr.type ≠ TK_OPTION_SYNONYM

/-- Every registered table has a reference count of at least one that can
still be raised. -/
def Registry.CountsOk (reg : Registry) : Prop :=
  ∀ a tbl, reg a = some tbl → 1 ≤ tbl.refCount ∧ tbl.refCount + 1 < SIZE_MOD

/-- The functions of Tcl and of the rest of Tk that `tkConfig.c` calls and the
constants of `tcl.h` and `tk.h` that it uses.  A parser gives `none` when it
returns `TCL_ERROR`; an allocator gives `0` when it returns `NULL` or
`None`. -/
structure Env where
  TK_OPTION_NULL_OK : Nat
  TCL_NULL_OK : Nat
  TK_OPTION_DONT_SET_DEFAULT : Nat
  TK_NUM_SAVED_OPTIONS : Nat
  TCL_SIZE_MAX : Int
  TK_RELIEF_NULL : Int
  tkReliefStrings : List CString
  tkJustifyStrings : List CString
  tkAnchorStrings : List CString
  Tcl_GetBooleanFromObj : Tcl_Obj → Option Int
  Tcl_GetIntFromObj : Tcl_Obj → Option Int
  Tcl_GetWideIntFromObj : Tcl_Obj → Option Int
  Tcl_GetIntForIndex : Tcl_Obj → Int → Option Int
  Tcl_GetDoubleFromObj : Tcl_Obj → Option DoubleVal
  Tcl_GetIndexFromObjStruct : Tcl_Obj → ClientData → Nat → Option Int
  Tcl_GetIndexFromObj : Tcl_Obj → List CString → Nat → Option Int
  Tcl_DuplicateObj : Tcl_Obj → Tcl_Obj
  Tk_AllocColorFromObj : Tk_Window → Tcl_Obj → Nat
  Tk_AllocFontFromObj : Tk_Window → Tcl_Obj → Nat
  Tk_AllocStyleFromObj : Tcl_Obj → Nat
  Tk_AllocBitmapFromObj : Tk_Window → Tcl_Obj → Nat
  Tk_Alloc3DBorderFromObj : Tk_Window → Tcl_Obj → Nat
  Tk_AllocCursorFromObj : Tk_Window → Tcl_Obj → Nat
  Tk_GetPixelsFromObj : Tk_Window → Tcl_Obj → Option Int
  TkGetWindowFromObj : Tk_Window → Tcl_Obj → Option Nat

/-- What the code does to values and resources outside the record, in the
order in which it does it.  `freeResource type h` is the call of
`Tk_FreeColor`, `Tk_FreeFont`, `Tk_FreeStyle`, `Tk_FreeBitmap`,
`Tk_Free3DBorder` or `Tk_FreeCursor` (by `type`) on the handle `h`;
`freeFromObj type tkwin o` the call of `Tk_FreeColorFromObj` and its like. -/
inductive Effect
  | Tcl_IncrRefCount (o : Tcl_Obj)
  | Tcl_DecrRefCount (o : Tcl_Obj)
  | ckfree (s : CString)
  | freeResource (type : Tk_OptionType) (h : Nat)
  | freeFromObj (type : Tk_OptionType) (tkwin : Tk_Window) (o : Tcl_Obj)
  | freeProc (tkwin : Tk_Window) (c : Cell)
  | Tk_DefineCursor (tkwin : Tk_Window) (cursor : Nat)

/-- The mask `TYPE_MASK`, `((sizeof(int)-1)|3)<<6` with `sizeof(int) = 4`. -/
def TYPE_MASK : Nat := 192

/-- `TK_OPTION_VAR(char)`: the encoding of a type of size 1 in the flags. -/
def TK_OPTION_VAR_char : Nat := 64

/-- `TK_OPTION_VAR(short)`: the encoding of a type of size 2 in the flags. -/
def TK_OPTION_VAR_short : Nat := 128

/-- `INT_MIN` for a 32-bit `int`. -/
def INT_MIN : Int := -2147483648

/-- `INT_MAX` for a 32-bit `int`. -/
def INT_MAX : Int := 2147483647

/-- `LONG_MIN` of a 64-bit `long` (and `LLONG_MIN`). -/
def LONG_MIN : Int := -9223372036854775808

/-- The cast to `char` (signed, 8 bits). -/
def castChar (v : Int) : Int := (v + 128) % 256 - 128

/-- The cast to `short` (16 bits). -/
def castShort (v : Int) : Int := (v + 32768) % 65536 - 32768

/-- The `char *` read from a cell. -/
def Cell.asStr : Cell → Option CString
  | .str s => s
  | _ => none

/-- The handle read from a cell. -/
def Cell.asHandle : Cell → Nat
  | .handle h => h
  | _ => 0

/-- The function `TkObjIsEmpty`. -/
def TkObjIsEmpty : Option Tcl_Obj → Bool
  | none => true
  | some objPtr => objPtr.bytes.length == 0

/-- The function `TkGetIntForIndex` of `tkObj.c`. -/
def TkGetIntForIndex (env : Env) (indexObj : Option Tcl_Obj) (endValue : Int) (lastOK : Int) :
    Option Int :=
  match indexObj with
  | none => some (-1)
  | some obj =>
    match env.Tcl_GetIntForIndex obj (endValue + lastOK) with
    | some index => some index
    | none =>
      if obj.bytes.length == 0 then
        some (if endValue = -1 then -1 - env.TCL_SIZE_MAX else -1)
      else none

/-- The test `flags & (TK_OPTION_NULL_OK|TCL_NULL_OK|1)`. -/
def nullOK (env : Env) (specPtr : Tk_OptionSpec) : Bool :=
  specPtr.flags &&& (env.TK_OPTION_NULL_OK ||| env.TCL_NULL_OK ||| 1) != 0

/-- Store `c` in the internal-form field at an offset, when there is one. -/
def Record.setAt (r : Record) (off : Offset) (c : Cell) : Record :=
  match off with
  | some o => r.set o c
  | none => r

/-- Store `p` in the `Tcl_Obj *` field at an offset, when there is one. -/
def Record.setObjAt (r : Record) (off : Offset) (p : Option Tcl_Obj) : Record :=
  match off with
  | some o => r.setObj o p
  | none => r

/-- The pointer in the `Tcl_Obj *` field at an offset, `NULL` when there is no
such field. -/
def Record.objAt (r : Record) (off : Offset) : Option Tcl_Obj :=
  match off with
  | some o => r.objs o
  | none => none

/-- The function `FreeResources`.  `internal` is the cell that `internalPtr`
points to; the result is that cell as the function leaves it, and what it
frees. -/
def FreeResources (optionPtr : TkOption) (objPtr : Option Tcl_Obj) (internal : Cell)
    (tkwin : Tk_Window) : Cell × List Effect :=
  let internalFormExists := optionPtr.specPtr.internalOffset != TCL_INDEX_NONE
  let type := optionPtr.specPtr.type
  let viaObj : Cell × List Effect :=
    match objPtr with
    | some o => (internal, [.freeFromObj type tkwin o])
    | none => (internal, [])
  match type with
  | TK_OPTION_STRING =>
    if internalFormExists then
      match internal.asStr with
      | some str => (.str none, [.ckfree str])
      | none => (internal, [])
    else (internal, [])
  | TK_OPTION_COLOR =>
    if internalFormExists then
      if internal.asHandle ≠ 0 then (.handle 0, [.freeResource type internal.asHandle])
      else (internal, [])
    else viaObj
  | TK_OPTION_FONT =>
    if internalFormExists then (.handle 0, [.freeResource type internal.asHandle])
    else viaObj
  | TK_OPTION_STYLE =>
    if internalFormExists then (.handle 0, [.freeResource type internal.asHandle])
    else (internal, [])
  | TK_OPTION_BITMAP =>
    if internalFormExists then
      if internal.asHandle ≠ 0 then (.handle 0, [.freeResource type internal.asHandle])
      else (internal, [])
    else viaObj
  | TK_OPTION_BORDER =>
    if internalFormExists then
      if internal.asHandle ≠ 0 then (.handle 0, [.freeResource type internal.asHandle])
      else (internal, [])
    else viaObj
  | TK_OPTION_CURSOR =>
    if internalFormExists then
      if internal.asHandle ≠ 0 then (.handle 0, [.freeResource type internal.asHandle])
      else (internal, [])
    else viaObj
  | TK_OPTION_CUSTOM =>
    match optionPtr.extra with
    | .custom (some custom) =>
      match custom.freeProc with
      | some freeProc =>
        if internalFormExists then (freeProc tkwin internal, [.freeProc tkwin internal])
        else (internal, [])
      | none => (internal, [])
    | _ => (internal, [])
  | _ => (internal, [])

/-- One entry of the log of saved options (`Tk_SavedOption`): the option, its
old value and its old internal form. -/
structure Tk_SavedOption where
  optionPtr : TkOption
  valuePtr : Option Tcl_Obj
  internalForm : Cell

/-- What the type-specific part of `DoObjConfig` does: it returns `TCL_ERROR`
(leaving the record as given), or ends in `Tcl_Panic`, or goes on with the
value pointer, the record with the new internal form, the old internal form
it has copied to `oldInternalPtr`, and what it did outside the record. -/
inductive Applied
  | fail (recordPtr : Record)
  | abort
  | stored (valuePtr : Option Tcl_Obj) (recordPtr : Record) (oldInternal : Cell)
      (effects : List Effect)

/-- Save the old internal form and store the new one, `new`, when the option
has an internal form (`internalPtr != NULL`). -/
def storeInternal (recordPtr : Record) (specPtr : Tk_OptionSpec)
    (valuePtr : Option Tcl_Obj) (new : Cell) : Applied :=
  match specPtr.internalOffset with
  | some off => .stored valuePtr (recordPtr.set off new) (recordPtr.internals off) []
  | none => .stored valuePtr recordPtr (.int 0) []

/-- Save the old internal form and store the new one for the types whose
internal form is a `char`, a `short` or an `int` according to the flags. -/
def storeNarrow (recordPtr : Record) (specPtr : Tk_OptionSpec)
    (valuePtr : Option Tcl_Obj) (new : Int) : Applied :=
  match specPtr.internalOffset with
  | some off =>
    if specPtr.flags &&& TYPE_MASK ≠ 0 then
      if specPtr.flags &&& TYPE_MASK = TK_OPTION_VAR_char then
        .stored valuePtr (recordPtr.set off (.int (castChar new))) (recordPtr.internals off) []
      else if specPtr.flags &&& TYPE_MASK = TK_OPTION_VAR_short then
        .stored valuePtr (recordPtr.set off (.int (castShort new))) (recordPtr.internals off) []
      else .abort
    else .stored valuePtr (recordPtr.set off (.int new)) (recordPtr.internals off) []
  | none => .stored valuePtr recordPtr (.int 0) []

/-- The statement `valuePtr = Tcl_DuplicateObj(valuePtr);
Tcl_InvalidateStringRep(valuePtr)` under its test
`slotPtrPtr != NULL && valuePtr != NULL`. -/
def duplicateForSlot (env : Env) (specPtr : Tk_OptionSpec) : Option Tcl_Obj → Option Tcl_Obj
  | some valuePtr =>
    if specPtr.objOffset != TCL_INDEX_NONE then some (env.Tcl_DuplicateObj valuePtr)
    else some valuePtr
  | none => none

/-- Replace the value pointer of a step that goes on. -/
def Applied.mapValue (f : Option Tcl_Obj → Option Tcl_Obj) : Applied → Applied
  | .stored valuePtr recordPtr oldInternal effects =>
    .stored (f valuePtr) recordPtr oldInternal effects
  | a => a

/-- A resource type of `DoObjConfig`: the empty string of a null-allowed
option gives the handle `NULL`, any other value goes to the allocator, which
fails by returning `NULL`. -/
def applyHandle (recordPtr : Record) (specPtr : Tk_OptionSpec) (isNull : Bool)
    (valuePtr : Tcl_Obj) (alloc : Tcl_Obj → Nat) : Applied :=
  if isNull then storeInternal recordPtr specPtr none (.handle 0)
  else if alloc valuePtr = 0 then .fail recordPtr
  else storeInternal recordPtr specPtr (some valuePtr) (.handle (alloc valuePtr))

/-- The test `nullOK && TkObjIsEmpty(valuePtr)` of `DoObjConfig`. -/
def isNullValue (env : Env) (specPtr : Tk_OptionSpec) (valuePtr : Tcl_Obj) : Bool :=
  nullOK env specPtr && TkObjIsEmpty (some valuePtr)

/-- The flags `(nullOK ? TCL_NULL_OK : 0)` passed to `Tcl_GetIndexFromObj`. -/
def indexFlags (env : Env) (specPtr : Tk_OptionSpec) : Nat :=
  if nullOK env specPtr then env.TCL_NULL_OK else 0

/-- The case `TK_OPTION_BOOLEAN` of `DoObjConfig`. -/
def applyBoolean (env : Env) (recordPtr : Record) (specPtr : Tk_OptionSpec)
    (valuePtr : Tcl_Obj) : Applied :=
  if isNullValue env specPtr valuePtr then storeNarrow recordPtr specPtr none (-1)
  else
    match env.Tcl_GetBooleanFromObj valuePtr with
    | none => .fail recordPtr
    | some newBool => storeNarrow recordPtr specPtr (some valuePtr) newBool

/-- The case `TK_OPTION_INT` of `DoObjConfig`. -/
def applyInt (env : Env) (recordPtr : Record) (specPtr : Tk_OptionSpec)
    (valuePtr : Tcl_Obj) : Applied :=
  if specPtr.flags &&& TYPE_MASK = 0 then
    if isNullValue env specPtr valuePtr then
      storeInternal recordPtr specPtr none (.int INT_MIN)
    else
      match env.Tcl_GetIntFromObj valuePtr with
      | none => .fail recordPtr
      | some newInt => storeInternal recordPtr specPtr (some valuePtr) (.int newInt)
  else if specPtr.flags &&& TYPE_MASK = TYPE_MASK then
    if isNullValue env specPtr valuePtr then
      storeInternal recordPtr specPtr none (.int LONG_MIN)
    else
      match env.Tcl_GetWideIntFromObj valuePtr with
      | none => .fail recordPtr
      | some newWideInt => storeInternal recordPtr specPtr (some valuePtr) (.int newWideInt)
  else .abort

/-- The clamping of the index in the case `TK_OPTION_INDEX`. -/
def clampIndex (newIndex : Int) : Int :=
  if newIndex < INT_MIN then INT_MIN
  else if newIndex > INT_MAX then INT_MAX
  else newIndex

/-- The case `TK_OPTION_INDEX` of `DoObjConfig`. -/
def applyIndex (env : Env) (recordPtr : Record) (specPtr : Tk_OptionSpec)
    (valuePtr : Tcl_Obj) : Applied :=
  match TkGetIntForIndex env (some valuePtr) (-1) 0 with
  | none => .fail recordPtr
  | some newIndex => storeInternal recordPtr specPtr (some valuePtr) (.int (clampIndex newIndex))

/-- The case `TK_OPTION_DOUBLE` of `DoObjConfig`. -/
def applyDouble (env : Env) (recordPtr : Record) (specPtr : Tk_OptionSpec)
    (valuePtr : Tcl_Obj) : Applied :=
  if isNullValue env specPtr valuePtr then storeInternal recordPtr specPtr none (.dbl .NAN)
  else
    match env.Tcl_GetDoubleFromObj valuePtr with
    | none => .fail recordPtr
    | some newDbl => storeInternal recordPtr specPtr (some valuePtr) (.dbl newDbl)

/-- The case `TK_OPTION_STRING` of `DoObjConfig`. -/
def applyString (env : Env) (recordPtr : Record) (specPtr : Tk_OptionSpec)
    (valuePtr : Tcl_Obj) : Applied :=
  if isNullValue env specPtr valuePtr then storeInternal recordPtr specPtr none (.str none)
  else storeInternal recordPtr specPtr (some valuePtr) (.str (some valuePtr.bytes))

/-- The case `TK_OPTION_STRING_TABLE` of `DoObjConfig`. -/
def applyStringTable (env : Env) (recordPtr : Record) (specPtr : Tk_OptionSpec)
    (valuePtr : Tcl_Obj) : Applied :=
  if isNullValue env specPtr valuePtr then storeNarrow recordPtr specPtr none (-1)
  else
    match env.Tcl_GetIndexFromObjStruct valuePtr specPtr.clientData (indexFlags env specPtr) with
    | none => .fail recordPtr
    | some newValue =>
      storeNarrow recordPtr specPtr (duplicateForSlot env specPtr (some valuePtr)) newValue

/-- The cases `TK_OPTION_RELIEF`, `TK_OPTION_JUSTIFY` and `TK_OPTION_ANCHOR` of
`DoObjConfig`, for the table of names `strings` and the null value
`nullValue` of the type. -/
def applyEnum (env : Env) (recordPtr : Record) (specPtr : Tk_OptionSpec)
    (valuePtr : Tcl_Obj) (strings : List CString) (nullValue : Int) : Applied :=
  if isNullValue env specPtr valuePtr then storeNarrow recordPtr specPtr none nullValue
  else
    match env.Tcl_GetIndexFromObj valuePtr strings (indexFlags env specPtr) with
    | none => .fail recordPtr
    | some newValue =>
      (storeNarrow recordPtr specPtr (some valuePtr) newValue).mapValue
        (duplicateForSlot env specPtr)

/-- The statement `Tk_DefineCursor(tkwin, newCursor)` after a cursor has been
stored. -/
def Applied.defineCursor (tkwin : Tk_Window) (newCursor : Nat) : Applied → Applied
  | .stored valuePtr recordPtr oldInternal effects =>
    .stored valuePtr recordPtr oldInternal (effects ++ [.Tk_DefineCursor tkwin newCursor])
  | a => a

/-- The case `TK_OPTION_CURSOR` of `DoObjConfig`. -/
def applyCursor (env : Env) (recordPtr : Record) (specPtr : Tk_OptionSpec)
    (valuePtr : Tcl_Obj) (tkwin : Tk_Window) : Applied :=
  (applyHandle recordPtr specPtr (isNullValue env specPtr valuePtr) valuePtr
      (env.Tk_AllocCursorFromObj tkwin)).defineCursor tkwin
    (if isNullValue env specPtr valuePtr then 0 else env.Tk_AllocCursorFromObj tkwin valuePtr)

/-- The case `TK_OPTION_PIXELS` of `DoObjConfig`. -/
def applyPixels (env : Env) (recordPtr : Record) (specPtr : Tk_OptionSpec)
    (valuePtr : Tcl_Obj) (tkwin : Tk_Window) : Applied :=
  if isNullValue env specPtr valuePtr then storeInternal recordPtr specPtr none (.int INT_MIN)
  else
    match env.Tk_GetPixelsFromObj tkwin valuePtr with
    | none => .fail recordPtr
    | some newPixels => storeInternal recordPtr specPtr (some valuePtr) (.int newPixels)

/-- The case `TK_OPTION_WINDOW` of `DoObjConfig`. -/
def applyWindow (env : Env) (recordPtr : Record) (specPtr : Tk_OptionSpec)
    (valuePtr : Tcl_Obj) (tkwin : Tk_Window) : Applied :=
  if isNullValue env specPtr valuePtr then storeInternal recordPtr specPtr none (.handle 0)
  else
    match env.TkGetWindowFromObj tkwin valuePtr with
    | none => .fail recordPtr
    | some newWin => storeInternal recordPtr specPtr (some valuePtr) (.handle newWin)

/-- The case `TK_OPTION_CUSTOM` of `DoObjConfig`. -/
def applyCustom (recordPtr : Record) (optionPtr : TkOption) (valuePtr : Tcl_Obj)
    (tkwin : Tk_Window) : Applied :=
  match optionPtr.extra with
  | .custom (some custom) =>
    match custom.setProc tkwin (some valuePtr) recordPtr optionPtr.specPtr.internalOffset
        optionPtr.specPtr.flags with
    | (recordPtr2, none) => .fail recordPtr2
    | (recordPtr2, some (valuePtr2, oldInternal)) =>
      .stored valuePtr2 recordPtr2 oldInternal []
  | _ => .abort

/-- The `switch` of `DoObjConfig` over the type of the option. -/
def applyValue (env : Env) (recordPtr : Record) (optionPtr : TkOption) (valuePtr : Tcl_Obj)
    (tkwin : Tk_Window) : Applied :=
  let specPtr := optionPtr.specPtr
  let isNull := isNullValue env specPtr valuePtr
  match specPtr.type with
  | TK_OPTION_BOOLEAN => applyBoolean env recordPtr specPtr valuePtr
  | TK_OPTION_INT => applyInt env recordPtr specPtr valuePtr
  | TK_OPTION_INDEX => applyIndex env recordPtr specPtr valuePtr
  | TK_OPTION_DOUBLE => applyDouble env recordPtr specPtr valuePtr
  | TK_OPTION_STRING => applyString env recordPtr specPtr valuePtr
  | TK_OPTION_STRING_TABLE => applyStringTable env recordPtr specPtr valuePtr
  | TK_OPTION_COLOR =>
    applyHandle recordPtr specPtr isNull valuePtr (env.Tk_AllocColorFromObj tkwin)
  | TK_OPTION_FONT =>
    applyHandle recordPtr specPtr isNull valuePtr (env.Tk_AllocFontFromObj tkwin)
  | TK_OPTION_STYLE =>
    applyHandle recordPtr specPtr isNull valuePtr env.Tk_AllocStyleFromObj
  | TK_OPTION_BITMAP =>
    applyHandle recordPtr specPtr isNull valuePtr (env.Tk_AllocBitmapFromObj tkwin)
  | TK_OPTION_BORDER =>
    applyHandle recordPtr specPtr isNull valuePtr (env.Tk_Alloc3DBorderFromObj tkwin)
  | TK_OPTION_RELIEF =>
    applyEnum env recordPtr specPtr valuePtr env.tkReliefStrings env.TK_RELIEF_NULL
  | TK_OPTION_CURSOR => applyCursor env recordPtr specPtr valuePtr tkwin
  | TK_OPTION_JUSTIFY => applyEnum env recordPtr specPtr valuePtr env.tkJustifyStrings (-1)
  | TK_OPTION_ANCHOR => applyEnum env recordPtr specPtr valuePtr env.tkAnchorStrings (-1)
  | TK_OPTION_PIXELS => applyPixels env recordPtr specPtr valuePtr tkwin
  | TK_OPTION_WINDOW => applyWindow env recordPtr specPtr valuePtr tkwin
  | TK_OPTION_CUSTOM => applyCustom recordPtr optionPtr valuePtr tkwin
  | _ => .fail recordPtr

/-- How `DoObjConfig` ends: with `TCL_OK`, the record as it leaves it, the
saved option it has filled in (the caller's, or its own local one) and what it
did outside the record; with `TCL_ERROR`; or in `Tcl_Panic` (also a call
through a `NULL` table of custom functions). -/
inductive DoResult
  | ok (recordPtr : Record) (saved : Tk_SavedOption) (effects : List Effect)
  | error (recordPtr : Record)
  | panic

/-- The function `DoObjConfig`.  `savedOptionPtr` tells whether the caller
passes a saved option to fill in (`true`) or `NULL`. -/
def DoObjConfig (env : Env) (recordPtr : Record) (optionPtr : TkOption) (valuePtr : Tcl_Obj)
    (tkwin : Tk_Window) (savedOptionPtr : Bool) : DoResult :=
  let specPtr := optionPtr.specPtr
  let oldPtr : Option Tcl_Obj := recordPtr.objAt specPtr.objOffset
  match applyValue env recordPtr optionPtr valuePtr tkwin with
  | .fail recordPtr2 => .error recordPtr2
  | .abort => .panic
  | .stored valuePtr2 recordPtr2 oldInternal effects =>
    let released : List Effect :=
      if savedOptionPtr then []
      else
        (if optionPtr.flags &&& OPTION_NEEDS_FREEING ≠ 0 then
            (FreeResources optionPtr oldPtr oldInternal tkwin).2
          else [])
        ++ (match oldPtr with
            | some old => [.Tcl_DecrRefCount old]
            | none => [])
    let installed : List Effect :=
      match specPtr.objOffset, valuePtr2 with
      | some _, some v => [.Tcl_IncrRefCount v]
      | _, _ => []
    .ok (recordPtr2.setObjAt specPtr.objOffset valuePtr2)
      { optionPtr := optionPtr, valuePtr := oldPtr, internalForm := oldInternal }
      (effects ++ released ++ installed)

/-- One node of the log (`Tk_SavedOptions`): the window and the entries
`items[0 .. numItems-1]`.  The record the node points to is the record given
to the functions; the nodes reached through `nextPtr` follow the node in the
list. -/
structure Tk_SavedOptions where
  tkwin : Tk_Window
  items : List Tk_SavedOption

/-- A pointer to a node of the log: the node and the nodes chained to it;
`[]` is `NULL`. -/
abbrev SavePtr := List Tk_SavedOptions

/-- The test of the flags made where the internal form of an option is a
`char`, a `short` or an `int`: `false` where the code ends in `Tcl_Panic`. -/
def narrowFlagsOk (specPtr : Tk_OptionSpec) : Bool :=
  if specPtr.flags &&& TYPE_MASK ≠ 0 then
    specPtr.flags &&& TYPE_MASK = TK_OPTION_VAR_char
      || specPtr.flags &&& TYPE_MASK = TK_OPTION_VAR_short
  else true

/-- The test of the flags made for `TK_OPTION_INT` in
`Tk_RestoreSavedOptions`: `false` where the code ends in `Tcl_Panic`. -/
def intFlagsOk (specPtr : Tk_OptionSpec) : Bool :=
  if specPtr.flags &&& TYPE_MASK ≠ 0 then specPtr.flags &&& TYPE_MASK = TYPE_MASK
  else true

/-- The `switch` of `Tk_RestoreSavedOptions` that copies the saved internal
form back into the field at offset `off` of the record; `none` is
`Tcl_Panic` (also a call through a `NULL` table of custom functions). -/
def restoreInternal (tkwin : Tk_Window) (recordPtr : Record) (item : Tk_SavedOption)
    (off : Nat) : Option (Record × List Effect) :=
  let specPtr := item.optionPtr.specPtr
  let copied : Record × List Effect := (recordPtr.set off item.internalForm, [])
  match specPtr.type with
  | TK_OPTION_BOOLEAN => if narrowFlagsOk specPtr then some copied else none
  | TK_OPTION_INT => if intFlagsOk specPtr then some copied else none
  | TK_OPTION_INDEX => some copied
  | TK_OPTION_DOUBLE => some copied
  | TK_OPTION_STRING => some copied
  | TK_OPTION_STRING_TABLE => if narrowFlagsOk specPtr then some copied else none
  | TK_OPTION_COLOR => some copied
  | TK_OPTION_FONT => some copied
  | TK_OPTION_STYLE => some copied
  | TK_OPTION_BITMAP => some copied
  | TK_OPTION_BORDER => some copied
  | TK_OPTION_RELIEF => if narrowFlagsOk specPtr then some copied else none
  | TK_OPTION_CURSOR =>
    some (recordPtr.set off item.internalForm,
      [.Tk_DefineCursor tkwin item.internalForm.asHandle])
  | TK_OPTION_JUSTIFY => if narrowFlagsOk specPtr then some copied else none
  | TK_OPTION_ANCHOR => if narrowFlagsOk specPtr then some copied else none
  | TK_OPTION_PIXELS => some copied
  | TK_OPTION_WINDOW => some copied
  | TK_OPTION_CUSTOM =>
    match item.optionPtr.extra with
    | .custom (some custom) =>
      match custom.restoreProc with
      | some restoreProc =>
        some (restoreProc tkwin recordPtr specPtr.internalOffset item.internalForm, [])
      | none => some (recordPtr, [])
    | _ => none
  | _ => none

/-- The part of the body of the loop of `Tk_RestoreSavedOptions` that frees
the new value of the option, which is in the record: the record as
`FreeResources` leaves it, and what is freed and released. -/
def freeNewValue (tkwin : Tk_Window) (recordPtr : Record) (optionPtr : TkOption) :
    Record × List Effect :=
  let specPtr := optionPtr.specPtr
  let newPtr : Option Tcl_Obj := recordPtr.objAt specPtr.objOffset
  let freed : Record × List Effect :=
    if optionPtr.flags &&& OPTION_NEEDS_FREEING ≠ 0 then
      match specPtr.internalOffset with
      | some off =>
        let r := FreeResources optionPtr newPtr (recordPtr.internals off) tkwin
        (recordPtr.set off r.1, r.2)
      | none => (recordPtr, (FreeResources optionPtr newPtr (.int 0) tkwin).2)
    else (recordPtr, [])
  let released : List Effect :=
    match newPtr with
    | some new => [.Tcl_DecrRefCount new]
    | none => []
  (freed.1, freed.2 ++ released)

/-- The body of the loop of `Tk_RestoreSavedOptions` for one entry; `none` is
`Tcl_Panic`. -/
def restoreItem (tkwin : Tk_Window) (recordPtr : Record) (item : Tk_SavedOption) :
    Option (Record × List Effect) :=
  let specPtr := item.optionPtr.specPtr
  let freed := freeNewValue tkwin recordPtr item.optionPtr
  let record1 := freed.1.setObjAt specPtr.objOffset item.valuePtr
  match specPtr.internalOffset with
  | none => some (record1, freed.2)
  | some off =>
    match restoreInternal tkwin record1 item off with
    | none => none
    | some (record2, effects) => some (record2, freed.2 ++ effects)

/-- The loop `for (i = numItems - 1; i >= 0; i--)` of
`Tk_RestoreSavedOptions` over entries given last entry first; `none` is
`Tcl_Panic`. -/
def restoreItems (tkwin : Tk_Window) :
    List Tk_SavedOption → Record → Option (Record × List Effect)
  | [], recordPtr => some (recordPtr, [])
  | item :: rest, recordPtr =>
    match restoreItem tkwin recordPtr item with
    | none => none
    | some (record1, effects1) =>
      match restoreItems tkwin rest record1 with
      | none => none
      | some (record2, effects2) => some (record2, effects1 ++ effects2)

/-- What `Tk_RestoreSavedOptions` leaves: the log, the record, and what it
did outside the record. -/
structure Restored where
  savePtr : SavePtr
  recordPtr : Record
  effects : List Effect

/-- The function `Tk_RestoreSavedOptions` on the node `savePtr` followed by
the nodes chained to it; `none` is `Tcl_Panic`.  It first restores and frees
the chained nodes, then undoes the entries of the node from the last to the
first, and leaves the node with no entry and no chained node. -/
def Tk_RestoreSavedOptions (recordPtr : Record) (savePtr : Tk_SavedOptions) :
    SavePtr → Option Restored
  | [] =>
    match restoreItems savePtr.tkwin savePtr.items.reverse recordPtr with
    | none => none
    | some (record1, effects) =>
      some { savePtr := [{ savePtr with items := [] }], recordPtr := record1,
             effects := effects }
  | next :: rest =>
    match Tk_RestoreSavedOptions recordPtr next rest with
    | none => none
    | some r =>
      match restoreItems savePtr.tkwin savePtr.items.reverse r.recordPtr with
      | none => none
      | some (record1, effects) =>
        some { savePtr := [{ savePtr with items := [] }], recordPtr := record1,
               effects := r.effects ++ effects }

/-- The address of the table a chain starts with (`0` for `NULL`). -/
def TableChain.addr : TableChain → Nat
  | [] => 0
  | tablePtr :: _ => tablePtr.hashEntryPtr

/-- The entry an option pointer points to. -/
def TableChain.deref (chain : TableChain) (p : OptionPtr) : Option TkOption :=
  match chain[p.1]? with
  | some tablePtr => tablePtr.options[p.2]?
  | none => none

/-- What `GetOptionFromObj` returns and leaves: the entry found (`none` is
`NULL`), the object with the result cached in it, and the chain whose first
table has its reference count raised when the result was cached. -/
structure Lookup where
  result : Option OptionPtr
  objPtr : Tcl_Obj
  tablePtr : TableChain

/-- The function `GetOptionFromObj`.  Freeing the former internal
representation of the object (`freeIntRepProc`) is outside the model. -/
def GetOptionFromObj (objPtr : Tcl_Obj) (tablePtr : TableChain) : Lookup :=
  if objPtr.typePtr = .optionObjType ∧ objPtr.ptr1 = tablePtr.addr then
    { result := some objPtr.ptr2, objPtr := objPtr, tablePtr := tablePtr }
  else
    match GetOption objPtr.bytes tablePtr with
    | none => { result := none, objPtr := objPtr, tablePtr := tablePtr }
    | some bestPtr =>
      { result := some bestPtr,
        objPtr := { objPtr with typePtr := .optionObjType, ptr1 := tablePtr.addr,
                                ptr2 := bestPtr },
        tablePtr :=
          match tablePtr with
          | [] => []
          | t :: rest => { t with refCount := (t.refCount + 1) % SIZE_MOD } :: rest }

/-- The step `if (type == TK_OPTION_SYNONYM) optionPtr = extra.synonymPtr` of
`Tk_SetOptions`, `Tk_GetOptionValue` and `Tk_GetOptionInfo`, for the entry
`optionPtr` at the pointer `p`; `none` when the pointer read is no entry of
the table. -/
def followSynonym (tablePtr : TableChain) (p : OptionPtr) (optionPtr : TkOption) :
    Option TkOption :=
  if optionPtr.specPtr.type = TK_OPTION_SYNONYM then
    match optionPtr.extra with
    | .synonymPtr i => tablePtr.deref (p.1, i)
    | _ => none
  else some optionPtr

/-- The part of `Tk_SetOptions` that allocates and links a new node when the
last node of the log is full. -/
def growIfFull (env : Env) (tkwin : Tk_Window) : SavePtr → SavePtr
  | [] => []
  | [lastSavePtr] =>
    if lastSavePtr.items.length ≥ env.TK_NUM_SAVED_OPTIONS then
      [lastSavePtr, { tkwin := tkwin, items := [] }]
    else [lastSavePtr]
  | savePtr :: next :: rest => savePtr :: growIfFull env tkwin (next :: rest)

/-- The entry filled in at `lastSavePtr->items[lastSavePtr->numItems]`
followed by `lastSavePtr->numItems++`. -/
def appendToLast (saved : Tk_SavedOption) : SavePtr → SavePtr
  | [] => []
  | [lastSavePtr] => [{ lastSavePtr with items := lastSavePtr.items ++ [saved] }]
  | savePtr :: next :: rest => savePtr :: appendToLast saved (next :: rest)

/-- The variables of the loop of `Tk_SetOptions`: the record, the log, the
mask and what has been done outside the record. -/
structure SetState where
  recordPtr : Record
  savePtr : SavePtr
  mask : Nat
  effects : List Effect

/-- How the loop of `Tk_SetOptions` ends: at the end of the arguments, at
`goto error`, in `Tcl_Panic`, or by reading an entry or an argument that is
not there. -/
inductive LoopEnd
  | done (st : SetState)
  | error (st : SetState)
  | panic
  | badRead

/-- The loop `for ( ; objc > 0; objc -= 2, objv += 2)` of `Tk_SetOptions`.
`interp` tells whether an interpreter is given, `savePtr` whether a log
is. -/
def setOptionsLoop (env : Env) (interp : Bool) (tablePtr : TableChain) (tkwin : Tk_Window)
    (savePtr : Bool) : List Tcl_Obj → SetState → LoopEnd
  | [], st => .done st
  | [name], st =>
    match (GetOptionFromObj name tablePtr).result with
    | none => .error st
    | some p =>
      match tablePtr.deref p with
      | none => .badRead
      | some found =>
        match followSynonym tablePtr p found with
        | none => .badRead
        | some _ => if interp then .error st else .badRead
  | name :: value :: rest, st =>
    match (GetOptionFromObj name tablePtr).result with
    | none => .error st
    | some p =>
      match tablePtr.deref p with
      | none => .badRead
      | some found =>
        match followSynonym tablePtr p found with
        | none => .badRead
        | some optionPtr =>
          let savePtr1 := if savePtr then growIfFull env tkwin st.savePtr else st.savePtr
          match DoObjConfig env st.recordPtr optionPtr value tkwin savePtr with
          | .error recordPtr1 =>
            .error { st with recordPtr := recordPtr1, savePtr := savePtr1 }
          | .panic => .panic
          | .ok recordPtr1 saved effects =>
            setOptionsLoop env interp tablePtr tkwin savePtr rest
              { recordPtr := recordPtr1,
                savePtr := if savePtr then appendToLast saved savePtr1 else savePtr1,
                mask := st.mask ||| optionPtr.specPtr.typeMask,
                effects := st.effects ++ effects }

/-- How `Tk_SetOptions` ends: with `TCL_OK` or `TCL_ERROR` and the record, the
log (`[]` when none is given), the word at `maskPtr` (`none` when it is
`NULL`) and what was done outside the record; or in `Tcl_Panic`; or by
reading an entry or an argument that is not there. -/
inductive SetResult
  | ok (recordPtr : Record) (savePtr : SavePtr) (maskPtr : Option Nat) (effects : List Effect)
  | error (recordPtr : Record) (savePtr : SavePtr) (maskPtr : Option Nat)
      (effects : List Effect)
  | panic
  | badRead

/-- The function `Tk_SetOptions`.  `objv` are the `objc` arguments, `savePtr`
tells whether a log is given, `maskPtr` is the word the mask pointer points
to (`none` for `NULL`). -/
def Tk_SetOptions (env : Env) (interp : Bool) (recordPtr : Record) (optionTable : TableChain)
    (objv : List Tcl_Obj) (tkwin : Tk_Window) (savePtr : Bool) (maskPtr : Option Nat) :
    SetResult :=
  let st0 : SetState :=
    { recordPtr := recordPtr,
      savePtr := if savePtr then [{ tkwin := tkwin, items := [] }] else [],
      mask := 0, effects := [] }
  match setOptionsLoop env interp optionTable tkwin savePtr objv st0 with
  | .done st => .ok st.recordPtr st.savePtr (maskPtr.map fun _ => st.mask) st.effects
  | .error st =>
    match st.savePtr with
    | [] => .error st.recordPtr [] maskPtr st.effects
    | root :: chained =>
      match Tk_RestoreSavedOptions st.recordPtr root chained with
      | none => .panic
      | some r => .error r.recordPtr r.savePtr maskPtr (st.effects ++ r.effects)
  | .panic => .panic
  | .badRead => .badRead

/-- A step of `DoObjConfig` on the record `r` for an option with internal
offset `off` keeps the `Tcl_Obj *` fields, changes no internal form but the
one at `off`, saves the internal form that was at `off`, and leaves the record
alone when it fails. -/
def Applied.Local (r : Record) (off : Offset) : Applied → Prop
  | .fail r2 => r2 = r
  | .abort => True
  | .stored _ r2 old _ =>
    r2.objs = r.objs ∧ (∀ x, some x ≠ off → r2.internals x = r.internals x) ∧
      ∀ x, off = some x → old = r.internals x

/-- The functions `setProc` and `restoreProc` of a custom option touch nothing
of the record but the internal form of the option. -/
def CustomLocal (o : TkOption) : Prop :=
  ∀ c, o.extra = .custom (some c) →
    (∀ tkwin v r flags,
      (c.setProc tkwin v r o.specPtr.internalOffset flags).1.objs = r.objs ∧
      ∀ x, some x ≠ o.specPtr.internalOffset →
        (c.setProc tkwin v r o.specPtr.internalOffset flags).1.internals x = r.internals x) ∧
    (∀ restoreProc, c.restoreProc = some restoreProc → ∀ tkwin r cell,
      (restoreProc tkwin r o.specPtr.internalOffset cell).objs = r.objs ∧
      ∀ x, some x ≠ o.specPtr.internalOffset →
        (restoreProc tkwin r o.specPtr.internalOffset cell).internals x = r.internals x)

/-- The records `r1` and `r2` have the same `Tcl_Obj *` fields and the same
internal forms at the offsets outside `S`. -/
def Record.AgreeOff (S : Nat → Prop) (r1 r2 : Record) : Prop :=
  r1.objs = r2.objs ∧ ∀ x, ¬ S x → r1.internals x = r2.internals x

/-- The internal offsets of the custom options of a chain of tables. -/
def customOffsets (chain : TableChain) (x : Nat) : Prop :=
  ∃ tbl ∈ chain, ∃ o ∈ tbl.options,
    o.specPtr.type = TK_OPTION_CUSTOM ∧ o.specPtr.internalOffset = some x

/-- For a custom option: its functions are local and its internal offset lies
in `S`. -/
def OptionOk (S : Nat → Prop) (o : TkOption) : Prop :=
  o.specPtr.type = TK_OPTION_CUSTOM →
    CustomLocal o ∧ ∀ x, o.specPtr.internalOffset = some x → S x

/-- The saved internal form of the option can be copied back without a
panic. -/
def Restorable (o : TkOption) : Prop :=
  ∀ tkwin r (item : Tk_SavedOption) off, item.optionPtr = o →
    o.specPtr.internalOffset = some off → (restoreInternal tkwin r item off).isSome

/-- The step of `DoObjConfig` goes on to install the value. -/
def Applied.isStored : Applied → Bool
  | .stored _ _ _ _ => true
  | _ => false

/-- A step of `DoObjConfig` keeps the `Tcl_Obj *` fields and changes no
internal form but the one at `off`, also when it fails. -/
def Applied.Confined (r : Record) (off : Offset) : Applied → Prop
  | .fail r2 => r2.objs = r.objs ∧ ∀ x, some x ≠ off → r2.internals x = r.internals x
  | .abort => True
  | .stored _ r2 _ _ =>
    r2.objs = r.objs ∧ ∀ x, some x ≠ off → r2.internals x = r.internals x

/-- The entries of a log in the order in which they were saved, each with the
window of its node. -/
def flatItems : SavePtr → List (Tk_Window × Tk_SavedOption)
  | [] => []
  | node :: rest => node.items.map (fun item => (node.tkwin, item)) ++ flatItems rest

/-- The body of the loop of `Tk_RestoreSavedOptions` run over a list of
entries, each with the window of its node, from the first of the list to the
last; `none` is `Tcl_Panic`. -/
def restorePairs :
    List (Tk_Window × Tk_SavedOption) → Record → Option (Record × List Effect)
  | [], recordPtr => some (recordPtr, [])
  | (tkwin, item) :: rest, recordPtr =>
    match restoreItem tkwin recordPtr item with
    | none => none
    | some (record1, effects1) =>
      match restorePairs rest record1 with
      | none => none
      | some (record2, effects2) => some (record2, effects1 ++ effects2)

/-- The option is an entry of a table of the chain. -/
def InChain (chain : TableChain) (o : TkOption) : Prop :=
  ∃ tbl ∈ chain, o ∈ tbl.options

/-- The state in which the loop of `Tk_SetOptions` starts. -/
def initialState (recordPtr : Record) (tkwin : Tk_Window) (savePtr : Bool) : SetState :=
  { recordPtr := recordPtr,
    savePtr := if savePtr then [{ tkwin := tkwin, items := [] }] else [],
    mask := 0, effects := [] }

/-- The value of a string of decimal digits read from the left, `acc` being
the value of the digits read so far; `none` when a character is no digit. -/
def parseDigits : CString → Nat → Option Nat
  | [], acc => some acc
  | c :: rest, acc =>
    if '0' ≤ c ∧ c ≤ '9' then parseDigits rest (acc * 10 + (c.toNat - '0'.toNat)) else none

/-- An integer parser: a non-empty string of decimal digits, with an optional
minus sign in front. -/
def parseInt : CString → Option Int
  | [] => none
  | '-' :: rest => if rest = [] then none else (parseDigits rest 0).map fun n => -(n : Int)
  | s => (parseDigits s 0).map fun n => (n : Int)

/-- The index of `name` in a table of strings, from index `i` on: the entry
equal to `name` if there is one, otherwise the only entry that `name`
abbreviates. -/
def lookupIndex (name : CString) (table : List CString) : Option Int :=
  match table.indexOf? name with
  | some i => some (i : Int)
  | none =>
    match (table.enum.filter fun e => name.isPrefixOf e.2) with
    | [e] => some (e.1 : Int)
    | _ => none

/-- An environment in which integers are decimal numbers, a name is looked up
in a table of strings by exact match or unique abbreviation, and every other
parser and allocator fails. -/
def exampleEnv : Env :=
  { TK_OPTION_NULL_OK := 32, TCL_NULL_OK := 32, TK_OPTION_DONT_SET_DEFAULT := 8,
    TK_NUM_SAVED_OPTIONS := 20, TCL_SIZE_MAX := 9223372036854775807, TK_RELIEF_NULL := -1,
    tkReliefStrings := [], tkJustifyStrings := [], tkAnchorStrings := [],
    Tcl_GetBooleanFromObj := fun _ => none,
    Tcl_GetIntFromObj := fun o => parseInt o.bytes,
    Tcl_GetWideIntFromObj := fun o => parseInt o.bytes,
    Tcl_GetIntForIndex := fun _ _ => none,
    Tcl_GetDoubleFromObj := fun _ => none,
    Tcl_GetIndexFromObjStruct := fun o clientData _ =>
      match clientData with
      | .stringTable t => lookupIndex o.bytes t
      | _ => none,
    Tcl_GetIndexFromObj := fun o t _ => lookupIndex o.bytes t,
    Tcl_DuplicateObj := fun o => o,
    Tk_AllocColorFromObj := fun _ _ => 0,
    Tk_AllocFontFromObj := fun _ _ => 0,
    Tk_AllocStyleFromObj := fun _ => 0,
    Tk_AllocBitmapFromObj := fun _ _ => 0,
    Tk_Alloc3DBorderFromObj := fun _ _ => 0,
    Tk_AllocCursorFromObj := fun _ _ => 0,
    Tk_GetPixelsFromObj := fun _ _ => none,
    TkGetWindowFromObj := fun _ _ => none }

/-- The integer option `-width`: null allowed, value pointer at offset 0,
internal form at offset 8. -/
def widthSpec : Tk_OptionSpec :=
  { type := TK_OPTION_INT, optionName := "-width".toList, dbName := none, dbClass := none,
    defValue := some "0".toList, objOffset := some 0, internalOffset := some 8, flags := 32,
    clientData := .NULL, typeMask := 1 }

/-- The option `-state` with the values `normal` and `disabled`: value pointer
at offset 16, internal form at offset 24. -/
def stateSpec : Tk_OptionSpec :=
  { type := TK_OPTION_STRING_TABLE, optionName := "-state".toList, dbName := none,
    dbClass := none, defValue := some "normal".toList, objOffset := some 16,
    internalOffset := some 24, flags := 0,
    clientData := .stringTable ["normal".toList, "disabled".toList], typeMask := 2 }

/-- The table of the options `-width` and `-state`, as `Tk_CreateOptionTable`
builds it. -/
def widgetTable : TableChain :=
  [{ refCount := 1, hashEntryPtr := 1, nextPtr := none,
     options := (initOptions [widthSpec, stateSpec] [widthSpec, stateSpec]).getD [] }]

/-- The object whose string is `s`. -/
def strObj (s : String) : Tcl_Obj := Tcl_NewStringObj s.toList

/-- A record of the widget with width 10 and state `disabled`. -/
def widgetRecord : Record :=
  { objs := fun off =>
      if off = 0 then some (strObj "10")
      else if off = 16 then some (strObj "disabled")
      else none,
    internals := fun off =>
      if off = 8 then .int 10
      else if off = 24 then .int 1
      else .int 0 }

/-- The arguments `-width 20 -state xyz`. -/
def failingArgs : List Tcl_Obj :=
  [strObj "-width", strObj "20", strObj "-state", strObj "xyz"]

/-- The functions of a custom option that stores `7` as its internal form,
saves the old internal form, and has no `restoreProc` and no `freeProc`. -/
def sevenCustom : Tk_ObjCustomOption :=
  { setProc := fun _ valuePtr recordPtr internalOffset _ =>
      match internalOffset with
      | some off => (recordPtr.set off (.custom 7), some (valuePtr, recordPtr.internals off))
      | none => (recordPtr, some (valuePtr, .int 0)),
    getProc := fun _ _ _ => none,
    restoreProc := none,
    freeProc := none }

/-- The custom option `-seven` with its internal form at offset 32. -/
def sevenSpec : Tk_OptionSpec :=
  { type := TK_OPTION_CUSTOM, optionName := "-seven".toList, dbName := none, dbClass := none,
    defValue := none, objOffset := TCL_INDEX_NONE, internalOffset := some 32, flags := 0,
    clientData := .custom sevenCustom, typeMask := 4 }

/-- The table of the option `-seven`, as `Tk_CreateOptionTable` builds it. -/
def sevenTable : TableChain :=
  [{ refCount := 1, hashEntryPtr := 2, nextPtr := none,
     options := (initOptions [sevenSpec] [sevenSpec]).getD [] }]

/-- The arguments `-width 1 -width 2 -width 3`. -/
def thriceArgs : List Tcl_Obj :=
  [strObj "-width", strObj "1", strObj "-width", strObj "2", strObj "-width", strObj "3"]

/-- The example environment with nodes of two saved options. -/
def smallNodeEnv : Env := { exampleEnv with TK_NUM_SAVED_OPTIONS := 2 }

/-- The parser or the allocator of the type of the option rejects the value
(and the value is not the empty string of a null-allowed option, which is
never parsed); for the types that are none of the option types the code knows
this is always so. -/
def parseFails (env : Env) (specPtr : Tk_OptionSpec) (valuePtr : Tcl_Obj) (tkwin : Tk_Window) :
    Bool :=
  let notNull := !isNullValue env specPtr valuePtr
  match specPtr.type with
  | TK_OPTION_BOOLEAN => notNull && (env.Tcl_GetBooleanFromObj valuePtr).isNone
  | TK_OPTION_INT =>
    if specPtr.flags &&& TYPE_MASK = 0 then
      notNull && (env.Tcl_GetIntFromObj valuePtr).isNone
    else if specPtr.flags &&& TYPE_MASK = TYPE_MASK then
      notNull && (env.Tcl_GetWideIntFromObj valuePtr).isNone
    else false
  | TK_OPTION_INDEX => (TkGetIntForIndex env (some valuePtr) (-1) 0).isNone
  | TK_OPTION_DOUBLE => notNull && (env.Tcl_GetDoubleFromObj valuePtr).isNone
  | TK_OPTION_STRING => false
  | TK_OPTION_STRING_TABLE =>
    notNull &&
      (env.Tcl_GetIndexFromObjStruct valuePtr specPtr.clientData (indexFlags env specPtr)).isNone
  | TK_OPTION_COLOR => notNull && env.Tk_AllocColorFromObj tkwin valuePtr == 0
  | TK_OPTION_FONT => notNull && env.Tk_AllocFontFromObj tkwin valuePtr == 0
  | TK_OPTION_STYLE => notNull && env.Tk_AllocStyleFromObj valuePtr == 0
  | TK_OPTION_BITMAP => notNull && env.Tk_AllocBitmapFromObj tkwin valuePtr == 0
  | TK_OPTION_BORDER => notNull && env.Tk_Alloc3DBorderFromObj tkwin valuePtr == 0
  | TK_OPTION_RELIEF =>
    notNull &&
      (env.Tcl_GetIndexFromObj valuePtr env.tkReliefStrings (indexFlags env specPtr)).isNone
  | TK_OPTION_CURSOR => notNull && env.Tk_AllocCursorFromObj tkwin valuePtr == 0
  | TK_OPTION_JUSTIFY =>
    notNull &&
      (env.Tcl_GetIndexFromObj valuePtr env.tkJustifyStrings (indexFlags env specPtr)).isNone
  | TK_OPTION_ANCHOR =>
    notNull &&
      (env.Tcl_GetIndexFromObj valuePtr env.tkAnchorStrings (indexFlags env specPtr)).isNone
  | TK_OPTION_PIXELS => notNull && (env.Tk_GetPixelsFromObj tkwin valuePtr).isNone
  | TK_OPTION_WINDOW => notNull && (env.TkGetWindowFromObj tkwin valuePtr).isNone
  | TK_OPTION_CUSTOM => false
  | _ => true

/-- The step of `DoObjConfig` returns `TCL_ERROR`. -/
def Applied.isFail : Applied → Bool
  | .fail _ => true
  | _ => false

/-- The option database and the attributes of windows that `Tk_InitOptions`
and `GetConfigList` consult: `Tk_GetOption` (`none` is `NULL`),
`Tk_GetSystemDefault` (`none` is `NULL`) and `Tk_Depth`. -/
structure OptionDb where
  Tk_GetOption : Tk_Window → CString → Option CString → Option CString
  Tk_GetSystemDefault : Tk_Window → CString → Option CString → Option Tcl_Obj
  Tk_Depth : Tk_Window → Int

/-- The functions of Tcl and Tk that `GetObjectForOption` calls to make the
object for an internal form, and the null values of `tk.h` that it tests. -/
structure Names where
  TK_JUSTIFY_NULL : Int
  TK_ANCHOR_NULL : Int
  Tcl_NewBooleanObj : Int → Tcl_Obj
  Tcl_NewWideIntObj : Int → Tcl_Obj
  Tcl_NewDoubleObj : DoubleVal → Tcl_Obj
  Tk_NameOfColor : Nat → CString
  Tk_NameOfFont : Nat → CString
  Tk_NameOfStyle : Nat → CString
  Tk_NameOfBitmap : Tk_Window → Nat → CString
  Tk_NameOf3DBorder : Nat → CString
  Tk_NameOfRelief : Int → CString
  Tk_NameOfCursor : Tk_Window → Nat → CString
  Tk_NameOfJustify : Int → CString
  Tk_NameOfAnchor : Int → CString
  Tk_PathName : Tk_Window → CString

/-- The object made by `Tcl_NewObj`: a new object whose string is empty. -/
def Tcl_NewObj : Tcl_Obj :=
  { bytes := [], typePtr := .NULL, ptr1 := 0, ptr2 := (0, 0) }

/-- The integer read from a cell. -/
def Cell.asInt : Cell → Int
  | .int v => v
  | _ => 0

/-- The `double` read from a cell. -/
def Cell.asDbl : Cell → DoubleVal
  | .dbl d => d
  | _ => .num 0

/-- The conversion `%d` of `snprintf`. -/
def decimal (n : Int) : CString := (toString n).toList

/-- The macro `TkNewIndexObj` of `tkInt.h`. -/
def TkNewIndexObj (names : Names) (value : Int) : Tcl_Obj :=
  if value = -1 then Tcl_NewObj else names.Tcl_NewWideIntObj value

/-- The internal form of a type stored as a `char`, a `short` or an `int`
according to the flags, read the way `GetObjectForOption` reads it; `none` is
`Tcl_Panic`. -/
def readNarrow (specPtr : Tk_OptionSpec) (internal : Cell) : Option Int :=
  if specPtr.flags &&& TYPE_MASK ≠ 0 then
    if specPtr.flags &&& TYPE_MASK = TK_OPTION_VAR_char then some (castChar internal.asInt)
    else if specPtr.flags &&& TYPE_MASK = TK_OPTION_VAR_short then
      some (castShort internal.asInt)
    else none
  else some internal.asInt

/-- The case `TK_OPTION_BOOLEAN` of `GetObjectForOption`: `objPtr` as the case
leaves it (the inner `none` is `NULL`), or `none` for `Tcl_Panic`. -/
def formatBoolean (names : Names) (specPtr : Tk_OptionSpec) (internal : Cell) :
    Option (Option Tcl_Obj) :=
  match readNarrow specPtr internal with
  | none => none
  | some value => some (if value ≠ -1 then some (names.Tcl_NewBooleanObj value) else none)

/-- The case `TK_OPTION_INT` of `GetObjectForOption`, with a `long` of 64
bits. -/
def formatInt (env : Env) (names : Names) (specPtr : Tk_OptionSpec) (internal : Cell) :
    Option (Option Tcl_Obj) :=
  if specPtr.flags &&& TYPE_MASK ≠ 0 then
    if specPtr.flags &&& TYPE_MASK = TYPE_MASK then
      if nullOK env specPtr ∧ internal.asInt = LONG_MIN then some none
      else some (some (names.Tcl_NewWideIntObj internal.asInt))
    else none
  else
    if nullOK env specPtr ∧ internal.asInt = INT_MIN then some none
    else some (some (names.Tcl_NewWideIntObj internal.asInt))

/-- The case `TK_OPTION_INDEX` of `GetObjectForOption`. -/
def formatIndex (env : Env) (names : Names) (specPtr : Tk_OptionSpec) (internal : Cell) :
    Option Tcl_Obj :=
  if ¬ nullOK env specPtr ∨ internal.asInt ≠ INT_MIN then
    if internal.asInt = INT_MIN then some (TkNewIndexObj names (-1))
    else if internal.asInt = INT_MAX then some (Tcl_NewStringObj "end+1".toList)
    else if internal.asInt = -1 then some (Tcl_NewStringObj "end".toList)
    else if internal.asInt < 0 then
      some (Tcl_NewStringObj ("end".toList ++ decimal (1 + internal.asInt)))
    else some (names.Tcl_NewWideIntObj internal.asInt)
  else none

/-- The case `TK_OPTION_DOUBLE` of `GetObjectForOption`. -/
def formatDouble (env : Env) (names : Names) (specPtr : Tk_OptionSpec) (internal : Cell) :
    Option Tcl_Obj :=
  if ¬ nullOK env specPtr ∨ internal.asDbl ≠ .NAN then
    some (names.Tcl_NewDoubleObj internal.asDbl)
  else none

/-- The case `TK_OPTION_STRING_TABLE` of `GetObjectForOption`.  The table of
strings ends with a `NULL` pointer, for which `Tcl_NewStringObj` gives the
empty string; an index beyond it, or a `clientData` that is no table, is a read
outside the table (`none`, as for `Tcl_Panic`). -/
def formatStringTable (specPtr : Tk_OptionSpec) (internal : Cell) : Option (Option Tcl_Obj) :=
  match readNarrow specPtr internal with
  | none => none
  | some value =>
    if value ≥ 0 then
      match specPtr.clientData with
      | .stringTable t =>
        match t[value.toNat]? with
        | some s => some (some (Tcl_NewStringObj s))
        | none => if value.toNat = t.length then some (some (Tcl_NewStringObj [])) else none
      | _ => none
    else some none

/-- The cases of `GetObjectForOption` for a resource whose name is given by
`name`. -/
def formatHandle (name : Nat → CString) (internal : Cell) : Option Tcl_Obj :=
  if internal.asHandle ≠ 0 then some (Tcl_NewStringObj (name internal.asHandle)) else none

/-- The cases `TK_OPTION_RELIEF`, `TK_OPTION_JUSTIFY` and `TK_OPTION_ANCHOR` of
`GetObjectForOption`, for the null value `nullValue` of the type and the
function `name` that names a value. -/
def formatEnum (specPtr : Tk_OptionSpec) (internal : Cell) (nullValue : Int)
    (name : Int → CString) : Option (Option Tcl_Obj) :=
  match readNarrow specPtr internal with
  | none => none
  | some value => some (if value ≠ nullValue then some (Tcl_NewStringObj (name value)) else none)

/-- The case `TK_OPTION_PIXELS` of `GetObjectForOption`. -/
def formatPixels (env : Env) (names : Names) (specPtr : Tk_OptionSpec) (internal : Cell) :
    Option Tcl_Obj :=
  if ¬ nullOK env specPtr ∨ internal.asInt ≠ INT_MIN then
    some (names.Tcl_NewWideIntObj internal.asInt)
  else none

/-- The case `TK_OPTION_CUSTOM` of `GetObjectForOption`; `none` is the call
through a `NULL` table of custom functions. -/
def formatCustom (recordPtr : Record) (optionPtr : TkOption) (tkwin : Tk_Window) :
    Option (Option Tcl_Obj) :=
  match optionPtr.extra with
  | .custom (some custom) =>
    some (custom.getProc tkwin recordPtr optionPtr.specPtr.internalOffset)
  | _ => none

/-- The `switch` of `GetObjectForOption` over the type of the option, for the
internal form `internal` of the option in the record: `objPtr` after the
`switch`, or `none` when it does not return.  `Tcl_NewStringObj` gives the
empty string for the `NULL` pointer of an unset string. -/
def formatInternal (env : Env) (names : Names) (recordPtr : Record) (optionPtr : TkOption)
    (tkwin : Tk_Window) (internal : Cell) : Option (Option Tcl_Obj) :=
  let specPtr := optionPtr.specPtr
  match specPtr.type with
  | TK_OPTION_BOOLEAN => formatBoolean names specPtr internal
  | TK_OPTION_INT => formatInt env names specPtr internal
  | TK_OPTION_INDEX => some (formatIndex env names specPtr internal)
  | TK_OPTION_DOUBLE => some (formatDouble env names specPtr internal)
  | TK_OPTION_STRING => some (some (Tcl_NewStringObj (internal.asStr.getD [])))
  | TK_OPTION_STRING_TABLE => formatStringTable specPtr internal
  | TK_OPTION_COLOR => some (formatHandle names.Tk_NameOfColor internal)
  | TK_OPTION_FONT => some (formatHandle names.Tk_NameOfFont internal)
  | TK_OPTION_STYLE => some (formatHandle names.Tk_NameOfStyle internal)
  | TK_OPTION_BITMAP => some (formatHandle (names.Tk_NameOfBitmap tkwin) internal)
  | TK_OPTION_BORDER => some (formatHandle names.Tk_NameOf3DBorder internal)
  | TK_OPTION_RELIEF => formatEnum specPtr internal env.TK_RELIEF_NULL names.Tk_NameOfRelief
  | TK_OPTION_CURSOR => some (formatHandle (names.Tk_NameOfCursor tkwin) internal)
  | TK_OPTION_JUSTIFY => formatEnum specPtr internal names.TK_JUSTIFY_NULL names.Tk_NameOfJustify
  | TK_OPTION_ANCHOR => formatEnum specPtr internal names.TK_ANCHOR_NULL names.Tk_NameOfAnchor
  | TK_OPTION_PIXELS => some (formatPixels env names specPtr internal)
  | TK_OPTION_WINDOW => some (formatHandle names.Tk_PathName internal)
  | TK_OPTION_CUSTOM => formatCustom recordPtr optionPtr tkwin
  | _ => none

/-- The function `GetObjectForOption`: the object for the internal form of the
option, a new empty object when there is no internal form or the `switch`
leaves `objPtr` `NULL`; `none` when the function does not return (`Tcl_Panic`,
a read outside a table of strings, a call through a `NULL` pointer). -/
def GetObjectForOption (env : Env) (names : Names) (recordPtr : Record) (optionPtr : TkOption)
    (tkwin : Tk_Window) : Option Tcl_Obj :=
  match optionPtr.specPtr.internalOffset with
  | none => some Tcl_NewObj
  | some off =>
    match formatInternal env names recordPtr optionPtr tkwin (recordPtr.internals off) with
    | none => none
    | some objPtr => some (objPtr.getD Tcl_NewObj)

/-- How a function that returns a pointer ends: with `NULL`, with a pointer to
`value`, in `Tcl_Panic` (or another call that does not return), or by reading
an entry that is not there. -/
inductive Returned (α : Type)
  | NULL
  | value (a : α)
  | panic
  | badRead

/-- The function `Tk_GetOptionValue`. -/
def Tk_GetOptionValue (env : Env) (names : Names) (recordPtr : Record)
    (optionTable : TableChain) (namePtr : Tcl_Obj) (tkwin : Tk_Window) : Returned Tcl_Obj :=
  match (GetOptionFromObj namePtr optionTable).result with
  | none => .NULL
  | some p =>
    match optionTable.deref p with
    | none => .badRead
    | some found =>
      match followSynonym optionTable p found with
      | none => .badRead
      | some optionPtr =>
        match optionPtr.specPtr.objOffset with
        | some off => .value ((recordPtr.objs off).getD Tcl_NewObj)
        | none =>
          match GetObjectForOption env names recordPtr optionPtr tkwin with
          | some resultPtr => .value resultPtr
          | none => .panic

/-- The member `monoColorPtr` of the union `extra`. -/
def Extra.asMono : Extra → Option Tcl_Obj
  | .monoColorPtr p => p
  | _ => none

/-- The test of `Tk_InitOptions` and `GetConfigList` under which the
monochrome default of a colour or border is used: `tkwin != NULL`, the type is
`TK_OPTION_COLOR` or `TK_OPTION_BORDER`, `Tk_Depth(tkwin) <= 1` and
`extra.monoColorPtr != NULL`. -/
def useMonoColor (db : OptionDb) (optionPtr : TkOption) (tkwin : Tk_Window) : Bool :=
  tkwin != 0
    && (optionPtr.specPtr.type = TK_OPTION_COLOR || optionPtr.specPtr.type = TK_OPTION_BORDER)
    && db.Tk_Depth tkwin ≤ 1
    && optionPtr.extra.asMono.isSome

/-- The function `GetConfigList` for the entry `optionPtr` of the table at
position `t` of the chain: the elements of the list it returns. -/
def GetConfigList (env : Env) (names : Names) (db : OptionDb) (recordPtr : Record)
    (tablePtr : TableChain) (t : Nat) (optionPtr : TkOption) (tkwin : Tk_Window) :
    Returned (List Tcl_Obj) :=
  let name := Tcl_NewStringObj optionPtr.specPtr.optionName
  if optionPtr.specPtr.type = TK_OPTION_SYNONYM then
    match optionPtr.extra with
    | .synonymPtr i =>
      match tablePtr.deref (t, i) with
      | some synonymPtr => .value [name, Tcl_NewStringObj synonymPtr.specPtr.optionName]
      | none => .badRead
    | _ => .badRead
  else
    let dbName :=
      match optionPtr.dbNameUID with
      | none => Tcl_NewObj
      | some s => Tcl_NewStringObj s
    let dbClass :=
      match optionPtr.dbClassUID with
      | none => Tcl_NewObj
      | some s => Tcl_NewStringObj s
    let default :=
      if useMonoColor db optionPtr tkwin then optionPtr.extra.asMono.getD Tcl_NewObj
      else optionPtr.defaultPtr.getD Tcl_NewObj
    match optionPtr.specPtr.objOffset with
    | some off =>
      .value [name, dbName, dbClass, default, (recordPtr.objs off).getD Tcl_NewObj]
    | none =>
      match GetObjectForOption env names recordPtr optionPtr tkwin with
      | some elementPtr => .value [name, dbName, dbClass, default, elementPtr]
      | none => .panic

/-- The list object that `Tk_GetOptionInfo` returns: the list for one option,
or the list of the lists of all options. -/
inductive OptionInfo
  | one (l : List Tcl_Obj)
  | all (ls : List (List Tcl_Obj))

/-- The inner loop of `Tk_GetOptionInfo` over the options of the table at
position `t`, appending to the lists `acc`. -/
def Tk_GetOptionInfo.scanTable (env : Env) (names : Names) (db : OptionDb) (recordPtr : Record)
    (tablePtr : TableChain) (t : Nat) (tkwin : Tk_Window) :
    List TkOption → List (List Tcl_Obj) → Returned (List (List Tcl_Obj))
  | [], acc => .value acc
  | optionPtr :: rest, acc =>
    match GetConfigList env names db recordPtr tablePtr t optionPtr tkwin with
    | .value l =>
      Tk_GetOptionInfo.scanTable env names db recordPtr tablePtr t tkwin rest (acc ++ [l])
    | .NULL => .NULL
    | .panic => .panic
    | .badRead => .badRead

/-- The outer loop of `Tk_GetOptionInfo` over the tables `tables` of the chain
`tablePtr`, the first of them at position `t`. -/
def Tk_GetOptionInfo.scanChain (env : Env) (names : Names) (db : OptionDb) (recordPtr : Record)
    (tablePtr : TableChain) (tkwin : Tk_Window) :
    TableChain → Nat → List (List Tcl_Obj) → Returned (List (List Tcl_Obj))
  | [], _, acc => .value acc
  | tbl :: rest, t, acc =>
    match Tk_GetOptionInfo.scanTable env names db recordPtr tablePtr t tkwin tbl.options acc with
    | .value acc1 => Tk_GetOptionInfo.scanChain env names db recordPtr tablePtr tkwin rest (t + 1) acc1
    | other => other

/-- The function `Tk_GetOptionInfo`; `namePtr` is `none` for `NULL`. -/
def Tk_GetOptionInfo (env : Env) (names : Names) (db : OptionDb) (recordPtr : Record)
    (optionTable : TableChain) (namePtr : Option Tcl_Obj) (tkwin : Tk_Window) :
    Returned OptionInfo :=
  match namePtr with
  | some namePtr =>
    match (GetOptionFromObj namePtr optionTable).result with
    | none => .NULL
    | some p =>
      match optionTable.deref p with
      | none => .badRead
      | some found =>
        match followSynonym optionTable p found with
        | none => .badRead
        | some optionPtr =>
          match GetConfigList env names db recordPtr optionTable p.1 optionPtr tkwin with
          | .value l => .value (.one l)
          | .NULL => .NULL
          | .panic => .panic
          | .badRead => .badRead
  | none =>
    match Tk_GetOptionInfo.scanChain env names db recordPtr optionTable tkwin optionTable 0 [] with
    | .value ls => .value (.all ls)
    | .NULL => .NULL
    | .panic => .panic
    | .badRead => .badRead

/-- The body of the loops of `Tk_FreeConfigOptions` for one option: the record
as it leaves it and what it releases. -/
def Tk_FreeConfigOptions.step (tkwin : Tk_Window) (recordPtr : Record) (optionPtr : TkOption) :
    Record × List Effect :=
  let specPtr := optionPtr.specPtr
  if specPtr.type = TK_OPTION_SYNONYM then (recordPtr, [])
  else
    let oldPtr := recordPtr.objAt specPtr.objOffset
    let record1 := recordPtr.setObjAt specPtr.objOffset none
    let freed : Record × List Effect :=
      if optionPtr.flags &&& OPTION_NEEDS_FREEING ≠ 0 then
        match specPtr.internalOffset with
        | some off =>
          (record1.set off (FreeResources optionPtr oldPtr (record1.internals off) tkwin).1,
            (FreeResources optionPtr oldPtr (record1.internals off) tkwin).2)
        | none => (record1, (FreeResources optionPtr oldPtr (.int 0) tkwin).2)
      else (record1, [])
    (freed.1, freed.2 ++
      match oldPtr with
      | some old => [.Tcl_DecrRefCount old]
      | none => [])

/-- The inner loop of `Tk_FreeConfigOptions` over the options of a table. -/
def Tk_FreeConfigOptions.scanTable (tkwin : Tk_Window) :
    List TkOption → Record × List Effect → Record × List Effect
  | [], st => st
  | optionPtr :: rest, st =>
    Tk_FreeConfigOptions.scanTable tkwin rest
      ((Tk_FreeConfigOptions.step tkwin st.1 optionPtr).1,
        st.2 ++ (Tk_FreeConfigOptions.step tkwin st.1 optionPtr).2)

/-- The outer loop of `Tk_FreeConfigOptions` over the tables of the chain. -/
def Tk_FreeConfigOptions.scanChain (tkwin : Tk_Window) :
    TableChain → Record × List Effect → Record × List Effect
  | [], st => st
  | tablePtr :: rest, st =>
    Tk_FreeConfigOptions.scanChain tkwin rest
      (Tk_FreeConfigOptions.scanTable tkwin tablePtr.options st)

/-- The function `Tk_FreeConfigOptions`: the record as it leaves it, and what
it releases, in order. -/
def Tk_FreeConfigOptions (recordPtr : Record) (optionTable : TableChain) (tkwin : Tk_Window) :
    Record × List Effect :=
  Tk_FreeConfigOptions.scanChain tkwin optionTable (recordPtr, [])

/-- The value that `Tk_InitOptions` finds for an option: `valuePtr` when the
search for an initial value is over (`none` is `NULL`). -/
def Tk_InitOptions.value (db : OptionDb) (optionPtr : TkOption) (tkwin : Tk_Window) :
    Option Tcl_Obj :=
  let valuePtr0 : Option Tcl_Obj :=
    match optionPtr.dbNameUID with
    | some dbNameUID =>
      match db.Tk_GetOption tkwin dbNameUID optionPtr.dbClassUID with
      | some value => some (Tcl_NewStringObj value)
      | none => none
    | none => none
  let valuePtr1 : Option Tcl_Obj :=
    match valuePtr0, optionPtr.dbNameUID with
    | none, some dbNameUID => db.Tk_GetSystemDefault tkwin dbNameUID optionPtr.dbClassUID
    | _, _ => valuePtr0
  match valuePtr1 with
  | none =>
    if useMonoColor db optionPtr tkwin then optionPtr.extra.asMono else optionPtr.defaultPtr
  | some valuePtr => some valuePtr

/-- How `Tk_InitOptions` ends: with `TCL_OK` or `TCL_ERROR`, the record as it
leaves it and what it did outside the record; or in `Tcl_Panic`. -/
inductive InitResult
  | ok (recordPtr : Record) (effects : List Effect)
  | error (recordPtr : Record) (effects : List Effect)
  | panic

/-- The loop of `Tk_InitOptions` over the options of one table. -/
def Tk_InitOptions.scanTable (env : Env) (db : OptionDb) (tkwin : Tk_Window) :
    List TkOption → Record → List Effect → InitResult
  | [], recordPtr, effects => .ok recordPtr effects
  | optionPtr :: rest, recordPtr, effects =>
    if optionPtr.specPtr.type = TK_OPTION_SYNONYM
        ∨ optionPtr.specPtr.flags &&& env.TK_OPTION_DONT_SET_DEFAULT ≠ 0 then
      Tk_InitOptions.scanTable env db tkwin rest recordPtr effects
    else
      match Tk_InitOptions.value db optionPtr tkwin with
      | none => Tk_InitOptions.scanTable env db tkwin rest recordPtr effects
      | some valuePtr =>
        match DoObjConfig env recordPtr optionPtr valuePtr tkwin false with
        | .ok record1 _ effects1 =>
          Tk_InitOptions.scanTable env db tkwin rest record1
            (effects ++ [.Tcl_IncrRefCount valuePtr] ++ effects1 ++ [.Tcl_DecrRefCount valuePtr])
        | .error record1 =>
          .error record1 (effects ++ [.Tcl_IncrRefCount valuePtr, .Tcl_DecrRefCount valuePtr])
        | .panic => .panic

/-- The function `Tk_InitOptions`.  The chain is the table and the tables it
chains to; a `NULL` table pointer (`[]`) is dereferenced. -/
def Tk_InitOptions (env : Env) (db : OptionDb) (recordPtr : Record) :
    TableChain → Tk_Window → InitResult
  | [], _ => .panic
  | [tablePtr], tkwin => Tk_InitOptions.scanTable env db tkwin tablePtr.options recordPtr []
  | tablePtr :: next :: rest, tkwin =>
    match Tk_InitOptions env db recordPtr (next :: rest) tkwin with
    | .ok record1 effects =>
      Tk_InitOptions.scanTable env db tkwin tablePtr.options record1 effects
    | .error record1 effects => .error record1 effects
    | .panic => .panic

/-- Names in which a number is its decimal text, a boolean is `0` or `1`, and
every resource and every enumerator has an empty name. -/
def exampleNames : Names :=
  { TK_JUSTIFY_NULL := -1, TK_ANCHOR_NULL := -1,
    Tcl_NewBooleanObj := fun b => Tcl_NewStringObj (if b = 0 then ['0'] else ['1']),
    Tcl_NewWideIntObj := fun n => Tcl_NewStringObj (decimal n),
    Tcl_NewDoubleObj := fun _ => Tcl_NewObj,
    Tk_NameOfColor := fun _ => [],
    Tk_NameOfFont := fun _ => [],
    Tk_NameOfStyle := fun _ => [],
    Tk_NameOfBitmap := fun _ _ => [],
    Tk_NameOf3DBorder := fun _ => [],
    Tk_NameOfRelief := fun _ => [],
    Tk_NameOfCursor := fun _ _ => [],
    Tk_NameOfJustify := fun _ => [],
    Tk_NameOfAnchor := fun _ => [],
    Tk_PathName := fun _ => [] }

/-- An option database with no entry and no system default, on windows of
depth 24. -/
def exampleDb : OptionDb :=
  { Tk_GetOption := fun _ _ _ => none,
    Tk_GetSystemDefault := fun _ _ _ => none,
    Tk_Depth := fun _ => 24 }

/-- The integer option `-borderwidth`: null allowed, no value pointer, internal
form at offset 8, default `2`. -/
def borderwidthSpec : Tk_OptionSpec :=
  { type := TK_OPTION_INT, optionName := "-borderwidth".toList,
    dbName := some "borderWidth".toList, dbClass := some "BorderWidth".toList,
    defValue := some "2".toList, objOffset := TCL_INDEX_NONE, internalOffset := some 8,
    flags := 32, clientData := .NULL, typeMask := 1 }

/-- The table of the option `-borderwidth` and its synonym `-bd`, as
`Tk_CreateOptionTable` builds it. -/
def borderTable : TableChain :=
  [{ refCount := 1, hashEntryPtr := 3, nextPtr := none,
     options := (initOptions [borderwidthSpec, synonymSpec "-bd" "-borderwidth"]
       [borderwidthSpec, synonymSpec "-bd" "-borderwidth"]).getD [] }]

/-- The `switch` of `GetObjectForOption` returns for this option and this
internal form: the type is one it knows, the flags name a storage type that
the case of the type accepts, the index of a table of strings is negative or
lies within the table of the option (its `NULL` end included), and a custom
option has its functions. -/
def Formattable (optionPtr : TkOption) (internal : Cell) : Prop :=
  match optionPtr.specPtr.type with
  | TK_OPTION_BOOLEAN => narrowFlagsOk optionPtr.specPtr = true
  | TK_OPTION_INT => intFlagsOk optionPtr.specPtr = true
  | TK_OPTION_STRING_TABLE =>
    ∃ value, readNarrow optionPtr.specPtr internal = some value ∧
      (value < 0 ∨ ∃ t, optionPtr.specPtr.clientData = .stringTable t ∧ value.toNat ≤ t.length)
  | TK_OPTION_RELIEF => narrowFlagsOk optionPtr.specPtr = true
  | TK_OPTION_JUSTIFY => narrowFlagsOk optionPtr.specPtr = true
  | TK_OPTION_ANCHOR => narrowFlagsOk optionPtr.specPtr = true
  | TK_OPTION_CUSTOM => ∃ custom, optionPtr.extra = .custom (some custom)
  | TK_OPTION_SYNONYM => False
  | TK_OPTION_END => False
  | OTHER _ => False
  | _ => True

/-- The internal form `internal` of an option is the null value of its type:
`-1` for a boolean and an index into a table of strings, the null value of the
enumeration for a relief, a justification and an anchor, the `NULL` pointer or
handle for a string, a resource and a window, `INT_MIN` for an index, and, for
a null-allowed option only, `INT_MIN` (`LONG_MIN` when stored as a `long`) for
an integer, `INT_MIN` for a distance in pixels and a NaN for a `double`.  A
custom option has none. -/
def IsNullSentinel (env : Env) (names : Names) (specPtr : Tk_OptionSpec) (internal : Cell) :
    Prop :=
  match specPtr.type with
  | TK_OPTION_BOOLEAN => readNarrow specPtr internal = some (-1)
  | TK_OPTION_INT =>
    nullOK env specPtr = true ∧
      ((specPtr.flags &&& TYPE_MASK = 0 ∧ internal.asInt = INT_MIN) ∨
        (specPtr.flags &&& TYPE_MASK = TYPE_MASK ∧ internal.asInt = LONG_MIN))
  | TK_OPTION_INDEX => internal.asInt = INT_MIN
  | TK_OPTION_DOUBLE => nullOK env specPtr = true ∧ internal.asDbl = .NAN
  | TK_OPTION_STRING => internal.asStr = none
  | TK_OPTION_STRING_TABLE => readNarrow specPtr internal = some (-1)
  | TK_OPTION_COLOR => internal.asHandle = 0
  | TK_OPTION_FONT => internal.asHandle = 0
  | TK_OPTION_STYLE => internal.asHandle = 0
  | TK_OPTION_BITMAP => internal.asHandle = 0
  | TK_OPTION_BORDER => internal.asHandle = 0
  | TK_OPTION_RELIEF => readNarrow specPtr internal = some env.TK_RELIEF_NULL
  | TK_OPTION_CURSOR => internal.asHandle = 0
  | TK_OPTION_JUSTIFY => readNarrow specPtr internal = some names.TK_JUSTIFY_NULL
  | TK_OPTION_ANCHOR => readNarrow specPtr internal = some names.TK_ANCHOR_NULL
  | TK_OPTION_PIXELS => nullOK env specPtr = true ∧ internal.asInt = INT_MIN
  | TK_OPTION_WINDOW => internal.asHandle = 0
  | _ => False

/-- The option is unset in the record: its value pointer is `NULL`; or it has
no value pointer and its internal form is the null value of its type; or it
has neither. -/
def IsUnset (env : Env) (names : Names) (r : Record) (o : TkOption) : Prop :=
  match o.specPtr.objOffset with
  | some off => r.objs off = none
  | none =>
    match o.specPtr.internalOffset with
    | some off => IsNullSentinel env names o.specPtr (r.internals off)
    | none => True

/-- The types for which `DoObjConfig` tests `nullOK && TkObjIsEmpty(valuePtr)`
before it parses the value or allocates a resource, the types `double` and
index apart. -/
def nullEscapeTypes : List Tk_OptionType :=
  [TK_OPTION_BOOLEAN, TK_OPTION_INT, TK_OPTION_STRING_TABLE, TK_OPTION_RELIEF,
   TK_OPTION_JUSTIFY, TK_OPTION_ANCHOR, TK_OPTION_PIXELS, TK_OPTION_STRING, TK_OPTION_COLOR,
   TK_OPTION_FONT, TK_OPTION_STYLE, TK_OPTION_BITMAP, TK_OPTION_BORDER, TK_OPTION_CURSOR,
   TK_OPTION_WINDOW]

/-- The null value of each of these types as an internal form: `-1` for a
boolean, an index into a table of strings, a justification and an anchor,
`TK_RELIEF_NULL` for a relief, `INT_MIN` for a distance in pixels and for an
integer stored as an `int`, `LONG_MIN` for an integer stored as a `long`, and
the `NULL` pointer or handle for the other types. -/
def nullSentinel (env : Env) (specPtr : Tk_OptionSpec) : Cell :=
  match specPtr.type with
  | TK_OPTION_BOOLEAN => .int (-1)
  | TK_OPTION_INT =>
    if specPtr.flags &&& TYPE_MASK = TYPE_MASK then .int LONG_MIN else .int INT_MIN
  | TK_OPTION_STRING_TABLE => .int (-1)
  | TK_OPTION_RELIEF => .int env.TK_RELIEF_NULL
  | TK_OPTION_JUSTIFY => .int (-1)
  | TK_OPTION_ANCHOR => .int (-1)
  | TK_OPTION_PIXELS => .int INT_MIN
  | TK_OPTION_STRING => .str none
  | _ => .handle 0

/-- The flags of the option name a storage type that `DoObjConfig` accepts for
the type of the option; where they do not, it ends in `Tcl_Panic`. -/
def StorageOk (specPtr : Tk_OptionSpec) : Prop :=
  match specPtr.type with
  | TK_OPTION_INT => intFlagsOk specPtr = true
  | TK_OPTION_BOOLEAN => specPtr.internalOffset ≠ none → narrowFlagsOk specPtr = true
  | TK_OPTION_STRING_TABLE => specPtr.internalOffset ≠ none → narrowFlagsOk specPtr = true
  | TK_OPTION_RELIEF => specPtr.internalOffset ≠ none → narrowFlagsOk specPtr = true
  | TK_OPTION_JUSTIFY => specPtr.internalOffset ≠ none → narrowFlagsOk specPtr = true
  | TK_OPTION_ANCHOR => specPtr.internalOffset ≠ none → narrowFlagsOk specPtr = true
  | _ => True

/-- What the `switch` of `DoObjConfig` does for the empty string of a
null-allowed option of one of the types of `nullEscapeTypes`: it stores the
null value of the type and leaves `valuePtr` `NULL`; for a cursor it then calls
`Tk_DefineCursor` with the `NULL` cursor. -/
def nullApplied (env : Env) (recordPtr : Record) (specPtr : Tk_OptionSpec)
    (tkwin : Tk_Window) : Applied :=
  if specPtr.type = TK_OPTION_CURSOR then
    (storeInternal recordPtr specPtr none (nullSentinel env specPtr)).defineCursor tkwin 0
  else storeInternal recordPtr specPtr none (nullSentinel env specPtr)

/-- The integer option `-count`: null allowed, stored as a `long`, internal
form at offset 8. -/
def countSpec : Tk_OptionSpec :=
  { type := TK_OPTION_INT, optionName := "-count".toList, dbName := none, dbClass := none,
    defValue := none, objOffset := TCL_INDEX_NONE, internalOffset := some 8, flags := 224,
    clientData := .NULL, typeMask := 0 }

/-- The entry of the option `-count` in a table. -/
def countOption : TkOption :=
  { specPtr := countSpec, dbNameUID := none, dbClassUID := none, defaultPtr := none,
    extra := .monoColorPtr none, flags := 0 }

/-- The entry of the option `-width` in a table. -/
def widthOption : TkOption :=
  { specPtr := widthSpec, dbNameUID := none, dbClassUID := none,
    defaultPtr := some (strObj "0"), extra := .monoColorPtr none, flags := 0 }

/-- The order in which `Tk_InitOptions` goes through the options of a chain:
the options of the tables the table chains to, then the options of the table
itself. -/
def initOrder : TableChain → List TkOption
  | [] => []
  | tablePtr :: rest => initOrder rest ++ tablePtr.options

/-- The value that `Tk_InitOptions` applies to an option: `none` when the loop
goes on to the next option (a synonym, an option marked
`TK_OPTION_DONT_SET_DEFAULT`, an option for which no value is found). -/
def Tk_InitOptions.chosen (env : Env) (db : OptionDb) (tkwin : Tk_Window)
    (optionPtr : TkOption) : Option Tcl_Obj :=
  if optionPtr.specPtr.type = TK_OPTION_SYNONYM
      ∨ optionPtr.specPtr.flags &&& env.TK_OPTION_DONT_SET_DEFAULT ≠ 0 then none
  else Tk_InitOptions.value db optionPtr tkwin

/-- The first value of a list of sources of which some may be absent. -/
def firstAvailable {α : Type} : List (Option α) → Option α
  | [] => none
  | some a :: _ => some a
  | none :: rest => firstAvailable rest

/-- The sources of an initial value in the order of priority of the
specification: (a) the value of the option database for the database name and
class of the option, (b) the system default for the same keys, (c) the
monochrome alternate when the window has a depth of at most 1 and the option
is a colour or a border, (d) the default of the descriptor.  An option without
a database name has no (a) and no (b); without a window there is no (c). -/
def specValueSources (db : OptionDb) (o : TkOption) (tkwin : Tk_Window) :
    List (Option Tcl_Obj) :=
  [ (match o.dbNameUID with
      | some dbName => (db.Tk_GetOption tkwin dbName o.dbClassUID).map Tcl_NewStringObj
      | none => none),
    (match o.dbNameUID with
      | some dbName => db.Tk_GetSystemDefault tkwin dbName o.dbClassUID
      | none => none),
    (if tkwin ≠ 0 ∧ db.Tk_Depth tkwin ≤ 1 ∧
        (o.specPtr.type = TK_OPTION_COLOR ∨ o.specPtr.type = TK_OPTION_BORDER)
      then o.extra.asMono else none),
    o.defaultPtr ]

/-- The entry of the option `-borderwidth` in `borderTable`. -/
def borderwidthOption : TkOption :=
  { specPtr := borderwidthSpec, dbNameUID := some "borderWidth".toList,
    dbClassUID := some "BorderWidth".toList, defaultPtr := some (strObj "2"),
    extra := .monoColorPtr none, flags := 0 }

/-- The entry of the synonym `-bd` in `borderTable`. -/
def bdOption : TkOption :=
  { specPtr := synonymSpec "-bd" "-borderwidth", dbNameUID := none, dbClassUID := none,
    defaultPtr := none, extra := .synonymPtr 0, flags := 0 }

/-- The integer option `-height` with the default `tall`, which is no integer;
internal form at offset 40. -/
def heightSpec : Tk_OptionSpec :=
  { type := TK_OPTION_INT, optionName := "-height".toList, dbName := none, dbClass := none,
    defValue := some "tall".toList, objOffset := TCL_INDEX_NONE, internalOffset := some 40,
    flags := 0, clientData := .NULL, typeMask := 0 }

/-- The table of the options `-width`, `-height` and `-state`, as
`Tk_CreateOptionTable` builds it. -/
def heightTable : TableChain :=
  [{ refCount := 1, hashEntryPtr := 4, nextPtr := none,
     options := (initOptions [widthSpec, heightSpec, stateSpec]
       [widthSpec, heightSpec, stateSpec]).getD [] }]

/-- The entry of the option `-height` in `heightTable`. -/
def heightOption : TkOption :=
  { specPtr := heightSpec, dbNameUID := none, dbClassUID := none,
    defaultPtr := some (strObj "tall"), extra := .monoColorPtr none, flags := 0 }

/-- The entry of the option `-state` in `heightTable` and in `widgetTable`. -/
def stateOption : TkOption :=
  { specPtr := stateSpec, dbNameUID := none, dbClassUID := none,
    defaultPtr := some (strObj "normal"), extra := .monoColorPtr none, flags := 0 }

/-- A record in which every value pointer is `NULL` and every internal form is
zero. -/
def zeroRecord : Record :=
  { objs := fun _ => none, internals := fun _ => .int 0 }

/-- A chain of two tables: the table of `-width` and `-state`, chained to the
table of `-borderwidth` and `-bd`.  The options `-width` and `-borderwidth`
both have their internal form at offset 8. -/
def widgetBorderChain : TableChain := widgetTable ++ borderTable

/-- The arguments `objv` made of name and value pairs. -/
def argPairs : List (Tcl_Obj × Tcl_Obj) → List Tcl_Obj
  | [] => []
  | (name, value) :: rest => name :: value :: argPairs rest

/-- What `FreeResources` does to the internal form of an option that has one,
by the type of the option: nothing; free a string that is not `NULL` and store
`NULL`; free a handle that is not `NULL` and store `NULL`; free the handle
whatever it is and store `NULL` (a font, a style); call the `freeProc` of a
custom option. -/
inductive FreeKind
  | keep
  | str
  | handle
  | always
  | custom (f : Tk_Window → Cell → Cell)

/-- The internal form that `FreeResources` leaves. -/
def FreeKind.apply (tkwin : Tk_Window) : FreeKind → Cell → Cell
  | .keep, c => c
  | .str, c =>
    match c.asStr with
    | some _ => .str none
    | none => c
  | .handle, c => if c.asHandle ≠ 0 then .handle 0 else c
  | .always, _ => .handle 0
  | .custom f, c => f tkwin c

/-- The case of the `switch` of `FreeResources` that the type of the option
selects. -/
def freeKind (o : TkOption) : FreeKind :=
  match o.specPtr.type with
  | TK_OPTION_STRING => .str
  | TK_OPTION_COLOR => .handle
  | TK_OPTION_FONT => .always
  | TK_OPTION_STYLE => .always
  | TK_OPTION_BITMAP => .handle
  | TK_OPTION_BORDER => .handle
  | TK_OPTION_CURSOR => .handle
  | TK_OPTION_CUSTOM =>
    match o.extra with
    | .custom (some custom) =>
      match custom.freeProc with
      | some freeProc => .custom freeProc
      | none => .keep
    | _ => .keep
  | _ => .keep

/-- The case is the call of a `freeProc`. -/
def FreeKind.isCustom : FreeKind → Prop
  | .custom _ => True
  | _ => False

/-- The effect releases nothing: it is the call of a function that frees a
resource on the handle `NULL`, or the call of the `freeProc` of a custom
option. -/
def Effect.IsNullRelease : Effect → Prop
  | .freeResource _ h => h = 0
  | .freeProc _ _ => True
  | _ => False

/-- `Tk_FreeConfigOptions` has nothing left to do for the option in the
record: the option is a synonym; or its value pointer, if it has one, is
`NULL`, and its internal form, if it has one and is to be freed, is one that
`FreeResources` leaves as it is. -/
def Settled (tkwin : Tk_Window) (r : Record) (o : TkOption) : Prop :=
  o.specPtr.type = TK_OPTION_SYNONYM ∨
    ((∀ off, o.specPtr.objOffset = some off → r.objs off = none) ∧
      (o.flags &&& OPTION_NEEDS_FREEING ≠ 0 → ∀ off, o.specPtr.internalOffset = some off →
        (freeKind o).apply tkwin (r.internals off) = r.internals off))

/-- The option has an internal form that `Tk_FreeConfigOptions` frees, at
offset `off`. -/
def FreesAt (o : TkOption) (off : Nat) : Prop :=
  o.specPtr.type ≠ TK_OPTION_SYNONYM ∧ o.flags &&& OPTION_NEEDS_FREEING ≠ 0 ∧
    o.specPtr.internalOffset = some off

/-- The options of all tables of a chain, in the order of the chain. -/
def allOptions : TableChain → List TkOption
  | [] => []
  | tablePtr :: rest => tablePtr.options ++ allOptions rest

/-- The `freeProc` of every custom option of the list leaves alone what it has
returned, and the internal form it frees is the internal form of no other
option of the list that is freed. -/
def CustomFreeOk (l : List TkOption) : Prop :=
  (∀ o ∈ l, ∀ f, freeKind o = .custom f → ∀ tkwin c, f tkwin (f tkwin c) = f tkwin c) ∧
    ∀ o1 ∈ l, ∀ o2 ∈ l, ∀ off, FreesAt o1 off → FreesAt o2 off → (freeKind o1).isCustom →
      o2 = o1

/-- The record that the body of the loops of `Tk_FreeConfigOptions` leaves for
an option that is no synonym, written with the case of `FreeResources` that
the option selects. -/
def freedRecord (tkwin : Tk_Window) (r : Record) (o : TkOption) : Record :=
  if o.flags &&& OPTION_NEEDS_FREEING ≠ 0 then
    match o.specPtr.internalOffset with
    | some off =>
      (r.setObjAt o.specPtr.objOffset none).set off ((freeKind o).apply tkwin (r.internals off))
    | none => r.setObjAt o.specPtr.objOffset none
  else r.setObjAt o.specPtr.objOffset none

/-- The string option `-text` with its internal form at offset 48. -/
def textSpec : Tk_OptionSpec :=
  { type := TK_OPTION_STRING, optionName := "-text".toList, dbName := none, dbClass := none,
    defValue := none, objOffset := some 64, internalOffset := some 48, flags := 0,
    clientData := .NULL, typeMask := 0 }

/-- The font option `-font` with its internal form at offset 56. -/
def fontSpec : Tk_OptionSpec :=
  { type := TK_OPTION_FONT, optionName := "-font".toList, dbName := none, dbClass := none,
    defValue := none, objOffset := TCL_INDEX_NONE, internalOffset := some 56, flags := 0,
    clientData := .NULL, typeMask := 0 }

/-- The table of the options `-text` and `-font`, as `Tk_CreateOptionTable`
builds it. -/
def resourceTable : TableChain :=
  [{ refCount := 1, hashEntryPtr := 5, nextPtr := none,
     options := (initOptions [textSpec, fontSpec] [textSpec, fontSpec]).getD [] }]

/-- A record with the text `hi` and the font with handle 7. -/
def resourceRecord : Record :=
  { objs := fun off => if off = 64 then some (strObj "hi") else none,
    internals := fun off =>
      if off = 48 then .str (some "hi".toList)
      else if off = 56 then .handle 7
      else .int 0 }

/-- The types whose internal form is an integer that `DoObjConfig` parses and
`GetObjectForOption` formats: boolean, integer, index and index into a table
of strings. -/
def intCodedTypes : List Tk_OptionType :=
  [TK_OPTION_BOOLEAN, TK_OPTION_INT, TK_OPTION_INDEX, TK_OPTION_STRING_TABLE]

/-- The cast to the storage type that the flags select for a boolean or an
index into a table of strings: `char`, `short` or `int`. -/
def narrowCast (specPtr : Tk_OptionSpec) (n : Int) : Int :=
  if specPtr.flags &&& TYPE_MASK = TK_OPTION_VAR_char then castChar n
  else if specPtr.flags &&& TYPE_MASK = TK_OPTION_VAR_short then castShort n
  else n

/-- The integer stored for `n` in the internal form of an option of one of the
integer-coded types. -/
def narrowed (specPtr : Tk_OptionSpec) (n : Int) : Int :=
  match specPtr.type with
  | TK_OPTION_BOOLEAN => narrowCast specPtr n
  | TK_OPTION_STRING_TABLE => narrowCast specPtr n
  | _ => n

/-- The integer that the `switch` of `DoObjConfig` computes for the value `v`
of an option of one of the integer-coded types, before it is cast to the
storage type: the null value for the empty string of a null-allowed option,
otherwise what the parser of the type gives (`none` when it fails). -/
def codedInt (env : Env) (specPtr : Tk_OptionSpec) (v : Tcl_Obj) : Option Int :=
  match specPtr.type with
  | TK_OPTION_BOOLEAN =>
    if isNullValue env specPtr v then some (-1) else env.Tcl_GetBooleanFromObj v
  | TK_OPTION_INT =>
    if specPtr.flags &&& TYPE_MASK = 0 then
      if isNullValue env specPtr v then some INT_MIN else env.Tcl_GetIntFromObj v
    else if isNullValue env specPtr v then some LONG_MIN else env.Tcl_GetWideIntFromObj v
  | TK_OPTION_INDEX => (TkGetIntForIndex env (some v) (-1) 0).map clampIndex
  | TK_OPTION_STRING_TABLE =>
    if isNullValue env specPtr v then some (-1)
    else env.Tcl_GetIndexFromObjStruct v specPtr.clientData (indexFlags env specPtr)
  | _ => none

/-- The canonical entry of a name in a chain of tables: the entry that
`GetOptionFromObj` finds for the name, or, when that entry is a synonym, the
entry it refers to; `none` when the name is not resolved. -/
def canonicalOption (chain : TableChain) (name : Tcl_Obj) : Option TkOption :=
  match (GetOptionFromObj name chain).result with
  | none => none
  | some p =>
    match chain.deref p with
    | none => none
    | some found => followSynonym chain p found

/-- The bitwise OR of the `typeMask` of the canonical entry of the name of
every pair of name and value of the arguments; `0` for no pair. -/
def changeMask (chain : TableChain) : List Tcl_Obj → Nat
  | name :: _ :: rest =>
    (match canonicalOption chain name with
      | some optionPtr => optionPtr.specPtr.typeMask
      | none => 0) ||| changeMask chain rest
  | _ => 0

/-- The value pointer `DoObjConfig` installs is one of three: `NULL`, for the
empty string of an option that allows null; the value given; or, for the
types that look the value up in a table of names, a duplicate of the value
given. -/
def IsNewValue (env : Env) (specPtr : Tk_OptionSpec) (valuePtr : Tcl_Obj)
    (new : Option Tcl_Obj) : Prop :=
  (new = none ∧ isNullValue env specPtr valuePtr = true) ∨ new = some valuePtr ∨
    new = some (env.Tcl_DuplicateObj valuePtr)

/-- A step of `DoObjConfig` that goes on does so with a value pointer that
`IsNewValue` describes, and has done nothing outside the record but define
the cursor of the window. -/
def Applied.Quiet (env : Env) (specPtr : Tk_OptionSpec) (valuePtr : Tcl_Obj)
    (tkwin : Tk_Window) : Applied → Prop
  | .stored new _ _ effects =>
    IsNewValue env specPtr valuePtr new ∧ ∀ e ∈ effects, ∃ c, e = .Tk_DefineCursor tkwin c
  | _ => True

/-- The object whose reference count the effect lowers. -/
def Effect.decrOf : Effect → Option Tcl_Obj
  | .Tcl_DecrRefCount o => some o
  | _ => none

/-- The object whose reference count the effect raises. -/
def Effect.incrOf : Effect → Option Tcl_Obj
  | .Tcl_IncrRefCount o => some o
  | _ => none

/-- What `DoObjConfig` does outside the record once the type-specific part
has stored the internal form: without a saved option to fill in, release the
resources of the old internal form (for an option marked
`OPTION_NEEDS_FREEING`) and the old value; then raise the reference count of
the value it installs. -/
def installEffects (optionPtr : TkOption) (tkwin : Tk_Window) (savedOptionPtr : Bool)
    (oldPtr : Option Tcl_Obj) (oldInternal : Cell) (new : Option Tcl_Obj) : List Effect :=
  (if savedOptionPtr then []
    else
      (if optionPtr.flags &&& OPTION_NEEDS_FREEING ≠ 0 then
          (FreeResources optionPtr oldPtr oldInternal tkwin).2
        else [])
      ++ oldPtr.toList.map Effect.Tcl_DecrRefCount)
  ++ (match optionPtr.specPtr.objOffset, new with
      | some _, some v => [.Tcl_IncrRefCount v]
      | _, _ => [])

/-- The internal form is a null pointer: the `char *` `NULL` or the handle
`NULL` (`None`). -/
def Cell.isNull : Cell → Bool
  | .str none => true
  | .handle 0 => true
  | _ => false

/-- The types whose internal form `FreeResources` releases and sets to `NULL`
and that `Tk_CreateOptionTable` marks `OPTION_NEEDS_FREEING` (a string option
when it has an internal form). -/
def releasedTypes : List Tk_OptionType :=
  [TK_OPTION_STRING, TK_OPTION_COLOR, TK_OPTION_FONT, TK_OPTION_BITMAP, TK_OPTION_BORDER,
    TK_OPTION_CURSOR]

/-- The cell has the C type of the internal form of an option of the type: a
`char *` for a string option, a handle for an option of another type. -/
def Cell.Fits (type : Tk_OptionType) : Cell → Prop
  | .str _ => type = TK_OPTION_STRING
  | .handle _ => type ≠ TK_OPTION_STRING
  | _ => False

/-- The window option `-after` with its internal form, a `Tk_Window`, at
offset 72. -/
def afterSpec : Tk_OptionSpec :=
  { type := TK_OPTION_WINDOW, optionName := "-after".toList, dbName := none, dbClass := none,
    defValue := none, objOffset := TCL_INDEX_NONE, internalOffset := some 72, flags := 32,
    clientData := .NULL, typeMask := 0 }

/-- The table of the options `-text`, `-font` and `-after`, as
`Tk_CreateOptionTable` builds it. -/
def paneTable : TableChain :=
  [{ refCount := 1, hashEntryPtr := 6, nextPtr := none,
     options := (initOptions [textSpec, fontSpec, afterSpec]
       [textSpec, fontSpec, afterSpec]).getD [] }]

/-- A record with the text `hi`, the font with handle 7 and the window 9. -/
def paneRecord : Record :=
  { objs := fun off => if off = 64 then some (strObj "hi") else none,
    internals := fun off =>
      if off = 48 then .str (some "hi".toList)
      else if off = 56 then .handle 7
      else if off = 72 then .handle 9
      else .int 0 }

/-- The body of the loop of `Tk_FreeSavedOptions` for one entry of the log:
what it releases.  `FreeResources` is given the address of the saved internal
form, so what it stores goes into the entry of the log. -/
def Tk_FreeSavedOptions.release (tkwin : Tk_Window) (savedOptionPtr : Tk_SavedOption) :
    List Effect :=
  (if savedOptionPtr.optionPtr.flags &&& OPTION_NEEDS_FREEING ≠ 0 then
      (FreeResources savedOptionPtr.optionPtr savedOptionPtr.valuePtr
        savedOptionPtr.internalForm tkwin).2
    else [])
  ++ (match savedOptionPtr.valuePtr with
      | some valuePtr => [.Tcl_DecrRefCount valuePtr]
      | none => [])

/-- The loop `for (count = savePtr->numItems; count > 0; count--)` of
`Tk_FreeSavedOptions` over entries given last entry first. -/
def Tk_FreeSavedOptions.items (tkwin : Tk_Window) : List Tk_SavedOption → List Effect
  | [] => []
  | savedOptionPtr :: rest =>
    Tk_FreeSavedOptions.release tkwin savedOptionPtr ++ Tk_FreeSavedOptions.items tkwin rest

/-- What `Tk_FreeSavedOptions` leaves: the record the log belongs to and what
it released. -/
structure Freed where
  recordPtr : Record
  effects : List Effect

/-- The function `Tk_FreeSavedOptions` on the node `savePtr` followed by the
nodes chained to it, for a log that belongs to the record `recordPtr`.  It
first frees the chained nodes, then releases the entries of the node from the
last to the first. -/
def Tk_FreeSavedOptions (recordPtr : Record) (savePtr : Tk_SavedOptions) : SavePtr → Freed
  | [] =>
    { recordPtr := recordPtr,
      effects := Tk_FreeSavedOptions.items savePtr.tkwin savePtr.items.reverse }
  | next :: rest =>
    let freed := Tk_FreeSavedOptions recordPtr next rest
    { recordPtr := freed.recordPtr,
      effects := freed.effects ++
        Tk_FreeSavedOptions.items savePtr.tkwin savePtr.items.reverse }

/-- What `Tk_FreeSavedOptions.release` does over a list of entries, each with
the window of its node. -/
def releasePairs : List (Tk_Window × Tk_SavedOption) → List Effect
  | [] => []
  | (tkwin, item) :: rest => Tk_FreeSavedOptions.release tkwin item ++ releasePairs rest

/-- The chain of tables that starts at the table at an address of the
registry, as the functions that walk a chain through `nextPtr` read it; at
most `fuel` tables. -/
def Registry.chainAt (reg : Registry) : Nat → Option Nat → TableChain
  | 0, _ => []
  | _ + 1, none => []
  | fuel + 1, some addr =>
    match reg addr with
    | none => []
    | some tablePtr => tablePtr :: reg.chainAt fuel tablePtr.nextPtr

/-- The function `FreeOptionInternalRep`, the `freeIntRepProc` of
`optionObjType`: it releases the table the object refers to with
`Tk_DeleteOptionTable` and clears the internal representation of the object.
`none` when the deletion runs out of fuel or reads a table that is not
there. -/
def FreeOptionInternalRep (fuel : Nat) (reg : Registry) (objPtr : Tcl_Obj) :
    Option (Registry × Tcl_Obj) :=
  match Tk_DeleteOptionTable fuel reg objPtr.ptr1 with
  | some (.done reg1 _) =>
    some (reg1, { objPtr with typePtr := .NULL, ptr1 := 0, ptr2 := (0, 0) })
  | _ => none

/-- What `GetOptionFromObj` returns and leaves when the tables are read from
the registry: the entry found (`none` is `NULL`), the object, and the
registry. -/
structure CachedLookup where
  result : Option OptionPtr
  objPtr : Tcl_Obj
  reg : Registry

/-- The function `GetOptionFromObj` on the table at the address `tablePtr` of
the registry, with what it does to the reference counts of the tables: before
it caches the entry found it frees the former internal representation of the
object, which releases a table when that representation is the cache of an
option name (the `freeIntRepProc` of another type does not know the tables),
and then it raises the reference count of the table.  `none` when a table
read is not there or the fuel does not suffice. -/
def GetOptionFromObj.inRegistry (fuel : Nat) (reg : Registry) (objPtr : Tcl_Obj)
    (tablePtr : Nat) : Option CachedLookup :=
  if objPtr.typePtr = .optionObjType ∧ objPtr.ptr1 = tablePtr then
    some { result := some objPtr.ptr2, objPtr := objPtr, reg := reg }
  else
    match GetOption objPtr.bytes (reg.chainAt fuel (some tablePtr)) with
    | none => some { result := none, objPtr := objPtr, reg := reg }
    | some bestPtr =>
      let freed : Option (Registry × Tcl_Obj) :=
        if objPtr.typePtr = .optionObjType then FreeOptionInternalRep fuel reg objPtr
        else some (reg, objPtr)
      match freed with
      | none => none
      | some (reg1, objPtr1) =>
        match reg1 tablePtr with
        | none => none
        | some t =>
          some { result := some bestPtr,
                 objPtr := { objPtr1 with typePtr := .optionObjType, ptr1 := tablePtr,
                                          ptr2 := bestPtr },
                 reg := reg1.set tablePtr
                   (some { t with refCount := (t.refCount + 1) % SIZE_MOD }) }

/-- The registry in which the border template has its table with one
reference. -/
def borderRegistry : Registry :=
  fun a => if a = 3 then borderTable.head? else none

/-- A step that may fail, repeated `k` times. -/
def optIterate {α : Type} (f : α → Option α) : Nat → α → Option α
  | 0, a => some a
  | k + 1, a => (f a).bind (optIterate f k)

/-- One call of `Tk_CreateOptionTable` for a template and the templates it
chains to: the registry it leaves, `none` when it does not return a table. -/
def Registry.create (chain : TemplateChain) (reg : Registry) : Option Registry :=
  match Tk_CreateOptionTable reg chain with
  | .ok reg1 _ => some reg1
  | _ => none

/-- One call of `Tk_DeleteOptionTable` for the table at the address
`tablePtr`: the registry it leaves, `none` when it runs out of fuel or reads a
table that is not there. -/
def Registry.release (fuel : Nat) (tablePtr : Nat) (reg : Registry) : Option Registry :=
  match Tk_DeleteOptionTable fuel reg tablePtr with
  | some (.done reg1 _) => some reg1
  | _ => none

/-- A template with the option `-text` that chains to the template of
`-bd` and `-borderwidth`. -/
def chainedTemplate : TemplateChain :=
  { addr := 2, specs := [stringSpec "-text"] } :: borderTemplate

/-- The conversion to `int` (32 bits, two's complement). -/
def castInt (v : Int) : Int := (v + 2147483648) % 4294967296 - 2147483648

/-- What `TkParsePadAmount` uses of `tkObj.c` and of Tcl: the type of the
pixel objects, `Tk_GetPixelsFromObj` (`none` when it returns `TCL_ERROR`) and
`Tcl_ListObjGetElements` (`none` when the string is no list). -/
structure PadEnv where
  pixelObjType : ObjTypeTag
  Tk_GetPixelsFromObj : Tk_Window → Tcl_Obj → Option Int
  Tcl_ListObjGetElements : Tcl_Obj → Option (List Tcl_Obj)

/-- How `TkParsePadAmount` ends: with `TCL_OK`, the word at `halfPtr` (`none`
when the pointer is `NULL`) and the word at `allPtr`; or with `TCL_ERROR`. -/
inductive PadResult
  | ok (halfPtr : Option Int) (allPtr : Int)
  | error
  deriving DecidableEq

/-- The function `TkParsePadAmount`.  `halfPtr` is the word the pointer
`halfPtr` points to (`none` for `NULL`). -/
def TkParsePadAmount (env : PadEnv) (tkwin : Tk_Window) (specObj : Tcl_Obj)
    (halfPtr : Option Int) : PadResult :=
  let done (firstInt secondInt : Int) : PadResult :=
    .ok (halfPtr.map fun _ => firstInt) (castInt (firstInt + secondInt))
  if specObj.typePtr = env.pixelObjType then
    match env.Tk_GetPixelsFromObj tkwin specObj with
    | none => .error
    | some firstInt => done firstInt firstInt
  else
    match env.Tcl_ListObjGetElements specObj with
    | none => .error
    | some objv =>
      if objv.length ≠ 1 ∧ objv.length ≠ 2 then .error
      else
        match objv[0]? with
        | none => .error
        | some first =>
          match env.Tk_GetPixelsFromObj tkwin first with
          | none => .error
          | some firstInt =>
            if firstInt < 0 then .error
            else if objv.length = 1 then done firstInt firstInt
            else
              match objv[1]? with
              | none => .error
              | some second =>
                match env.Tk_GetPixelsFromObj tkwin second with
                | none => .error
                | some secondInt =>
                  if secondInt < 0 then .error else done firstInt secondInt

/-- The words of a string, separated by spaces. -/
def splitWords : CString → CString → List CString
  | [], [] => []
  | [], word => [word.reverse]
  | c :: rest, word =>
    if c = ' ' then
      if word = [] then splitWords rest [] else word.reverse :: splitWords rest []
    else splitWords rest (c :: word)

/-- An example of the environment of `TkParsePadAmount`: distances are
decimal integers, the elements of a list are separated by spaces. -/
def examplePadEnv : PadEnv :=
  { pixelObjType := .other 1,
    Tk_GetPixelsFromObj := fun _ o => parseInt o.bytes,
    Tcl_ListObjGetElements := fun o => some ((splitWords o.bytes []).map Tcl_NewStringObj) }

/-- The macro `MAX_WORD_LENGTH` of `tkImgBmap.c`. -/
def MAX_WORD_LENGTH : Nat := 100

/-- The function `isspace` on a byte, in the C locale: space, tab, newline,
vertical tab, form feed, carriage return. -/
def isspace (c : Char) : Bool :=
  c.toNat = 32 || (9 ≤ c.toNat && c.toNat ≤ 13)

/-- The first loop of `NextBitmapWord` (string case): skip white space and
commas.  The end of the list is the terminating `NUL`. -/
def NextBitmapWord.skip : CString → CString
  | [] => []
  | c :: src => if isspace c || c = ',' then NextBitmapWord.skip src else c :: src

/-- The second loop of `NextBitmapWord` (string case): copy the word, up to
white space, a comma or the end of the string; `wordLength` is the number of
bytes copied so far, and `none` is the `return TCL_ERROR` of a word longer
than `MAX_WORD_LENGTH`.  The result is the word and the rest of the string. -/
def NextBitmapWord.copy : CString → Nat → Option (CString × CString)
  | [], _ => some ([], [])
  | c :: src, wordLength =>
    if !isspace c && c != ',' then
      if wordLength + 1 > MAX_WORD_LENGTH then none
      else (NextBitmapWord.copy src (wordLength + 1)).map fun r => (c :: r.1, r.2)
    else some ([], c :: src)

/-- The function `NextBitmapWord` for a description given as a string: the
next word and the string after it (`parseInfoPtr->string`), or `none` for
`TCL_ERROR` (no word is left, or the word is too long). -/
def NextBitmapWord (string : CString) : Option (CString × CString) :=
  match NextBitmapWord.copy (NextBitmapWord.skip string) 0 with
  | none => none
  | some (word, src) => if word.length = 0 then none else some (word, src)

/-- The words that successive calls of `NextBitmapWord` return, up to the
first call that returns `TCL_ERROR`; at most `fuel` words. -/
def bitmapWords.go : Nat → CString → List CString
  | 0, _ => []
  | fuel + 1, string =>
    match NextBitmapWord string with
    | none => []
    | some (word, src) => word :: bitmapWords.go fuel src

/-- The words of a bitmap description: what successive calls of
`NextBitmapWord` return until one returns `TCL_ERROR`.  A string has no more
words than bytes. -/
def bitmapWords (string : CString) : List CString :=
  bitmapWords.go string.length string

/-- What `TkGetBitmapData` uses of the C library: `strtol(word, &end, 0)`,
given as the value returned and the number of bytes parsed, `end - word`. -/
structure BitmapEnv where
  strtol : CString → Int × Nat

/-- The test `(wordLength >= n) && (word[wordLength-n] == '_') &&
(strcmp(word+wordLength-n, suffix) == 0)` for a suffix of `n` bytes that
starts with `_`. -/
def hasSuffix (word suffix : CString) : Bool :=
  decide (suffix.length ≤ word.length) &&
    decide (word.drop (word.length - suffix.length) = suffix)

/-- The statements `x = strtol(pi.word, &end, 0); if ((end == pi.word) ||
(*end != 0)) goto error;` for a variable `x` of type `int`: `none` is
`goto error`. -/
def TkGetBitmapData.value (env : BitmapEnv) (word : CString) : Option Int :=
  if (env.strtol word).2 = 0 ∨ (env.strtol word).2 ≠ word.length then none
  else some (castInt (env.strtol word).1)

/-- The variables `width`, `height`, `hotX` and `hotY` of `TkGetBitmapData`. -/
structure BitmapDims where
  width : Int
  height : Int
  hotX : Int
  hotY : Int

/-- How the first loop of `TkGetBitmapData` ends: at `getData` with the words
still to be read and the dimensions, at `error`, or at `errorCleanup` (the
description looks like an X10 bitmap). -/
inductive HeaderEnd
  | getData (pi : List CString) (dims : BitmapDims)
  | error
  | errorCleanup

/-- The loop of `TkGetBitmapData` that follows the word `char`: read words up
to the word `{`; `none` is `goto error`. -/
def TkGetBitmapData.toBrace : List CString → Option (List CString)
  | [] => none
  | word :: pi => if word = "\x7b".toList then some pi else TkGetBitmapData.toBrace pi

/-- The four variables that a line `#define` of the description sets. -/
inductive DimName
  | width
  | height
  | hotX
  | hotY
  deriving DecidableEq

/-- The suffix of the words that name the variable. -/
def DimName.suffix : DimName → CString
  | .width => "_width".toList
  | .height => "_height".toList
  | .hotX => "_x_hot".toList
  | .hotY => "_y_hot".toList

/-- The variable of the name. -/
def BitmapDims.get (dims : BitmapDims) : DimName → Int
  | .width => dims.width
  | .height => dims.height
  | .hotX => dims.hotX
  | .hotY => dims.hotY

/-- The assignment to the variable of the name. -/
def BitmapDims.set (dims : BitmapDims) : DimName → Int → BitmapDims
  | .width, v => { dims with width := v }
  | .height, v => { dims with height := v }
  | .hotX, v => { dims with hotX := v }
  | .hotY, v => { dims with hotY := v }

/-- The tests of the first loop of `TkGetBitmapData` on the suffix of the
word, in their order: the variable that the word names, if any. -/
def TkGetBitmapData.dimOf (word : CString) : Option DimName :=
  if hasSuffix word "_width".toList then some .width
  else if hasSuffix word "_height".toList then some .height
  else if hasSuffix word "_x_hot".toList then some .hotX
  else if hasSuffix word "_y_hot".toList then some .hotY
  else none

/-- The first loop of `TkGetBitmapData`, which reads the lines that define the
dimensions.  The state `pi` of the parser is given as the words that
`NextBitmapWord` is still to return. -/
def TkGetBitmapData.header (env : BitmapEnv) : List CString → BitmapDims → HeaderEnd
  | [], _ => .error
  | word :: pi, dims =>
    match TkGetBitmapData.dimOf word with
    | some name =>
      match pi with
      | [] => .error
      | value :: pi2 =>
        match TkGetBitmapData.value env value with
        | none => .error
        | some v => TkGetBitmapData.header env pi2 (dims.set name v)
    | none =>
      if word = "char".toList then
        match TkGetBitmapData.toBrace pi with
        | none => .error
        | some pi2 => .getData pi2 dims
      else if word = "\x7b".toList then .errorCleanup
      else TkGetBitmapData.header env pi dims

/-- The byte that `*p = (char) strtol(pi.word, &end, 0)` stores, as an
unsigned value: the low 8 bits of the number. -/
def TkGetBitmapData.byte (env : BitmapEnv) (word : CString) : Nat :=
  ((env.strtol word).1 % 256).toNat

/-- The loop `for (p = data; numBytes > 0; p++, numBytes--)` of
`TkGetBitmapData`: the bytes stored, or `none` for `goto error`. -/
def TkGetBitmapData.readData (env : BitmapEnv) : Nat → List CString → Option (List Nat)
  | 0, _ => some []
  | _ + 1, [] => none
  | numBytes + 1, word :: pi =>
    if (env.strtol word).2 = 0 then none
    else (TkGetBitmapData.readData env numBytes pi).map fun data =>
      TkGetBitmapData.byte env word :: data

/-- How `TkGetBitmapData` ends: with the array of bytes and the words stored
at `widthPtr`, `heightPtr`, `hotXPtr` and `hotYPtr`; with `NULL`; or in the
`Tcl_Panic` of `ckalloc` for a size that is negative as an `int`. -/
inductive BitmapResult
  | ok (data : List Nat) (width height hotX hotY : Int)
  | NULL
  | panic
  deriving DecidableEq

/-- The computation `((width+7)/8) * height` in `int`. -/
def TkGetBitmapData.numBytes (dims : BitmapDims) : Int :=
  castInt ((castInt (dims.width + 7)).tdiv 8 * dims.height)

/-- The function `TkGetBitmapData` for a description given as a string
(`string != NULL`). -/
def TkGetBitmapData (env : BitmapEnv) (string : CString) : BitmapResult :=
  match TkGetBitmapData.header env (bitmapWords string)
      { width := 0, height := 0, hotX := -1, hotY := -1 } with
  | .error => .NULL
  | .errorCleanup => .NULL
  | .getData pi dims =>
    if dims.width ≤ 0 ∨ dims.height ≤ 0 then .NULL
    else if TkGetBitmapData.numBytes dims < 0 then .panic
    else
      match TkGetBitmapData.readData env (TkGetBitmapData.numBytes dims).toNat pi with
      | none => .NULL
      | some data => .ok data dims.width dims.height dims.hotX dims.hotY

/-- The value of the longest prefix of the string that is made of digits of
the base, and the length of that prefix. -/
def digitsPrefix (base : Nat) : CString → Nat → Nat → Nat × Nat
  | [], acc, n => (acc, n)
  | c :: rest, acc, n =>
    let d : Nat :=
      if '0' ≤ c ∧ c ≤ '9' then c.toNat - '0'.toNat
      else if 'a' ≤ c ∧ c ≤ 'f' then c.toNat - 'a'.toNat + 10
      else 16
    if d < base then digitsPrefix base rest (acc * base + d) (n + 1) else (acc, n)

/-- An example of `strtol` with base 0 for words that are numbers without a
sign: hexadecimal after `0x`, decimal otherwise. -/
def exampleStrtol (word : CString) : Int × Nat :=
  match word with
  | '0' :: 'x' :: rest =>
    if (digitsPrefix 16 rest 0 0).2 = 0 then (0, 1)
    else ((digitsPrefix 16 rest 0 0).1, (digitsPrefix 16 rest 0 0).2 + 2)
  | _ => ((digitsPrefix 10 word 0 0).1, (digitsPrefix 10 word 0 0).2)

/-- The example environment of `TkGetBitmapData`. -/
def exampleBitmapEnv : BitmapEnv := { strtol := exampleStrtol }

/-- A bitmap of 9 by 2 pixels with the hot spot (3, 1). -/
def smallBitmap : CString :=
  "#define a_width 9\n#define a_height 2\n#define a_x_hot 3\n#define a_y_hot 1\nstatic char a_bits[] = \x7b\n 0x01, 0x1ff, 0x03, 4\x7d;".toList

/-- A description that declares 524288 by 65536 pixels and has no data. -/
def hugeBitmap : CString :=
  "#define a_width 524288\n#define a_height 65536\nstatic char a_bits[] = \x7b\n\x7d;".toList

/-- A description that declares a width of 4294967304 pixels. -/
def wideBitmap : CString :=
  "#define a_width 4294967304\n#define a_height 1\nstatic char a_bits[] = \x7b\n 0x01\x7d;".toList

/-- A line of the words `header` gives the value `v` to the variable `name`:
a word with the suffix of the variable is followed by a word that `strtol`
parses to its end, and `v` is the number parsed, converted to `int`. -/
def Declared (env : BitmapEnv) (header : List CString) (name : DimName) (v : Int) : Prop :=
  ∃ i word value, header[i]? = some word ∧ header[i + 1]? = some value ∧
    hasSuffix word name.suffix = true ∧ (env.strtol value).2 ≠ 0 ∧
    (env.strtol value).2 = value.length ∧ v = castInt (env.strtol value).1

/-- The index option `-underline`: null allowed, value pointer at offset 0,
internal form at offset 8. -/
def underlineSpec : Tk_OptionSpec :=
  { type := TK_OPTION_INDEX, optionName := "-underline".toList,
    dbName := some "underline".toList, dbClass := some "Underline".toList,
    defValue := none, objOffset := some 0, internalOffset := some 8, flags := 32,
    clientData := .NULL, typeMask := 0 }

/-- The entry of the option `-underline` in a table. -/
def underlineOption : TkOption :=
  { specPtr := underlineSpec, dbNameUID := some "underline".toList,
    dbClassUID := some "Underline".toList, defaultPtr := none, extra := .monoColorPtr none,
    flags := 0 }

/-- The entry of an index option `-active` that does not allow null and is
stored only in internal form, at offset 8. -/
def activeOption : TkOption :=
  { specPtr :=
      { type := TK_OPTION_INDEX, optionName := "-active".toList, dbName := none,
        dbClass := none, defValue := none, objOffset := TCL_INDEX_NONE,
        internalOffset := some 8, flags := 0, clientData := .NULL, typeMask := 0 },
    dbNameUID := none, dbClassUID := none, defaultPtr := none, extra := .monoColorPtr none,
    flags := 0 }

/-- The example environment with a `Tcl_GetIntForIndex` that reads a decimal
number of any size and rejects every other string, the empty one included. -/
def indexEnv : Env := { exampleEnv with Tcl_GetIntForIndex := fun o _ => parseInt o.bytes }

/-- A record whose internal form at offset 8 is the integer `v`, with no value
pointers. -/
def indexRecord (v : Int) : Record :=
  { objs := fun _ => none, internals := fun off => if off = 8 then .int v else .int 0 }

/-- The null value of an integer option as an internal form: `LONG_MIN` where
the flags select a `long`, `INT_MIN` otherwise. -/
def intNull (specPtr : Tk_OptionSpec) : Int :=
  if specPtr.flags &&& TYPE_MASK = TYPE_MASK then LONG_MIN else INT_MIN

/-- A specification that holds the pixel representation (`typePtr` is the
pixel object type of `examplePadEnv`) and whose string is `s`. -/
def pixelObj (s : String) : Tcl_Obj :=
  { bytes := s.toList, typePtr := .other 1, ptr1 := 0, ptr2 := (0, 0) }

/-- The entries `log` are what applying the pairs of name and value of `objv`
one after the other, starting from the record `r` and ending with the record
`rEnd`, saves: one entry for each pair, in the order of the pairs, and the
entry of a pair holds the canonical entry of the name of the pair, the value
pointer that the record held for that option just before `DoObjConfig` applied
the pair and, for every type but `TK_OPTION_CUSTOM`, the internal form it held
then. -/
def SavedInOrder (env : Env) (chain : TableChain) (tkwin : Tk_Window) :
    List Tcl_Obj → Record → List Tk_SavedOption → Record → Prop
  | [], r, log, rEnd => log = [] ∧ rEnd = r
  | [_], _, _, _ => False
  | name :: value :: rest, r, log, rEnd =>
    ∃ o r1 saved e tail,
      canonicalOption chain name = some o ∧
      DoObjConfig env r o value tkwin true = .ok r1 saved e ∧
      log = saved :: tail ∧ saved.optionPtr = o ∧
      saved.valuePtr = r.objAt o.specPtr.objOffset ∧
      (o.specPtr.type ≠ TK_OPTION_CUSTOM →
        ∀ x, o.specPtr.internalOffset = some x → saved.internalForm = r.internals x) ∧
      SavedInOrder env chain tkwin rest r1 tail rEnd

/-- Every node of the log but the last holds exactly `n` entries, and the
last holds at most `n`. -/
def NodesFull (n : Nat) : SavePtr → Prop
  | [] => True
  | [lastSavePtr] => lastSavePtr.items.length ≤ n
  | savePtr :: next :: rest => savePtr.items.length = n ∧ NodesFull n (next :: rest)

/-- The array `bit_reverse` of `ImgBmapPsImagemask` in `tkImgBmap.c`. -/
def bit_reverse : List Nat :=
  [  0, 128,  64, 192,  32, 160,  96, 224,  16, 144,  80, 208,  48, 176, 112, 240,
     8, 136,  72, 200,  40, 168, 104, 232,  24, 152,  88, 216,  56, 184, 120, 248,
     4, 132,  68, 196,  36, 164, 100, 228,  20, 148,  84, 212,  52, 180, 116, 244,
    12, 140,  76, 204,  44, 172, 108, 236,  28, 156,  92, 220,  60, 188, 124, 252,
     2, 130,  66, 194,  34, 162,  98, 226,  18, 146,  82, 210,  50, 178, 114, 242,
    10, 138,  74, 202,  42, 170, 106, 234,  26, 154,  90, 218,  58, 186, 122, 250,
     6, 134,  70, 198,  38, 166, 102, 230,  22, 150,  86, 214,  54, 182, 118, 246,
    14, 142,  78, 206,  46, 174, 110, 238,  30, 158,  94, 222,  62, 190, 126, 254,
     1, 129,  65, 193,  33, 161,  97, 225,  17, 145,  81, 209,  49, 177, 113, 241,
     9, 137,  73, 201,  41, 169, 105, 233,  25, 153,  89, 217,  57, 185, 121, 249,
     5, 133,  69, 197,  37, 165, 101, 229,  21, 149,  85, 213,  53, 181, 117, 245,
    13, 141,  77, 205,  45, 173, 109, 237,  29, 157,  93, 221,  61, 189, 125, 253,
     3, 131,  67, 195,  35, 163,  99, 227,  19, 147,  83, 211,  51, 179, 115, 243,
    11, 139,  75, 203,  43, 171, 107, 235,  27, 155,  91, 219,  59, 187, 123, 251,
     7, 135,  71, 199,  39, 167, 103, 231,  23, 151,  87, 215,  55, 183, 119, 247,
    15, 143,  79, 207,  47, 175, 111, 239,  31, 159,  95, 223,  63, 191, 127, 255]

/-- The byte `bit_reverse[0xff & c]` that `ImgBmapPsImagemask` writes for the
byte `c` of the data of the bitmap. -/
def ImgBmapPsImagemask.byte (c : Int) : Nat :=
  bit_reverse.getD (c % 256).toNat 0

/-! ## Theorems -/

theorem compareName_exact_iff (n s : CString) : compareName n s = .exact ↔ n = s := by
  induction n generalizing s with
  | nil => cases s <;> simp [compareName]
  | cons c n ih =>
    cases s with
    | nil => simp [compareName]
    | cons d s =>
      by_cases h : c = d
      · simp [compareName, h, ih]
      · simp [compareName, h]

theorem compareName_abbrev_iff (n s : CString) :
    compareName n s = .abbreviation ↔ n <+: s ∧ n ≠ s := by
  induction n generalizing s with
  | nil => cases s <;> simp [compareName]
  | cons c n ih =>
    cases s with
    | nil => simp [compareName]
    | cons d s =>
      by_cases h : c = d
      · simp [compareName, h, ih, List.cons_prefix_cons]
      · simp [compareName, h, List.cons_prefix_cons]

theorem compareName_differ_iff (n s : CString) :
    compareName n s = .differ ↔ ¬ n <+: s := by
  induction n generalizing s with
  | nil => cases s <;> simp [compareName]
  | cons c n ih =>
    cases s with
    | nil => simp [compareName]
    | cons d s =>
      by_cases h : c = d
      · simp [compareName, h, ih, List.cons_prefix_cons]
      · simp [compareName, h, List.cons_prefix_cons]

theorem scanTable_eq (name : CString) (t : Nat) (opts : List TkOption) (i : Nat)
    (best : Option (OptionPtr × CString)) (rest : List (OptionPtr × CString)) :
    (match GetOption.scanTable name t opts i best with
      | .returned r => r
      | .running b => scanEntries name rest b)
      = scanEntries name (tableEntries t opts i ++ rest) best := by
  induction opts generalizing i best with
  | nil => simp [GetOption.scanTable, tableEntries]
  | cons o opts ih =>
    simp only [GetOption.scanTable, tableEntries, List.cons_append, scanEntries]
    cases hc : compareName name o.specPtr.optionName with
    | exact => simp
    | differ => simpa using ih (i + 1) best
    | abbreviation =>
      cases best with
      | none => simpa using ih (i + 1) _
      | some b =>
        obtain ⟨b, bname⟩ := b
        by_cases hb : bname = o.specPtr.optionName
        · simpa [hb] using ih (i + 1) _
        · simp [hb]

theorem scanChain_eq (name : CString) (chain : TableChain) (t : Nat)
    (best : Option (OptionPtr × CString)) :
    GetOption.scanChain name chain t best
      = scanEntries name (chainEntriesFrom chain t) best := by
  induction chain generalizing t best with
  | nil => simp [GetOption.scanChain, chainEntriesFrom, scanEntries]
  | cons tbl chain ih =>
    simp only [GetOption.scanChain, chainEntriesFrom]
    rw [← scanTable_eq]
    cases GetOption.scanTable name t tbl.options 0 best with
    | returned r => rfl
    | running b => simpa using ih (t + 1) b

/-- The search of `GetOption` is the search over the entries of the chain in
chain order. -/
theorem GetOption_eq_scanEntries (name : CString) (chain : TableChain) :
    GetOption name chain = scanEntries name (chainEntries chain) none :=
  scanChain_eq name chain 0 none

theorem scanEntries_same (name : CString) (L : List (OptionPtr × CString))
    (b : OptionPtr) (bn : CString)
    (hne : ∀ e ∈ L, e.2 ≠ name)
    (hsame : ∀ e ∈ L, name <+: e.2 → e.2 = bn) :
    scanEntries name L (some (b, bn)) = some b := by
  induction L with
  | nil => simp [scanEntries]
  | cons e L ih =>
    obtain ⟨p, s⟩ := e
    have ih' := ih (fun e he => hne e (List.mem_cons_of_mem _ he))
      (fun e he => hsame e (List.mem_cons_of_mem _ he))
    simp only [scanEntries]
    cases hc : compareName name s with
    | exact =>
      exact absurd ((compareName_exact_iff _ _).1 hc).symm (hne (p, s) (List.mem_cons_self _ _))
    | differ => simpa using ih'
    | abbreviation =>
      have hs : s = bn := hsame (p, s) (List.mem_cons_self _ _)
        ((compareName_abbrev_iff _ _).1 hc).1
      simpa [hs] using ih'

theorem scanEntries_unique (name : CString) (L : List (OptionPtr × CString))
    (hne : ∀ e ∈ L, e.2 ≠ name)
    (hsame : ∀ e1 ∈ L, ∀ e2 ∈ L, name <+: e1.2 → name <+: e2.2 → e1.2 = e2.2) :
    scanEntries name L none
      = (L.find? (fun e => decide (name <+: e.2))).map Prod.fst := by
  induction L with
  | nil => simp [scanEntries]
  | cons e L ih =>
    obtain ⟨p, s⟩ := e
    have ih' := ih (fun e he => hne e (List.mem_cons_of_mem _ he))
      (fun e1 h1 e2 h2 => hsame e1 (List.mem_cons_of_mem _ h1) e2 (List.mem_cons_of_mem _ h2))
    simp only [scanEntries]
    cases hc : compareName name s with
    | exact =>
      exact absurd ((compareName_exact_iff _ _).1 hc).symm (hne (p, s) (List.mem_cons_self _ _))
    | differ =>
      have hp : ¬ name <+: s := (compareName_differ_iff _ _).1 hc
      simpa [List.find?, hp] using ih'
    | abbreviation =>
      have hp : name <+: s := ((compareName_abbrev_iff _ _).1 hc).1
      have := scanEntries_same name L p s (fun e he => hne e (List.mem_cons_of_mem _ he))
        (fun e he hpe => hsame e (List.mem_cons_of_mem _ he) (p, s) (List.mem_cons_self _ _) hpe hp)
      simpa [List.find?, hp] using this

theorem scanEntries_clash (name : CString) (L : List (OptionPtr × CString))
    (b : OptionPtr) (bn : CString)
    (hne : ∀ e ∈ L, e.2 ≠ name)
    (hdiff : ∃ e ∈ L, name <+: e.2 ∧ e.2 ≠ bn) :
    scanEntries name L (some (b, bn)) = none := by
  induction L with
  | nil => simp at hdiff
  | cons e L ih =>
    obtain ⟨p, s⟩ := e
    have hne' : ∀ e ∈ L, e.2 ≠ name := fun e he => hne e (List.mem_cons_of_mem _ he)
    simp only [scanEntries]
    cases hc : compareName name s with
    | exact =>
      exact absurd ((compareName_exact_iff _ _).1 hc).symm (hne (p, s) (List.mem_cons_self _ _))
    | differ =>
      have hp : ¬ name <+: s := (compareName_differ_iff _ _).1 hc
      obtain ⟨e, he, hpe, hd⟩ := hdiff
      rcases List.mem_cons.1 he with rfl | he
      · exact absurd hpe hp
      · simpa using ih hne' ⟨e, he, hpe, hd⟩
    | abbreviation =>
      by_cases hs : bn = s
      · obtain ⟨e, he, hpe, hd⟩ := hdiff
        rcases List.mem_cons.1 he with rfl | he
        · exact absurd hs.symm hd
        · simpa [hs] using ih hne' ⟨e, he, hpe, hs ▸ hd⟩
      · simp [hs]

theorem scanEntries_ambiguous (name : CString) (L : List (OptionPtr × CString))
    (hne : ∀ e ∈ L, e.2 ≠ name)
    (hdiff : ∃ e1 ∈ L, ∃ e2 ∈ L, name <+: e1.2 ∧ name <+: e2.2 ∧ e1.2 ≠ e2.2) :
    scanEntries name L none = none := by
  induction L with
  | nil => simp at hdiff
  | cons e L ih =>
    obtain ⟨p, s⟩ := e
    have hne' : ∀ e ∈ L, e.2 ≠ name := fun e he => hne e (List.mem_cons_of_mem _ he)
    obtain ⟨e1, h1, e2, h2, hp1, hp2, hd⟩ := hdiff
    simp only [scanEntries]
    cases hc : compareName name s with
    | exact =>
      exact absurd ((compareName_exact_iff _ _).1 hc).symm (hne (p, s) (List.mem_cons_self _ _))
    | differ =>
      have hp : ¬ name <+: s := (compareName_differ_iff _ _).1 hc
      rcases List.mem_cons.1 h1 with rfl | h1
      · exact absurd hp1 hp
      rcases List.mem_cons.1 h2 with rfl | h2
      · exact absurd hp2 hp
      simpa using ih hne' ⟨e1, h1, e2, h2, hp1, hp2, hd⟩
    | abbreviation =>
      show scanEntries name L (some (p, s)) = none
      apply scanEntries_clash name L p s hne'
      by_cases hs1 : e1.2 = s
      · by_cases hs2 : e2.2 = s
        · exact absurd (hs1.trans hs2.symm) hd
        · rcases List.mem_cons.1 h2 with rfl | h2
          · exact absurd rfl hs2
          · exact ⟨e2, h2, hp2, hs2⟩
      · rcases List.mem_cons.1 h1 with rfl | h1
        · exact absurd rfl hs1
        · exact ⟨e1, h1, hp1, hs1⟩

theorem scanEntries_noPrefix (name : CString) (L : List (OptionPtr × CString))
    (best : Option (OptionPtr × CString))
    (hno : ∀ e ∈ L, ¬ name <+: e.2) :
    scanEntries name L best = best.map Prod.fst := by
  induction L with
  | nil => simp [scanEntries]
  | cons e L ih =>
    obtain ⟨p, s⟩ := e
    have hc : compareName name s = .differ :=
      (compareName_differ_iff _ _).2 (hno (p, s) (List.mem_cons_self _ _))
    simpa [scanEntries, hc] using ih (fun e he => hno e (List.mem_cons_of_mem _ he))

theorem findSynonym_some (target : Option CString) (specs : List Tk_OptionSpec) (i j : Nat)
    (h : findSynonym target specs i = some j) :
    i ≤ j ∧ IsFirstNamed specs target (j - i) := by
  induction specs generalizing i with
  | nil => simp [findSynonym] at h
  | cons s specs ih =>
    simp only [findSynonym] at h
    by_cases hs : some s.optionName = target
    · simp only [hs, if_true, Option.some.injEq] at h
      subst h
      refine ⟨le_refl _, ⟨s, by simp, hs⟩, ?_⟩
      intro k hk
      simp at hk
    · simp only [hs, if_false] at h
      obtain ⟨hle, ⟨s', hs', hn⟩, hfirst⟩ := ih (i + 1) h
      have hj : j - i = (j - (i + 1)) + 1 := by omega
      refine ⟨by omega, ⟨s', ?_, hn⟩, ?_⟩
      · rw [hj]; simpa using hs'
      · intro k hk s'' hk'
        cases k with
        | zero =>
          simp at hk'
          subst hk'
          exact hs
        | succ k =>
          simp at hk'
          exact hfirst k (by omega) s'' hk'

theorem findSynonym_none_iff (target : Option CString) (specs : List Tk_OptionSpec) (i : Nat) :
    findSynonym target specs i = none ↔ ∀ s ∈ specs, some s.optionName ≠ target := by
  induction specs generalizing i with
  | nil => simp [findSynonym]
  | cons s specs ih =>
    by_cases hs : some s.optionName = target
    · simp [findSynonym, hs]
    · simp [findSynonym, hs, ih]

theorem initOption_none_iff (T : List Tk_OptionSpec) (s : Tk_OptionSpec) :
    initOption T s = none ↔ BadSynonym T s := by
  unfold initOption BadSynonym
  by_cases ht : s.type = TK_OPTION_SYNONYM
  · simp only [ht, if_true, true_and]
    rw [← findSynonym_none_iff _ T 0]
    cases findSynonym s.clientData.asString T 0 <;> simp
  · simp [ht]

theorem initOption_specPtr (T : List Tk_OptionSpec) (s : Tk_OptionSpec) (o : TkOption)
    (h : initOption T s = some o) : o.specPtr = s := by
  unfold initOption at h
  by_cases ht : s.type = TK_OPTION_SYNONYM
  · simp only [ht, if_true] at h
    cases hf : findSynonym s.clientData.asString T 0 with
    | none => simp [hf] at h
    | some i =>
      simp only [hf, Option.some.injEq] at h
      rw [← h]
  · simp only [ht, if_false, Option.some.injEq] at h
    rw [← h]

theorem initOption_synonym (T : List Tk_OptionSpec) (s : Tk_OptionSpec) (o : TkOption)
    (h : initOption T s = some o) (ht : s.type = TK_OPTION_SYNONYM) :
    ∃ j, o.extra = .synonymPtr j ∧ IsFirstNamed T s.clientData.asString j := by
  unfold initOption at h
  simp only [ht, if_true] at h
  cases hf : findSynonym s.clientData.asString T 0 with
  | none => simp [hf] at h
  | some i =>
    simp only [hf, Option.some.injEq] at h
    refine ⟨i, by rw [← h], ?_⟩
    simpa using (findSynonym_some _ _ _ _ hf).2

theorem initOptions_none_iff (T specs : List Tk_OptionSpec) :
    initOptions T specs = none ↔ ∃ s ∈ specs, BadSynonym T s := by
  induction specs with
  | nil => simp [initOptions]
  | cons s specs ih =>
    simp only [initOptions, List.mem_cons, exists_eq_or_imp, ← ih]
    rw [← initOption_none_iff]
    cases initOption T s with
    | none => simp
    | some o => cases initOptions T specs <;> simp

theorem initOptions_forall₂ (T specs : List Tk_OptionSpec) (os : List TkOption)
    (h : initOptions T specs = some os) :
    List.Forall₂ (fun s o => initOption T s = some o) specs os := by
  induction specs generalizing os with
  | nil =>
    simp [initOptions] at h
    subst h
    exact List.Forall₂.nil
  | cons s specs ih =>
    simp only [initOptions] at h
    cases ho : initOption T s with
    | none => simp [ho] at h
    | some o =>
      cases hos : initOptions T specs with
      | none => simp [ho, hos] at h
      | some os' =>
        simp only [ho, hos, Option.some.injEq] at h
        subst h
        exact List.Forall₂.cons ho (ih os' hos)

theorem builtTemplates_set (reg : Registry) (a : Nat) (x : Option OptionTable)
    (chain : TemplateChain) (ha : a ∉ chain.map Template.addr) :
    builtTemplates (reg.set a x) chain = builtTemplates reg chain := by
  induction chain with
  | nil => rfl
  | cons t chain ih =>
    simp only [List.map_cons, List.mem_cons, not_or] at ha
    have hta : t.addr ≠ a := fun h => ha.1 h.symm
    have ih' := ih ha.2
    simp only [builtTemplates, Registry.set] at ih' ⊢
    simp only [List.takeWhile_cons, if_neg hta, ih']

theorem Tk_CreateOptionTable_ptr (reg reg1 : Registry) (t : Template) (chain : TemplateChain)
    (p : Nat) (h : Tk_CreateOptionTable reg (t :: chain) = .ok reg1 p) : p = t.addr := by
  unfold Tk_CreateOptionTable at h
  cases hr : reg t.addr with
  | some tbl => simp only [hr] at h; cases h; rfl
  | none =>
    simp only [hr] at h
    cases ho : initOptions t.specs t.specs with
    | none => simp [ho] at h
    | some opts =>
      simp only [ho] at h
      cases chain with
      | nil => cases h; rfl
      | cons t2 chain =>
        simp only at h
        split at h
        · cases h; rfl
        · cases h
        · cases h

theorem Tk_CreateOptionTable_frame (reg reg1 : Registry) (chain : TemplateChain) (p : Nat)
    (h : Tk_CreateOptionTable reg chain = .ok reg1 p) (a : Nat)
    (ha : a ∉ chain.map Template.addr) : reg1 a = reg a := by
  induction chain generalizing reg reg1 p with
  | nil => simp [Tk_CreateOptionTable] at h
  | cons t chain ih =>
    simp only [List.map_cons, List.mem_cons, not_or] at ha
    unfold Tk_CreateOptionTable at h
    cases hr : reg t.addr with
    | some tbl =>
      simp only [hr] at h
      cases h
      simp [Registry.set, ha.1]
    | none =>
      simp only [hr] at h
      cases ho : initOptions t.specs t.specs with
      | none => simp [ho] at h
      | some opts =>
        simp only [ho] at h
        cases chain with
        | nil =>
          cases h
          simp [Registry.set, ha.1]
        | cons t2 chain =>
          simp only at h
          split at h
          · rename_i reg2 nextPtr hrec
            cases h
            have := ih _ _ _ hrec ha.2
            simp [Registry.set, ha.1] at this ⊢
            exact this
          · cases h
          · cases h

theorem Tk_CreateOptionTable_not_null (reg : Registry) (chain : TemplateChain)
    (hne : chain ≠ []) : Tk_CreateOptionTable reg chain ≠ .nullTemplate := by
  induction chain generalizing reg with
  | nil => exact absurd rfl hne
  | cons t chain ih =>
    unfold Tk_CreateOptionTable
    cases hr : reg t.addr with
    | some tbl => simp
    | none =>
      cases ho : initOptions t.specs t.specs with
      | none => simp
      | some opts =>
        cases chain with
        | nil => simp
        | cons t2 chain =>
          have := ih (reg.set t.addr (some
            { refCount := 1, hashEntryPtr := t.addr, nextPtr := none, options := opts }))
            (by simp)
          simp only
          split
          · simp
          · simp
          · rename_i hrec
            exact absurd hrec this

theorem mem_builtTemplates_addr (reg : Registry) (chain : TemplateChain) (t : Template)
    (h : t ∈ builtTemplates reg chain) : t.addr ∈ chain.map Template.addr :=
  List.mem_map_of_mem _ ((List.takeWhile_sublist _).subset h)

theorem Tk_CreateOptionTable_panic_iff (reg : Registry) (chain : TemplateChain)
    (hnodup : (chain.map Template.addr).Nodup) :
    Tk_CreateOptionTable reg chain = .panic ↔
      ∃ t ∈ builtTemplates reg chain, ∃ s ∈ t.specs, BadSynonym t.specs s := by
  induction chain generalizing reg with
  | nil => simp [Tk_CreateOptionTable, builtTemplates]
  | cons t chain ih =>
    simp only [List.map_cons, List.nodup_cons] at hnodup
    unfold Tk_CreateOptionTable
    cases hr : reg t.addr with
    | some tbl => simp [builtTemplates, List.takeWhile_cons, hr]
    | none =>
      have hb : builtTemplates reg (t :: chain) = t :: builtTemplates reg chain := by
        simp [builtTemplates, List.takeWhile_cons, hr]
      rw [hb]
      simp only [List.mem_cons, exists_eq_or_imp, ← initOptions_none_iff]
      cases ho : initOptions t.specs t.specs with
      | none => simp
      | some opts =>
        cases chain with
        | nil => simp [builtTemplates]
        | cons t2 chain =>
          have ih' := ih (reg.set t.addr (some
            { refCount := 1, hashEntryPtr := t.addr, nextPtr := none, options := opts }))
            hnodup.2
          rw [builtTemplates_set _ _ _ _ hnodup.1] at ih'
          simp only [initOptions_none_iff]
          rw [← ih']
          split
          · rename_i hrec; simp [hrec]
          · rename_i hrec; simp [hrec]
          · rename_i hrec; simp [hrec]

theorem Tk_CreateOptionTable_built (reg reg1 : Registry) (chain : TemplateChain) (p : Nat)
    (hnodup : (chain.map Template.addr).Nodup)
    (h : Tk_CreateOptionTable reg chain = .ok reg1 p)
    (t : Template) (ht : t ∈ builtTemplates reg chain) :
    ∃ opts tbl, initOptions t.specs t.specs = some opts ∧ reg1 t.addr = some tbl ∧
      tbl.options = opts ∧ tbl.refCount = 1 ∧ tbl.hashEntryPtr = t.addr := by
  induction chain generalizing reg reg1 p with
  | nil => simp [builtTemplates] at ht
  | cons t0 chain ih =>
    simp only [List.map_cons, List.nodup_cons] at hnodup
    unfold Tk_CreateOptionTable at h
    cases hr : reg t0.addr with
    | some tbl => simp [builtTemplates, List.takeWhile_cons, hr] at ht
    | none =>
      have hb : builtTemplates reg (t0 :: chain) = t0 :: builtTemplates reg chain := by
        simp [builtTemplates, List.takeWhile_cons, hr]
      rw [hb] at ht
      simp only [hr] at h
      cases ho : initOptions t0.specs t0.specs with
      | none => simp [ho] at h
      | some opts =>
        simp only [ho] at h
        cases chain with
        | nil =>
          cases h
          simp only [builtTemplates, List.takeWhile_nil, List.mem_cons, List.not_mem_nil,
            or_false] at ht
          subst ht
          exact ⟨opts, OptionTable.mk 1 t.addr none opts, ho, by simp [Registry.set],
            rfl, rfl, rfl⟩
        | cons t2 chain =>
          simp only at h
          split at h
          · rename_i reg2 nextPtr hrec
            cases h
            have hfr := Tk_CreateOptionTable_frame _ _ _ _ hrec t0.addr hnodup.1
            rcases List.mem_cons.1 ht with rfl | ht
            · refine ⟨opts, OptionTable.mk 1 t.addr (some nextPtr) opts, ho, ?_, rfl, rfl, rfl⟩
              simp only [Registry.set, if_pos] at hfr
              simp only [Registry.set, if_pos, hfr, Option.map_some']
            · rw [← builtTemplates_set reg t0.addr (some
                { refCount := 1, hashEntryPtr := t0.addr, nextPtr := none, options := opts })
                _ hnodup.1] at ht
              obtain ⟨o', tbl, h1, h2, h3⟩ := ih _ _ _ hnodup.2 hrec ht
              have hne : t.addr ≠ t0.addr := by
                intro heq
                exact hnodup.1 (heq ▸ mem_builtTemplates_addr _ _ _ ht)
              exact ⟨o', tbl, h1, by simp [Registry.set, hne, h2], h3⟩
          · cases h
          · cases h

/-- C5: abbreviation resolution by `GetOption`.  For a name that equals no
option name of the chain: if it is a prefix of at least one option and all
options it is a prefix of share one full name, the result is the first such
option in chain order; if it is a prefix of two options whose full names
differ, the result is `NULL`.  A name that is a prefix of no option gives
`NULL`.  With the options `-foreground` and `-font`, `-fo` gives `NULL` and
`-for` gives the entry of `-foreground`. -/
theorem GetOption_abbreviation (name : CString) (chain : TableChain) :
    ((∀ e ∈ chainEntries chain, e.2 ≠ name) →
      (∃ e ∈ chainEntries chain, name <+: e.2) →
      (∀ e1 ∈ chainEntries chain, ∀ e2 ∈ chainEntries chain,
        name <+: e1.2 → name <+: e2.2 → e1.2 = e2.2) →
      ∃ e, (chainEntries chain).find? (fun e => decide (name <+: e.2)) = some e ∧
        GetOption name chain = some e.1)
    ∧ ((∀ e ∈ chainEntries chain, e.2 ≠ name) →
      (∃ e1 ∈ chainEntries chain, ∃ e2 ∈ chainEntries chain,
        name <+: e1.2 ∧ name <+: e2.2 ∧ e1.2 ≠ e2.2) →
      GetOption name chain = none)
    ∧ ((∀ e ∈ chainEntries chain, ¬ name <+: e.2) → GetOption name chain = none)
    ∧ GetOption "-fo".toList fontTable = none
    ∧ GetOption "-for".toList fontTable = some (0, 0) := by
  refine ⟨?_, ?_, ?_, by decide, by decide⟩
  · intro hne hex hsame
    rw [GetOption_eq_scanEntries, scanEntries_unique name _ hne hsame]
    obtain ⟨e, he, hp⟩ := hex
    cases hf : (chainEntries chain).find? (fun e => decide (name <+: e.2)) with
    | none =>
      have := List.find?_eq_none.1 hf e he
      simp [hp] at this
    | some e' => exact ⟨e', rfl, rfl⟩
  · intro hne hdiff
    rw [GetOption_eq_scanEntries]
    exact scanEntries_ambiguous name _ hne hdiff
  · intro hno
    rw [GetOption_eq_scanEntries, scanEntries_noPrefix name _ none hno]
    rfl

/-- The abbreviation `-for` of `-foreground` among `-foreground` and `-font`:
the first clause of `GetOption_abbreviation` at a concrete table. -/
theorem GetOption_abbreviation_witness :
    ∃ e, (chainEntries fontTable).find? (fun e => decide ("-for".toList <+: e.2)) = some e ∧
      GetOption "-for".toList fontTable = some e.1 :=
  (GetOption_abbreviation "-for".toList fontTable).1 (by decide) (by decide) (by decide)

/-- C6: `GetOption` does not find the option `-fo` although an option with
exactly that name is in the table, because the two options before it that it
abbreviates make the search return `NULL` first. -/
theorem GetOption_exact_after_ambiguous :
    (∃ e ∈ chainEntries exactLastTable, e.2 = "-fo".toList) ∧
      GetOption "-fo".toList exactLastTable = none := by
  decide

/-- C7: both tables of the chain declare `-color`, and resolving `-color`
gives `NULL` instead of the entry of the first table. -/
theorem GetOption_shadow_after_ambiguous :
    ((0, 2), "-color".toList) ∈ chainEntries shadowChain ∧
      ((1, 0), "-color".toList) ∈ chainEntries shadowChain ∧
      GetOption "-color".toList shadowChain = none := by
  decide

theorem forall₂_getElem? {α β : Type} (R : α → β → Prop) (l1 : List α) (l2 : List β)
    (h : List.Forall₂ R l1 l2) (j : Nat) (a : α) (ha : l1[j]? = some a) :
    ∃ b, l2[j]? = some b ∧ R a b := by
  induction h generalizing j with
  | nil => simp at ha
  | cons hab _ ih =>
    cases j with
    | zero =>
      simp at ha
      subst ha
      exact ⟨_, by simp, hab⟩
    | succ j =>
      simp at ha
      obtain ⟨b, hb, hr⟩ := ih j ha
      exact ⟨b, by simpa using hb, hr⟩

theorem forall₂_mem_right {α β : Type} (R : α → β → Prop) (l1 : List α) (l2 : List β)
    (h : List.Forall₂ R l1 l2) (b : β) (hb : b ∈ l2) : ∃ a ∈ l1, R a b := by
  induction h with
  | nil => simp at hb
  | cons hab _ ih =>
    rcases List.mem_cons.1 hb with rfl | hb
    · exact ⟨_, List.mem_cons_self _ _, hab⟩
    · obtain ⟨a, ha, hr⟩ := ih hb
      exact ⟨a, List.mem_cons_of_mem _ ha, hr⟩

/-- C10: `Tk_CreateOptionTable` ends in `Tcl_Panic` exactly when, in one of
the templates it builds a table for, a synonym declaration names a target
that is the name of no declaration of that template.  Otherwise it returns,
and every table it has built has one entry per declaration of its template,
in declaration order, each synonym entry pointing to the first entry whose
name is the target of the synonym. -/
theorem Tk_CreateOptionTable_synonym_search (reg : Registry) (chain : TemplateChain)
    (hne : chain ≠ []) (hnodup : (chain.map Template.addr).Nodup) :
    (Tk_CreateOptionTable reg chain = .panic ↔
        ∃ t ∈ builtTemplates reg chain, ∃ s ∈ t.specs,
          s.type = TK_OPTION_SYNONYM ∧
            ∀ s2 ∈ t.specs, some s2.optionName ≠ s.clientData.asString) ∧
    ((¬ ∃ t ∈ builtTemplates reg chain, ∃ s ∈ t.specs,
          s.type = TK_OPTION_SYNONYM ∧
            ∀ s2 ∈ t.specs, some s2.optionName ≠ s.clientData.asString) →
      ∃ reg1 p, Tk_CreateOptionTable reg chain = .ok reg1 p ∧
        ∀ t ∈ builtTemplates reg chain, ∃ tbl, reg1 t.addr = some tbl ∧
          tbl.options.length = t.specs.length ∧
          List.Forall₂ (fun s o => o.specPtr = s ∧
            (s.type = TK_OPTION_SYNONYM →
              ∃ j, o.extra = .synonymPtr j ∧ IsFirstNamed t.specs s.clientData.asString j))
            t.specs tbl.options) := by
  have hp := Tk_CreateOptionTable_panic_iff reg chain hnodup
  refine ⟨hp, ?_⟩
  intro hgood
  have hnp : Tk_CreateOptionTable reg chain ≠ .panic := fun h => hgood (hp.1 h)
  have hnn := Tk_CreateOptionTable_not_null reg chain hne
  cases hc : Tk_CreateOptionTable reg chain with
  | panic => exact absurd hc hnp
  | nullTemplate => exact absurd hc hnn
  | ok reg1 p =>
    refine ⟨reg1, p, rfl, ?_⟩
    intro t ht
    obtain ⟨opts, tbl, ho, hr, hopts, _, _⟩ :=
      Tk_CreateOptionTable_built reg reg1 chain p hnodup hc t ht
    have hf := initOptions_forall₂ _ _ _ ho
    refine ⟨tbl, hr, ?_, ?_⟩
    · rw [hopts]; exact hf.length_eq.symm
    · rw [hopts]
      exact hf.imp fun s o h =>
        ⟨initOption_specPtr _ _ _ h, fun hs => initOption_synonym _ _ _ h hs⟩

/-- The statement of `Tk_CreateOptionTable_synonym_search` for the template
that declares `-bd` as a synonym of `-borderwidth`, in the empty registry. -/
theorem Tk_CreateOptionTable_synonym_search_witness :
    (Tk_CreateOptionTable emptyRegistry borderTemplate = .panic ↔
        ∃ t ∈ builtTemplates emptyRegistry borderTemplate, ∃ s ∈ t.specs,
          s.type = TK_OPTION_SYNONYM ∧
            ∀ s2 ∈ t.specs, some s2.optionName ≠ s.clientData.asString) ∧
    ((¬ ∃ t ∈ builtTemplates emptyRegistry borderTemplate, ∃ s ∈ t.specs,
          s.type = TK_OPTION_SYNONYM ∧
            ∀ s2 ∈ t.specs, some s2.optionName ≠ s.clientData.asString) →
      ∃ reg1 p, Tk_CreateOptionTable emptyRegistry borderTemplate = .ok reg1 p ∧
        ∀ t ∈ builtTemplates emptyRegistry borderTemplate, ∃ tbl, reg1 t.addr = some tbl ∧
          tbl.options.length = t.specs.length ∧
          List.Forall₂ (fun s o => o.specPtr = s ∧
            (s.type = TK_OPTION_SYNONYM →
              ∃ j, o.extra = .synonymPtr j ∧ IsFirstNamed t.specs s.clientData.asString j))
            t.specs tbl.options) :=
  Tk_CreateOptionTable_synonym_search emptyRegistry borderTemplate (List.cons_ne_nil _ _)
    (by decide)

/-- C9, counterexample: the table built for a template in which the synonym
`-bw` names the synonym `-bd` is built without a panic, and the target of its
entry `-bw` is the entry `-bd`, a synonym. -/
theorem synonym_target_may_be_synonym :
    ∃ reg1 p tbl, Tk_CreateOptionTable emptyRegistry synonymOfSynonymTemplate = .ok reg1 p ∧
      reg1 p = some tbl ∧ ¬ SynonymTargetsCanonical tbl.options := by
  refine ⟨_, _, _, rfl, rfl, ?_⟩
  intro h
  obtain ⟨j, tgt, hj, hget, hne⟩ := h _ (List.mem_cons_self _ _) rfl
  have hj1 : j = 1 := by
    have : Extra.synonymPtr 1 = Extra.synonymPtr j := hj
    cases this
    rfl
  subst hj1
  have : tgt.specPtr.type = TK_OPTION_SYNONYM := by
    have h2 : some _ = some tgt := hget
    cases h2
    rfl
  exact hne this

/-- C9, amended: in every table that `Tk_CreateOptionTable` builds without a
panic from a template in which the first declaration bearing the target name
of each synonym is not itself a synonym, the target of every synonym entry is
an entry of the same table whose type is not `TK_OPTION_SYNONYM`. -/
theorem Tk_CreateOptionTable_synonym_targets (reg reg1 : Registry) (chain : TemplateChain)
    (p : Nat) (hnodup : (chain.map Template.addr).Nodup)
    (hok : Tk_CreateOptionTable reg chain = .ok reg1 p)
    (t : Template) (ht : t ∈ builtTemplates reg chain)
    (hfirst : ∀ s ∈ t.specs, s.type = TK_OPTION_SYNONYM →
      ∀ j s2, IsFirstNamed t.specs s.clientData.asString j → t.specs[j]? = some s2 →
        s2.type ≠ TK_OPTION_SYNONYM) :
    ∃ tbl, reg1 t.addr = some tbl ∧ SynonymTargetsCanonical tbl.options := by
  obtain ⟨opts, tbl, ho, hr, hopts, _, _⟩ :=
    Tk_CreateOptionTable_built reg reg1 chain p hnodup hok t ht
  have hf := initOptions_forall₂ _ _ _ ho
  refine ⟨tbl, hr, ?_⟩
  rw [hopts]
  intro o hmem hsyn
  obtain ⟨s, hs, hinit⟩ := forall₂_mem_right _ _ _ hf o hmem
  have hspec := initOption_specPtr _ _ _ hinit
  have hst : s.type = TK_OPTION_SYNONYM := hspec ▸ hsyn
  obtain ⟨j, hj, hfn⟩ := initOption_synonym _ _ _ hinit hst
  obtain ⟨s2, hs2, _⟩ := hfn.1
  obtain ⟨tgt, htgt, hinit2⟩ := forall₂_getElem? _ _ _ hf j s2 hs2
  refine ⟨j, tgt, hj, htgt, ?_⟩
  rw [initOption_specPtr _ _ _ hinit2]
  exact hfirst s hs hst j s2 hfn hs2

theorem isFirstNamed_unique (specs : List Tk_OptionSpec) (target : Option CString)
    (i j : Nat) (hi : IsFirstNamed specs target i) (hj : IsFirstNamed specs target j) :
    i = j := by
  obtain ⟨⟨si, hsi, hni⟩, hfi⟩ := hi
  obtain ⟨⟨sj, hsj, hnj⟩, hfj⟩ := hj
  rcases Nat.lt_trichotomy i j with h | h | h
  · exact absurd hni (hfj i h si hsi)
  · exact h
  · exact absurd hnj (hfi j h sj hsj)

theorem borderTemplate_first :
    ∀ s ∈ [synonymSpec "-bd" "-borderwidth", stringSpec "-borderwidth"],
      s.type = TK_OPTION_SYNONYM →
      ∀ j s2, IsFirstNamed [synonymSpec "-bd" "-borderwidth", stringSpec "-borderwidth"]
          s.clientData.asString j →
        [synonymSpec "-bd" "-borderwidth", stringSpec "-borderwidth"][j]? = some s2 →
        s2.type ≠ TK_OPTION_SYNONYM := by
  intro s hs hsyn j s2 hfn hget
  simp only [List.mem_cons, List.mem_singleton, List.not_mem_nil, or_false] at hs
  rcases hs with rfl | rfl
  · have h1 : IsFirstNamed [synonymSpec "-bd" "-borderwidth", stringSpec "-borderwidth"]
        (synonymSpec "-bd" "-borderwidth").clientData.asString 1 := by
      refine ⟨⟨stringSpec "-borderwidth", rfl, rfl⟩, ?_⟩
      intro k hk s' hs'
      have hk0 : k = 0 := by omega
      subst hk0
      have : some (synonymSpec "-bd" "-borderwidth") = some s' := hs'
      cases this
      decide
    have hj : j = 1 := isFirstNamed_unique _ _ _ _ hfn h1
    subst hj
    have : some (stringSpec "-borderwidth") = some s2 := hget
    cases this
    decide
  · exact absurd hsyn (by decide)

/-- The amended C9 for the template that declares `-bd` as a synonym of the
string option `-borderwidth`, built in the empty registry. -/
theorem Tk_CreateOptionTable_synonym_targets_witness :
    ∃ reg1 tbl, Tk_CreateOptionTable emptyRegistry borderTemplate = .ok reg1 1 ∧
      reg1 1 = some tbl ∧ SynonymTargetsCanonical tbl.options :=
  have h := Tk_CreateOptionTable_synonym_targets emptyRegistry _ borderTemplate 1
    (by decide) rfl
    { addr := 1, specs := [synonymSpec "-bd" "-borderwidth", stringSpec "-borderwidth"] }
    (List.mem_cons_self _ _) borderTemplate_first
  ⟨_, h.choose, rfl, h.choose_spec.1, h.choose_spec.2⟩

theorem size_incr (rc : Nat) (h : rc + 1 < SIZE_MOD) : (rc + 1) % SIZE_MOD = rc + 1 :=
  Nat.mod_eq_of_lt h

theorem size_decr (rc : Nat) (h1 : 1 ≤ rc) (h : rc < SIZE_MOD) :
    (rc + SIZE_MOD - 1) % SIZE_MOD = rc - 1 := by
  have : rc + SIZE_MOD - 1 = (rc - 1) + SIZE_MOD := by omega
  rw [this, Nat.add_mod_right]
  exact Nat.mod_eq_of_lt (by omega)

theorem Registry.CountsOk_set (reg : Registry) (h : reg.CountsOk) (a : Nat) (tbl : OptionTable)
    (h1 : 1 ≤ tbl.refCount) (h2 : tbl.refCount + 1 < SIZE_MOD) :
    (reg.set a (some tbl)).CountsOk := by
  intro b tb hb
  simp only [Registry.set] at hb
  by_cases hba : b = a
  · simp only [hba, if_true, Option.some.injEq] at hb
    subst hb
    exact ⟨h1, h2⟩
  · simp only [hba, if_false] at hb
    exact h b tb hb

theorem one_lt_size : 1 < SIZE_MOD := by
  rw [SIZE_MOD]
  norm_num

theorem two_lt_size : 1 + 1 < SIZE_MOD := by
  rw [SIZE_MOD]
  norm_num

theorem Registry.set_same (reg : Registry) (a : Nat) (x : Option OptionTable) :
    (reg.set a x) a = x := by
  simp [Registry.set]

theorem Registry.set_other (reg : Registry) (a b : Nat) (x : Option OptionTable)
    (h : b ≠ a) : (reg.set a x) b = reg b := by
  simp [Registry.set, h]

/-- Releasing the table that `Tk_CreateOptionTable` has returned undoes the
creation: in any registry that holds, at the addresses of the chain, what the
creation left there, `Tk_DeleteOptionTable` puts back at those addresses what
was there before the creation and touches nothing else. -/
theorem Tk_DeleteOptionTable_undoes_create (chain : TemplateChain) (reg reg1 : Registry)
    (p : Nat) (hnodup : (chain.map Template.addr).Nodup) (hreg : reg.CountsOk)
    (hok : Tk_CreateOptionTable reg chain = .ok reg1 p)
    (g : Registry) (hg : ∀ a ∈ chain.map Template.addr, g a = reg1 a)
    (fuel : Nat) (hfuel : chain.length ≤ fuel) :
    ∃ released, Tk_DeleteOptionTable fuel g p
      = some (.done (fun a => if a ∈ chain.map Template.addr then reg a else g a) released) := by
  induction chain generalizing reg reg1 p g fuel with
  | nil => simp [Tk_CreateOptionTable] at hok
  | cons t chain ih =>
    have hp := Tk_CreateOptionTable_ptr _ _ _ _ _ hok
    subst hp
    simp only [List.map_cons, List.nodup_cons] at hnodup
    obtain ⟨fuel, rfl⟩ : ∃ f, fuel = f + 1 := ⟨fuel - 1, by simp at hfuel; omega⟩
    have hgt := hg t.addr (by simp)
    unfold Tk_CreateOptionTable at hok
    cases hr : reg t.addr with
    | some tbl =>
      simp only [hr] at hok
      cases hok
      obtain ⟨hc1, hc2⟩ := hreg _ _ hr
      rw [Registry.set_same] at hgt
      refine ⟨[], ?_⟩
      simp only [Tk_DeleteOptionTable, hgt, size_incr _ hc2]
      rw [if_pos (by omega)]
      congr 2
      funext a
      by_cases ha : a = t.addr
      · subst ha
        rw [Registry.set_same, if_pos (by simp), hr]
        congr 1
        have := size_decr (tbl.refCount + 1) (Nat.le_add_left 1 _) hc2
        simp only [this]
        rfl
      · rw [Registry.set_other _ _ _ _ ha]
        by_cases hmem : a ∈ chain.map Template.addr
        · have := hg a (by simp [hmem])
          rw [Registry.set_other _ _ _ _ ha] at this
          rw [if_pos (by simp [hmem]), this]
        · rw [if_neg (by simp [hmem, ha])]
    | none =>
      simp only [hr] at hok
      cases ho : initOptions t.specs t.specs with
      | none => simp [ho] at hok
      | some opts =>
        simp only [ho] at hok
        have hd : (1 + SIZE_MOD - 1) % SIZE_MOD = 0 := by
          exact size_decr 1 (le_refl 1) one_lt_size
        cases chain with
        | nil =>
          cases hok
          rw [Registry.set_same] at hgt
          refine ⟨[] ++ releasedDefaults opts, ?_⟩
          simp only [Tk_DeleteOptionTable, hgt, lt_irrefl, if_false, Registry.set_same, hd]
          congr 2
          funext a
          by_cases ha : a = t.addr
          · subst ha
            rw [Registry.set_same, if_pos (by simp), hr]
          · rw [Registry.set_other _ _ _ _ ha, Registry.set_other _ _ _ _ ha,
              Registry.set_other _ _ _ _ ha, if_neg (by simp [ha])]
        | cons t2 chain =>
          simp only at hok
          split at hok
          · rename_i reg2 nextPtr hrec
            cases hok
            have hp2 := Tk_CreateOptionTable_ptr _ _ _ _ _ hrec
            subst hp2
            have hfr := Tk_CreateOptionTable_frame _ _ _ _ hrec t.addr hnodup.1
            rw [Registry.set_same] at hfr
            rw [Registry.set_same, hfr] at hgt
            simp only [Option.map_some'] at hgt
            have hregA : (reg.set t.addr (some
                { refCount := 1, hashEntryPtr := t.addr, nextPtr := none,
                  options := opts })).CountsOk :=
              Registry.CountsOk_set reg hreg _ _ (le_refl 1) two_lt_size
            obtain ⟨rel, hdel⟩ := ih _ _ _ hnodup.2 hregA hrec
              (g.set t.addr (some
                { refCount := 0, hashEntryPtr := t.addr, nextPtr := some t2.addr,
                  options := opts }))
              (by
                intro a ha
                have hne : a ≠ t.addr := fun h => hnodup.1 (h ▸ ha)
                have := hg a (List.mem_cons_of_mem _ ha)
                rw [Registry.set_other _ _ _ _ hne] at this ⊢
                exact this)
              fuel (by simp at hfuel ⊢; omega)
            refine ⟨rel ++ releasedDefaults opts, ?_⟩
            simp only [Tk_DeleteOptionTable, hgt, lt_irrefl, if_false, hd, hdel]
            have hnm : t.addr ∉ List.map Template.addr (t2 :: chain) := hnodup.1
            simp only [if_neg hnm, Registry.set_same]
            congr 2
            funext a
            by_cases ha : a = t.addr
            · subst ha
              rw [Registry.set_same, if_pos (by simp), hr]
            · have e1 : a ∈ List.map Template.addr (t :: t2 :: chain) ↔
                  a ∈ List.map Template.addr (t2 :: chain) := by
                simp [ha]
              simp only [e1, Registry.set_other _ _ _ _ ha]
          · cases hok
          · cases hok

theorem emptyRegistry_countsOk : emptyRegistry.CountsOk := by
  intro a tbl h
  simp [emptyRegistry] at h

/-- C8: table sharing.  When the template has no table yet, the first
`Tk_CreateOptionTable` registers a table with reference count 1; a second call
with the same template returns the same table and only raises its count to 2;
one `Tk_DeleteOptionTable` then gives back the registry of after the first
call (the table registered, count 1, its options unchanged), and a second one
gives back the registry of before the first call, in which the template has
no table. -/
theorem Tk_CreateOptionTable_sharing (reg reg1 : Registry) (t : Template)
    (chained : TemplateChain) (p : Nat)
    (hfresh : reg t.addr = none)
    (hnodup : ((t :: chained).map Template.addr).Nodup)
    (hreg : reg.CountsOk)
    (hok : Tk_CreateOptionTable reg (t :: chained) = .ok reg1 p) :
    p = t.addr ∧
    ∃ tbl, reg1 p = some tbl ∧ tbl.refCount = 1 ∧
      Tk_CreateOptionTable reg1 (t :: chained)
        = .ok (reg1.set p (some { tbl with refCount := 2 })) p ∧
      (∀ fuel, Tk_DeleteOptionTable (fuel + 1)
          (reg1.set p (some { tbl with refCount := 2 })) p = some (.done reg1 [])) ∧
      (∀ fuel, (t :: chained).length ≤ fuel →
        ∃ released, Tk_DeleteOptionTable fuel reg1 p = some (.done reg released)) ∧
      reg p = none := by
  have hp := Tk_CreateOptionTable_ptr _ _ _ _ _ hok
  subst hp
  refine ⟨rfl, ?_⟩
  have hb : t ∈ builtTemplates reg (t :: chained) := by
    simp [builtTemplates, List.takeWhile_cons, hfresh]
  obtain ⟨opts, tbl, _, hr1, _, hrc, _⟩ :=
    Tk_CreateOptionTable_built reg reg1 _ _ hnodup hok t hb
  have h2 : (1 + 1) % SIZE_MOD = 2 := size_incr 1 two_lt_size
  have h3 : (2 + SIZE_MOD - 1) % SIZE_MOD = 1 := size_decr 2 (by omega) (by
    have := two_lt_size
    omega)
  refine ⟨tbl, hr1, hrc, ?_, ?_, ?_, hfresh⟩
  · unfold Tk_CreateOptionTable
    simp only [hr1, hrc, h2]
  · intro fuel
    simp only [Tk_DeleteOptionTable, Registry.set_same, h3]
    rw [if_pos (by omega)]
    congr 2
    funext a
    by_cases ha : a = t.addr
    · subst ha
      rw [Registry.set_same, hr1, ← hrc]
    · rw [Registry.set_other _ _ _ _ ha, Registry.set_other _ _ _ _ ha]
  · intro fuel hfuel
    obtain ⟨rel, hdel⟩ := Tk_DeleteOptionTable_undoes_create _ reg reg1 _ hnodup hreg hok
      reg1 (fun _ _ => rfl) fuel hfuel
    refine ⟨rel, ?_⟩
    rw [hdel]
    congr 2
    funext a
    by_cases hmem : a ∈ List.map Template.addr (t :: chained)
    · rw [if_pos hmem]
    · rw [if_neg hmem]
      exact Tk_CreateOptionTable_frame _ _ _ _ hok a hmem

/-- The statement of `Tk_CreateOptionTable_sharing` for the template that
declares `-bd` and `-borderwidth`, created in the empty registry. -/
theorem Tk_CreateOptionTable_sharing_witness :
    ∃ reg1, Tk_CreateOptionTable emptyRegistry borderTemplate = .ok reg1 1 ∧
    ∃ tbl, reg1 1 = some tbl ∧ tbl.refCount = 1 ∧
      Tk_CreateOptionTable reg1 borderTemplate
        = .ok (reg1.set 1 (some { tbl with refCount := 2 })) 1 ∧
      (∀ fuel, Tk_DeleteOptionTable (fuel + 1)
          (reg1.set 1 (some { tbl with refCount := 2 })) 1 = some (.done reg1 [])) ∧
      (∀ fuel, borderTemplate.length ≤ fuel →
        ∃ released, Tk_DeleteOptionTable fuel reg1 1 = some (.done emptyRegistry released)) ∧
      emptyRegistry 1 = none :=
  ⟨_, rfl, (Tk_CreateOptionTable_sharing emptyRegistry _
    { addr := 1, specs := [synonymSpec "-bd" "-borderwidth", stringSpec "-borderwidth"] }
    [] 1 rfl (by decide) emptyRegistry_countsOk rfl).2⟩

theorem Record.set_internals_ne (r : Record) (off x : Nat) (c : Cell) (h : x ≠ off) :
    (r.set off c).internals x = r.internals x := by
  simp [Record.set, h]

theorem storeInternal_local (r : Record) (specPtr : Tk_OptionSpec) (v : Option Tcl_Obj)
    (new : Cell) : (storeInternal r specPtr v new).Local r specPtr.internalOffset := by
  unfold storeInternal
  cases h : specPtr.internalOffset with
  | none => simp [Applied.Local]
  | some off =>
    refine ⟨rfl, ?_, ?_⟩
    · intro x hx
      exact Record.set_internals_ne _ _ _ _ (fun e => hx (by rw [e]))
    · intro x hx
      cases hx
      rfl

theorem storeNarrow_local (r : Record) (specPtr : Tk_OptionSpec) (v : Option Tcl_Obj)
    (new : Int) : (storeNarrow r specPtr v new).Local r specPtr.internalOffset := by
  unfold storeNarrow
  cases h : specPtr.internalOffset with
  | none => simp [Applied.Local]
  | some off =>
    have key : ∀ c, (Applied.stored v (r.set off c) (r.internals off) []).Local r (some off) := by
      intro c
      refine ⟨rfl, ?_, ?_⟩
      · intro x hx
        exact Record.set_internals_ne _ _ _ _ (fun e => hx (by rw [e]))
      · intro x hx
        cases hx
        rfl
    simp only
    split_ifs
    · exact key _
    · exact key _
    · trivial
    · exact key _

theorem applyHandle_local (r : Record) (specPtr : Tk_OptionSpec) (isNull : Bool)
    (v : Tcl_Obj) (alloc : Tcl_Obj → Nat) :
    (applyHandle r specPtr isNull v alloc).Local r specPtr.internalOffset := by
  unfold applyHandle
  split_ifs
  · exact storeInternal_local _ _ _ _
  · rfl
  · exact storeInternal_local _ _ _ _

theorem Applied.mapValue_local (r : Record) (off : Offset) (a : Applied)
    (f : Option Tcl_Obj → Option Tcl_Obj) (h : a.Local r off) : (a.mapValue f).Local r off := by
  cases a with
  | fail r2 => exact h
  | abort => trivial
  | stored v r2 old eff => exact h

theorem Applied.defineCursor_local (r : Record) (off : Offset) (a : Applied)
    (tkwin : Tk_Window) (c : Nat) (h : a.Local r off) : (a.defineCursor tkwin c).Local r off := by
  cases a with
  | fail r2 => exact h
  | abort => trivial
  | stored v r2 old eff => exact h

theorem applyBoolean_local (env : Env) (r : Record) (specPtr : Tk_OptionSpec) (v : Tcl_Obj) :
    (applyBoolean env r specPtr v).Local r specPtr.internalOffset := by
  unfold applyBoolean
  split_ifs
  · exact storeNarrow_local _ _ _ _
  · cases env.Tcl_GetBooleanFromObj v with
    | none => rfl
    | some b => exact storeNarrow_local _ _ _ _

theorem applyInt_local (env : Env) (r : Record) (specPtr : Tk_OptionSpec) (v : Tcl_Obj) :
    (applyInt env r specPtr v).Local r specPtr.internalOffset := by
  unfold applyInt
  split_ifs
  · exact storeInternal_local _ _ _ _
  · cases env.Tcl_GetIntFromObj v with
    | none => rfl
    | some b => exact storeInternal_local _ _ _ _
  · exact storeInternal_local _ _ _ _
  · cases env.Tcl_GetWideIntFromObj v with
    | none => rfl
    | some b => exact storeInternal_local _ _ _ _
  · trivial

theorem applyIndex_local (env : Env) (r : Record) (specPtr : Tk_OptionSpec) (v : Tcl_Obj) :
    (applyIndex env r specPtr v).Local r specPtr.internalOffset := by
  unfold applyIndex
  cases TkGetIntForIndex env (some v) (-1) 0 with
  | none => rfl
  | some b => exact storeInternal_local _ _ _ _

theorem applyDouble_local (env : Env) (r : Record) (specPtr : Tk_OptionSpec) (v : Tcl_Obj) :
    (applyDouble env r specPtr v).Local r specPtr.internalOffset := by
  unfold applyDouble
  split_ifs
  · exact storeInternal_local _ _ _ _
  · cases env.Tcl_GetDoubleFromObj v with
    | none => rfl
    | some b => exact storeInternal_local _ _ _ _

theorem applyString_local (env : Env) (r : Record) (specPtr : Tk_OptionSpec) (v : Tcl_Obj) :
    (applyString env r specPtr v).Local r specPtr.internalOffset := by
  unfold applyString
  split_ifs
  · exact storeInternal_local _ _ _ _
  · exact storeInternal_local _ _ _ _

theorem applyStringTable_local (env : Env) (r : Record) (specPtr : Tk_OptionSpec)
    (v : Tcl_Obj) : (applyStringTable env r specPtr v).Local r specPtr.internalOffset := by
  unfold applyStringTable
  split_ifs
  · exact storeNarrow_local _ _ _ _
  · cases env.Tcl_GetIndexFromObjStruct v specPtr.clientData (indexFlags env specPtr) with
    | none => rfl
    | some b => exact storeNarrow_local _ _ _ _

theorem applyEnum_local (env : Env) (r : Record) (specPtr : Tk_OptionSpec) (v : Tcl_Obj)
    (strings : List CString) (nullValue : Int) :
    (applyEnum env r specPtr v strings nullValue).Local r specPtr.internalOffset := by
  unfold applyEnum
  split_ifs
  · exact storeNarrow_local _ _ _ _
  · cases env.Tcl_GetIndexFromObj v strings (indexFlags env specPtr) with
    | none => rfl
    | some b => exact Applied.mapValue_local _ _ _ _ (storeNarrow_local _ _ _ _)

theorem applyCursor_local (env : Env) (r : Record) (specPtr : Tk_OptionSpec) (v : Tcl_Obj)
    (tkwin : Tk_Window) : (applyCursor env r specPtr v tkwin).Local r specPtr.internalOffset :=
  Applied.defineCursor_local _ _ _ _ _ (applyHandle_local _ _ _ _ _)

theorem applyPixels_local (env : Env) (r : Record) (specPtr : Tk_OptionSpec) (v : Tcl_Obj)
    (tkwin : Tk_Window) : (applyPixels env r specPtr v tkwin).Local r specPtr.internalOffset := by
  unfold applyPixels
  split_ifs
  · exact storeInternal_local _ _ _ _
  · cases env.Tk_GetPixelsFromObj tkwin v with
    | none => rfl
    | some b => exact storeInternal_local _ _ _ _

theorem applyWindow_local (env : Env) (r : Record) (specPtr : Tk_OptionSpec) (v : Tcl_Obj)
    (tkwin : Tk_Window) : (applyWindow env r specPtr v tkwin).Local r specPtr.internalOffset := by
  unfold applyWindow
  split_ifs
  · exact storeInternal_local _ _ _ _
  · cases env.TkGetWindowFromObj tkwin v with
    | none => rfl
    | some b => exact storeInternal_local _ _ _ _

/-- The type-specific part of `DoObjConfig`, for every type but
`TK_OPTION_CUSTOM`: a failure leaves the record as it was, and a success
changes only the internal form of the option after saving it. -/
theorem applyValue_local (env : Env) (r : Record) (o : TkOption) (v : Tcl_Obj)
    (tkwin : Tk_Window) (hc : o.specPtr.type ≠ TK_OPTION_CUSTOM) :
    (applyValue env r o v tkwin).Local r o.specPtr.internalOffset := by
  cases ht : o.specPtr.type <;> simp only [applyValue, ht] <;> (try exact absurd ht hc)
  all_goals
    first
    | exact applyHandle_local _ _ _ _ _
    | exact applyBoolean_local _ _ _ _
    | exact applyInt_local _ _ _ _
    | exact applyIndex_local _ _ _ _
    | exact applyDouble_local _ _ _ _
    | exact applyString_local _ _ _ _
    | exact applyStringTable_local _ _ _ _
    | exact applyEnum_local _ _ _ _ _ _
    | exact applyCursor_local _ _ _ _ _
    | exact applyPixels_local _ _ _ _ _
    | exact applyWindow_local _ _ _ _ _
    | exact (rfl : r = r)

theorem Record.AgreeOff.refl (S : Nat → Prop) (r : Record) : Record.AgreeOff S r r :=
  ⟨rfl, fun _ _ => rfl⟩

theorem Record.AgreeOff.trans {S : Nat → Prop} {r1 r2 r3 : Record}
    (h12 : Record.AgreeOff S r1 r2) (h23 : Record.AgreeOff S r2 r3) :
    Record.AgreeOff S r1 r3 :=
  ⟨h12.1.trans h23.1, fun x hx => (h12.2 x hx).trans (h23.2 x hx)⟩

theorem Applied.Local.confined {r : Record} {off : Offset} {a : Applied}
    (h : a.Local r off) : a.Confined r off := by
  cases a with
  | fail r2 =>
    have : r2 = r := h
    subst this
    exact ⟨rfl, fun _ _ => rfl⟩
  | abort => trivial
  | stored v r2 old eff => exact ⟨h.1, h.2.1⟩

theorem applyCustom_confined (r : Record) (o : TkOption) (v : Tcl_Obj) (tkwin : Tk_Window)
    (hl : CustomLocal o) : (applyCustom r o v tkwin).Confined r o.specPtr.internalOffset := by
  unfold applyCustom
  cases he : o.extra with
  | monoColorPtr p => trivial
  | synonymPtr i => trivial
  | custom c =>
    cases c with
    | none => trivial
    | some c =>
      have h := (hl c he).1 tkwin (some v) r o.specPtr.flags
      simp only
      cases hs : c.setProc tkwin (some v) r o.specPtr.internalOffset o.specPtr.flags with
      | mk r2 res =>
        rw [hs] at h
        cases res with
        | none => exact h
        | some p =>
          obtain ⟨v2, old⟩ := p
          exact h

theorem applyValue_confined (env : Env) (r : Record) (o : TkOption) (v : Tcl_Obj)
    (tkwin : Tk_Window) (hl : o.specPtr.type = TK_OPTION_CUSTOM → CustomLocal o) :
    (applyValue env r o v tkwin).Confined r o.specPtr.internalOffset := by
  by_cases hc : o.specPtr.type = TK_OPTION_CUSTOM
  · simp only [applyValue, hc]
    exact applyCustom_confined r o v tkwin (hl hc)
  · exact (applyValue_local env r o v tkwin hc).confined

theorem storeNarrow_isStored (r : Record) (specPtr : Tk_OptionSpec) (v : Option Tcl_Obj)
    (n : Int) (off : Nat) (h : (storeNarrow r specPtr v n).isStored = true)
    (hoff : specPtr.internalOffset = some off) : narrowFlagsOk specPtr = true := by
  unfold storeNarrow at h
  unfold narrowFlagsOk
  simp only [hoff] at h
  split_ifs at h with h1 h2 h3
  · simp [h1, h2]
  · simp [h1, h3]
  · simp [Applied.isStored] at h
  · simp [h1]

theorem Applied.mapValue_isStored (a : Applied) (f : Option Tcl_Obj → Option Tcl_Obj) :
    (a.mapValue f).isStored = a.isStored := by
  cases a <;> rfl

theorem Applied.defineCursor_isStored (a : Applied) (tkwin : Tk_Window) (c : Nat) :
    (a.defineCursor tkwin c).isStored = a.isStored := by
  cases a <;> rfl

theorem applyBoolean_isStored (env : Env) (r : Record) (specPtr : Tk_OptionSpec) (v : Tcl_Obj)
    (off : Nat) (h : (applyBoolean env r specPtr v).isStored = true)
    (hoff : specPtr.internalOffset = some off) : narrowFlagsOk specPtr = true := by
  unfold applyBoolean at h
  split_ifs at h
  · exact storeNarrow_isStored _ _ _ _ _ h hoff
  · cases hp : env.Tcl_GetBooleanFromObj v with
    | none => simp [hp, Applied.isStored] at h
    | some b =>
      simp only [hp] at h
      exact storeNarrow_isStored _ _ _ _ _ h hoff

theorem applyStringTable_isStored (env : Env) (r : Record) (specPtr : Tk_OptionSpec)
    (v : Tcl_Obj) (off : Nat) (h : (applyStringTable env r specPtr v).isStored = true)
    (hoff : specPtr.internalOffset = some off) : narrowFlagsOk specPtr = true := by
  unfold applyStringTable at h
  split_ifs at h
  · exact storeNarrow_isStored _ _ _ _ _ h hoff
  · cases hp : env.Tcl_GetIndexFromObjStruct v specPtr.clientData (indexFlags env specPtr) with
    | none => simp [hp, Applied.isStored] at h
    | some b =>
      simp only [hp] at h
      exact storeNarrow_isStored _ _ _ _ _ h hoff

theorem applyEnum_isStored (env : Env) (r : Record) (specPtr : Tk_OptionSpec) (v : Tcl_Obj)
    (strings : List CString) (nullValue : Int) (off : Nat)
    (h : (applyEnum env r specPtr v strings nullValue).isStored = true)
    (hoff : specPtr.internalOffset = some off) : narrowFlagsOk specPtr = true := by
  unfold applyEnum at h
  split_ifs at h
  · exact storeNarrow_isStored _ _ _ _ _ h hoff
  · cases hp : env.Tcl_GetIndexFromObj v strings (indexFlags env specPtr) with
    | none => simp [hp, Applied.isStored] at h
    | some b =>
      simp only [hp, Applied.mapValue_isStored] at h
      exact storeNarrow_isStored _ _ _ _ _ h hoff

theorem applyInt_isStored (env : Env) (r : Record) (specPtr : Tk_OptionSpec) (v : Tcl_Obj)
    (h : (applyInt env r specPtr v).isStored = true) : intFlagsOk specPtr = true := by
  unfold applyInt at h
  unfold intFlagsOk
  split_ifs at h with h1 h2 h3
  · simp [h1]
  · simp [h1]
  · simp [h3]
  · simp [h3]
  · simp [Applied.isStored] at h

theorem applyCustom_isStored (r : Record) (o : TkOption) (v : Tcl_Obj) (tkwin : Tk_Window)
    (h : (applyCustom r o v tkwin).isStored = true) : ∃ c, o.extra = .custom (some c) := by
  unfold applyCustom at h
  cases he : o.extra with
  | monoColorPtr p => simp [he, Applied.isStored] at h
  | synonymPtr i => simp [he, Applied.isStored] at h
  | custom c =>
    cases c with
    | none => simp [he, Applied.isStored] at h
    | some c => exact ⟨c, rfl⟩

/-- When the type-specific part of `DoObjConfig` succeeds for an option, the
code of `Tk_RestoreSavedOptions` that copies the saved internal form of that
option back does not panic. -/
theorem applyValue_restorable (env : Env) (r : Record) (o : TkOption) (v : Tcl_Obj)
    (tkwin : Tk_Window) (h : (applyValue env r o v tkwin).isStored = true) :
    Restorable o := by
  intro tkwin2 r2 item off hitem hoff
  subst hitem
  cases ht : item.optionPtr.specPtr.type <;>
    simp only [applyValue, ht] at h <;>
    simp only [restoreInternal, ht]
  case TK_OPTION_BOOLEAN => simp [applyBoolean_isStored _ _ _ _ _ h hoff]
  case TK_OPTION_INT => simp [applyInt_isStored _ _ _ _ h]
  case TK_OPTION_STRING_TABLE => simp [applyStringTable_isStored _ _ _ _ _ h hoff]
  case TK_OPTION_RELIEF => simp [applyEnum_isStored _ _ _ _ _ _ _ h hoff]
  case TK_OPTION_JUSTIFY => simp [applyEnum_isStored _ _ _ _ _ _ _ h hoff]
  case TK_OPTION_ANCHOR => simp [applyEnum_isStored _ _ _ _ _ _ _ h hoff]
  case TK_OPTION_CUSTOM =>
    obtain ⟨c, hc⟩ := applyCustom_isStored _ _ _ _ h
    simp only [hc]
    cases c.restoreProc <;> simp
  all_goals first | (simp; done) | (simp [Applied.isStored] at h)

theorem freeNewValue_spec (tkwin : Tk_Window) (r : Record) (o : TkOption) :
    (freeNewValue tkwin r o).1.objs = r.objs ∧
      ∀ x, some x ≠ o.specPtr.internalOffset →
        (freeNewValue tkwin r o).1.internals x = r.internals x := by
  unfold freeNewValue
  simp only
  split_ifs
  · cases hoff : o.specPtr.internalOffset with
    | none => exact ⟨rfl, fun _ _ => rfl⟩
    | some off =>
      refine ⟨rfl, ?_⟩
      intro x hx
      exact Record.set_internals_ne _ _ _ _ (fun e => hx (by rw [e]))
  · exact ⟨rfl, fun _ _ => rfl⟩

theorem restoreInternal_noncustom (tkwin : Tk_Window) (r r2 : Record) (item : Tk_SavedOption)
    (off : Nat) (e : List Effect) (hc : item.optionPtr.specPtr.type ≠ TK_OPTION_CUSTOM)
    (h : restoreInternal tkwin r item off = some (r2, e)) :
    r2 = r.set off item.internalForm := by
  unfold restoreInternal at h
  cases ht : item.optionPtr.specPtr.type <;> simp only [ht] at h <;>
    (try exact absurd ht hc) <;> (try split_ifs at h) <;>
    first
    | (simp only [Option.some.injEq, Prod.mk.injEq] at h; exact h.1.symm)
    | exact absurd h (by simp)

theorem restoreInternal_custom (tkwin : Tk_Window) (r r2 : Record) (item : Tk_SavedOption)
    (off : Nat) (e : List Effect) (hc : item.optionPtr.specPtr.type = TK_OPTION_CUSTOM)
    (hl : CustomLocal item.optionPtr)
    (h : restoreInternal tkwin r item off = some (r2, e)) :
    r2.objs = r.objs ∧
      ∀ x, some x ≠ item.optionPtr.specPtr.internalOffset → r2.internals x = r.internals x := by
  unfold restoreInternal at h
  simp only [hc] at h
  cases he : item.optionPtr.extra with
  | monoColorPtr p => simp [he] at h
  | synonymPtr i => simp [he] at h
  | custom c =>
    cases c with
    | none => simp [he] at h
    | some c =>
      simp only [he] at h
      cases hr : c.restoreProc with
      | none =>
        simp only [hr, Option.some.injEq, Prod.mk.injEq] at h
        rw [← h.1]
        exact ⟨rfl, fun _ _ => rfl⟩
      | some restoreProc =>
        simp only [hr, Option.some.injEq, Prod.mk.injEq] at h
        rw [← h.1]
        exact (hl c he).2 restoreProc hr tkwin r item.internalForm

theorem Record.setObjAt_internals (r : Record) (off : Offset) (p : Option Tcl_Obj) :
    (r.setObjAt off p).internals = r.internals := by
  cases off <;> rfl

theorem Record.setAt_objs (r : Record) (off : Offset) (c : Cell) :
    (r.setAt off c).objs = r.objs := by
  cases off <;> rfl

theorem Record.set_objs (r : Record) (off : Nat) (c : Cell) : (r.set off c).objs = r.objs :=
  rfl

theorem Record.set_internals_same (r : Record) (off : Nat) (c : Cell) :
    (r.set off c).internals off = c := by
  simp [Record.set]

theorem Record.setObjAt_objs_congr (r1 r2 : Record) (off : Offset) (p : Option Tcl_Obj)
    (h : r1.objs = r2.objs) : (r1.setObjAt off p).objs = (r2.setObjAt off p).objs := by
  cases off with
  | none => exact h
  | some o => simp [Record.setObjAt, Record.setObj, h]

/-- What the body of the loop of `Tk_RestoreSavedOptions` does to the record
for an entry whose option can be restored: it does not panic, it puts the
saved value pointer into the `Tcl_Obj *` field of the option, it changes no
internal form but that of the option, and for every type but
`TK_OPTION_CUSTOM` it puts the saved internal form back. -/
theorem restoreItem_spec (tkwin : Tk_Window) (r : Record) (item : Tk_SavedOption)
    (hl : item.optionPtr.specPtr.type = TK_OPTION_CUSTOM → CustomLocal item.optionPtr)
    (hr : Restorable item.optionPtr) :
    ∃ r0 e, restoreItem tkwin r item = some (r0, e) ∧
      r0.objs = (r.setObjAt item.optionPtr.specPtr.objOffset item.valuePtr).objs ∧
      (∀ x, some x ≠ item.optionPtr.specPtr.internalOffset → r0.internals x = r.internals x) ∧
      (item.optionPtr.specPtr.type ≠ TK_OPTION_CUSTOM →
        ∀ x, item.optionPtr.specPtr.internalOffset = some x →
          r0.internals x = item.internalForm) := by
  obtain ⟨hf1, hf2⟩ := freeNewValue_spec tkwin r item.optionPtr
  cases hoff : item.optionPtr.specPtr.internalOffset with
  | none =>
    refine ⟨(freeNewValue tkwin r item.optionPtr).1.setObjAt item.optionPtr.specPtr.objOffset
      item.valuePtr, (freeNewValue tkwin r item.optionPtr).2,
      by simp only [restoreItem, hoff], ?_, ?_, ?_⟩
    · exact Record.setObjAt_objs_congr _ _ _ _ hf1
    · intro x _
      rw [Record.setObjAt_internals]
      exact hf2 x (by simp [hoff])
    · intro _ x hx
      cases hx
  | some off =>
    have hsome := hr tkwin
      ((freeNewValue tkwin r item.optionPtr).1.setObjAt item.optionPtr.specPtr.objOffset
        item.valuePtr) item off rfl hoff
    cases hri : restoreInternal tkwin
      ((freeNewValue tkwin r item.optionPtr).1.setObjAt item.optionPtr.specPtr.objOffset
        item.valuePtr) item off with
    | none => simp [hri] at hsome
    | some res =>
      obtain ⟨r2, e2⟩ := res
      refine ⟨r2, (freeNewValue tkwin r item.optionPtr).2 ++ e2,
        by simp only [restoreItem, hoff, hri], ?_⟩
      by_cases hc : item.optionPtr.specPtr.type = TK_OPTION_CUSTOM
      · obtain ⟨h1, h2⟩ := restoreInternal_custom _ _ _ _ _ _ hc (hl hc) hri
        refine ⟨?_, ?_, fun h => absurd hc h⟩
        · rw [h1]
          exact Record.setObjAt_objs_congr _ _ _ _ hf1
        · intro x hx
          rw [h2 x (by rw [hoff]; exact hx), Record.setObjAt_internals]
          exact hf2 x (by rw [hoff]; exact hx)
      · have h1 := restoreInternal_noncustom _ _ _ _ _ _ hc hri
        subst h1
        refine ⟨?_, ?_, ?_⟩
        · rw [Record.set_objs]
          exact Record.setObjAt_objs_congr _ _ _ _ hf1
        · intro x hx
          have hne : x ≠ off := fun e => hx (by rw [e])
          rw [Record.set_internals_ne _ _ _ _ hne, Record.setObjAt_internals]
          exact hf2 x (by rw [hoff]; exact hx)
        · intro _ x hx
          cases hx
          exact Record.set_internals_same _ _ _

/-- What a successful `DoObjConfig` has done: the saved option names the
option and holds the value pointer that was in its `Tcl_Obj *` field; only
that field and the internal form of the option have changed; for every type
but `TK_OPTION_CUSTOM` the saved internal form is the one that was in the
record; and the saved option can be restored without a panic. -/
theorem DoObjConfig_ok_spec (env : Env) (r r1 : Record) (o : TkOption) (v : Tcl_Obj)
    (tkwin : Tk_Window) (sv : Bool) (saved : Tk_SavedOption) (eff : List Effect)
    (hl : o.specPtr.type = TK_OPTION_CUSTOM → CustomLocal o)
    (h : DoObjConfig env r o v tkwin sv = .ok r1 saved eff) :
    saved.optionPtr = o ∧ saved.valuePtr = r.objAt o.specPtr.objOffset ∧
      (∃ v2, r1.objs = (r.setObjAt o.specPtr.objOffset v2).objs) ∧
      (∀ x, some x ≠ o.specPtr.internalOffset → r1.internals x = r.internals x) ∧
      (o.specPtr.type ≠ TK_OPTION_CUSTOM →
        ∀ x, o.specPtr.internalOffset = some x → saved.internalForm = r.internals x) ∧
      Restorable o := by
  have hconf := applyValue_confined env r o v tkwin hl
  have hloc := applyValue_local env r o v tkwin
  have hres := applyValue_restorable env r o v tkwin
  unfold DoObjConfig at h
  cases ha : applyValue env r o v tkwin with
  | fail r2 => simp [ha] at h
  | abort => simp [ha] at h
  | stored v2 r2 old effs =>
    rw [ha] at hconf hloc hres
    simp only [ha, DoResult.ok.injEq] at h
    obtain ⟨h1, h2, _⟩ := h
    subst h1 h2
    refine ⟨rfl, rfl, ⟨v2, ?_⟩, ?_, ?_, hres rfl⟩
    · exact Record.setObjAt_objs_congr _ _ _ _ hconf.1
    · intro x hx
      rw [Record.setObjAt_internals]
      exact hconf.2 x hx
    · intro hc x hx
      exact (hloc hc).2.2 x hx

/-- A failing `DoObjConfig` keeps the `Tcl_Obj *` fields and every internal
form but that of the option, and for every type but `TK_OPTION_CUSTOM` it
leaves the record as it was. -/
theorem DoObjConfig_error_spec (env : Env) (r r1 : Record) (o : TkOption) (v : Tcl_Obj)
    (tkwin : Tk_Window) (sv : Bool)
    (hl : o.specPtr.type = TK_OPTION_CUSTOM → CustomLocal o)
    (h : DoObjConfig env r o v tkwin sv = .error r1) :
    r1.objs = r.objs ∧
      (∀ x, some x ≠ o.specPtr.internalOffset → r1.internals x = r.internals x) ∧
      (o.specPtr.type ≠ TK_OPTION_CUSTOM → r1 = r) := by
  have hconf := applyValue_confined env r o v tkwin hl
  have hloc := applyValue_local env r o v tkwin
  unfold DoObjConfig at h
  cases ha : applyValue env r o v tkwin with
  | fail r2 =>
    rw [ha] at hconf hloc
    simp only [ha, DoResult.error.injEq] at h
    subst h
    exact ⟨hconf.1, hconf.2, fun hc => hloc hc⟩
  | abort => simp [ha] at h
  | stored v2 r2 old effs => simp [ha] at h

theorem Record.setObjAt_undo (r r1 : Record) (off : Offset) (v2 : Option Tcl_Obj)
    (h : r1.objs = (r.setObjAt off v2).objs) :
    (r1.setObjAt off (r.objAt off)).objs = r.objs := by
  cases off with
  | none => exact h
  | some o =>
    funext x
    simp only [Record.setObjAt, Record.setObj, Record.objAt, h]
    by_cases hx : x = o
    · simp [hx]
    · simp [hx]

/-- Restoring the entry that a successful `DoObjConfig` has saved, in any
record that agrees outside `S` with the one `DoObjConfig` has left, does not
panic and gives a record that agrees outside `S` with the one `DoObjConfig`
started from. -/
theorem restore_after_apply (S : Nat → Prop) (env : Env) (r r1 : Record) (o : TkOption)
    (v : Tcl_Obj) (tkwin : Tk_Window) (sv : Bool) (saved : Tk_SavedOption)
    (eff : List Effect) (hok : OptionOk S o)
    (h : DoObjConfig env r o v tkwin sv = .ok r1 saved eff)
    (tkwin2 : Tk_Window) (r1' : Record) (hag : Record.AgreeOff S r1' r1) :
    ∃ r0 e, restoreItem tkwin2 r1' saved = some (r0, e) ∧ Record.AgreeOff S r0 r := by
  obtain ⟨hso, hsv, ⟨v2, hobjs⟩, hint, hold, hres⟩ :=
    DoObjConfig_ok_spec env r r1 o v tkwin sv saved eff (fun hc => (hok hc).1) h
  obtain ⟨r0, e, hrest, ho, hi, hf⟩ :=
    restoreItem_spec tkwin2 r1' saved (by rw [hso]; exact fun hc => (hok hc).1)
      (by rw [hso]; exact hres)
  refine ⟨r0, e, hrest, ?_, ?_⟩
  · rw [ho, hso, hsv, Record.setObjAt_objs_congr _ _ _ _ hag.1]
    exact Record.setObjAt_undo r r1 _ v2 hobjs
  · intro x hx
    rw [hso] at hi hf
    by_cases hc : o.specPtr.type = TK_OPTION_CUSTOM
    · have hne : some x ≠ o.specPtr.internalOffset := by
        intro e
        exact hx ((hok hc).2 x e.symm)
      rw [hi x hne, hag.2 x hx, hint x hne]
    · by_cases hne : some x = o.specPtr.internalOffset
      · rw [hf hc x hne.symm, hold hc x hne.symm]
      · rw [hi x hne, hag.2 x hx, hint x hne]

theorem restoreItems_eq_restorePairs (tkwin : Tk_Window) (items : List Tk_SavedOption)
    (r : Record) :
    restoreItems tkwin items r = restorePairs (items.map fun item => (tkwin, item)) r := by
  induction items generalizing r with
  | nil => rfl
  | cons item items ih =>
    simp only [restoreItems, List.map_cons, restorePairs]
    cases restoreItem tkwin r item with
    | none => rfl
    | some res =>
      obtain ⟨r1, e1⟩ := res
      simp only [ih]

theorem restorePairs_append (l1 l2 : List (Tk_Window × Tk_SavedOption)) (r : Record) :
    restorePairs (l1 ++ l2) r =
      match restorePairs l1 r with
      | none => none
      | some (r1, e1) =>
        match restorePairs l2 r1 with
        | none => none
        | some (r2, e2) => some (r2, e1 ++ e2) := by
  induction l1 generalizing r with
  | nil =>
    simp only [List.nil_append, restorePairs]
    cases restorePairs l2 r with
    | none => rfl
    | some res => simp
  | cons p l1 ih =>
    obtain ⟨w, item⟩ := p
    show restorePairs ((w, item) :: (l1 ++ l2)) r = _
    simp only [restorePairs]
    cases restoreItem w r item with
    | none => rfl
    | some res =>
      obtain ⟨r1, e1⟩ := res
      simp only []
      rw [ih r1]
      cases restorePairs l1 r1 with
      | none => rfl
      | some res1 =>
        obtain ⟨r2, e2⟩ := res1
        simp only
        cases restorePairs l2 r2 with
        | none => rfl
        | some res2 => simp [List.append_assoc]

/-- The order in which `Tk_RestoreSavedOptions` undoes the entries of a log:
the reverse of the order in which they were saved, over all the nodes of the
log, and what it leaves of the log is the first node without entries. -/
theorem Tk_RestoreSavedOptions_eq_restorePairs (r : Record) (root : Tk_SavedOptions)
    (rest : SavePtr) :
    Tk_RestoreSavedOptions r root rest =
      (restorePairs (flatItems (root :: rest)).reverse r).map fun p =>
        { savePtr := [{ root with items := [] }], recordPtr := p.1, effects := p.2 } := by
  induction rest generalizing root with
  | nil =>
    simp only [Tk_RestoreSavedOptions, flatItems, List.append_nil, restoreItems_eq_restorePairs,
      List.map_reverse]
    cases restorePairs (List.map (fun item => (root.tkwin, item)) root.items).reverse r with
    | none => rfl
    | some res => rfl
  | cons next rest ih =>
    simp only [Tk_RestoreSavedOptions, ih next]
    have hflat : (flatItems (root :: next :: rest)).reverse =
        (flatItems (next :: rest)).reverse
          ++ (root.items.map fun item => (root.tkwin, item)).reverse := by
      simp [flatItems]
    rw [hflat, restorePairs_append]
    cases restorePairs (flatItems (next :: rest)).reverse r with
    | none => rfl
    | some res =>
      obtain ⟨r1, e1⟩ := res
      simp only [Option.map_some', restoreItems_eq_restorePairs, List.map_reverse]
      cases restorePairs (List.map (fun item => (root.tkwin, item)) root.items).reverse r1 with
      | none => rfl
      | some res2 => rfl

theorem growIfFull_ne_nil (env : Env) (tkwin : Tk_Window) (sp : SavePtr) (h : sp ≠ []) :
    growIfFull env tkwin sp ≠ [] := by
  cases sp with
  | nil => exact absurd rfl h
  | cons n rest =>
    cases rest with
    | nil =>
      simp only [growIfFull]
      split_ifs <;> simp
    | cons n2 rest => simp [growIfFull]

theorem flatItems_growIfFull (env : Env) (tkwin : Tk_Window) (sp : SavePtr) :
    flatItems (growIfFull env tkwin sp) = flatItems sp := by
  induction sp with
  | nil => rfl
  | cons n rest ih =>
    cases rest with
    | nil =>
      simp only [growIfFull]
      split_ifs <;> simp [flatItems]
    | cons n2 rest =>
      simp only [growIfFull, flatItems] at ih ⊢
      rw [ih]

theorem appendToLast_ne_nil (saved : Tk_SavedOption) (sp : SavePtr) (h : sp ≠ []) :
    appendToLast saved sp ≠ [] := by
  cases sp with
  | nil => exact absurd rfl h
  | cons n rest =>
    cases rest with
    | nil => simp [appendToLast]
    | cons n2 rest => simp [appendToLast]

theorem flatItems_appendToLast (saved : Tk_SavedOption) (sp : SavePtr) (h : sp ≠ []) :
    ∃ w, flatItems (appendToLast saved sp) = flatItems sp ++ [(w, saved)] := by
  induction sp with
  | nil => exact absurd rfl h
  | cons n rest ih =>
    cases rest with
    | nil => exact ⟨n.tkwin, by simp [appendToLast, flatItems]⟩
    | cons n2 rest =>
      obtain ⟨w, hw⟩ := ih (by simp)
      refine ⟨w, ?_⟩
      simp only [appendToLast, flatItems] at hw ⊢
      rw [hw]
      simp [List.append_assoc]

theorem deref_inChain (chain : TableChain) (p : OptionPtr) (o : TkOption)
    (h : chain.deref p = some o) : InChain chain o := by
  unfold TableChain.deref at h
  cases ht : chain[p.1]? with
  | none => simp [ht] at h
  | some tbl =>
    simp only [ht] at h
    exact ⟨tbl, List.getElem?_mem ht, List.getElem?_mem h⟩

theorem followSynonym_inChain (chain : TableChain) (p : OptionPtr) (o o2 : TkOption)
    (ho : InChain chain o) (h : followSynonym chain p o = some o2) : InChain chain o2 := by
  unfold followSynonym at h
  split_ifs at h
  · cases he : o.extra with
    | monoColorPtr q => simp [he] at h
    | custom c => simp [he] at h
    | synonymPtr i =>
      simp only [he] at h
      exact deref_inChain _ _ _ h
  · simp only [Option.some.injEq] at h
    exact h ▸ ho

theorem pair_induction {α : Type} {P : List α → Prop} (h0 : P [])
    (h1 : ∀ a, P [a]) (h2 : ∀ a b l, P l → P (a :: b :: l)) : ∀ l, P l
  | [] => h0
  | [a] => h1 a
  | a :: b :: l => h2 a b l (pair_induction h0 h1 h2 l)

/-- The loop of `Tk_SetOptions` run with a log, whether it ends at the end of
the arguments or at `goto error`: the log is the log it started with followed
by new entries, and undoing the new entries from the last to the first, in any
record that agrees outside `S` with the record the loop has left, does not
panic and gives a record that agrees outside `S` with the record the loop
started with. -/
theorem setOptionsLoop_undo (S : Nat → Prop) (env : Env) (interp : Bool) (chain : TableChain)
    (tkwin : Tk_Window) (hchain : ∀ o, InChain chain o → OptionOk S o) (objv : List Tcl_Obj) :
    ∀ st st' : SetState, st.savePtr ≠ [] →
      (setOptionsLoop env interp chain tkwin true objv st = .done st' ∨
        setOptionsLoop env interp chain tkwin true objv st = .error st') →
      st'.savePtr ≠ [] ∧
      ∃ new, flatItems st'.savePtr = flatItems st.savePtr ++ new ∧
        ∀ r', Record.AgreeOff S r' st'.recordPtr →
          ∃ r0 e, restorePairs new.reverse r' = some (r0, e) ∧
            Record.AgreeOff S r0 st.recordPtr := by
  induction objv using pair_induction with
  | h0 =>
    intro st st' hne h
    simp only [setOptionsLoop, LoopEnd.done.injEq, reduceCtorEq, or_false] at h
    subst h
    exact ⟨hne, [], by simp, fun r' hr' => ⟨r', [], rfl, hr'⟩⟩
  | h1 name =>
    intro st st' hne h
    have hst : st' = st := by
      simp only [setOptionsLoop] at h
      rcases h with h | h
      · split at h
        · cases h
        · split at h
          · cases h
          · split at h
            · cases h
            · split_ifs at h
      · split at h
        · cases h; rfl
        · split at h
          · cases h
          · split at h
            · cases h
            · split_ifs at h
              cases h; rfl
    subst hst
    exact ⟨hne, [], by simp, fun r' hr' => ⟨r', [], rfl, hr'⟩⟩
  | h2 name value rest ih =>
    intro st st' hne h
    simp only [setOptionsLoop] at h
    cases hlook : (GetOptionFromObj name chain).result with
    | none =>
      simp only [hlook, reduceCtorEq, LoopEnd.error.injEq, false_or] at h
      subst h
      exact ⟨hne, [], by simp, fun r' hr' => ⟨r', [], rfl, hr'⟩⟩
    | some p =>
      simp only [hlook] at h
      cases hd : chain.deref p with
      | none => simp [hd] at h
      | some found =>
        simp only [hd] at h
        cases hf : followSynonym chain p found with
        | none => simp [hf] at h
        | some o =>
          simp only [hf, if_true] at h
          have hin : InChain chain o := followSynonym_inChain _ _ _ _ (deref_inChain _ _ _ hd) hf
          have hok := hchain o hin
          cases hdo : DoObjConfig env st.recordPtr o value tkwin true with
          | panic => simp [hdo] at h
          | error r1 =>
            simp only [hdo, reduceCtorEq, LoopEnd.error.injEq, false_or] at h
            subst h
            obtain ⟨he1, he2, he3⟩ := DoObjConfig_error_spec env _ _ o value tkwin true
              (fun hc => (hok hc).1) hdo
            refine ⟨growIfFull_ne_nil _ _ _ hne, [], by simp [flatItems_growIfFull], ?_⟩
            intro r' hr'
            refine ⟨r', [], rfl, hr'.trans ⟨he1, ?_⟩⟩
            intro x hx
            by_cases hc : o.specPtr.type = TK_OPTION_CUSTOM
            · exact he2 x (fun e => hx ((hok hc).2 x e.symm))
            · rw [he3 hc]
          | ok r1 saved eff =>
            simp only [hdo] at h
            have hne1 : appendToLast saved (growIfFull env tkwin st.savePtr) ≠ [] :=
              appendToLast_ne_nil _ _ (growIfFull_ne_nil _ _ _ hne)
            obtain ⟨hne', new', hflat, hundo⟩ := ih _ st' hne1 h
            obtain ⟨w, hw⟩ := flatItems_appendToLast saved _ (growIfFull_ne_nil env tkwin _ hne)
            refine ⟨hne', (w, saved) :: new', ?_, ?_⟩
            · rw [hflat]
              simp only [hw, flatItems_growIfFull, List.append_assoc, List.singleton_append]
            · intro r' hr'
              obtain ⟨r1', e1, hrp, hag⟩ := hundo r' hr'
              obtain ⟨r0, e0, hri, hag0⟩ := restore_after_apply S env _ _ o value tkwin true
                saved eff hok hdo w r1' hag
              refine ⟨r0, e1 ++ (e0 ++ []), ?_, hag0⟩
              rw [List.reverse_cons, restorePairs_append, hrp]
              simp only [restorePairs, hri]

theorem Tk_SetOptions_eq (env : Env) (interp : Bool) (r : Record) (chain : TableChain)
    (objv : List Tcl_Obj) (tkwin : Tk_Window) (savePtr : Bool) (maskPtr : Option Nat) :
    Tk_SetOptions env interp r chain objv tkwin savePtr maskPtr =
      match setOptionsLoop env interp chain tkwin savePtr objv
          (initialState r tkwin savePtr) with
      | .done st => .ok st.recordPtr st.savePtr (maskPtr.map fun _ => st.mask) st.effects
      | .error st =>
        match st.savePtr with
        | [] => .error st.recordPtr [] maskPtr st.effects
        | root :: chained =>
          match Tk_RestoreSavedOptions st.recordPtr root chained with
          | none => .panic
          | some res => .error res.recordPtr res.savePtr maskPtr (st.effects ++ res.effects)
      | .panic => .panic
      | .badRead => .badRead := rfl

theorem customOffsets_ok (chain : TableChain)
    (hlocal : ∀ o, InChain chain o → o.specPtr.type = TK_OPTION_CUSTOM → CustomLocal o) :
    ∀ o, InChain chain o → OptionOk (customOffsets chain) o := by
  intro o hin hc
  refine ⟨hlocal o hin hc, ?_⟩
  intro x hx
  obtain ⟨tbl, ht, ho⟩ := hin
  exact ⟨tbl, ht, o, ho, hc, hx⟩

/-- After the loop of `Tk_SetOptions` has run with a log, from the start of
the function, `Tk_RestoreSavedOptions` on the log it has left does not panic,
leaves a log of one node without entries and a record that agrees outside `S`
with the record the function was called with. -/
theorem restore_after_loop (S : Nat → Prop) (env : Env) (interp : Bool) (r : Record)
    (chain : TableChain) (objv : List Tcl_Obj) (tkwin : Tk_Window)
    (hchain : ∀ o, InChain chain o → OptionOk S o) (st : SetState)
    (h : setOptionsLoop env interp chain tkwin true objv (initialState r tkwin true) = .done st ∨
      setOptionsLoop env interp chain tkwin true objv (initialState r tkwin true) = .error st) :
    ∃ root chained res, st.savePtr = root :: chained ∧
      Tk_RestoreSavedOptions st.recordPtr root chained = some res ∧
      res.savePtr = [{ root with items := [] }] ∧ Record.AgreeOff S res.recordPtr r := by
  obtain ⟨hne, new, hflat, hundo⟩ :=
    setOptionsLoop_undo S env interp chain tkwin hchain objv _ st (by simp [initialState]) h
  cases hs : st.savePtr with
  | nil => exact absurd hs hne
  | cons root chained =>
    obtain ⟨r0, e, hrp, hag⟩ := hundo st.recordPtr (Record.AgreeOff.refl _ _)
    have hnew : flatItems (root :: chained) = new := by
      rw [← hs, hflat]
      simp [initialState, flatItems]
    refine ⟨root, chained,
      { savePtr := [{ root with items := [] }], recordPtr := r0, effects := e }, rfl, ?_, rfl,
      hag⟩
    rw [Tk_RestoreSavedOptions_eq_restorePairs, hnew, hrp]
    rfl

theorem widgetTable_noCustom :
    ∀ o, InChain widgetTable o → o.specPtr.type ≠ TK_OPTION_CUSTOM := by
  intro o hin
  obtain ⟨tbl, ht, ho⟩ := hin
  have key : ∀ tbl ∈ widgetTable, ∀ o ∈ tbl.options,
      o.specPtr.type ≠ TK_OPTION_CUSTOM := by decide
  exact key tbl ht o ho

theorem widgetTable_customOffsets (x : Nat) : ¬ customOffsets widgetTable x := by
  intro h
  obtain ⟨tbl, ht, o, ho, hc, _⟩ := h
  exact widgetTable_noCustom o ⟨tbl, ht, ho⟩ hc

theorem widgetTable_local :
    ∀ o, InChain widgetTable o → o.specPtr.type = TK_OPTION_CUSTOM → CustomLocal o :=
  fun o hin hc => absurd hc (widgetTable_noCustom o hin)

theorem Tk_SetOptions_error_inv (S : Nat → Prop) (env : Env) (interp : Bool) (r r1 : Record)
    (chain : TableChain) (objv : List Tcl_Obj) (tkwin : Tk_Window) (maskPtr m : Option Nat)
    (sp : SavePtr) (e : List Effect)
    (hchain : ∀ o, InChain chain o → OptionOk S o)
    (h : Tk_SetOptions env interp r chain objv tkwin true maskPtr = .error r1 sp m e) :
    Record.AgreeOff S r1 r ∧ (∃ w, sp = [{ tkwin := w, items := [] }]) ∧ m = maskPtr := by
  rw [Tk_SetOptions_eq] at h
  cases hloop : setOptionsLoop env interp chain tkwin true objv (initialState r tkwin true) with
  | done st => simp [hloop] at h
  | panic => simp [hloop] at h
  | badRead => simp [hloop] at h
  | error st =>
    obtain ⟨root, chained, res, hs, hres, hsp, hag⟩ :=
      restore_after_loop S env interp r chain objv tkwin hchain st (Or.inr hloop)
    simp only [hloop, hs, hres, SetResult.error.injEq] at h
    obtain ⟨h1, h2, h3, _⟩ := h
    subst h1 h2 h3
    exact ⟨hag, ⟨root.tkwin, hsp⟩, rfl⟩

/-- C1: rollback.  When `Tk_SetOptions` is called with a log and a pair fails
(the loop reaches `goto error`), the function returns `TCL_ERROR` (undoing
the log does not panic); and when it has returned `TCL_ERROR`, after
`Tk_RestoreSavedOptions` has run on the log the record has the value pointers
it had before the call at every offset, and the internal forms it had before
the call at every offset that is not the internal offset of a custom option.
The functions of the custom options of the table are assumed to touch nothing
of the record but the internal form of their option. -/
theorem Tk_SetOptions_rollback (env : Env) (interp : Bool) (r : Record) (chain : TableChain)
    (objv : List Tcl_Obj) (tkwin : Tk_Window) (maskPtr : Option Nat)
    (hlocal : ∀ o, InChain chain o → o.specPtr.type = TK_OPTION_CUSTOM → CustomLocal o) :
    (∀ st, setOptionsLoop env interp chain tkwin true objv (initialState r tkwin true)
        = .error st →
      ∃ r1 sp e,
        Tk_SetOptions env interp r chain objv tkwin true maskPtr = .error r1 sp maskPtr e) ∧
    (∀ r1 sp m e,
      Tk_SetOptions env interp r chain objv tkwin true maskPtr = .error r1 sp m e →
      ∃ root res, sp = [root] ∧ Tk_RestoreSavedOptions r1 root [] = some res ∧
        res.recordPtr.objs = r.objs ∧
        ∀ x, ¬ customOffsets chain x → res.recordPtr.internals x = r.internals x) := by
  have hchain := customOffsets_ok chain hlocal
  constructor
  · intro st hloop
    obtain ⟨root, chained, res, hs, hres, _, _⟩ :=
      restore_after_loop _ env interp r chain objv tkwin hchain st (Or.inr hloop)
    refine ⟨res.recordPtr, res.savePtr, st.effects ++ res.effects, ?_⟩
    rw [Tk_SetOptions_eq]
    simp only [hloop, hs, hres]
  · intro r1 sp m e h
    obtain ⟨hag, ⟨w, hsp⟩, _⟩ :=
      Tk_SetOptions_error_inv _ env interp r r1 chain objv tkwin maskPtr m sp e hchain h
    subst hsp
    exact ⟨_, _, rfl, rfl, hag.1, hag.2⟩

/-- The statement of `Tk_SetOptions_rollback` for the widget with width 10 and
state `disabled` and the arguments `-width 20 -state xyz`, of which the second
pair fails. -/
theorem Tk_SetOptions_rollback_witness :
    ∃ r1 sp m e,
      Tk_SetOptions exampleEnv true widgetRecord widgetTable failingArgs 0 true none
        = .error r1 sp m e ∧
      ∃ root res, sp = [root] ∧ Tk_RestoreSavedOptions r1 root [] = some res ∧
        res.recordPtr.objs = widgetRecord.objs ∧
        ∀ x, ¬ customOffsets widgetTable x →
          res.recordPtr.internals x = widgetRecord.internals x :=
  ⟨_, _, _, _, rfl,
    (Tk_SetOptions_rollback exampleEnv true widgetRecord widgetTable failingArgs 0 none
      widgetTable_local).2 _ _ _ _ rfl⟩

/-- C4, counterexample: with a log, `-width 20 -state xyz` applied to the
widget of width 10 returns `TCL_ERROR` with the width back at 10, not at the
20 of the first pair (which `-width 20` alone does store), and with no entry
in the log. -/
theorem Tk_SetOptions_rolls_back_itself :
    (∃ r2 sp m e,
      Tk_SetOptions exampleEnv true widgetRecord widgetTable [strObj "-width", strObj "20"]
        0 true none = .ok r2 sp m e ∧ r2.internals 8 = .int 20) ∧
    ∃ r1 sp m e,
      Tk_SetOptions exampleEnv true widgetRecord widgetTable failingArgs 0 true none
        = .error r1 sp m e ∧
      r1.internals 8 = .int 10 ∧ r1.internals 8 ≠ .int 20 ∧ flatItems sp = [] :=
  ⟨⟨_, _, _, _, rfl, by decide⟩, _, _, _, _, rfl, by decide, by decide, rfl⟩

/-- C4, amended: when `Tk_SetOptions` is given a log and returns `TCL_ERROR`,
it has undone the pairs it had applied: on return the record has the value
pointers it had before the call at every offset and the internal forms it had
before the call at every offset that is not the internal offset of a custom
option, the log is one node without entries and without a chained node, and
the word at `maskPtr` is as it was.  The functions of the custom options are
assumed to touch nothing of the record but the internal form of their
option. -/
theorem Tk_SetOptions_error_restores (env : Env) (interp : Bool) (r r1 : Record)
    (chain : TableChain) (objv : List Tcl_Obj) (tkwin : Tk_Window) (maskPtr m : Option Nat)
    (sp : SavePtr) (e : List Effect)
    (hlocal : ∀ o, InChain chain o → o.specPtr.type = TK_OPTION_CUSTOM → CustomLocal o)
    (h : Tk_SetOptions env interp r chain objv tkwin true maskPtr = .error r1 sp m e) :
    r1.objs = r.objs ∧
      (∀ x, ¬ customOffsets chain x → r1.internals x = r.internals x) ∧
      (∃ w, sp = [{ tkwin := w, items := [] }]) ∧ m = maskPtr := by
  obtain ⟨hag, hsp, hm⟩ :=
    Tk_SetOptions_error_inv _ env interp r r1 chain objv tkwin maskPtr m sp e
      (customOffsets_ok chain hlocal) h
  exact ⟨hag.1, hag.2, hsp, hm⟩

/-- The statement of `Tk_SetOptions_error_restores` for the widget with width
10 and the arguments `-width 20 -state xyz`. -/
theorem Tk_SetOptions_error_restores_witness :
    ∃ r1 sp m e,
      Tk_SetOptions exampleEnv true widgetRecord widgetTable failingArgs 0 true none
        = .error r1 sp m e ∧
      r1.objs = widgetRecord.objs ∧
      (∀ x, ¬ customOffsets widgetTable x → r1.internals x = widgetRecord.internals x) ∧
      (∃ w, sp = [{ tkwin := w, items := [] }]) ∧ m = none :=
  ⟨_, _, _, _, rfl,
    Tk_SetOptions_error_restores exampleEnv true widgetRecord _ widgetTable failingArgs 0
      none _ _ _ widgetTable_local rfl⟩

/-- C2, counterexample: a successful `Tk_SetOptions` with a log on the custom
option `-seven`, which has no `restoreProc`, followed by
`Tk_RestoreSavedOptions`: the internal form of the option stays the one that
was set, it does not return to what it was before the call. -/
theorem restore_keeps_custom_internal :
    ∃ r1 root m e res,
      Tk_SetOptions exampleEnv true widgetRecord sevenTable [strObj "-seven", strObj "x"]
        0 true none = .ok r1 [root] m e ∧
      Tk_RestoreSavedOptions r1 root [] = some res ∧
      res.recordPtr.internals 32 = .custom 7 ∧
      res.recordPtr.internals 32 ≠ widgetRecord.internals 32 :=
  ⟨_, _, _, _, _, rfl, rfl, by decide, by decide⟩

/-- C2, amended: after a successful `Tk_SetOptions` with a log,
`Tk_RestoreSavedOptions` on that log does not panic and leaves a record that
has the value pointers it had before the call at every offset and the
internal forms it had before the call at every offset that is not the
internal offset of a custom option; it undoes the entries of the log in the
reverse of the order in which they were saved, over all the nodes of the log
(the last node first, each node from its last entry to its first).  The
functions of the custom options are assumed to touch nothing of the record
but the internal form of their option. -/
theorem Tk_RestoreSavedOptions_undoes_batch (env : Env) (interp : Bool) (r r1 : Record)
    (chain : TableChain) (objv : List Tcl_Obj) (tkwin : Tk_Window) (maskPtr m : Option Nat)
    (sp : SavePtr) (e : List Effect)
    (hlocal : ∀ o, InChain chain o → o.specPtr.type = TK_OPTION_CUSTOM → CustomLocal o)
    (h : Tk_SetOptions env interp r chain objv tkwin true maskPtr = .ok r1 sp m e) :
    ∃ root chained res, sp = root :: chained ∧
      Tk_RestoreSavedOptions r1 root chained = some res ∧
      res.recordPtr.objs = r.objs ∧
      (∀ x, ¬ customOffsets chain x → res.recordPtr.internals x = r.internals x) ∧
      Tk_RestoreSavedOptions r1 root chained =
        (restorePairs (flatItems sp).reverse r1).map fun p =>
          { savePtr := [{ root with items := [] }], recordPtr := p.1, effects := p.2 } := by
  rw [Tk_SetOptions_eq] at h
  cases hloop : setOptionsLoop env interp chain tkwin true objv (initialState r tkwin true) with
  | error st =>
    simp only [hloop] at h
    split at h
    · cases h
    · split at h <;> cases h
  | panic => simp [hloop] at h
  | badRead => simp [hloop] at h
  | done st =>
    obtain ⟨root, chained, res, hs, hres, _, hag⟩ :=
      restore_after_loop _ env interp r chain objv tkwin (customOffsets_ok chain hlocal) st
        (Or.inl hloop)
    simp only [hloop, SetResult.ok.injEq] at h
    obtain ⟨h1, h2, _, _⟩ := h
    subst h1 h2
    refine ⟨root, chained, res, hs, hres, hag.1, hag.2, ?_⟩
    rw [hs]
    exact Tk_RestoreSavedOptions_eq_restorePairs _ _ _

/-- The statement of `Tk_RestoreSavedOptions_undoes_batch` for the widget with
width 10 and the arguments `-width 1 -width 2 -width 3`, with nodes of two
saved options: the batch leaves the width 3 and a log of two nodes, and
undoing it gives back the width 10. -/
theorem Tk_RestoreSavedOptions_undoes_batch_witness :
    ∃ r1 sp m e,
      Tk_SetOptions smallNodeEnv true widgetRecord widgetTable thriceArgs 0 true none
        = .ok r1 sp m e ∧
      r1.internals 8 = .int 3 ∧ sp.length = 2 ∧
      ∃ root chained res, sp = root :: chained ∧
        Tk_RestoreSavedOptions r1 root chained = some res ∧
        res.recordPtr.objs = widgetRecord.objs ∧
        (∀ x, ¬ customOffsets widgetTable x →
          res.recordPtr.internals x = widgetRecord.internals x) ∧
        res.recordPtr.internals 8 = .int 10 := by
  obtain ⟨root, chained, res, hs, hres, ho, hi, _⟩ :=
    Tk_RestoreSavedOptions_undoes_batch smallNodeEnv true widgetRecord _ widgetTable
      thriceArgs 0 none _ _ _ widgetTable_local rfl
  exact ⟨_, _, _, _, rfl, by decide, by decide, root, chained, res, hs, hres, ho, hi,
    hi 8 (widgetTable_customOffsets 8)⟩

theorem storeInternal_isFail (r : Record) (specPtr : Tk_OptionSpec) (v : Option Tcl_Obj)
    (c : Cell) : (storeInternal r specPtr v c).isFail = false := by
  unfold storeInternal
  cases specPtr.internalOffset <;> rfl

theorem storeNarrow_isFail (r : Record) (specPtr : Tk_OptionSpec) (v : Option Tcl_Obj)
    (n : Int) : (storeNarrow r specPtr v n).isFail = false := by
  unfold storeNarrow
  cases specPtr.internalOffset with
  | none => rfl
  | some off =>
    simp only
    split_ifs <;> rfl

theorem Applied.mapValue_isFail (a : Applied) (f : Option Tcl_Obj → Option Tcl_Obj) :
    (a.mapValue f).isFail = a.isFail := by
  cases a <;> rfl

theorem Applied.defineCursor_isFail (a : Applied) (tkwin : Tk_Window) (c : Nat) :
    (a.defineCursor tkwin c).isFail = a.isFail := by
  cases a <;> rfl

theorem applyHandle_isFail (r : Record) (specPtr : Tk_OptionSpec) (isNull : Bool)
    (v : Tcl_Obj) (alloc : Tcl_Obj → Nat) :
    (applyHandle r specPtr isNull v alloc).isFail = (!isNull && alloc v == 0) := by
  unfold applyHandle
  cases isNull with
  | true => simp [storeInternal_isFail]
  | false =>
    by_cases h : alloc v = 0
    · simp [h, Applied.isFail]
    · simp [h, storeInternal_isFail]

theorem Applied.isFail_fail (r : Record) : (Applied.fail r).isFail = true := rfl

theorem Applied.isFail_abort : Applied.abort.isFail = false := rfl

theorem applyValue_isFail (env : Env) (r : Record) (o : TkOption) (v : Tcl_Obj)
    (tkwin : Tk_Window) (hc : o.specPtr.type ≠ TK_OPTION_CUSTOM) :
    (applyValue env r o v tkwin).isFail = parseFails env o.specPtr v tkwin := by
  cases ht : o.specPtr.type <;> simp only [applyValue, parseFails, ht] <;>
    (try exact absurd ht hc)
  case TK_OPTION_BOOLEAN =>
    unfold applyBoolean
    cases hn : isNullValue env o.specPtr v <;> cases hp : env.Tcl_GetBooleanFromObj v <;>
      simp [storeNarrow_isFail, Applied.isFail_fail]
  case TK_OPTION_INT =>
    unfold applyInt
    by_cases h1 : o.specPtr.flags &&& TYPE_MASK = 0
    · simp only [h1, if_true]
      cases hn : isNullValue env o.specPtr v <;> cases hp : env.Tcl_GetIntFromObj v <;>
        simp [storeInternal_isFail, Applied.isFail_fail]
    · by_cases h2 : o.specPtr.flags &&& TYPE_MASK = TYPE_MASK
      · have h0 : ¬ TYPE_MASK = 0 := by decide
        simp only [h2, h0, if_true, if_false]
        cases hn : isNullValue env o.specPtr v <;> cases hp : env.Tcl_GetWideIntFromObj v <;>
          simp [storeInternal_isFail, Applied.isFail_fail]
      · simp only [h1, h2, if_false, Applied.isFail_abort]
  case TK_OPTION_INDEX =>
    unfold applyIndex
    cases hp : TkGetIntForIndex env (some v) (-1) 0 <;>
      simp [storeInternal_isFail, Applied.isFail_fail]
  case TK_OPTION_DOUBLE =>
    unfold applyDouble
    cases hn : isNullValue env o.specPtr v <;> cases hp : env.Tcl_GetDoubleFromObj v <;>
      simp [storeInternal_isFail, Applied.isFail_fail]
  case TK_OPTION_STRING =>
    unfold applyString
    cases hn : isNullValue env o.specPtr v <;> simp [storeInternal_isFail]
  case TK_OPTION_STRING_TABLE =>
    unfold applyStringTable
    cases hn : isNullValue env o.specPtr v <;>
      cases hp : env.Tcl_GetIndexFromObjStruct v o.specPtr.clientData
        (indexFlags env o.specPtr) <;>
      simp [storeNarrow_isFail, Applied.isFail_fail]
  case TK_OPTION_RELIEF =>
    unfold applyEnum
    cases hn : isNullValue env o.specPtr v <;>
      cases hp : env.Tcl_GetIndexFromObj v env.tkReliefStrings (indexFlags env o.specPtr) <;>
      simp [storeNarrow_isFail, Applied.isFail_fail, Applied.mapValue_isFail]
  case TK_OPTION_JUSTIFY =>
    unfold applyEnum
    cases hn : isNullValue env o.specPtr v <;>
      cases hp : env.Tcl_GetIndexFromObj v env.tkJustifyStrings (indexFlags env o.specPtr) <;>
      simp [storeNarrow_isFail, Applied.isFail_fail, Applied.mapValue_isFail]
  case TK_OPTION_ANCHOR =>
    unfold applyEnum
    cases hn : isNullValue env o.specPtr v <;>
      cases hp : env.Tcl_GetIndexFromObj v env.tkAnchorStrings (indexFlags env o.specPtr) <;>
      simp [storeNarrow_isFail, Applied.isFail_fail, Applied.mapValue_isFail]
  case TK_OPTION_CURSOR =>
    unfold applyCursor
    rw [Applied.defineCursor_isFail, applyHandle_isFail]
  case TK_OPTION_PIXELS =>
    unfold applyPixels
    cases hn : isNullValue env o.specPtr v <;> cases hp : env.Tk_GetPixelsFromObj tkwin v <;>
      simp [storeInternal_isFail, Applied.isFail_fail]
  case TK_OPTION_WINDOW =>
    unfold applyWindow
    cases hn : isNullValue env o.specPtr v <;> cases hp : env.TkGetWindowFromObj tkwin v <;>
      simp [storeInternal_isFail, Applied.isFail_fail]
  all_goals first | exact applyHandle_isFail _ _ _ _ _ | rfl

/-- C3: a value that cannot be parsed leaves the record unmodified.  For
every option whose type is not `TK_OPTION_CUSTOM`, `DoObjConfig` returns
`TCL_ERROR` exactly when the parser or allocator of the type rejects the
value, and whenever it returns `TCL_ERROR` the record is the record it was
given, at every field.  A `Tk_SetOptions` without a log of a single name and
value that returns `TCL_ERROR`, on a table without custom options, leaves the
record it was given, no log, and the word at `maskPtr` as it was. -/
theorem DoObjConfig_failure_leaves_record (env : Env) (r : Record) (tkwin : Tk_Window) :
    (∀ (o : TkOption) (v : Tcl_Obj) (sv : Bool), o.specPtr.type ≠ TK_OPTION_CUSTOM →
      (parseFails env o.specPtr v tkwin = true ↔ DoObjConfig env r o v tkwin sv = .error r) ∧
      (∀ r1, DoObjConfig env r o v tkwin sv = .error r1 → r1 = r)) ∧
    (∀ (interp : Bool) (chain : TableChain) (name value : Tcl_Obj) (maskPtr m : Option Nat)
        (r1 : Record) (sp : SavePtr) (e : List Effect),
      (∀ o, InChain chain o → o.specPtr.type ≠ TK_OPTION_CUSTOM) →
      Tk_SetOptions env interp r chain [name, value] tkwin false maskPtr = .error r1 sp m e →
      r1 = r ∧ sp = [] ∧ m = maskPtr) := by
  have herr : ∀ (o : TkOption) (v : Tcl_Obj) (sv : Bool), o.specPtr.type ≠ TK_OPTION_CUSTOM →
      ∀ r1, DoObjConfig env r o v tkwin sv = .error r1 → r1 = r := by
    intro o v sv hc r1 h
    exact (DoObjConfig_error_spec env r r1 o v tkwin sv (fun h => absurd h hc) h).2.2 hc
  refine ⟨?_, ?_⟩
  · intro o v sv hc
    refine ⟨?_, herr o v sv hc⟩
    rw [← applyValue_isFail env r o v tkwin hc]
    have hloc := applyValue_local env r o v tkwin hc
    unfold DoObjConfig
    cases ha : applyValue env r o v tkwin with
    | fail r2 =>
      rw [ha] at hloc
      have : r2 = r := hloc
      subst this
      simp [Applied.isFail]
    | abort => simp [Applied.isFail]
    | stored v2 r2 old eff => simp [Applied.isFail]
  · intro interp chain name value maskPtr m r1 sp e hchain h
    rw [Tk_SetOptions_eq] at h
    simp only [setOptionsLoop, initialState, if_false, Bool.false_eq_true] at h
    cases hlook : (GetOptionFromObj name chain).result with
    | none =>
      simp only [hlook, SetResult.error.injEq] at h
      exact ⟨h.1.symm, h.2.1.symm, h.2.2.1.symm⟩
    | some p =>
      simp only [hlook] at h
      cases hd : chain.deref p with
      | none => simp [hd] at h
      | some found =>
        simp only [hd] at h
        cases hf : followSynonym chain p found with
        | none => simp [hf] at h
        | some o =>
          simp only [hf] at h
          have hin : InChain chain o :=
            followSynonym_inChain _ _ _ _ (deref_inChain _ _ _ hd) hf
          cases hdo : DoObjConfig env r o value tkwin false with
          | panic => simp [hdo] at h
          | ok r2 saved eff => simp [hdo, setOptionsLoop] at h
          | error r2 =>
            simp only [hdo, SetResult.error.injEq] at h
            have := herr o value false (hchain o hin) r2 hdo
            subst this
            exact ⟨h.1.symm, h.2.1.symm, h.2.2.1.symm⟩

/-- The statement of `DoObjConfig_failure_leaves_record` for the widget with
width 10 and the arguments `-width foo`, without a log: the call returns
`TCL_ERROR` and the record is the one it was given. -/
theorem DoObjConfig_failure_leaves_record_witness :
    ∃ r1 sp m e,
      Tk_SetOptions exampleEnv true widgetRecord widgetTable [strObj "-width", strObj "foo"]
        0 false none = .error r1 sp m e ∧
      r1 = widgetRecord ∧ sp = [] ∧ m = none :=
  ⟨_, _, _, _, rfl,
    (DoObjConfig_failure_leaves_record exampleEnv widgetRecord 0).2 true widgetTable
      (strObj "-width") (strObj "foo") none _ _ _ _ widgetTable_noCustom rfl⟩

theorem readNarrow_isSome (specPtr : Tk_OptionSpec) (internal : Cell)
    (h : narrowFlagsOk specPtr = true) : ∃ value, readNarrow specPtr internal = some value := by
  unfold narrowFlagsOk at h
  unfold readNarrow
  by_cases h0 : specPtr.flags &&& TYPE_MASK ≠ 0
  · rw [if_pos h0] at h ⊢
    by_cases h1 : specPtr.flags &&& TYPE_MASK = TK_OPTION_VAR_char
    · rw [if_pos h1]; exact ⟨_, rfl⟩
    · rw [if_neg h1]
      by_cases h2 : specPtr.flags &&& TYPE_MASK = TK_OPTION_VAR_short
      · rw [if_pos h2]; exact ⟨_, rfl⟩
      · simp [h1, h2] at h
  · rw [if_neg h0]; exact ⟨_, rfl⟩

theorem formatInternal_isSome (env : Env) (names : Names) (r : Record) (o : TkOption)
    (tkwin : Tk_Window) (internal : Cell) (h : Formattable o internal) :
    ∃ objPtr, formatInternal env names r o tkwin internal = some objPtr := by
  unfold Formattable at h
  unfold formatInternal
  cases ht : o.specPtr.type <;> simp only [ht] at h ⊢
  case TK_OPTION_BOOLEAN =>
    obtain ⟨v, hv⟩ := readNarrow_isSome o.specPtr internal h
    simp only [formatBoolean, hv]; exact ⟨_, rfl⟩
  case TK_OPTION_INT =>
    unfold intFlagsOk at h
    unfold formatInt
    by_cases h0 : o.specPtr.flags &&& TYPE_MASK ≠ 0
    · rw [if_pos h0] at h ⊢
      have h1 : o.specPtr.flags &&& TYPE_MASK = TYPE_MASK := by simpa using h
      rw [if_pos h1]
      split <;> exact ⟨_, rfl⟩
    · rw [if_neg h0]
      split <;> exact ⟨_, rfl⟩
  case TK_OPTION_STRING_TABLE =>
    obtain ⟨v, hv, hr⟩ := h
    simp only [formatStringTable, hv]
    by_cases hneg : v ≥ 0
    · rw [if_pos hneg]
      rcases hr with hr | ⟨t, hc, hle⟩
      · omega
      · simp only [hc]
        cases hg : t[v.toNat]? with
        | some s => exact ⟨_, rfl⟩
        | none =>
          have : t.length ≤ v.toNat := List.getElem?_eq_none_iff.mp hg
          have he : v.toNat = t.length := by omega
          simp only [he, if_true]; exact ⟨_, rfl⟩
    · rw [if_neg hneg]; exact ⟨_, rfl⟩
  case TK_OPTION_RELIEF =>
    obtain ⟨v, hv⟩ := readNarrow_isSome o.specPtr internal h
    simp only [formatEnum, hv]; exact ⟨_, rfl⟩
  case TK_OPTION_JUSTIFY =>
    obtain ⟨v, hv⟩ := readNarrow_isSome o.specPtr internal h
    simp only [formatEnum, hv]; exact ⟨_, rfl⟩
  case TK_OPTION_ANCHOR =>
    obtain ⟨v, hv⟩ := readNarrow_isSome o.specPtr internal h
    simp only [formatEnum, hv]; exact ⟨_, rfl⟩
  case TK_OPTION_CUSTOM =>
    obtain ⟨c, hc⟩ := h
    simp only [formatCustom, hc]; exact ⟨_, rfl⟩
  all_goals exact ⟨_, rfl⟩

theorem GetObjectForOption_isSome (env : Env) (names : Names) (r : Record) (o : TkOption)
    (tkwin : Tk_Window)
    (h : ∀ off, o.specPtr.internalOffset = some off → Formattable o (r.internals off)) :
    ∃ objPtr, GetObjectForOption env names r o tkwin = some objPtr := by
  unfold GetObjectForOption
  cases hoff : o.specPtr.internalOffset with
  | none => exact ⟨_, rfl⟩
  | some off =>
    obtain ⟨x, hx⟩ := formatInternal_isSome env names r o tkwin _ (h off hoff)
    simp only [hx]; exact ⟨_, rfl⟩

theorem formatInternal_null (env : Env) (names : Names) (r : Record) (o : TkOption)
    (tkwin : Tk_Window) (internal : Cell) (h : IsNullSentinel env names o.specPtr internal) :
    ∃ objPtr, formatInternal env names r o tkwin internal = some objPtr ∧
      objPtr.getD Tcl_NewObj = Tcl_NewObj := by
  unfold IsNullSentinel at h
  unfold formatInternal
  cases ht : o.specPtr.type <;> simp only [ht] at h ⊢
  case TK_OPTION_BOOLEAN =>
    refine ⟨none, ?_, rfl⟩
    simp [formatBoolean, h]
  case TK_OPTION_INT =>
    refine ⟨none, ?_, rfl⟩
    obtain ⟨hn, h | h⟩ := h
    · simp [formatInt, h.1, h.2, hn]
    · have h0 : ¬ TYPE_MASK = 0 := by decide
      simp [formatInt, h.1, h.2, hn, h0]
  case TK_OPTION_INDEX =>
    by_cases hn : nullOK env o.specPtr = true
    · exact ⟨none, by simp [formatIndex, h, hn], rfl⟩
    · exact ⟨some Tcl_NewObj, by simp [formatIndex, h, hn, TkNewIndexObj], rfl⟩
  case TK_OPTION_DOUBLE =>
    exact ⟨none, by simp [formatDouble, h.1, h.2], rfl⟩
  case TK_OPTION_STRING =>
    exact ⟨some Tcl_NewObj, by simp [h, Tcl_NewStringObj, Tcl_NewObj], rfl⟩
  case TK_OPTION_STRING_TABLE =>
    exact ⟨none, by simp [formatStringTable, h], rfl⟩
  case TK_OPTION_RELIEF =>
    exact ⟨none, by simp [formatEnum, h], rfl⟩
  case TK_OPTION_JUSTIFY =>
    exact ⟨none, by simp [formatEnum, h], rfl⟩
  case TK_OPTION_ANCHOR =>
    exact ⟨none, by simp [formatEnum, h], rfl⟩
  case TK_OPTION_PIXELS =>
    exact ⟨none, by simp [formatPixels, h.1, h.2], rfl⟩
  all_goals exact ⟨none, by simp [formatHandle, h], rfl⟩

/-- C18. `Tk_GetOptionValue` returns `NULL` exactly when the name cannot be
resolved in the chain of tables.  For a name that resolves to an entry of the
chain it returns a value, provided the option has a value pointer or the
`switch` of `GetObjectForOption` accepts its type, flags and internal form; and
when the option is unset (its value pointer is `NULL`, or its internal form is
the null value of its type, or it has no storage) the value is a new empty
object. -/
theorem Tk_GetOptionValue_null_iff_unresolved (env : Env) (names : Names) (r : Record)
    (chain : TableChain) (namePtr : Tcl_Obj) (tkwin : Tk_Window) :
    (Tk_GetOptionValue env names r chain namePtr tkwin = .NULL ↔
      (GetOptionFromObj namePtr chain).result = none) ∧
    ∀ p found optionPtr, (GetOptionFromObj namePtr chain).result = some p →
      chain.deref p = some found → followSynonym chain p found = some optionPtr →
      (optionPtr.specPtr.objOffset = none → ∀ off, optionPtr.specPtr.internalOffset = some off →
        Formattable optionPtr (r.internals off)) →
      ∃ v, Tk_GetOptionValue env names r chain namePtr tkwin = .value v ∧
        (IsUnset env names r optionPtr → v = Tcl_NewObj) := by
  constructor
  · unfold Tk_GetOptionValue
    constructor
    · intro h
      cases hp : (GetOptionFromObj namePtr chain).result with
      | none => rfl
      | some p =>
        rw [hp] at h
        simp only at h
        cases hf : chain.deref p with
        | none => rw [hf] at h; cases h
        | some found =>
          rw [hf] at h
          simp only at h
          cases hs : followSynonym chain p found with
          | none => rw [hs] at h; cases h
          | some o =>
            rw [hs] at h
            simp only at h
            cases ho : o.specPtr.objOffset with
            | some off => rw [ho] at h; cases h
            | none =>
              rw [ho] at h
              simp only at h
              cases hg : GetObjectForOption env names r o tkwin with
              | none => rw [hg] at h; cases h
              | some v => rw [hg] at h; cases h
    · intro h
      rw [h]
  · intro p found o hp hf hs hfmt
    unfold Tk_GetOptionValue
    rw [hp]
    simp only [hf, hs]
    cases ho : o.specPtr.objOffset with
    | some off =>
      refine ⟨_, rfl, ?_⟩
      intro hu
      simp only [IsUnset, ho] at hu
      rw [hu]; rfl
    | none =>
      simp only
      cases hoff : o.specPtr.internalOffset with
      | none =>
        refine ⟨Tcl_NewObj, ?_, fun _ => rfl⟩
        simp only [GetObjectForOption, hoff]
      | some off =>
        obtain ⟨x, hx⟩ := formatInternal_isSome env names r o tkwin _ (hfmt ho off hoff)
        refine ⟨x.getD Tcl_NewObj, ?_, ?_⟩
        · simp only [GetObjectForOption, hoff, hx]
        · intro hu
          simp only [IsUnset, ho, hoff] at hu
          obtain ⟨y, hy, hy2⟩ := formatInternal_null env names r o tkwin _ hu
          rw [hx] at hy
          cases hy
          exact hy2

/-- C18 (witness). In the table of `-borderwidth` and `-bd`, with the internal
form of `-borderwidth` at its null value `INT_MIN`, the name `-bd` resolves and
the value returned is a new empty object. -/
theorem Tk_GetOptionValue_null_iff_unresolved_witness :
    Tk_GetOptionValue exampleEnv exampleNames (widgetRecord.set 8 (.int INT_MIN)) borderTable
      (strObj "-bd") 0 = .value Tcl_NewObj := by
  obtain ⟨v, hv, hu⟩ :=
    (Tk_GetOptionValue_null_iff_unresolved exampleEnv exampleNames
      (widgetRecord.set 8 (.int INT_MIN)) borderTable (strObj "-bd") 0).2 (0, 1)
      _ _ rfl rfl rfl (fun _ off hoff => by
        have : off = 8 := by
          have h8 : some 8 = some off := hoff
          exact (Option.some.inj h8).symm
        subst this
        show intFlagsOk borderwidthSpec = true
        decide)
  rw [hv, hu]
  show nullOK exampleEnv borderwidthSpec = true ∧ _
  exact ⟨by decide, Or.inl ⟨by decide, rfl⟩⟩

/-- C19. In the table of `-borderwidth` and its synonym `-bd` the name `-bd`
resolves to the synonym entry.  `Tk_GetOptionInfo` called with that name
returns the five elements that describe `-borderwidth`, not the two elements
`-bd` and `-borderwidth`; called for all options (`namePtr` is `NULL`) it
returns for the same entry the list of the two elements `-bd` and
`-borderwidth`, which is also what `GetConfigList` gives for the entry. -/
theorem Tk_GetOptionInfo_synonym_five :
    (GetOptionFromObj (strObj "-bd") borderTable).result = some (0, 1) ∧
    (borderTable.deref (0, 1)).map (fun o => o.specPtr.type) = some TK_OPTION_SYNONYM ∧
    Tk_GetOptionInfo exampleEnv exampleNames exampleDb widgetRecord borderTable
        (some (strObj "-bd")) 0
      = .value (.one [strObj "-borderwidth", strObj "borderWidth", strObj "BorderWidth",
          strObj "2", strObj "10"]) ∧
    Tk_GetOptionInfo exampleEnv exampleNames exampleDb widgetRecord borderTable
        (some (strObj "-bd")) 0
      ≠ .value (.one [strObj "-bd", strObj "-borderwidth"]) ∧
    Tk_GetOptionInfo exampleEnv exampleNames exampleDb widgetRecord borderTable none 0
      = .value (.all [[strObj "-borderwidth", strObj "borderWidth", strObj "BorderWidth",
          strObj "2", strObj "10"], [strObj "-bd", strObj "-borderwidth"]]) ∧
    GetConfigList exampleEnv exampleNames exampleDb widgetRecord borderTable 0 bdOption 0
      = .value [strObj "-bd", strObj "-borderwidth"] := by
  refine ⟨rfl, rfl, rfl, ?_, rfl, rfl⟩
  intro h
  have h5 : Tk_GetOptionInfo exampleEnv exampleNames exampleDb widgetRecord borderTable
        (some (strObj "-bd")) 0
      = .value (.one [strObj "-borderwidth", strObj "borderWidth", strObj "BorderWidth",
          strObj "2", strObj "10"]) := rfl
  rw [h5] at h
  simp only [Returned.value.injEq, OptionInfo.one.injEq, List.cons.injEq, reduceCtorEq,
    and_false] at h

/-- `Tk_GetOptionInfo` called with a name first replaces a synonym entry by
the entry it refers to, as `Tk_GetOptionValue` does, and then returns what
`GetConfigList` gives for that entry.  So for a name that resolves to an
entry, with `optionPtr` the entry itself or, for a synonym, the entry it refers
to, and `optionPtr` not of type synonym, the list returned has exactly five
elements: the name of `optionPtr` (for a synonym: the name of the option it
refers to, not its own), its database name and its database class (empty when
it has none), its default (the monochrome default under the test of
`useMonoColor`, empty when it has none) and its current value (the object in
its `Tcl_Obj *` field, or a new empty object when that is `NULL`; what
`GetObjectForOption` returns when it has no such field). -/
theorem Tk_GetOptionInfo_single (env : Env) (names : Names) (db : OptionDb) (r : Record)
    (chain : TableChain) (namePtr : Tcl_Obj) (tkwin : Tk_Window) (p : OptionPtr)
    (found optionPtr : TkOption)
    (hp : (GetOptionFromObj namePtr chain).result = some p)
    (hf : chain.deref p = some found)
    (hs : followSynonym chain p found = some optionPtr)
    (hns : optionPtr.specPtr.type ≠ TK_OPTION_SYNONYM)
    (hfmt : optionPtr.specPtr.objOffset = none → ∀ off,
      optionPtr.specPtr.internalOffset = some off → Formattable optionPtr (r.internals off)) :
    ∃ current,
      (∀ off, optionPtr.specPtr.objOffset = some off →
        current = (r.objs off).getD Tcl_NewObj) ∧
      (optionPtr.specPtr.objOffset = none →
        GetObjectForOption env names r optionPtr tkwin = some current) ∧
      Tk_GetOptionInfo env names db r chain (some namePtr) tkwin =
        .value (.one [Tcl_NewStringObj optionPtr.specPtr.optionName,
          (optionPtr.dbNameUID.map Tcl_NewStringObj).getD Tcl_NewObj,
          (optionPtr.dbClassUID.map Tcl_NewStringObj).getD Tcl_NewObj,
          if useMonoColor db optionPtr tkwin then optionPtr.extra.asMono.getD Tcl_NewObj
          else optionPtr.defaultPtr.getD Tcl_NewObj,
          current]) := by
  unfold Tk_GetOptionInfo
  simp only [hp, hf, hs]
  unfold GetConfigList
  rw [if_neg hns]
  cases ho : optionPtr.specPtr.objOffset with
  | some off =>
    refine ⟨(r.objs off).getD Tcl_NewObj, fun off2 h2 => by cases h2; rfl, nofun, ?_⟩
    cases optionPtr.dbNameUID <;> cases optionPtr.dbClassUID <;> rfl
  | none =>
    obtain ⟨v, hv⟩ := GetObjectForOption_isSome env names r optionPtr tkwin (hfmt ho)
    refine ⟨v, nofun, fun _ => hv, ?_⟩
    simp only [hv]
    cases optionPtr.dbNameUID <;> cases optionPtr.dbClassUID <;> rfl

/-- The name `-bd` in the table of `-borderwidth` and `-bd`: the five elements
returned are those of `-borderwidth`. -/
theorem Tk_GetOptionInfo_single_witness :
    ∃ current,
      (∀ off, borderwidthOption.specPtr.objOffset = some off →
        current = (widgetRecord.objs off).getD Tcl_NewObj) ∧
      (borderwidthOption.specPtr.objOffset = none →
        GetObjectForOption exampleEnv exampleNames widgetRecord borderwidthOption 0
          = some current) ∧
      Tk_GetOptionInfo exampleEnv exampleNames exampleDb widgetRecord borderTable
          (some (strObj "-bd")) 0 =
        .value (.one [Tcl_NewStringObj borderwidthOption.specPtr.optionName,
          (borderwidthOption.dbNameUID.map Tcl_NewStringObj).getD Tcl_NewObj,
          (borderwidthOption.dbClassUID.map Tcl_NewStringObj).getD Tcl_NewObj,
          if useMonoColor exampleDb borderwidthOption 0 then
            borderwidthOption.extra.asMono.getD Tcl_NewObj
          else borderwidthOption.defaultPtr.getD Tcl_NewObj,
          current]) :=
  Tk_GetOptionInfo_single exampleEnv exampleNames exampleDb widgetRecord borderTable
    (strObj "-bd") 0 (0, 1) bdOption borderwidthOption rfl rfl rfl (by decide)
    (fun _ off hoff => by
      have h8 : some 8 = some off := hoff
      cases h8
      show intFlagsOk borderwidthSpec = true
      decide)

/-- When the entry a synonym refers to is itself a synonym, `Tk_GetOptionInfo`
called with the name of the first returns the two elements that
`GetConfigList` gives for the second: its name and the name of the entry it
refers to. -/
theorem Tk_GetOptionInfo_single_chained (env : Env) (names : Names) (db : OptionDb)
    (r : Record) (chain : TableChain) (namePtr : Tcl_Obj) (tkwin : Tk_Window) (p : OptionPtr)
    (found optionPtr target : TkOption) (i : Nat)
    (hp : (GetOptionFromObj namePtr chain).result = some p)
    (hf : chain.deref p = some found)
    (hs : followSynonym chain p found = some optionPtr)
    (hsyn : optionPtr.specPtr.type = TK_OPTION_SYNONYM)
    (he : optionPtr.extra = .synonymPtr i) (ht : chain.deref (p.1, i) = some target) :
    Tk_GetOptionInfo env names db r chain (some namePtr) tkwin =
      .value (.one [Tcl_NewStringObj optionPtr.specPtr.optionName,
        Tcl_NewStringObj target.specPtr.optionName]) := by
  unfold Tk_GetOptionInfo
  simp only [hp, hf, hs]
  unfold GetConfigList
  rw [if_pos hsyn]
  simp only [he, ht]

theorem castChar_fits (v : Int) (h1 : -128 ≤ v) (h2 : v ≤ 127) : castChar v = v := by
  unfold castChar
  omega

theorem castShort_fits (v : Int) (h1 : -32768 ≤ v) (h2 : v ≤ 32767) : castShort v = v := by
  unfold castShort
  omega

theorem storeNarrow_fits (r : Record) (specPtr : Tk_OptionSpec) (valuePtr : Option Tcl_Obj)
    (v : Int) (hf : specPtr.internalOffset ≠ none → narrowFlagsOk specPtr = true)
    (hc : specPtr.flags &&& TYPE_MASK = TK_OPTION_VAR_char → castChar v = v)
    (hs : specPtr.flags &&& TYPE_MASK = TK_OPTION_VAR_short → castShort v = v) :
    storeNarrow r specPtr valuePtr v = storeInternal r specPtr valuePtr (.int v) := by
  unfold storeNarrow storeInternal
  cases hoff : specPtr.internalOffset with
  | none => rfl
  | some off =>
    have hf2 := hf (by rw [hoff]; exact Option.some_ne_none _)
    unfold narrowFlagsOk at hf2
    simp only
    by_cases h0 : specPtr.flags &&& TYPE_MASK ≠ 0
    · rw [if_pos h0] at hf2 ⊢
      by_cases h1 : specPtr.flags &&& TYPE_MASK = TK_OPTION_VAR_char
      · rw [if_pos h1, hc h1]
      · rw [if_neg h1]
        by_cases h2 : specPtr.flags &&& TYPE_MASK = TK_OPTION_VAR_short
        · rw [if_pos h2, hs h2]
        · simp [h1, h2] at hf2
    · rw [if_neg h0]

theorem applyValue_null (env : Env) (r : Record) (o : TkOption) (v : Tcl_Obj)
    (tkwin : Tk_Window) (hk : o.specPtr.type ∈ nullEscapeTypes)
    (hn : nullOK env o.specPtr = true) (he : v.bytes = [])
    (hflags : StorageOk o.specPtr)
    (hrel : o.specPtr.type = TK_OPTION_RELIEF →
      -128 ≤ env.TK_RELIEF_NULL ∧ env.TK_RELIEF_NULL ≤ 127) :
    applyValue env r o v tkwin = nullApplied env r o.specPtr tkwin := by
  have hnull : isNullValue env o.specPtr v = true := by
    simp [isNullValue, hn, TkObjIsEmpty, he]
  have hm1c : castChar (-1) = -1 := by decide
  have hm1s : castShort (-1) = -1 := by decide
  unfold StorageOk at hflags
  simp only [nullEscapeTypes, List.mem_cons, List.mem_singleton, List.not_mem_nil,
    or_false] at hk
  rcases hk with h | h | h | h | h | h | h | h | h | h | h | h | h | h | h <;>
    simp only [h] at hflags <;>
    simp only [applyValue, nullApplied, nullSentinel, h, reduceCtorEq, if_false, if_true]
  · simp only [applyBoolean, hnull, if_true]
    exact storeNarrow_fits _ _ _ _ hflags (fun _ => hm1c) (fun _ => hm1s)
  · unfold intFlagsOk at hflags
    unfold applyInt
    by_cases h0 : o.specPtr.flags &&& TYPE_MASK = 0
    · have hne : ¬ ((0 : Nat) = TYPE_MASK) := by decide
      simp only [h0, hnull, if_true, hne, if_false]
    · have h1 : o.specPtr.flags &&& TYPE_MASK = TYPE_MASK := by simpa [h0] using hflags
      have hne : ¬ (TYPE_MASK = 0) := by decide
      simp only [h1, hnull, if_true, hne, if_false]
  · simp only [applyStringTable, hnull, if_true]
    exact storeNarrow_fits _ _ _ _ hflags (fun _ => hm1c) (fun _ => hm1s)
  · simp only [applyEnum, hnull, if_true]
    obtain ⟨h1, h2⟩ := hrel h
    exact storeNarrow_fits _ _ _ _ hflags (fun _ => castChar_fits _ h1 h2)
      (fun _ => castShort_fits _ (by omega) (by omega))
  · simp only [applyEnum, hnull, if_true]
    exact storeNarrow_fits _ _ _ _ hflags (fun _ => hm1c) (fun _ => hm1s)
  · simp only [applyEnum, hnull, if_true]
    exact storeNarrow_fits _ _ _ _ hflags (fun _ => hm1c) (fun _ => hm1s)
  · simp only [applyPixels, hnull, if_true]
  · simp only [applyString, hnull, if_true]
  · simp only [applyHandle, hnull, if_true]
  · simp only [applyHandle, hnull, if_true]
  · simp only [applyHandle, hnull, if_true]
  · simp only [applyHandle, hnull, if_true]
  · simp only [applyHandle, hnull, if_true]
  · simp only [applyCursor, applyHandle, hnull, if_true]
  · simp only [applyWindow, hnull, if_true]

theorem nullOK_congr (env env2 : Env) (specPtr : Tk_OptionSpec)
    (h1 : env2.TK_OPTION_NULL_OK = env.TK_OPTION_NULL_OK)
    (h2 : env2.TCL_NULL_OK = env.TCL_NULL_OK) : nullOK env2 specPtr = nullOK env specPtr := by
  unfold nullOK
  rw [h1, h2]

theorem nullApplied_congr (env env2 : Env) (r : Record) (specPtr : Tk_OptionSpec)
    (tkwin : Tk_Window) (h : env2.TK_RELIEF_NULL = env.TK_RELIEF_NULL) :
    nullApplied env2 r specPtr tkwin = nullApplied env r specPtr tkwin := by
  unfold nullApplied nullSentinel
  rw [h]

theorem DoObjConfig_nullApplied (env : Env) (r : Record) (o : TkOption) (v : Tcl_Obj)
    (tkwin : Tk_Window) (saved : Bool)
    (h : applyValue env r o v tkwin = nullApplied env r o.specPtr tkwin) :
    ∃ s e, DoObjConfig env r o v tkwin saved =
      .ok ((r.setAt o.specPtr.internalOffset (nullSentinel env o.specPtr)).setObjAt
        o.specPtr.objOffset none) s e := by
  unfold DoObjConfig
  rw [h]
  unfold nullApplied storeInternal
  by_cases hc : o.specPtr.type = TK_OPTION_CURSOR <;>
    cases hoff : o.specPtr.internalOffset <;>
    simp only [hc, if_true, if_false, Applied.defineCursor, Record.setAt] <;>
    exact ⟨_, _, rfl⟩

/-- C16 (counterexample). The option `-count` is a null-allowed integer stored
as a `long`; for the empty string `DoObjConfig` stores `LONG_MIN` as its
internal form, not `INT_MIN`. -/
theorem DoObjConfig_null_long :
    nullOK exampleEnv countOption.specPtr = true ∧
    ∃ r saved effects,
      DoObjConfig exampleEnv widgetRecord countOption (strObj "") 0 false =
        .ok r saved effects ∧
      r.internals 8 = .int LONG_MIN ∧ r.internals 8 ≠ .int INT_MIN :=
  ⟨by decide, _, _, _, rfl, rfl, by decide⟩

/-- C16 (amended). For a null-allowed option of type boolean, integer, string
table, relief, justify, anchor, pixels, string, colour, font, style, bitmap,
border, cursor or window whose flags name a storage type the code accepts,
`DoObjConfig` applied to the empty string returns `TCL_OK`, stores the null
value of the type as internal form (when the option has one) and `NULL` in the
value slot (when it has one).  The null value is `-1` for boolean, string
table, justify and anchor, `TK_RELIEF_NULL` for relief, `INT_MIN` for pixels
and for an integer stored as an `int`, `LONG_MIN` for an integer stored as a
`long`, and the `NULL` handle for the others.  No parser and no allocator is
called: the result is the same in every environment with the same
constants. -/
theorem DoObjConfig_null_escape (env : Env) (r : Record) (o : TkOption) (v : Tcl_Obj)
    (tkwin : Tk_Window) (saved : Bool) (hk : o.specPtr.type ∈ nullEscapeTypes)
    (hn : nullOK env o.specPtr = true) (he : v.bytes = [])
    (hflags : StorageOk o.specPtr)
    (hrel : o.specPtr.type = TK_OPTION_RELIEF →
      -128 ≤ env.TK_RELIEF_NULL ∧ env.TK_RELIEF_NULL ≤ 127) :
    (∃ s e, DoObjConfig env r o v tkwin saved =
      .ok ((r.setAt o.specPtr.internalOffset (nullSentinel env o.specPtr)).setObjAt
        o.specPtr.objOffset none) s e) ∧
    ∀ env2 : Env, env2.TK_OPTION_NULL_OK = env.TK_OPTION_NULL_OK →
      env2.TCL_NULL_OK = env.TCL_NULL_OK → env2.TK_RELIEF_NULL = env.TK_RELIEF_NULL →
      DoObjConfig env2 r o v tkwin saved = DoObjConfig env r o v tkwin saved := by
  have h1 := applyValue_null env r o v tkwin hk hn he hflags hrel
  refine ⟨DoObjConfig_nullApplied env r o v tkwin saved h1, ?_⟩
  intro env2 e1 e2 e3
  have hn2 : nullOK env2 o.specPtr = true := by rw [nullOK_congr env env2 _ e1 e2]; exact hn
  have h2 := applyValue_null env2 r o v tkwin hk hn2 he hflags (by rw [e3]; exact hrel)
  unfold DoObjConfig
  rw [h1, h2, nullApplied_congr env env2 r o.specPtr tkwin e3]

/-- C16 (witness). The empty string applied to the null-allowed integer option
`-width`, stored as an `int` at offset 8 with its value pointer at offset 0. -/
theorem DoObjConfig_null_escape_witness :
    ∃ s e, DoObjConfig exampleEnv widgetRecord widthOption (strObj "") 0 true =
      .ok ((widgetRecord.setAt (some 8) (.int INT_MIN)).setObjAt (some 0) none) s e :=
  (DoObjConfig_null_escape exampleEnv widgetRecord widthOption (strObj "") 0 true
    (by decide) (by decide) rfl (by show intFlagsOk widthSpec = true; decide)
    (fun h => by cases h)).1

theorem GetObjectForOption_null_int (env : Env) (names : Names) (r : Record) (o : TkOption)
    (tkwin : Tk_Window) (ht : o.specPtr.type = TK_OPTION_INT)
    (hn : nullOK env o.specPtr = true) (hfl : intFlagsOk o.specPtr = true) :
    GetObjectForOption env names
      ((r.setAt o.specPtr.internalOffset (nullSentinel env o.specPtr)).setObjAt
        o.specPtr.objOffset none) o tkwin = some Tcl_NewObj := by
  unfold GetObjectForOption
  cases hoff : o.specPtr.internalOffset with
  | none => rfl
  | some off =>
    have hcell : ((r.setAt (some off) (nullSentinel env o.specPtr)).setObjAt
        o.specPtr.objOffset none).internals off = nullSentinel env o.specPtr := by
      cases o.specPtr.objOffset <;> simp [Record.setObjAt, Record.setAt, Record.set, Record.setObj]
    simp only
    rw [hcell]
    simp only [formatInternal, ht, nullSentinel, formatInt]
    unfold intFlagsOk at hfl
    have hm : ¬ TYPE_MASK = 0 := by decide
    by_cases h0 : o.specPtr.flags &&& TYPE_MASK = 0
    · have hne : ¬ ((0 : Nat) = TYPE_MASK) := by decide
      simp [h0, hne, hn, Cell.asInt]
    · have h1 : o.specPtr.flags &&& TYPE_MASK = TYPE_MASK := by simpa [h0] using hfl
      simp [h1, hm, hn, Cell.asInt]

/-- C15. For a null-allowed integer option whose flags name a storage type
that the code accepts for an integer (`int` or `long`), whether it has a value
slot, an internal form, both or neither: `DoObjConfig` applied to the empty
string returns `TCL_OK`, and `Tk_GetOptionValue` called afterwards with a name
that resolves to the option returns a new empty object: not `NULL`, and not
the text of a number. -/
theorem DoObjConfig_null_then_get (env : Env) (names : Names) (r : Record)
    (chain : TableChain) (namePtr v : Tcl_Obj) (tkwin : Tk_Window) (saved : Bool)
    (p : OptionPtr) (found o : TkOption)
    (ht : o.specPtr.type = TK_OPTION_INT) (hn : nullOK env o.specPtr = true)
    (hfl : intFlagsOk o.specPtr = true) (he : v.bytes = [])
    (hp : (GetOptionFromObj namePtr chain).result = some p)
    (hf : chain.deref p = some found) (hs : followSynonym chain p found = some o) :
    ∃ r1 s e, DoObjConfig env r o v tkwin saved = .ok r1 s e ∧
      Tk_GetOptionValue env names r1 chain namePtr tkwin = .value Tcl_NewObj ∧
      Tcl_NewObj.bytes = [] := by
  have hk : o.specPtr.type ∈ nullEscapeTypes := by rw [ht]; decide
  have hflags : StorageOk o.specPtr := by unfold StorageOk; rw [ht]; exact hfl
  obtain ⟨s, e, h⟩ := DoObjConfig_nullApplied env r o v tkwin saved
    (applyValue_null env r o v tkwin hk hn he hflags (fun h => by rw [ht] at h; cases h))
  refine ⟨_, s, e, h, ?_, rfl⟩
  unfold Tk_GetOptionValue
  simp only [hp, hf, hs]
  cases ho : o.specPtr.objOffset with
  | some off =>
    simp [Record.setObjAt, Record.setObj]
  | none =>
    have hg := GetObjectForOption_null_int env names r o tkwin ht hn hfl
    rw [ho] at hg
    simp only [hg]

/-- C15 (witness). The empty string applied to `-borderwidth`, which has an
internal form only, and then read under the name `-bd`. -/
theorem DoObjConfig_null_then_get_witness :
    ∃ r1 s e, DoObjConfig exampleEnv widgetRecord
        ((borderTable.deref (0, 0)).getD countOption) (strObj "") 0 false = .ok r1 s e ∧
      Tk_GetOptionValue exampleEnv exampleNames r1 borderTable (strObj "-bd") 0 =
        .value Tcl_NewObj ∧
      Tcl_NewObj.bytes = [] :=
  DoObjConfig_null_then_get exampleEnv exampleNames widgetRecord borderTable (strObj "-bd")
    (strObj "") 0 false (0, 1) _ _ rfl (by decide) (by decide) rfl rfl rfl rfl

theorem firstAvailable_single {α : Type} (x : Option α) : firstAvailable [x] = x := by
  cases x <;> rfl

theorem firstAvailable_none {α : Type} (l : List (Option α)) :
    firstAvailable (none :: l) = firstAvailable l := rfl

theorem Tk_InitOptions.value_eq_firstAvailable (db : OptionDb) (o : TkOption)
    (tkwin : Tk_Window) :
    Tk_InitOptions.value db o tkwin = firstAvailable (specValueSources db o tkwin) := by
  have tail : (if useMonoColor db o tkwin = true then o.extra.asMono else o.defaultPtr) =
      firstAvailable [(if tkwin ≠ 0 ∧ db.Tk_Depth tkwin ≤ 1 ∧
          (o.specPtr.type = TK_OPTION_COLOR ∨ o.specPtr.type = TK_OPTION_BORDER)
        then o.extra.asMono else none), o.defaultPtr] := by
    unfold useMonoColor
    by_cases hw : tkwin = 0
    · simp [hw, firstAvailable_none, firstAvailable_single]
    · by_cases hd : db.Tk_Depth tkwin ≤ 1
      · by_cases hty : o.specPtr.type = TK_OPTION_COLOR ∨ o.specPtr.type = TK_OPTION_BORDER
        · cases hm : o.extra.asMono <;>
            simp [hw, hd, hty, hm, firstAvailable, firstAvailable_single]
        · have h1 : ¬ o.specPtr.type = TK_OPTION_COLOR := fun h => hty (Or.inl h)
          have h2 : ¬ o.specPtr.type = TK_OPTION_BORDER := fun h => hty (Or.inr h)
          simp [hw, hd, h1, h2, firstAvailable_none, firstAvailable_single]
      · simp [hw, hd, firstAvailable_none, firstAvailable_single]
  unfold Tk_InitOptions.value specValueSources
  cases hn : o.dbNameUID with
  | none =>
    simp only [firstAvailable_none]
    exact tail
  | some dbName =>
    cases ha : db.Tk_GetOption tkwin dbName o.dbClassUID with
    | some value => simp [ha, firstAvailable]
    | none =>
      cases hb : db.Tk_GetSystemDefault tkwin dbName o.dbClassUID with
      | some valuePtr => simp [ha, hb, firstAvailable]
      | none =>
        simp only [ha, hb, Option.map_none', firstAvailable_none]
        exact tail

theorem Tk_InitOptions.scanTable_cons (env : Env) (db : OptionDb) (tkwin : Tk_Window)
    (o : TkOption) (rest : List TkOption) (r : Record) (e : List Effect) :
    Tk_InitOptions.scanTable env db tkwin (o :: rest) r e =
      match Tk_InitOptions.chosen env db tkwin o with
      | none => Tk_InitOptions.scanTable env db tkwin rest r e
      | some valuePtr =>
        match DoObjConfig env r o valuePtr tkwin false with
        | .ok record1 _ effects1 =>
          Tk_InitOptions.scanTable env db tkwin rest record1
            (e ++ [.Tcl_IncrRefCount valuePtr] ++ effects1 ++ [.Tcl_DecrRefCount valuePtr])
        | .error record1 =>
          .error record1 (e ++ [.Tcl_IncrRefCount valuePtr, .Tcl_DecrRefCount valuePtr])
        | .panic => .panic := by
  unfold Tk_InitOptions.chosen
  rw [Tk_InitOptions.scanTable]
  by_cases h : o.specPtr.type = TK_OPTION_SYNONYM
      ∨ o.specPtr.flags &&& env.TK_OPTION_DONT_SET_DEFAULT ≠ 0
  · rw [if_pos h, if_pos h]
  · rw [if_neg h, if_neg h]

theorem Tk_InitOptions_scanTable_append (env : Env) (db : OptionDb) (tkwin : Tk_Window)
    (l1 l2 : List TkOption) (r : Record) (e : List Effect) :
    Tk_InitOptions.scanTable env db tkwin (l1 ++ l2) r e =
      match Tk_InitOptions.scanTable env db tkwin l1 r e with
      | .ok r1 e1 => Tk_InitOptions.scanTable env db tkwin l2 r1 e1
      | .error r1 e1 => .error r1 e1
      | .panic => .panic := by
  induction l1 generalizing r e with
  | nil => simp [Tk_InitOptions.scanTable]
  | cons o rest ih =>
    rw [List.cons_append, Tk_InitOptions.scanTable_cons, Tk_InitOptions.scanTable_cons]
    cases hc : Tk_InitOptions.chosen env db tkwin o with
    | none => exact ih r e
    | some v =>
      simp only
      cases hd : DoObjConfig env r o v tkwin false with
      | ok r1 s e1 => exact ih _ _
      | error r1 => rfl
      | panic => rfl

theorem Tk_InitOptions_eq_scanTable (env : Env) (db : OptionDb) (r : Record)
    (chain : TableChain) (tkwin : Tk_Window) (hne : chain ≠ []) :
    Tk_InitOptions env db r chain tkwin =
      Tk_InitOptions.scanTable env db tkwin (initOrder chain) r [] := by
  induction chain with
  | nil => exact absurd rfl hne
  | cons t rest ih =>
    cases rest with
    | nil => simp [Tk_InitOptions, initOrder]
    | cons next rest2 =>
      rw [Tk_InitOptions, ih (List.cons_ne_nil _ _)]
      show _ = Tk_InitOptions.scanTable env db tkwin (initOrder (next :: rest2) ++ t.options) r []
      rw [Tk_InitOptions_scanTable_append]

theorem Tk_InitOptions.scanTable_error (env : Env) (db : OptionDb) (tkwin : Tk_Window)
    (l : List TkOption) (r : Record) (e : List Effect) (rf : Record) (ef : List Effect)
    (h : Tk_InitOptions.scanTable env db tkwin l r e = .error rf ef) :
    ∃ pre o post r1 e1 v, l = pre ++ o :: post ∧
      Tk_InitOptions.scanTable env db tkwin pre r e = .ok r1 e1 ∧
      Tk_InitOptions.chosen env db tkwin o = some v ∧
      DoObjConfig env r1 o v tkwin false = .error rf ∧
      ef = e1 ++ [.Tcl_IncrRefCount v, .Tcl_DecrRefCount v] := by
  induction l generalizing r e with
  | nil => simp [Tk_InitOptions.scanTable] at h
  | cons o rest ih =>
    rw [Tk_InitOptions.scanTable_cons] at h
    cases hc : Tk_InitOptions.chosen env db tkwin o with
    | none =>
      rw [hc] at h
      obtain ⟨pre, o2, post, r1, e1, v, hl, hpre, hch, hdo, hef⟩ := ih r e h
      refine ⟨o :: pre, o2, post, r1, e1, v, by rw [hl]; rfl, ?_, hch, hdo, hef⟩
      rw [Tk_InitOptions.scanTable_cons, hc]
      exact hpre
    | some v =>
      rw [hc] at h
      simp only at h
      cases hd : DoObjConfig env r o v tkwin false with
      | ok r1 s e1 =>
        rw [hd] at h
        simp only at h
        obtain ⟨pre, o2, post, r2, e2, v2, hl, hpre, hch, hdo, hef⟩ := ih _ _ h
        refine ⟨o :: pre, o2, post, r2, e2, v2, by rw [hl]; rfl, ?_, hch, hdo, hef⟩
        rw [Tk_InitOptions.scanTable_cons, hc]
        simp only [hd]
        exact hpre
      | error r1 =>
        rw [hd] at h
        simp only [InitResult.error.injEq] at h
        refine ⟨[], o, rest, r, e, v, rfl, rfl, hc, ?_, h.2.symm⟩
        rw [hd, h.1]
      | panic =>
        rw [hd] at h
        cases h

/-- C12. When `Tk_InitOptions` comes to an option that is no synonym and is not
marked `TK_OPTION_DONT_SET_DEFAULT` (the options before it in the order of
initialisation having been initialised, with the record `r1`), it takes the
first available of the four sources of the specification, in their order:
database value, system default, monochrome alternate, default of the
descriptor.  It applies that value with `DoObjConfig`; when no source is
available it goes on to the next option with the record as it is. -/
theorem Tk_InitOptions_value_priority (env : Env) (db : OptionDb) (r : Record)
    (chain : TableChain) (tkwin : Tk_Window) (pre : List TkOption) (o : TkOption)
    (post : List TkOption) (r1 : Record) (e1 : List Effect)
    (horder : initOrder chain = pre ++ o :: post)
    (hpre : Tk_InitOptions.scanTable env db tkwin pre r [] = .ok r1 e1)
    (hs : o.specPtr.type ≠ TK_OPTION_SYNONYM)
    (hd : o.specPtr.flags &&& env.TK_OPTION_DONT_SET_DEFAULT = 0) :
    Tk_InitOptions env db r chain tkwin =
      match firstAvailable (specValueSources db o tkwin) with
      | none => Tk_InitOptions.scanTable env db tkwin post r1 e1
      | some valuePtr =>
        match DoObjConfig env r1 o valuePtr tkwin false with
        | .ok r2 _ e2 =>
          Tk_InitOptions.scanTable env db tkwin post r2
            (e1 ++ [.Tcl_IncrRefCount valuePtr] ++ e2 ++ [.Tcl_DecrRefCount valuePtr])
        | .error r2 =>
          .error r2 (e1 ++ [.Tcl_IncrRefCount valuePtr, .Tcl_DecrRefCount valuePtr])
        | .panic => .panic := by
  have hne : chain ≠ [] := by
    intro h
    rw [h] at horder
    simp [initOrder] at horder
  rw [Tk_InitOptions_eq_scanTable env db r chain tkwin hne, horder,
    Tk_InitOptions_scanTable_append, hpre]
  simp only
  rw [Tk_InitOptions.scanTable_cons]
  have hch : Tk_InitOptions.chosen env db tkwin o =
      firstAvailable (specValueSources db o tkwin) := by
    unfold Tk_InitOptions.chosen
    rw [if_neg (by simp [hs, hd]), Tk_InitOptions.value_eq_firstAvailable]
  rw [hch]

/-- C12 (witness). The option `-borderwidth` of `borderTable` has no database
value and no system default and is no colour: its default `2` is applied. -/
theorem Tk_InitOptions_value_priority_witness :
    firstAvailable (specValueSources exampleDb borderwidthOption 0) = some (strObj "2") ∧
    Tk_InitOptions exampleEnv exampleDb zeroRecord borderTable 0 =
      .ok (zeroRecord.set 8 (.int 2))
        [.Tcl_IncrRefCount (strObj "2"), .Tcl_DecrRefCount (strObj "2")] :=
  ⟨rfl, (Tk_InitOptions_value_priority exampleEnv exampleDb zeroRecord borderTable 0 []
    borderwidthOption [bdOption] zeroRecord [] rfl rfl (by decide) (by decide)).trans rfl⟩

/-- C14. `Tk_InitOptions` returns `TCL_ERROR` exactly when, going through the
options in its order of initialisation, it comes to an option for which
`DoObjConfig` fails on the chosen value, the options before it having been
initialised.  It stops there: the record it leaves is the record that
`DoObjConfig` left, which (for an option that is not custom) is the record `r1`
reached by initialising the options before it.  So these keep their new
values, nothing is rolled back, and no option after it is touched. -/
theorem Tk_InitOptions_aborts_in_place (env : Env) (db : OptionDb) (r : Record)
    (chain : TableChain) (tkwin : Tk_Window) (hne : chain ≠ []) (rf : Record)
    (ef : List Effect) :
    Tk_InitOptions env db r chain tkwin = .error rf ef ↔
      ∃ pre o post r1 e1 v, initOrder chain = pre ++ o :: post ∧
        Tk_InitOptions.scanTable env db tkwin pre r [] = .ok r1 e1 ∧
        Tk_InitOptions.chosen env db tkwin o = some v ∧
        DoObjConfig env r1 o v tkwin false = .error rf ∧
        (o.specPtr.type ≠ TK_OPTION_CUSTOM → rf = r1) ∧
        ef = e1 ++ [.Tcl_IncrRefCount v, .Tcl_DecrRefCount v] := by
  rw [Tk_InitOptions_eq_scanTable env db r chain tkwin hne]
  constructor
  · intro h
    obtain ⟨pre, o, post, r1, e1, v, hl, hpre, hch, hdo, hef⟩ :=
      Tk_InitOptions.scanTable_error env db tkwin _ r [] rf ef h
    refine ⟨pre, o, post, r1, e1, v, hl, hpre, hch, hdo, ?_, hef⟩
    intro hnc
    exact (DoObjConfig_error_spec env r1 rf o v tkwin false (fun hc => absurd hc hnc) hdo).2.2
      hnc
  · rintro ⟨pre, o, post, r1, e1, v, hl, hpre, hch, hdo, -, hef⟩
    rw [hl, Tk_InitOptions_scanTable_append, hpre]
    simp only
    rw [Tk_InitOptions.scanTable_cons, hch]
    simp only [hdo, hef]

/-- C14 (witness). In the table of `-width`, `-height` and `-state` the
default of `-height` is no integer: `Tk_InitOptions` returns `TCL_ERROR` with
`-width` initialised and `-state` untouched. -/
theorem Tk_InitOptions_aborts_in_place_witness :
    Tk_InitOptions exampleEnv exampleDb zeroRecord heightTable 0 =
      .error ((zeroRecord.set 8 (.int 0)).setObj 0 (some (strObj "0")))
        ([.Tcl_IncrRefCount (strObj "0"), .Tcl_IncrRefCount (strObj "0"),
          .Tcl_DecrRefCount (strObj "0")] ++
         [.Tcl_IncrRefCount (strObj "tall"), .Tcl_DecrRefCount (strObj "tall")]) :=
  (Tk_InitOptions_aborts_in_place exampleEnv exampleDb zeroRecord heightTable 0
    (List.cons_ne_nil _ _) _ _).2
    ⟨[widthOption], heightOption, [stateOption],
      (zeroRecord.set 8 (.int 0)).setObj 0 (some (strObj "0")), _, strObj "tall",
      rfl, rfl, rfl, rfl, fun _ => rfl, rfl⟩

theorem Tk_InitOptions.scanTable_frame (env : Env) (db : OptionDb) (tkwin : Tk_Window)
    (l : List TkOption) (ra : Record) (e : List Effect) (rf : Record) (ef : List Effect)
    (h : Tk_InitOptions.scanTable env db tkwin l ra e = .ok rf ef)
    (hcl : ∀ o ∈ l, o.specPtr.type = TK_OPTION_CUSTOM → CustomLocal o) :
    (∀ off, (∀ o ∈ l, Tk_InitOptions.chosen env db tkwin o ≠ none →
        o.specPtr.internalOffset ≠ some off) → rf.internals off = ra.internals off) ∧
    (∀ off, (∀ o ∈ l, Tk_InitOptions.chosen env db tkwin o ≠ none →
        o.specPtr.objOffset ≠ some off) → rf.objs off = ra.objs off) := by
  induction l generalizing ra e with
  | nil =>
    simp only [Tk_InitOptions.scanTable, InitResult.ok.injEq] at h
    rw [h.1]
    exact ⟨fun _ _ => rfl, fun _ _ => rfl⟩
  | cons o rest ih =>
    rw [Tk_InitOptions.scanTable_cons] at h
    have hcl2 : ∀ o2 ∈ rest, o2.specPtr.type = TK_OPTION_CUSTOM → CustomLocal o2 :=
      fun o2 ho2 => hcl o2 (List.mem_cons_of_mem _ ho2)
    cases hc : Tk_InitOptions.chosen env db tkwin o with
    | none =>
      rw [hc] at h
      obtain ⟨i1, i2⟩ := ih ra e h hcl2
      exact ⟨fun off hoff => i1 off (fun o2 ho2 => hoff o2 (List.mem_cons_of_mem _ ho2)),
        fun off hoff => i2 off (fun o2 ho2 => hoff o2 (List.mem_cons_of_mem _ ho2))⟩
    | some v =>
      rw [hc] at h
      simp only at h
      cases hd : DoObjConfig env ra o v tkwin false with
      | ok r1 s e1 =>
        rw [hd] at h
        simp only at h
        obtain ⟨i1, i2⟩ := ih r1 _ h hcl2
        obtain ⟨-, -, ⟨v2, hobjs⟩, hint, -, -⟩ :=
          DoObjConfig_ok_spec env ra r1 o v tkwin false s e1
            (hcl o (List.mem_cons_self _ _)) hd
        have hsome : Tk_InitOptions.chosen env db tkwin o ≠ none := by rw [hc]; simp
        constructor
        · intro off hoff
          rw [i1 off (fun o2 ho2 => hoff o2 (List.mem_cons_of_mem _ ho2))]
          exact hint off (fun heq => hoff o (List.mem_cons_self _ _) hsome heq.symm)
        · intro off hoff
          rw [i2 off (fun o2 ho2 => hoff o2 (List.mem_cons_of_mem _ ho2)), hobjs]
          have hne := hoff o (List.mem_cons_self _ _) hsome
          cases hoo : o.specPtr.objOffset with
          | none => rfl
          | some x =>
            have hx : off ≠ x := fun hx => hne (by rw [hoo, hx])
            simp [Record.setObjAt, Record.setObj, hx]
      | error r1 =>
        rw [hd] at h
        cases h
      | panic =>
        rw [hd] at h
        cases h

theorem list_split_at {α : Type} (l : List α) (i : Nat) (a : α) (h : l[i]? = some a) :
    l = l.take i ++ a :: l.drop (i + 1) := by
  induction l generalizing i with
  | nil => simp at h
  | cons x rest ih =>
    cases i with
    | zero =>
      simp only [List.getElem?_cons_zero, Option.some.injEq] at h
      simp [h]
    | succ n =>
      simp only [List.getElem?_cons_succ] at h
      simp only [List.take_succ_cons, List.drop_succ_cons, List.cons_append]
      rw [← ih n h]

/-- C13. `Tk_InitOptions` initialises the tables a table chains to before the
table itself.  So in a successful initialisation of the chain `tbl :: rest`,
for an option `o1` of `tbl` with the chosen value `v`: the value is applied to
the record `r1` that the initialisation of the chained tables and of the
options of `tbl` before `o1` has produced, and whatever the options of the
chained tables have stored in the fields of `o1`, the fields hold at the end
what applying `v` to `o1` stored there, as long as no option after `o1` in
`tbl` stores into the same field. -/
theorem Tk_InitOptions_first_table_wins (env : Env) (db : OptionDb) (r : Record)
    (tbl : OptionTable) (rest : TableChain) (tkwin : Tk_Window) (i : Nat) (o1 : TkOption)
    (v : Tcl_Obj) (rf : Record) (ef : List Effect)
    (hi : tbl.options[i]? = some o1)
    (hv : Tk_InitOptions.chosen env db tkwin o1 = some v)
    (hcl : ∀ o ∈ tbl.options.drop (i + 1), o.specPtr.type = TK_OPTION_CUSTOM → CustomLocal o)
    (hok : Tk_InitOptions env db r (tbl :: rest) tkwin = .ok rf ef) :
    ∃ r1 e1 ra s ea,
      Tk_InitOptions.scanTable env db tkwin (initOrder rest ++ tbl.options.take i) r [] =
        .ok r1 e1 ∧
      DoObjConfig env r1 o1 v tkwin false = .ok ra s ea ∧
      (∀ off, o1.specPtr.internalOffset = some off →
        (∀ o ∈ tbl.options.drop (i + 1), Tk_InitOptions.chosen env db tkwin o ≠ none →
          o.specPtr.internalOffset ≠ some off) →
        rf.internals off = ra.internals off) ∧
      (∀ off, o1.specPtr.objOffset = some off →
        (∀ o ∈ tbl.options.drop (i + 1), Tk_InitOptions.chosen env db tkwin o ≠ none →
          o.specPtr.objOffset ≠ some off) →
        rf.objs off = ra.objs off) := by
  rw [Tk_InitOptions_eq_scanTable env db r _ tkwin (List.cons_ne_nil _ _)] at hok
  have hsplit : initOrder (tbl :: rest) =
      (initOrder rest ++ tbl.options.take i) ++ o1 :: tbl.options.drop (i + 1) := by
    show initOrder rest ++ tbl.options = _
    rw [List.append_assoc, ← list_split_at tbl.options i o1 hi]
  rw [hsplit, Tk_InitOptions_scanTable_append] at hok
  cases hpre : Tk_InitOptions.scanTable env db tkwin (initOrder rest ++ tbl.options.take i) r []
    with
  | ok r1 e1 =>
    rw [hpre] at hok
    simp only at hok
    rw [Tk_InitOptions.scanTable_cons, hv] at hok
    simp only at hok
    cases hd : DoObjConfig env r1 o1 v tkwin false with
    | ok ra s ea =>
      rw [hd] at hok
      simp only at hok
      obtain ⟨f1, f2⟩ := Tk_InitOptions.scanTable_frame env db tkwin _ ra _ rf ef hok hcl
      exact ⟨r1, e1, ra, s, ea, rfl, hd, fun off _ h => f1 off h, fun off _ h => f2 off h⟩
    | error r2 => rw [hd] at hok; cases hok
    | panic => rw [hd] at hok; cases hok
  | error r1 e1 => rw [hpre] at hok; cases hok
  | panic => rw [hpre] at hok; cases hok

/-- C13 (witness). In the chain of the table of `-width` and `-state` and the
table of `-borderwidth` and `-bd`, the options `-width` (default `0`) and
`-borderwidth` (default `2`) store into the field at offset 8; after
`Tk_InitOptions` the field holds `0`, the default of `-width`. -/
theorem Tk_InitOptions_first_table_wins_witness :
    ∃ rf ef, Tk_InitOptions exampleEnv exampleDb zeroRecord widgetBorderChain 0 = .ok rf ef ∧
      rf.internals 8 = .int 0 := by
  refine ⟨_, _, rfl, ?_⟩
  obtain ⟨r1, e1, ra, s, ea, h1, h2, h3, -⟩ :=
    Tk_InitOptions_first_table_wins exampleEnv exampleDb zeroRecord
      (OptionTable.mk 1 1 none [widthOption, stateOption]) borderTable 0 0 widthOption
      (strObj "0") _ _ rfl rfl
      (fun o ho hc => by
        simp only [List.drop_succ_cons, List.drop_zero, List.mem_singleton] at ho
        subst ho
        cases hc)
      rfl
  have e1' : Tk_InitOptions.scanTable exampleEnv exampleDb 0
      (initOrder borderTable ++ List.take 0 [widthOption, stateOption]) zeroRecord [] =
      .ok (zeroRecord.set 8 (.int 2))
        [.Tcl_IncrRefCount (strObj "2"), .Tcl_DecrRefCount (strObj "2")] := rfl
  rw [e1'] at h1
  simp only [InitResult.ok.injEq] at h1
  rw [← h1.1] at h2
  have e2' : DoObjConfig exampleEnv (zeroRecord.set 8 (.int 2)) widthOption (strObj "0") 0
      false = .ok (((zeroRecord.set 8 (.int 2)).set 8 (.int 0)).setObj 0 (some (strObj "0")))
        { optionPtr := widthOption, valuePtr := none, internalForm := .int 2 }
        [.Tcl_IncrRefCount (strObj "0")] := rfl
  rw [e2'] at h2
  simp only [DoResult.ok.injEq] at h2
  have h8 := h3 8 rfl (fun o ho hc => by
    simp only [List.drop_succ_cons, List.drop_zero, List.mem_singleton] at ho
    subst ho
    decide)
  rw [← h2.1] at h8
  exact h8

theorem followSynonym_canonical (chain : TableChain) (p : OptionPtr) (c : TkOption)
    (hct : c.specPtr.type ≠ TK_OPTION_SYNONYM) : followSynonym chain p c = some c := by
  unfold followSynonym
  rw [if_neg hct]

theorem setOptionsLoop_synonym (env : Env) (interp : Bool) (chain : TableChain)
    (tkwin : Tk_Window) (savePtr : Bool) (nameS nameC : Tcl_Obj) (pS pC : OptionPtr)
    (s c : TkOption)
    (hS : (GetOptionFromObj nameS chain).result = some pS) (hdS : chain.deref pS = some s)
    (hfs : followSynonym chain pS s = some c)
    (hC : (GetOptionFromObj nameC chain).result = some pC) (hdC : chain.deref pC = some c)
    (hct : c.specPtr.type ≠ TK_OPTION_SYNONYM) (post : List Tcl_Obj) (st : SetState) :
    setOptionsLoop env interp chain tkwin savePtr (nameS :: post) st =
      setOptionsLoop env interp chain tkwin savePtr (nameC :: post) st := by
  have hfc := followSynonym_canonical chain pC c hct
  cases post with
  | nil => simp only [setOptionsLoop, hS, hdS, hfs, hC, hdC, hfc]
  | cons value rest => simp only [setOptionsLoop, hS, hdS, hfs, hC, hdC, hfc]

theorem setOptionsLoop_synonym_pairs (env : Env) (interp : Bool) (chain : TableChain)
    (tkwin : Tk_Window) (savePtr : Bool) (nameS nameC : Tcl_Obj) (post : List Tcl_Obj)
    (h : ∀ st, setOptionsLoop env interp chain tkwin savePtr (nameS :: post) st =
      setOptionsLoop env interp chain tkwin savePtr (nameC :: post) st)
    (pairs : List (Tcl_Obj × Tcl_Obj)) (st : SetState) :
    setOptionsLoop env interp chain tkwin savePtr (argPairs pairs ++ nameS :: post) st =
      setOptionsLoop env interp chain tkwin savePtr (argPairs pairs ++ nameC :: post) st := by
  induction pairs generalizing st with
  | nil => exact h st
  | cons pr rest ih =>
    obtain ⟨name, value⟩ := pr
    simp only [argPairs, List.cons_append, setOptionsLoop, List.append_eq, ih]

/-- C11. A synonym is an alias.  Let the name `nameS` resolve to a synonym
entry that refers to the entry `c`, which is no synonym, and let the name
`nameC` resolve to `c`.  Then `Tk_SetOptions` gives the same result (return
code, record, log of saved options with its descriptors, mask, effects)
whether `nameS` or `nameC` stands at a place of a name in the arguments, and
`Tk_GetOptionValue` returns the same value for both names. -/
theorem Tk_SetOptions_synonym_alias (env : Env) (names : Names) (interp : Bool) (r : Record)
    (chain : TableChain) (tkwin : Tk_Window) (savePtr : Bool) (maskPtr : Option Nat)
    (nameS nameC : Tcl_Obj) (pS pC : OptionPtr) (s c : TkOption)
    (hS : (GetOptionFromObj nameS chain).result = some pS) (hdS : chain.deref pS = some s)
    (_ : s.specPtr.type = TK_OPTION_SYNONYM)
    (hfs : followSynonym chain pS s = some c)
    (hC : (GetOptionFromObj nameC chain).result = some pC) (hdC : chain.deref pC = some c)
    (hct : c.specPtr.type ≠ TK_OPTION_SYNONYM)
    (pairs : List (Tcl_Obj × Tcl_Obj)) (post : List Tcl_Obj) :
    Tk_SetOptions env interp r chain (argPairs pairs ++ nameS :: post) tkwin savePtr maskPtr =
      Tk_SetOptions env interp r chain (argPairs pairs ++ nameC :: post) tkwin savePtr
        maskPtr ∧
    Tk_GetOptionValue env names r chain nameS tkwin =
      Tk_GetOptionValue env names r chain nameC tkwin := by
  constructor
  · rw [Tk_SetOptions_eq, Tk_SetOptions_eq,
      setOptionsLoop_synonym_pairs env interp chain tkwin savePtr nameS nameC post
        (setOptionsLoop_synonym env interp chain tkwin savePtr nameS nameC pS pC s c
          hS hdS hfs hC hdC hct post) pairs]
  · unfold Tk_GetOptionValue
    simp only [hS, hdS, hfs, hC, hdC, followSynonym_canonical chain pC c hct]

/-- C11 (witness). The names `-bd` and `-borderwidth` in the table of
`-borderwidth` and its synonym `-bd`, after the pair `-bd 1`. -/
theorem Tk_SetOptions_synonym_alias_witness :
    Tk_SetOptions exampleEnv true widgetRecord borderTable
        ([strObj "-bd", strObj "1"] ++ strObj "-bd" :: [strObj "5"]) 0 true (some 0) =
      Tk_SetOptions exampleEnv true widgetRecord borderTable
        ([strObj "-bd", strObj "1"] ++ strObj "-borderwidth" :: [strObj "5"]) 0 true
        (some 0) ∧
    Tk_GetOptionValue exampleEnv exampleNames widgetRecord borderTable (strObj "-bd") 0 =
      Tk_GetOptionValue exampleEnv exampleNames widgetRecord borderTable
        (strObj "-borderwidth") 0 :=
  Tk_SetOptions_synonym_alias exampleEnv exampleNames true widgetRecord borderTable 0 true
    (some 0) (strObj "-bd") (strObj "-borderwidth") (0, 1) (0, 0) bdOption borderwidthOption
    rfl rfl rfl rfl rfl rfl (by decide) [(strObj "-bd", strObj "1")] [strObj "5"]

theorem FreeResources_fst (o : TkOption) (p : Option Tcl_Obj) (c : Cell) (tkwin : Tk_Window)
    (off : Nat) (hoff : o.specPtr.internalOffset = some off) :
    (FreeResources o p c tkwin).1 = (freeKind o).apply tkwin c := by
  have hex : (o.specPtr.internalOffset != TCL_INDEX_NONE) = true := by
    rw [hoff]; rfl
  unfold FreeResources freeKind
  simp only [hex, if_true]
  cases ht : o.specPtr.type <;> simp only [FreeKind.apply]
  case TK_OPTION_STRING => cases c.asStr <;> rfl
  case TK_OPTION_COLOR => split <;> rfl
  case TK_OPTION_BITMAP => split <;> rfl
  case TK_OPTION_BORDER => split <;> rfl
  case TK_OPTION_CURSOR => split <;> rfl
  case TK_OPTION_CUSTOM =>
    cases hx : o.extra with
    | custom oc =>
      cases oc with
      | none => rfl
      | some cu => cases hf : cu.freeProc <;> simp [hf, FreeKind.apply]
    | monoColorPtr _ => rfl
    | synonymPtr _ => rfl

theorem FreeResources_snd_null (o : TkOption) (p : Option Tcl_Obj) (c : Cell)
    (tkwin : Tk_Window) (off : Nat) (hoff : o.specPtr.internalOffset = some off)
    (hfix : (freeKind o).apply tkwin c = c) :
    ∀ e ∈ (FreeResources o p c tkwin).2, e.IsNullRelease := by
  have hex : (o.specPtr.internalOffset != TCL_INDEX_NONE) = true := by
    rw [hoff]; rfl
  unfold freeKind at hfix
  unfold FreeResources
  simp only [hex, if_true]
  cases ht : o.specPtr.type <;> simp only [ht] at hfix <;>
    simp only [List.not_mem_nil, false_implies, implies_true]
  case TK_OPTION_STRING =>
    simp only [FreeKind.apply] at hfix
    cases hs : c.asStr with
    | none => simp
    | some s =>
      rw [hs] at hfix
      simp only at hfix
      rw [← hfix] at hs
      cases hs
  case TK_OPTION_FONT =>
    simp only [FreeKind.apply] at hfix
    intro e he
    simp only [List.mem_singleton] at he
    rw [he, ← hfix]
    rfl
  case TK_OPTION_STYLE =>
    simp only [FreeKind.apply] at hfix
    intro e he
    simp only [List.mem_singleton] at he
    rw [he, ← hfix]
    rfl
  case TK_OPTION_CUSTOM =>
    cases hx : o.extra with
    | custom oc =>
      cases oc with
      | none => simp
      | some cu =>
        cases hf : cu.freeProc with
        | none => simp [hf]
        | some f =>
          intro e he
          simp only [hf, List.mem_singleton] at he
          rw [he]
          trivial
    | monoColorPtr _ => simp
    | synonymPtr _ => simp
  all_goals
    have h0 : c.asHandle = 0 := by
      simp only [FreeKind.apply] at hfix
      by_contra hne
      rw [if_pos hne] at hfix
      rw [← hfix] at hne
      exact hne rfl
    simp [h0]

theorem FreeResources_snd_noform (o : TkOption) (c : Cell) (tkwin : Tk_Window)
    (hoff : o.specPtr.internalOffset = none) : (FreeResources o none c tkwin).2 = [] := by
  have hex : (o.specPtr.internalOffset != TCL_INDEX_NONE) = false := by
    rw [hoff]; rfl
  unfold FreeResources
  simp only [hex]
  cases ht : o.specPtr.type <;> simp
  case TK_OPTION_CUSTOM =>
    cases hx : o.extra with
    | custom oc =>
      cases oc with
      | none => rfl
      | some cu => cases hf : cu.freeProc <;> simp [hf]
    | monoColorPtr _ => rfl
    | synonymPtr _ => rfl

theorem FreeKind.apply_idem (tkwin : Tk_Window) (k : FreeKind) (c : Cell)
    (hf : ∀ f, k = .custom f → f tkwin (f tkwin c) = f tkwin c) :
    k.apply tkwin (k.apply tkwin c) = k.apply tkwin c := by
  cases k with
  | keep => rfl
  | str =>
    simp only [FreeKind.apply]
    cases hs : c.asStr with
    | none => simp [hs]
    | some s => simp [Cell.asStr]
  | handle =>
    simp only [FreeKind.apply]
    by_cases h : c.asHandle ≠ 0
    · rw [if_pos h]
      simp [Cell.asHandle]
    · rw [if_neg h, if_neg h]
  | always => rfl
  | custom f => exact hf f rfl

theorem FreeKind.apply_compat (tkwin : Tk_Window) (k k2 : FreeKind) (c : Cell)
    (hk : ¬ k.isCustom) (hk2 : ¬ k2.isCustom) (h : k.apply tkwin c = c) :
    k.apply tkwin (k2.apply tkwin c) = k2.apply tkwin c := by
  cases k <;> cases k2 <;> rcases c with v | d | (_ | s) | hh | x <;>
    simp_all [FreeKind.apply, FreeKind.isCustom, Cell.asStr, Cell.asHandle]

theorem Tk_FreeConfigOptions.step_fst (tkwin : Tk_Window) (r : Record) (o : TkOption)
    (hs : o.specPtr.type ≠ TK_OPTION_SYNONYM) :
    (Tk_FreeConfigOptions.step tkwin r o).1 = freedRecord tkwin r o := by
  unfold Tk_FreeConfigOptions.step freedRecord
  rw [if_neg hs]
  simp only
  by_cases hf : o.flags &&& OPTION_NEEDS_FREEING ≠ 0
  · rw [if_pos hf, if_pos hf]
    cases hoff : o.specPtr.internalOffset with
    | none => rfl
    | some off =>
      simp only
      rw [FreeResources_fst o _ _ tkwin off hoff, Record.setObjAt_internals]
  · rw [if_neg hf, if_neg hf]

theorem freedRecord_objs_hit (tkwin : Tk_Window) (r : Record) (o : TkOption) (x : Nat)
    (h : o.specPtr.objOffset = some x) : (freedRecord tkwin r o).objs x = none := by
  unfold freedRecord
  by_cases hf : o.flags &&& OPTION_NEEDS_FREEING ≠ 0
  · rw [if_pos hf]
    cases hoff : o.specPtr.internalOffset <;>
      simp [h, Record.set, Record.setObjAt, Record.setObj]
  · rw [if_neg hf]
    simp [h, Record.setObjAt, Record.setObj]

theorem freedRecord_objs_miss (tkwin : Tk_Window) (r : Record) (o : TkOption) (x : Nat)
    (h : o.specPtr.objOffset ≠ some x) : (freedRecord tkwin r o).objs x = r.objs x := by
  have key : (r.setObjAt o.specPtr.objOffset none).objs x = r.objs x := by
    cases ho : o.specPtr.objOffset with
    | none => rfl
    | some y =>
      have hxy : x ≠ y := fun e => h (by rw [ho, e])
      simp [Record.setObjAt, Record.setObj, hxy]
  unfold freedRecord
  by_cases hf : o.flags &&& OPTION_NEEDS_FREEING ≠ 0
  · rw [if_pos hf]
    cases hoff : o.specPtr.internalOffset with
    | none => exact key
    | some off => exact key
  · rw [if_neg hf]
    exact key

theorem freedRecord_internals_hit (tkwin : Tk_Window) (r : Record) (o : TkOption) (x : Nat)
    (hf : o.flags &&& OPTION_NEEDS_FREEING ≠ 0) (h : o.specPtr.internalOffset = some x) :
    (freedRecord tkwin r o).internals x = (freeKind o).apply tkwin (r.internals x) := by
  unfold freedRecord
  rw [if_pos hf]
  simp only [h]
  exact Record.set_internals_same _ _ _

theorem freedRecord_internals_miss (tkwin : Tk_Window) (r : Record) (o : TkOption) (x : Nat)
    (h : ¬ (o.flags &&& OPTION_NEEDS_FREEING ≠ 0 ∧ o.specPtr.internalOffset = some x)) :
    (freedRecord tkwin r o).internals x = r.internals x := by
  unfold freedRecord
  by_cases hf : o.flags &&& OPTION_NEEDS_FREEING ≠ 0
  · rw [if_pos hf]
    cases hoff : o.specPtr.internalOffset with
    | none => simp only [Record.setObjAt_internals]
    | some off =>
      have hx : x ≠ off := fun e => h ⟨hf, by rw [hoff, e]⟩
      simp only
      rw [Record.set_internals_ne _ _ _ _ hx, Record.setObjAt_internals]
  · rw [if_neg hf, Record.setObjAt_internals]

theorem Settled.step_noop (tkwin : Tk_Window) (r : Record) (o : TkOption)
    (h : Settled tkwin r o) :
    (Tk_FreeConfigOptions.step tkwin r o).1 = r ∧
      ∀ e ∈ (Tk_FreeConfigOptions.step tkwin r o).2, e.IsNullRelease := by
  by_cases hs : o.specPtr.type = TK_OPTION_SYNONYM
  · unfold Tk_FreeConfigOptions.step
    rw [if_pos hs]
    exact ⟨rfl, fun e he => by simp at he⟩
  · rcases h with h | ⟨hobj, hint⟩
    · exact absurd h hs
    constructor
    · rw [Tk_FreeConfigOptions.step_fst tkwin r o hs]
      apply Record.ext
      · funext x
        by_cases hx : o.specPtr.objOffset = some x
        · rw [freedRecord_objs_hit tkwin r o x hx, hobj x hx]
        · exact freedRecord_objs_miss tkwin r o x hx
      · funext x
        by_cases hx : o.flags &&& OPTION_NEEDS_FREEING ≠ 0 ∧ o.specPtr.internalOffset = some x
        · rw [freedRecord_internals_hit tkwin r o x hx.1 hx.2, hint hx.1 x hx.2]
        · exact freedRecord_internals_miss tkwin r o x hx
    · have hold : r.objAt o.specPtr.objOffset = none := by
        cases ho : o.specPtr.objOffset with
        | none => rfl
        | some off => exact hobj off ho
      unfold Tk_FreeConfigOptions.step
      rw [if_neg hs]
      simp only [hold, List.append_nil]
      by_cases hf : o.flags &&& OPTION_NEEDS_FREEING ≠ 0
      · rw [if_pos hf]
        cases hoff : o.specPtr.internalOffset with
        | none =>
          simp only [FreeResources_snd_noform o _ tkwin hoff]
          intro e he
          simp at he
        | some off =>
          simp only [Record.setObjAt_internals]
          exact FreeResources_snd_null o none _ tkwin off hoff (hint hf off hoff)
      · rw [if_neg hf]
        intro e he
        simp at he

theorem Settled.of_step (tkwin : Tk_Window) (r : Record) (o : TkOption)
    (hidem : ∀ f, freeKind o = .custom f → ∀ c, f tkwin (f tkwin c) = f tkwin c) :
    Settled tkwin (Tk_FreeConfigOptions.step tkwin r o).1 o := by
  by_cases hs : o.specPtr.type = TK_OPTION_SYNONYM
  · exact Or.inl hs
  · right
    rw [Tk_FreeConfigOptions.step_fst tkwin r o hs]
    constructor
    · intro off hoff
      exact freedRecord_objs_hit tkwin r o off hoff
    · intro hf off hoff
      rw [freedRecord_internals_hit tkwin r o off hf hoff]
      exact FreeKind.apply_idem tkwin _ _ (fun f hk => hidem f hk _)

theorem Settled.step_other (tkwin : Tk_Window) (r : Record) (o o2 : TkOption)
    (h : Settled tkwin r o)
    (h12 : ∀ off, FreesAt o off → FreesAt o2 off → (freeKind o).isCustom → o2 = o)
    (h21 : ∀ off, FreesAt o2 off → FreesAt o off → (freeKind o2).isCustom → o = o2) :
    Settled tkwin (Tk_FreeConfigOptions.step tkwin r o2).1 o := by
  by_cases hs : o.specPtr.type = TK_OPTION_SYNONYM
  · exact Or.inl hs
  rcases h with h | ⟨hobj, hint⟩
  · exact absurd h hs
  by_cases hs2 : o2.specPtr.type = TK_OPTION_SYNONYM
  · have : (Tk_FreeConfigOptions.step tkwin r o2).1 = r := by
      unfold Tk_FreeConfigOptions.step
      rw [if_pos hs2]
    rw [this]
    exact Or.inr ⟨hobj, hint⟩
  right
  rw [Tk_FreeConfigOptions.step_fst tkwin r o2 hs2]
  constructor
  · intro off hoff
    by_cases hx : o2.specPtr.objOffset = some off
    · exact freedRecord_objs_hit tkwin r o2 off hx
    · rw [freedRecord_objs_miss tkwin r o2 off hx]
      exact hobj off hoff
  · intro hf off hoff
    have hfix := hint hf off hoff
    by_cases hx : o2.flags &&& OPTION_NEEDS_FREEING ≠ 0 ∧ o2.specPtr.internalOffset = some off
    · rw [freedRecord_internals_hit tkwin r o2 off hx.1 hx.2]
      have f1 : FreesAt o off := ⟨hs, hf, hoff⟩
      have f2 : FreesAt o2 off := ⟨hs2, hx.1, hx.2⟩
      by_cases hk : (freeKind o).isCustom
      · have e := h12 off f1 f2 hk
        subst e
        rw [hfix]
        exact hfix
      · by_cases hk2 : (freeKind o2).isCustom
        · have e := h21 off f2 f1 hk2
          subst e
          rw [hfix]
          exact hfix
        · exact FreeKind.apply_compat tkwin _ _ _ hk hk2 hfix
    · rw [freedRecord_internals_miss tkwin r o2 off hx]
      exact hfix

theorem Tk_FreeConfigOptions_scanTable_append (tkwin : Tk_Window) (l1 l2 : List TkOption)
    (st : Record × List Effect) :
    Tk_FreeConfigOptions.scanTable tkwin (l1 ++ l2) st =
      Tk_FreeConfigOptions.scanTable tkwin l2 (Tk_FreeConfigOptions.scanTable tkwin l1 st) := by
  induction l1 generalizing st with
  | nil => rfl
  | cons o rest ih =>
    simp only [List.cons_append, Tk_FreeConfigOptions.scanTable]
    exact ih _

theorem Tk_FreeConfigOptions_scanChain_eq (tkwin : Tk_Window) (chain : TableChain)
    (st : Record × List Effect) :
    Tk_FreeConfigOptions.scanChain tkwin chain st =
      Tk_FreeConfigOptions.scanTable tkwin (allOptions chain) st := by
  induction chain generalizing st with
  | nil => rfl
  | cons t rest ih =>
    simp only [Tk_FreeConfigOptions.scanChain, allOptions,
      Tk_FreeConfigOptions_scanTable_append]
    exact ih _

theorem Tk_FreeConfigOptions.scanTable_settles (tkwin : Tk_Window) (all : List TkOption)
    (hok : CustomFreeOk all) (l : List TkOption) :
    ∀ (seen : List TkOption) (st : Record × List Effect), (∀ o ∈ seen, o ∈ all) →
      (∀ o ∈ l, o ∈ all) → (∀ o ∈ seen, Settled tkwin st.1 o) →
      ∀ o, o ∈ seen ∨ o ∈ l → Settled tkwin (Tk_FreeConfigOptions.scanTable tkwin l st).1 o := by
  induction l with
  | nil =>
    intro seen st _ _ hset o ho
    rcases ho with ho | ho
    · exact hset o ho
    · simp at ho
  | cons a rest ih =>
    intro seen st hseen hl hset o ho
    simp only [Tk_FreeConfigOptions.scanTable]
    have ha : a ∈ all := hl a (List.mem_cons_self _ _)
    apply ih (a :: seen)
    · intro o2 ho2
      rcases List.mem_cons.mp ho2 with e | e
      · rw [e]; exact ha
      · exact hseen o2 e
    · intro o2 ho2
      exact hl o2 (List.mem_cons_of_mem _ ho2)
    · intro o2 ho2
      rcases List.mem_cons.mp ho2 with e | e
      · rw [e]
        exact Settled.of_step tkwin st.1 a (fun f hk c => hok.1 a ha f hk tkwin c)
      · have ho2all := hseen o2 e
        exact Settled.step_other tkwin st.1 o2 a (hset o2 e)
          (fun off f1 f2 hk => hok.2 o2 ho2all a ha off f1 f2 hk)
          (fun off f2 f1 hk => hok.2 a ha o2 ho2all off f2 f1 hk)
    · rcases ho with ho | ho
      · exact Or.inl (List.mem_cons_of_mem _ ho)
      · rcases List.mem_cons.mp ho with e | e
        · rw [e]; exact Or.inl (List.mem_cons_self _ _)
        · exact Or.inr e

theorem Tk_FreeConfigOptions.scanTable_noop (tkwin : Tk_Window) (l : List TkOption)
    (st : Record × List Effect) (h : ∀ o ∈ l, Settled tkwin st.1 o) :
    (Tk_FreeConfigOptions.scanTable tkwin l st).1 = st.1 ∧
      ∀ e ∈ (Tk_FreeConfigOptions.scanTable tkwin l st).2, e ∈ st.2 ∨ e.IsNullRelease := by
  induction l generalizing st with
  | nil => exact ⟨rfl, fun e he => Or.inl he⟩
  | cons a rest ih =>
    simp only [Tk_FreeConfigOptions.scanTable]
    obtain ⟨h1, h2⟩ := Settled.step_noop tkwin st.1 a (h a (List.mem_cons_self _ _))
    have hrest : ∀ o ∈ rest, Settled tkwin
        ((Tk_FreeConfigOptions.step tkwin st.1 a).1,
          st.2 ++ (Tk_FreeConfigOptions.step tkwin st.1 a).2).1 o := by
      intro o ho
      show Settled tkwin (Tk_FreeConfigOptions.step tkwin st.1 a).1 o
      rw [h1]
      exact h o (List.mem_cons_of_mem _ ho)
    obtain ⟨i1, i2⟩ := ih _ hrest
    refine ⟨i1.trans h1, ?_⟩
    intro e he
    rcases i2 e he with h3 | h3
    · rcases List.mem_append.mp h3 with h4 | h4
      · exact Or.inl h4
      · exact Or.inr (h2 e h4)
    · exact Or.inr h3

/-- C20. `Tk_FreeConfigOptions` called a second time on the record the first
call has left changes nothing in the record, and everything it does outside
the record is a call of `Tk_FreeFont` or `Tk_FreeStyle` on the handle `NULL`
or the call of the `freeProc` of a custom option: no value is released, no
string is freed and no resource with a handle other than `NULL` is freed
again.  For the custom options it is assumed that the `freeProc` leaves alone
what it has returned and that no other option frees the same internal
form. -/
theorem Tk_FreeConfigOptions_idempotent (r : Record) (chain : TableChain) (tkwin : Tk_Window)
    (hok : CustomFreeOk (allOptions chain)) :
    (Tk_FreeConfigOptions (Tk_FreeConfigOptions r chain tkwin).1 chain tkwin).1 =
        (Tk_FreeConfigOptions r chain tkwin).1 ∧
      ∀ e ∈ (Tk_FreeConfigOptions (Tk_FreeConfigOptions r chain tkwin).1 chain tkwin).2,
        e.IsNullRelease := by
  unfold Tk_FreeConfigOptions
  simp only [Tk_FreeConfigOptions_scanChain_eq]
  have hset : ∀ o ∈ allOptions chain, Settled tkwin
      (Tk_FreeConfigOptions.scanTable tkwin (allOptions chain) (r, [])).1 o := by
    intro o ho
    exact Tk_FreeConfigOptions.scanTable_settles tkwin (allOptions chain) hok
      (allOptions chain) [] (r, []) (fun _ h => by simp at h) (fun _ h => h)
      (fun _ h => by simp at h) o (Or.inr ho)
  obtain ⟨h1, h2⟩ := Tk_FreeConfigOptions.scanTable_noop tkwin (allOptions chain)
    ((Tk_FreeConfigOptions.scanTable tkwin (allOptions chain) (r, [])).1, []) hset
  refine ⟨h1, ?_⟩
  intro e he
  rcases h2 e he with h3 | h3
  · simp at h3
  · exact h3

theorem CustomFreeOk_of_noCustom (l : List TkOption)
    (h : ∀ o ∈ l, o.specPtr.type ≠ TK_OPTION_CUSTOM) : CustomFreeOk l := by
  have key : ∀ o ∈ l, ¬ (freeKind o).isCustom := by
    intro o ho hk
    have hne := h o ho
    unfold freeKind at hk
    cases ht : o.specPtr.type <;> simp only [ht] at hk <;>
      first
      | exact hne ht
      | exact hk
  constructor
  · intro o ho f hk
    have := key o ho
    rw [hk] at this
    exact absurd trivial this
  · intro o1 ho1 o2 _ off _ _ hk
    exact absurd hk (key o1 ho1)

/-- C20 (witness). The table of the string option `-text` and the font option
`-font`, on a record that holds a text and a font. -/
theorem Tk_FreeConfigOptions_idempotent_witness :
    (Tk_FreeConfigOptions (Tk_FreeConfigOptions resourceRecord resourceTable 0).1
        resourceTable 0).1 = (Tk_FreeConfigOptions resourceRecord resourceTable 0).1 ∧
      ∀ e ∈ (Tk_FreeConfigOptions (Tk_FreeConfigOptions resourceRecord resourceTable 0).1
        resourceTable 0).2, e.IsNullRelease :=
  Tk_FreeConfigOptions_idempotent resourceRecord resourceTable 0
    (CustomFreeOk_of_noCustom _ (fun o ho => by
      have hl : allOptions resourceTable =
          [(initOption [textSpec, fontSpec] textSpec).getD countOption,
           (initOption [textSpec, fontSpec] fontSpec).getD countOption] := rfl
      rw [hl] at ho
      simp only [List.mem_cons, List.mem_singleton, List.not_mem_nil, or_false] at ho
      rcases ho with e | e <;> rw [e] <;> decide))

theorem storeNarrow_ok (r : Record) (specPtr : Tk_OptionSpec) (vp : Option Tcl_Obj) (n : Int)
    (off : Nat) (hf : narrowFlagsOk specPtr = true) (hoff : specPtr.internalOffset = some off) :
    storeNarrow r specPtr vp n =
      .stored vp (r.set off (.int (narrowCast specPtr n))) (r.internals off) [] := by
  unfold storeNarrow narrowCast
  unfold narrowFlagsOk at hf
  simp only [hoff]
  by_cases h0 : specPtr.flags &&& TYPE_MASK ≠ 0
  · rw [if_pos h0] at hf ⊢
    by_cases h1 : specPtr.flags &&& TYPE_MASK = TK_OPTION_VAR_char
    · rw [if_pos h1, if_pos h1]
    · rw [if_neg h1, if_neg h1]
      by_cases h2 : specPtr.flags &&& TYPE_MASK = TK_OPTION_VAR_short
      · rw [if_pos h2, if_pos h2]
      · simp [h1, h2] at hf
  · rw [if_neg h0]
    have hz : specPtr.flags &&& TYPE_MASK = 0 := by
      by_contra hne
      exact h0 hne
    have c1 : ¬ (specPtr.flags &&& TYPE_MASK = TK_OPTION_VAR_char) := by rw [hz]; decide
    have c2 : ¬ (specPtr.flags &&& TYPE_MASK = TK_OPTION_VAR_short) := by rw [hz]; decide
    rw [if_neg c1, if_neg c2]

theorem applyValue_coded (env : Env) (r : Record) (o : TkOption) (v : Tcl_Obj)
    (tkwin : Tk_Window) (off : Nat) (hk : o.specPtr.type ∈ intCodedTypes)
    (hoff : o.specPtr.internalOffset = some off) (hst : StorageOk o.specPtr) :
    (codedInt env o.specPtr v = none → applyValue env r o v tkwin = .fail r) ∧
    (∀ n, codedInt env o.specPtr v = some n → ∃ v2, applyValue env r o v tkwin =
      .stored v2 (r.set off (.int (narrowed o.specPtr n))) (r.internals off) []) := by
  have hne : o.specPtr.internalOffset ≠ none := by rw [hoff]; exact Option.some_ne_none _
  unfold StorageOk at hst
  simp only [intCodedTypes, List.mem_cons, List.mem_singleton, List.not_mem_nil,
    or_false] at hk
  rcases hk with h | h | h | h <;> simp only [h] at hst <;>
    simp only [applyValue, codedInt, narrowed, h]
  · have hf := hst hne
    unfold applyBoolean
    by_cases hn : isNullValue env o.specPtr v = true
    · simp only [hn, if_true]
      exact ⟨nofun, fun n hc => ⟨_, by
        cases hc; exact storeNarrow_ok r _ _ _ off hf hoff⟩⟩
    · simp only [hn, if_false, Bool.false_eq_true]
      cases hp : env.Tcl_GetBooleanFromObj v with
      | none => exact ⟨fun _ => rfl, fun n hc => nomatch hc⟩
      | some b =>
        exact ⟨nofun, fun n hc => ⟨_, by
          cases hc; exact storeNarrow_ok r _ _ _ off hf hoff⟩⟩
  · unfold intFlagsOk at hst
    unfold applyInt storeInternal
    simp only [hoff]
    by_cases h0 : o.specPtr.flags &&& TYPE_MASK = 0
    · simp only [h0, if_true]
      by_cases hn : isNullValue env o.specPtr v = true
      · simp only [hn, if_true]
        exact ⟨nofun, fun n hc => ⟨_, by cases hc; rfl⟩⟩
      · simp only [hn, if_false, Bool.false_eq_true]
        cases hp : env.Tcl_GetIntFromObj v with
        | none => exact ⟨fun _ => rfl, fun n hc => nomatch hc⟩
        | some b => exact ⟨nofun, fun n hc => ⟨_, by cases hc; rfl⟩⟩
    · have h1 : o.specPtr.flags &&& TYPE_MASK = TYPE_MASK := by simpa [h0] using hst
      have hm : ¬ TYPE_MASK = 0 := by decide
      simp only [h1, hm, if_true, if_false]
      by_cases hn : isNullValue env o.specPtr v = true
      · simp only [hn, if_true]
        exact ⟨nofun, fun n hc => ⟨_, by cases hc; rfl⟩⟩
      · simp only [hn, if_false, Bool.false_eq_true]
        cases hp : env.Tcl_GetWideIntFromObj v with
        | none => exact ⟨fun _ => rfl, fun n hc => nomatch hc⟩
        | some b => exact ⟨nofun, fun n hc => ⟨_, by cases hc; rfl⟩⟩
  · unfold applyIndex storeInternal
    simp only [hoff]
    cases hp : TkGetIntForIndex env (some v) (-1) 0 with
    | none => exact ⟨fun _ => rfl, fun n hc => nomatch hc⟩
    | some b =>
      refine ⟨nofun, fun n hc => ⟨some v, ?_⟩⟩
      simp only [Option.map_some', Option.some.injEq] at hc
      subst hc
      rfl
  · have hf := hst hne
    unfold applyStringTable
    by_cases hn : isNullValue env o.specPtr v = true
    · simp only [hn, if_true]
      exact ⟨nofun, fun n hc => ⟨_, by
        cases hc; exact storeNarrow_ok r _ _ _ off hf hoff⟩⟩
    · simp only [hn, if_false, Bool.false_eq_true]
      cases hp : env.Tcl_GetIndexFromObjStruct v o.specPtr.clientData
          (indexFlags env o.specPtr) with
      | none => exact ⟨fun _ => rfl, fun n hc => nomatch hc⟩
      | some b =>
        exact ⟨nofun, fun n hc => ⟨_, by
          cases hc; exact storeNarrow_ok r _ _ _ off hf hoff⟩⟩

theorem clampIndex_range (i : Int) : INT_MIN ≤ clampIndex i ∧ clampIndex i ≤ INT_MAX := by
  unfold clampIndex INT_MIN INT_MAX
  split
  · omega
  · split <;> omega

theorem clampIndex_id (i : Int) (h1 : INT_MIN ≤ i) (h2 : i ≤ INT_MAX) : clampIndex i = i := by
  unfold clampIndex
  unfold INT_MIN at h1
  unfold INT_MAX at h2
  unfold INT_MIN INT_MAX
  split
  · omega
  · split
    · omega
    · rfl

theorem DoObjConfig_of_stored (env : Env) (r : Record) (o : TkOption) (v : Tcl_Obj)
    (tkwin : Tk_Window) (sv : Bool) (v2 : Option Tcl_Obj) (ra : Record) (old : Cell)
    (effs : List Effect) (h : applyValue env r o v tkwin = .stored v2 ra old effs) :
    ∃ s e, DoObjConfig env r o v tkwin sv = .ok (ra.setObjAt o.specPtr.objOffset v2) s e := by
  unfold DoObjConfig
  rw [h]
  exact ⟨_, _, rfl⟩

/-- C22 (counterexample). The batch `-width 1 -width 2 -width 3` saved in
nodes of two entries leaves a log of two nodes, the root and one node chained
to it; after `Tk_RestoreSavedOptions` the root has no entry and no node is
chained to it any more (the chained node has been restored, freed and
unlinked). -/
theorem restore_unlinks_chained_node :
    ∃ r1 root node m e res,
      Tk_SetOptions smallNodeEnv true widgetRecord widgetTable thriceArgs 0 true none
        = .ok r1 [root, node] m e ∧
      Tk_RestoreSavedOptions r1 root [node] = some res ∧
      (res.savePtr.map fun s => s.items.length) = [0] ∧
      res.savePtr.tail.length = 0 ∧ [node].length = 1 :=
  ⟨_, _, _, _, _, _, rfl, rfl, rfl, rfl, rfl⟩

/-- C22, amended: after `Tk_RestoreSavedOptions` the root node of the log has
no entry (`numItems` is zero) and no node chained to it (`nextPtr` is `NULL`):
the nodes that were chained to it have been restored, freed and unlinked by
the call.  The root keeps its window. -/
theorem Tk_RestoreSavedOptions_clears_and_unlinks (recordPtr : Record)
    (savePtr : Tk_SavedOptions) (chained : SavePtr) (res : Restored)
    (h : Tk_RestoreSavedOptions recordPtr savePtr chained = some res) :
    ∃ root, res.savePtr = [root] ∧ root.items = [] ∧ root.tkwin = savePtr.tkwin ∧
      res.savePtr.tail = [] := by
  refine ⟨{ savePtr with items := [] }, ?_, rfl, rfl, ?_⟩
  all_goals
    cases chained with
    | nil =>
      simp only [Tk_RestoreSavedOptions] at h
      split at h
      · cases h
      · cases h; rfl
    | cons next rest =>
      simp only [Tk_RestoreSavedOptions] at h
      split at h
      · cases h
      · split at h
        · cases h
        · cases h; rfl

/-- The statement of `Tk_RestoreSavedOptions_clears_and_unlinks` for a root
node with one node chained to it, on the record of the widget. -/
theorem Tk_RestoreSavedOptions_clears_and_unlinks_witness :
    ∃ res, Tk_RestoreSavedOptions widgetRecord ⟨0, []⟩ [⟨0, []⟩] = some res ∧
      ∃ root, res.savePtr = [root] ∧ root.items = [] ∧ root.tkwin = 0 ∧
        res.savePtr.tail = [] :=
  ⟨_, rfl, Tk_RestoreSavedOptions_clears_and_unlinks widgetRecord ⟨0, []⟩ [⟨0, []⟩] _ rfl⟩

theorem setOptionsLoop_mask (env : Env) (interp : Bool) (chain : TableChain)
    (tkwin : Tk_Window) (savePtr : Bool) :
    ∀ (objv : List Tcl_Obj) (st st2 : SetState),
      setOptionsLoop env interp chain tkwin savePtr objv st = .done st2 →
      st2.mask = st.mask ||| changeMask chain objv := by
  intro objv
  induction objv using pair_induction with
  | h0 =>
    intro st st2 h
    simp only [setOptionsLoop, LoopEnd.done.injEq] at h
    subst h
    simp [changeMask]
  | h1 name =>
    intro st st2 h
    simp only [setOptionsLoop] at h
    split at h
    · cases h
    · split at h
      · cases h
      · split at h
        · cases h
        · split at h <;> cases h
  | h2 name value rest ih =>
    intro st st2 h
    simp only [setOptionsLoop] at h
    simp only [changeMask, canonicalOption]
    cases hg : (GetOptionFromObj name chain).result with
    | none => simp [hg] at h
    | some p =>
      simp only [hg] at h ⊢
      cases hd : chain.deref p with
      | none => simp [hd] at h
      | some found =>
        simp only [hd] at h ⊢
        cases hf : followSynonym chain p found with
        | none => simp [hf] at h
        | some optionPtr =>
          simp only [hf] at h ⊢
          cases hdo : DoObjConfig env st.recordPtr optionPtr value tkwin savePtr with
          | error r1 => simp [hdo] at h
          | panic => simp [hdo] at h
          | ok r1 saved effects =>
            simp only [hdo] at h
            rw [ih _ _ h, Nat.lor_assoc]

/-- C26. The change mask of `Tk_SetOptions`.  When the call succeeds and a
mask pointer is given, the word written through it is the bitwise OR of the
`typeMask` of the canonical entry (the entry found for the name, or the entry
a synonym refers to) of every pair of name and value of the arguments, which
is `0` when there is no pair; when the call fails, the word at the mask
pointer is the word that was there before the call. -/
theorem Tk_SetOptions_change_mask (env : Env) (interp : Bool) (r : Record)
    (chain : TableChain) (tkwin : Tk_Window) (savePtr : Bool) :
    (∀ (objv : List Tcl_Obj) (before : Nat) (r1 : Record) (sp : SavePtr) (m : Option Nat)
        (e : List Effect),
        Tk_SetOptions env interp r chain objv tkwin savePtr (some before) = .ok r1 sp m e →
        m = some (changeMask chain objv)) ∧
    (∀ before : Nat, ∃ sp,
        Tk_SetOptions env interp r chain [] tkwin savePtr (some before) = .ok r sp (some 0) []) ∧
    (∀ (objv : List Tcl_Obj) (maskPtr : Option Nat) (r1 : Record) (sp : SavePtr)
        (m : Option Nat) (e : List Effect),
        Tk_SetOptions env interp r chain objv tkwin savePtr maskPtr = .error r1 sp m e →
        m = maskPtr) := by
  refine ⟨?_, ?_, ?_⟩
  · intro objv before r1 sp m e h
    rw [Tk_SetOptions_eq] at h
    cases hloop : setOptionsLoop env interp chain tkwin savePtr objv
        (initialState r tkwin savePtr) with
    | done st =>
      simp only [hloop, SetResult.ok.injEq, Option.map_some'] at h
      have := setOptionsLoop_mask env interp chain tkwin savePtr objv _ _ hloop
      rw [← h.2.2.1, this]
      simp [initialState]
    | error st =>
      simp only [hloop] at h
      split at h
      · cases h
      · split at h <;> cases h
    | panic => simp [hloop] at h
    | badRead => simp [hloop] at h
  · intro before
    exact ⟨_, rfl⟩
  · intro objv maskPtr r1 sp m e h
    rw [Tk_SetOptions_eq] at h
    cases hloop : setOptionsLoop env interp chain tkwin savePtr objv
        (initialState r tkwin savePtr) with
    | done st => simp [hloop] at h
    | error st =>
      simp only [hloop] at h
      split at h
      · simp only [SetResult.error.injEq] at h
        exact h.2.2.1.symm
      · split at h
        · cases h
        · simp only [SetResult.error.injEq] at h
          exact h.2.2.1.symm
    | panic => simp [hloop] at h
    | badRead => simp [hloop] at h

/-- C26 (witness). The widget with the options `-width` (mask 1) and `-state`
(mask 2): the batch `-state normal -width 7` succeeds and writes the mask 3
over the word 5, and the failing batch `-width 20 -state xyz` leaves the
word 5 at the mask pointer. -/
theorem Tk_SetOptions_change_mask_witness :
    (∃ r1 sp e, Tk_SetOptions exampleEnv true widgetRecord widgetTable
        [strObj "-state", strObj "normal", strObj "-width", strObj "7"] 0 true
        (some 5) = .ok r1 sp (some 3) e) ∧
    (∀ r1 sp m e, Tk_SetOptions exampleEnv true widgetRecord widgetTable
        [strObj "-state", strObj "normal", strObj "-width", strObj "7"] 0 true
        (some 5) = .ok r1 sp m e → m = some 3) ∧
    (∃ r1 sp m e, Tk_SetOptions exampleEnv true widgetRecord widgetTable failingArgs 0 true
        (some 5) = .error r1 sp m e) ∧
    (∀ r1 sp m e, Tk_SetOptions exampleEnv true widgetRecord widgetTable failingArgs 0 true
        (some 5) = .error r1 sp m e → m = some 5) :=
  ⟨⟨_, _, _, rfl⟩,
    fun r1 sp m e h =>
      ((Tk_SetOptions_change_mask exampleEnv true widgetRecord widgetTable 0 true).1
        _ 5 r1 sp m e h).trans (by decide),
    ⟨_, _, _, _, rfl⟩,
    fun r1 sp m e h =>
      (Tk_SetOptions_change_mask exampleEnv true widgetRecord widgetTable 0 true).2.2
        _ (some 5) r1 sp m e h⟩

theorem storeInternal_quiet (env : Env) (r : Record) (specPtr : Tk_OptionSpec) (v : Tcl_Obj)
    (tkwin : Tk_Window) (new : Option Tcl_Obj) (c : Cell)
    (h : IsNewValue env specPtr v new) :
    (storeInternal r specPtr new c).Quiet env specPtr v tkwin := by
  unfold storeInternal
  cases specPtr.internalOffset <;> exact ⟨h, fun e he => by simp at he⟩

theorem storeNarrow_quiet (env : Env) (r : Record) (specPtr : Tk_OptionSpec) (v : Tcl_Obj)
    (tkwin : Tk_Window) (new : Option Tcl_Obj) (n : Int)
    (h : IsNewValue env specPtr v new) :
    (storeNarrow r specPtr new n).Quiet env specPtr v tkwin := by
  unfold storeNarrow
  cases specPtr.internalOffset with
  | none => exact ⟨h, fun e he => by simp at he⟩
  | some off =>
    simp only
    split_ifs
    · exact ⟨h, fun e he => by simp at he⟩
    · exact ⟨h, fun e he => by simp at he⟩
    · trivial
    · exact ⟨h, fun e he => by simp at he⟩

theorem IsNewValue.null (env : Env) (specPtr : Tk_OptionSpec) (v : Tcl_Obj)
    (h : isNullValue env specPtr v = true) : IsNewValue env specPtr v none :=
  Or.inl ⟨rfl, h⟩

theorem IsNewValue.given (env : Env) (specPtr : Tk_OptionSpec) (v : Tcl_Obj) :
    IsNewValue env specPtr v (some v) :=
  Or.inr (Or.inl rfl)

theorem IsNewValue.duplicate (env : Env) (specPtr : Tk_OptionSpec) (v : Tcl_Obj) :
    IsNewValue env specPtr v (duplicateForSlot env specPtr (some v)) := by
  unfold duplicateForSlot
  split_ifs
  · exact Or.inr (Or.inr rfl)
  · exact Or.inr (Or.inl rfl)

theorem applyHandle_quiet (env : Env) (r : Record) (specPtr : Tk_OptionSpec) (v : Tcl_Obj)
    (tkwin : Tk_Window) (alloc : Tcl_Obj → Nat) :
    (applyHandle r specPtr (isNullValue env specPtr v) v alloc).Quiet env specPtr v tkwin := by
  unfold applyHandle
  split_ifs with h1 h2
  · exact storeInternal_quiet _ _ _ _ _ _ _ (IsNewValue.null _ _ _ h1)
  · trivial
  · exact storeInternal_quiet _ _ _ _ _ _ _ (IsNewValue.given _ _ _)

theorem storeNarrow_mapValue_quiet (env : Env) (r : Record) (specPtr : Tk_OptionSpec)
    (v : Tcl_Obj) (tkwin : Tk_Window) (new : Option Tcl_Obj) (n : Int)
    (f : Option Tcl_Obj → Option Tcl_Obj) (h : IsNewValue env specPtr v (f new)) :
    ((storeNarrow r specPtr new n).mapValue f).Quiet env specPtr v tkwin := by
  unfold storeNarrow
  cases specPtr.internalOffset with
  | none => exact ⟨h, fun e he => by simp at he⟩
  | some off =>
    simp only
    split_ifs
    · exact ⟨h, fun e he => by simp at he⟩
    · exact ⟨h, fun e he => by simp at he⟩
    · trivial
    · exact ⟨h, fun e he => by simp at he⟩

theorem applyEnum_quiet (env : Env) (r : Record) (specPtr : Tk_OptionSpec) (v : Tcl_Obj)
    (tkwin : Tk_Window) (strings : List CString) (nullValue : Int) :
    (applyEnum env r specPtr v strings nullValue).Quiet env specPtr v tkwin := by
  unfold applyEnum
  split_ifs with h1
  · exact storeNarrow_quiet _ _ _ _ _ _ _ (IsNewValue.null _ _ _ h1)
  · cases env.Tcl_GetIndexFromObj v strings (indexFlags env specPtr) with
    | none => trivial
    | some b =>
      exact storeNarrow_mapValue_quiet _ _ _ _ _ _ _ _ (IsNewValue.duplicate _ _ _)

theorem applyValue_quiet (env : Env) (r : Record) (o : TkOption) (v : Tcl_Obj)
    (tkwin : Tk_Window) (hc : o.specPtr.type ≠ TK_OPTION_CUSTOM) :
    (applyValue env r o v tkwin).Quiet env o.specPtr v tkwin := by
  have hn := IsNewValue.null env o.specPtr v
  have hg := IsNewValue.given env o.specPtr v
  have hd := IsNewValue.duplicate env o.specPtr v
  cases ht : o.specPtr.type <;> simp only [applyValue, ht] <;> (try exact absurd ht hc)
  case TK_OPTION_BOOLEAN =>
    unfold applyBoolean
    split_ifs with h1
    · exact storeNarrow_quiet _ _ _ _ _ _ _ (hn h1)
    · cases env.Tcl_GetBooleanFromObj v with
      | none => trivial
      | some b => exact storeNarrow_quiet _ _ _ _ _ _ _ hg
  case TK_OPTION_INT =>
    unfold applyInt
    split_ifs with h0 h1 h2 h3
    · exact storeInternal_quiet _ _ _ _ _ _ _ (hn h1)
    · cases env.Tcl_GetIntFromObj v with
      | none => trivial
      | some b => exact storeInternal_quiet _ _ _ _ _ _ _ hg
    · exact storeInternal_quiet _ _ _ _ _ _ _ (hn h3)
    · cases env.Tcl_GetWideIntFromObj v with
      | none => trivial
      | some b => exact storeInternal_quiet _ _ _ _ _ _ _ hg
    · trivial
  case TK_OPTION_INDEX =>
    unfold applyIndex
    cases TkGetIntForIndex env (some v) (-1) 0 with
    | none => trivial
    | some b => exact storeInternal_quiet _ _ _ _ _ _ _ hg
  case TK_OPTION_DOUBLE =>
    unfold applyDouble
    split_ifs with h1
    · exact storeInternal_quiet _ _ _ _ _ _ _ (hn h1)
    · cases env.Tcl_GetDoubleFromObj v with
      | none => trivial
      | some b => exact storeInternal_quiet _ _ _ _ _ _ _ hg
  case TK_OPTION_STRING =>
    unfold applyString
    split_ifs with h1
    · exact storeInternal_quiet _ _ _ _ _ _ _ (hn h1)
    · exact storeInternal_quiet _ _ _ _ _ _ _ hg
  case TK_OPTION_STRING_TABLE =>
    unfold applyStringTable
    split_ifs with h1
    · exact storeNarrow_quiet _ _ _ _ _ _ _ (hn h1)
    · cases env.Tcl_GetIndexFromObjStruct v o.specPtr.clientData (indexFlags env o.specPtr) with
      | none => trivial
      | some b => exact storeNarrow_quiet _ _ _ _ _ _ _ hd
  case TK_OPTION_COLOR => exact applyHandle_quiet _ _ _ _ _ _
  case TK_OPTION_FONT => exact applyHandle_quiet _ _ _ _ _ _
  case TK_OPTION_STYLE => exact applyHandle_quiet _ _ _ _ _ _
  case TK_OPTION_BITMAP => exact applyHandle_quiet _ _ _ _ _ _
  case TK_OPTION_BORDER => exact applyHandle_quiet _ _ _ _ _ _
  case TK_OPTION_CURSOR =>
    unfold applyCursor
    have := applyHandle_quiet env r o.specPtr v tkwin (env.Tk_AllocCursorFromObj tkwin)
    revert this
    cases applyHandle r o.specPtr (isNullValue env o.specPtr v) v
        (env.Tk_AllocCursorFromObj tkwin) with
    | fail r2 => exact fun _ => trivial
    | abort => exact fun _ => trivial
    | stored new r2 old effs =>
      intro h
      refine ⟨h.1, ?_⟩
      intro e he
      rcases List.mem_append.mp he with h1 | h1
      · exact h.2 e h1
      · simp only [List.mem_singleton] at h1
        exact ⟨_, h1⟩
  case TK_OPTION_PIXELS =>
    unfold applyPixels
    split_ifs with h1
    · exact storeInternal_quiet _ _ _ _ _ _ _ (hn h1)
    · cases env.Tk_GetPixelsFromObj tkwin v with
      | none => trivial
      | some b => exact storeInternal_quiet _ _ _ _ _ _ _ hg
  case TK_OPTION_WINDOW =>
    unfold applyWindow
    split_ifs with h1
    · exact storeInternal_quiet _ _ _ _ _ _ _ (hn h1)
    · cases env.TkGetWindowFromObj tkwin v with
      | none => trivial
      | some b => exact storeInternal_quiet _ _ _ _ _ _ _ hg
  all_goals
    first
    | exact applyEnum_quiet _ _ _ _ _ _ _
    | trivial

theorem applyCustom_effects (r : Record) (o : TkOption) (v : Tcl_Obj) (tkwin : Tk_Window)
    (new : Option Tcl_Obj) (r2 : Record) (old : Cell) (effs : List Effect)
    (h : applyCustom r o v tkwin = .stored new r2 old effs) : effs = [] := by
  unfold applyCustom at h
  split at h
  · split at h
    · cases h
    · cases h
      rfl
  · cases h

theorem applyValue_effects (env : Env) (r : Record) (o : TkOption) (v : Tcl_Obj)
    (tkwin : Tk_Window) (new : Option Tcl_Obj) (r2 : Record) (old : Cell)
    (effs : List Effect) (h : applyValue env r o v tkwin = .stored new r2 old effs) :
    ∀ e ∈ effs, ∃ c, e = .Tk_DefineCursor tkwin c := by
  by_cases hc : o.specPtr.type = TK_OPTION_CUSTOM
  · have : applyValue env r o v tkwin = applyCustom r o v tkwin := by
      simp only [applyValue, hc]
    rw [this] at h
    rw [applyCustom_effects r o v tkwin new r2 old effs h]
    intro e he
    simp at he
  · have hq := applyValue_quiet env r o v tkwin hc
    rw [h] at hq
    exact hq.2

theorem filterMap_none {α β : Type} (f : α → Option β) (l : List α)
    (h : ∀ a ∈ l, f a = none) : l.filterMap f = [] := by
  induction l with
  | nil => rfl
  | cons a rest ih =>
    rw [List.filterMap_cons, h a (List.mem_cons_self _ _)]
    exact ih (fun b hb => h b (List.mem_cons_of_mem _ hb))

theorem FreeResources_no_refcount (o : TkOption) (p : Option Tcl_Obj) (c : Cell)
    (tkwin : Tk_Window) :
    ∀ e ∈ (FreeResources o p c tkwin).2, e.incrOf = none ∧ e.decrOf = none := by
  intro e he
  unfold FreeResources at he
  cases ht : o.specPtr.type <;> simp only [ht] at he <;>
    (repeat' split at he) <;>
    simp only [List.mem_singleton, List.not_mem_nil] at he <;>
    (subst he; exact ⟨rfl, rfl⟩)

/-- C30. A successful `DoObjConfig`.  The saved option (the undo slot of the
caller, when one is given) names the option and holds the value pointer that
was in the record and, for every type but `TK_OPTION_CUSTOM`, the internal
form that was in the record.  The `Tcl_Obj *` field of the option then holds
the value pointer the type-specific part went on with (the value given,
`NULL` for the empty string of an option that allows null, or a duplicate of
the value given for the types that look it up in a table of names), the
internal form is the one the type-specific part has stored, and
`Tcl_IncrRefCount` is called exactly once, on the value installed, when the
option has a `Tcl_Obj *` field and the value is not `NULL`.  With an undo slot
nothing is released: no `Tcl_DecrRefCount` and no call of `FreeResources`.
Without one, `Tcl_DecrRefCount` is called exactly once on the old value
pointer when it is not `NULL`, after `FreeResources` has run on the old
internal form for an option marked `OPTION_NEEDS_FREEING`. -/
theorem DoObjConfig_success_slots (env : Env) (r r1 : Record) (o : TkOption) (v : Tcl_Obj)
    (tkwin : Tk_Window) (sv : Bool) (saved : Tk_SavedOption) (eff : List Effect)
    (h : DoObjConfig env r o v tkwin sv = .ok r1 saved eff) :
    saved.optionPtr = o ∧ saved.valuePtr = r.objAt o.specPtr.objOffset ∧
    (o.specPtr.type ≠ TK_OPTION_CUSTOM →
      ∀ x, o.specPtr.internalOffset = some x → saved.internalForm = r.internals x) ∧
    ∃ new parsed effs,
      applyValue env r o v tkwin = .stored new parsed saved.internalForm effs ∧
      (o.specPtr.type ≠ TK_OPTION_CUSTOM → IsNewValue env o.specPtr v new) ∧
      (∀ x, o.specPtr.objOffset = some x → r1.objs x = new) ∧
      (∀ x, r1.internals x = parsed.internals x) ∧
      eff = effs ++
        installEffects o tkwin sv (r.objAt o.specPtr.objOffset) saved.internalForm new ∧
      eff.filterMap Effect.incrOf
        = (if o.specPtr.objOffset = TCL_INDEX_NONE then [] else new.toList) ∧
      eff.filterMap Effect.decrOf
        = (if sv then [] else (r.objAt o.specPtr.objOffset).toList) ∧
      (sv = true → ∀ e ∈ eff,
        (∃ c, e = .Tk_DefineCursor tkwin c) ∨ ∃ n, e = .Tcl_IncrRefCount n) := by
  have hloc := applyValue_local env r o v tkwin
  unfold DoObjConfig at h
  cases ha : applyValue env r o v tkwin with
  | fail r2 => simp [ha] at h
  | abort => simp [ha] at h
  | stored new r2 old effs =>
    have heffs := applyValue_effects env r o v tkwin new r2 old effs ha
    have hq := applyValue_quiet env r o v tkwin
    rw [ha] at hloc hq
    simp only [ha, DoResult.ok.injEq] at h
    obtain ⟨h1, h2, h3⟩ := h
    subst h1 h2
    have hfr := FreeResources_no_refcount o (r.objAt o.specPtr.objOffset) old tkwin
    have hi1 : effs.filterMap Effect.incrOf = [] :=
      filterMap_none _ _ (fun e he => by
        obtain ⟨c, hc⟩ := heffs e he
        rw [hc]
        rfl)
    have hd1 : effs.filterMap Effect.decrOf = [] :=
      filterMap_none _ _ (fun e he => by
        obtain ⟨c, hc⟩ := heffs e he
        rw [hc]
        rfl)
    have heq : eff = effs ++
        installEffects o tkwin sv (r.objAt o.specPtr.objOffset) old new := by
      rw [← h3]
      unfold installEffects
      simp only [List.append_assoc]
      congr 2
      · cases sv
        · simp only [Bool.false_eq_true, if_false]
          congr 1
          cases r.objAt o.specPtr.objOffset <;> rfl
        · rfl
    refine ⟨rfl, rfl, fun hc x hx => (hloc hc).2.2 x hx, new, r2, effs, rfl,
      fun hc => (hq hc).1, ?_, ?_, heq, ?_, ?_, ?_⟩
    · intro x hx
      simp [hx, Record.setObjAt, Record.setObj]
    · intro x
      rw [Record.setObjAt_internals]
    · rw [heq, List.filterMap_append, hi1, List.nil_append]
      unfold installEffects
      rw [List.filterMap_append]
      have hrel : (if sv = true then []
          else (if o.flags &&& OPTION_NEEDS_FREEING ≠ 0 then
              (FreeResources o (r.objAt o.specPtr.objOffset) old tkwin).2
            else []) ++ (r.objAt o.specPtr.objOffset).toList.map
              Effect.Tcl_DecrRefCount).filterMap Effect.incrOf = [] := by
        apply filterMap_none
        intro e he
        split_ifs at he with hsv hfl
        · simp at he
        · rcases List.mem_append.mp he with h4 | h4
          · exact (hfr e h4).1
          · simp only [List.mem_map] at h4
            obtain ⟨p, _, hp⟩ := h4
            rw [← hp]
            rfl
        · simp only [List.nil_append, List.mem_map] at he
          obtain ⟨p, _, hp⟩ := he
          rw [← hp]
          rfl
      rw [hrel, List.nil_append]
      cases ho : o.specPtr.objOffset with
      | none => simp [TCL_INDEX_NONE]
      | some off =>
        cases new with
        | none => simp [TCL_INDEX_NONE]
        | some n => simp [TCL_INDEX_NONE, Effect.incrOf]
    · rw [heq, List.filterMap_append, hd1, List.nil_append]
      unfold installEffects
      rw [List.filterMap_append]
      have hinst : (match o.specPtr.objOffset, new with
          | some _, some n => [Effect.Tcl_IncrRefCount n]
          | _, _ => []).filterMap Effect.decrOf = [] := by
        apply filterMap_none
        intro e he
        split at he
        · simp only [List.mem_singleton] at he
          rw [he]
          rfl
        · simp at he
      rw [hinst, List.append_nil]
      cases sv with
      | true => simp
      | false =>
        simp only [Bool.false_eq_true, if_false, List.filterMap_append]
        have hfree : (if o.flags &&& OPTION_NEEDS_FREEING ≠ 0 then
              (FreeResources o (r.objAt o.specPtr.objOffset) old tkwin).2
            else []).filterMap Effect.decrOf = [] := by
          apply filterMap_none
          intro e he
          split_ifs at he
          · exact (hfr e he).2
          · simp at he
        rw [hfree, List.nil_append]
        cases r.objAt o.specPtr.objOffset with
        | none => rfl
        | some p => rfl
    · intro hsv e he
      rw [heq] at he
      rcases List.mem_append.mp he with h4 | h4
      · exact Or.inl (heffs e h4)
      · unfold installEffects at h4
        rw [hsv] at h4
        simp only [if_true, List.nil_append] at h4
        split at h4
        · simp only [List.mem_singleton] at h4
          exact Or.inr ⟨_, h4⟩
        · simp at h4

/-- C30 (witness). The option `-width` of the widget with width 10, set to
20 with an undo slot: the slot holds the old value `10` with the internal
form 10, the record holds the value `20` with the internal form 20, and the
only thing done outside the record is the `Tcl_IncrRefCount` of the new
value. -/
theorem DoObjConfig_success_slots_witness :
    ∃ r1 saved eff,
      DoObjConfig exampleEnv widgetRecord widthOption (strObj "20") 0 true
        = .ok r1 saved eff ∧
      saved.valuePtr = widgetRecord.objAt widthOption.specPtr.objOffset ∧
      saved.valuePtr = some (strObj "10") ∧ saved.internalForm = .int 10 ∧
      r1.objs 0 = some (strObj "20") ∧ r1.internals 8 = .int 20 ∧
      eff = [.Tcl_IncrRefCount (strObj "20")] := by
  refine ⟨_, _, _, rfl, ?_, rfl, rfl, rfl, rfl, rfl⟩
  exact (DoObjConfig_success_slots exampleEnv widgetRecord _ widthOption (strObj "20") 0
    true _ _ rfl).2.1

theorem FreeKind.apply_null (tkwin : Tk_Window) (k : FreeKind) (c : Cell)
    (hk : ¬ k.isCustom) (h : c.isNull = true) : (k.apply tkwin c).isNull = true := by
  cases k <;> rcases c with v | d | (_ | s) | (_ | hh) | x <;>
    simp_all [FreeKind.apply, FreeKind.isCustom, Cell.asStr, Cell.asHandle, Cell.isNull]

theorem FreeKind.apply_fits (tkwin : Tk_Window) (k : FreeKind) (c : Cell) (t : Tk_OptionType)
    (hk : ¬ k.isCustom) (h : c.isNull = true ∨ c.Fits t) :
    (k.apply tkwin c).isNull = true ∨ (k.apply tkwin c).Fits t := by
  cases k <;> rcases c with v | d | (_ | s) | (_ | hh) | x <;>
    simp_all [FreeKind.apply, FreeKind.isCustom, Cell.asStr, Cell.asHandle, Cell.isNull,
      Cell.Fits]

theorem freeKind_not_custom (o : TkOption) (h : o.specPtr.type ≠ TK_OPTION_CUSTOM) :
    ¬ (freeKind o).isCustom := by
  intro hk
  unfold freeKind at hk
  cases ht : o.specPtr.type <;> simp only [ht] at hk <;>
    first
    | exact h ht
    | exact hk

theorem freeKind_released (tkwin : Tk_Window) (o : TkOption) (c : Cell)
    (ht : o.specPtr.type ∈ releasedTypes) (h : c.isNull = true ∨ c.Fits o.specPtr.type) :
    ((freeKind o).apply tkwin c).isNull = true := by
  simp only [releasedTypes, List.mem_cons, List.mem_singleton, List.not_mem_nil,
    or_false] at ht
  unfold freeKind
  rcases ht with e | e | e | e | e | e <;> rw [e] at h ⊢ <;>
    rcases c with v | d | (_ | s) | (_ | hh) | x <;>
    simp_all [FreeKind.apply, Cell.asStr, Cell.asHandle, Cell.isNull, Cell.Fits]

theorem Tk_FreeConfigOptions.step_internals_hit (tkwin : Tk_Window) (r : Record)
    (o : TkOption) (x : Nat) (hf : FreesAt o x) :
    (Tk_FreeConfigOptions.step tkwin r o).1.internals x =
      (freeKind o).apply tkwin (r.internals x) := by
  rw [Tk_FreeConfigOptions.step_fst tkwin r o hf.1]
  exact freedRecord_internals_hit tkwin r o x hf.2.1 hf.2.2

theorem Tk_FreeConfigOptions.step_internals_miss (tkwin : Tk_Window) (r : Record)
    (o : TkOption) (x : Nat) (hf : ¬ FreesAt o x) :
    (Tk_FreeConfigOptions.step tkwin r o).1.internals x = r.internals x := by
  by_cases hs : o.specPtr.type = TK_OPTION_SYNONYM
  · have : (Tk_FreeConfigOptions.step tkwin r o).1 = r := by
      unfold Tk_FreeConfigOptions.step
      rw [if_pos hs]
    rw [this]
  · rw [Tk_FreeConfigOptions.step_fst tkwin r o hs]
    exact freedRecord_internals_miss tkwin r o x (fun h => hf ⟨hs, h.1, h.2⟩)

theorem Tk_FreeConfigOptions.step_objs (tkwin : Tk_Window) (r : Record) (o : TkOption)
    (x : Nat) :
    (Tk_FreeConfigOptions.step tkwin r o).1.objs x =
      if o.specPtr.type ≠ TK_OPTION_SYNONYM ∧ o.specPtr.objOffset = some x then none
      else r.objs x := by
  by_cases hs : o.specPtr.type = TK_OPTION_SYNONYM
  · have : (Tk_FreeConfigOptions.step tkwin r o).1 = r := by
      unfold Tk_FreeConfigOptions.step
      rw [if_pos hs]
    rw [this, if_neg (fun hf => hf.1 hs)]
  · rw [Tk_FreeConfigOptions.step_fst tkwin r o hs]
    by_cases hf : o.specPtr.objOffset = some x
    · rw [if_pos ⟨hs, hf⟩]
      exact freedRecord_objs_hit tkwin r o x hf
    · rw [if_neg (fun h => hf h.2)]
      exact freedRecord_objs_miss tkwin r o x hf

theorem Tk_FreeConfigOptions.scanTable_internals (tkwin : Tk_Window) (P : Cell → Prop)
    (x : Nat) (l : List TkOption)
    (hstep : ∀ o ∈ l, FreesAt o x → ∀ c, P c → P ((freeKind o).apply tkwin c))
    (st : Record × List Effect) (h : P (st.1.internals x)) :
    P ((Tk_FreeConfigOptions.scanTable tkwin l st).1.internals x) := by
  induction l generalizing st with
  | nil => exact h
  | cons a rest ih =>
    simp only [Tk_FreeConfigOptions.scanTable]
    apply ih (fun o ho => hstep o (List.mem_cons_of_mem _ ho))
    show P ((Tk_FreeConfigOptions.step tkwin st.1 a).1.internals x)
    by_cases hf : FreesAt a x
    · rw [Tk_FreeConfigOptions.step_internals_hit tkwin _ a x hf]
      exact hstep a (List.mem_cons_self _ _) hf _ h
    · rw [Tk_FreeConfigOptions.step_internals_miss tkwin _ a x hf]
      exact h

theorem Tk_FreeConfigOptions.scanTable_objs (tkwin : Tk_Window) (x : Nat)
    (l : List TkOption) (st : Record × List Effect) (h : st.1.objs x = none) :
    (Tk_FreeConfigOptions.scanTable tkwin l st).1.objs x = none := by
  induction l generalizing st with
  | nil => exact h
  | cons a rest ih =>
    simp only [Tk_FreeConfigOptions.scanTable]
    apply ih
    show (Tk_FreeConfigOptions.step tkwin st.1 a).1.objs x = none
    rw [Tk_FreeConfigOptions.step_objs]
    split_ifs
    · rfl
    · exact h

/-- C21 (counterexample). The table of the options `-text`, `-font` and
`-after` as `Tk_CreateOptionTable` builds it, on a record that holds a text, a
font and the window 9: after `Tk_FreeConfigOptions` the internal form of the
window option `-after`, which is no synonym, is still the window 9 and not
`NULL`. -/
theorem teardown_keeps_window_pointer :
    (∃ o ∈ allOptions paneTable, o.specPtr.type ≠ TK_OPTION_SYNONYM ∧
      o.specPtr.internalOffset = some 72) ∧
    (Tk_FreeConfigOptions paneRecord paneTable 0).1.internals 72 = .handle 9 ∧
    ((Tk_FreeConfigOptions paneRecord paneTable 0).1.internals 72).isNull = false :=
  ⟨⟨_, List.mem_cons_of_mem _ (List.mem_cons_of_mem _ (List.mem_cons_self _ _)),
    by decide, rfl⟩, rfl, rfl⟩

/-- C21, amended: after `Tk_FreeConfigOptions`, for every option of every
table of the chain that is no synonym, the `Tcl_Obj *` field of the option,
when it has one, is `NULL`; and the internal form of the option, when it has
one, is `NULL` if the option is marked `OPTION_NEEDS_FREEING` and is a String,
Color, Font, Bitmap, Border or Cursor option (the record holding a `char *`
or a handle there, and no custom option freeing the same field).  An internal
form that no option marked `OPTION_NEEDS_FREEING` has is left as it was. -/
theorem Tk_FreeConfigOptions_nulls_released (r : Record) (chain : TableChain)
    (tkwin : Tk_Window) :
    (∀ o ∈ allOptions chain, o.specPtr.type ≠ TK_OPTION_SYNONYM →
      ∀ x, o.specPtr.objOffset = some x →
        (Tk_FreeConfigOptions r chain tkwin).1.objs x = none) ∧
    (∀ o ∈ allOptions chain, ∀ x, FreesAt o x → o.specPtr.type ∈ releasedTypes →
      (r.internals x).Fits o.specPtr.type →
      (∀ o2 ∈ allOptions chain, FreesAt o2 x → o2.specPtr.type ≠ TK_OPTION_CUSTOM) →
        ((Tk_FreeConfigOptions r chain tkwin).1.internals x).isNull = true) ∧
    (∀ x, (∀ o ∈ allOptions chain, ¬ FreesAt o x) →
      (Tk_FreeConfigOptions r chain tkwin).1.internals x = r.internals x) := by
  unfold Tk_FreeConfigOptions
  simp only [Tk_FreeConfigOptions_scanChain_eq]
  refine ⟨?_, ?_, ?_⟩
  · intro o ho hs x hx
    obtain ⟨pre, post, hsplit⟩ := List.append_of_mem ho
    rw [hsplit, Tk_FreeConfigOptions_scanTable_append]
    simp only [Tk_FreeConfigOptions.scanTable]
    apply Tk_FreeConfigOptions.scanTable_objs
    show (Tk_FreeConfigOptions.step tkwin _ o).1.objs x = none
    rw [Tk_FreeConfigOptions.step_objs, if_pos ⟨hs, hx⟩]
  · intro o ho x hf ht hfit hnc
    obtain ⟨pre, post, hsplit⟩ := List.append_of_mem ho
    rw [hsplit] at hnc
    rw [hsplit, Tk_FreeConfigOptions_scanTable_append]
    simp only [Tk_FreeConfigOptions.scanTable]
    apply Tk_FreeConfigOptions.scanTable_internals tkwin (fun c => c.isNull = true) x post
    · intro o2 ho2 hf2 c hc
      exact FreeKind.apply_null tkwin _ c (freeKind_not_custom o2
        (hnc o2 (List.mem_append_right _ (List.mem_cons_of_mem _ ho2)) hf2)) hc
    · show ((Tk_FreeConfigOptions.step tkwin _ o).1.internals x).isNull = true
      rw [Tk_FreeConfigOptions.step_internals_hit tkwin _ o x hf]
      apply freeKind_released tkwin o _ ht
      apply Tk_FreeConfigOptions.scanTable_internals tkwin
        (fun c => c.isNull = true ∨ c.Fits o.specPtr.type) x pre
      · intro o2 ho2 hf2 c hc
        exact FreeKind.apply_fits tkwin _ c _
          (freeKind_not_custom o2 (hnc o2 (List.mem_append_left _ ho2) hf2)) hc
      · exact Or.inr hfit
  · intro x hno
    apply Tk_FreeConfigOptions.scanTable_internals tkwin (fun c => c = r.internals x) x
    · intro o ho hf
      exact absurd hf (hno o ho)
    · rfl

/-- C21 (witness). The table of the options `-text`, `-font` and `-after` on
the record that holds a text, a font and a window: after
`Tk_FreeConfigOptions` the `Tcl_Obj *` field of `-text` is `NULL`, the string
of `-text` and the font of `-font` are `NULL`, and the field at offset 8,
which is the internal form of no option of the table, is as it was. -/
theorem Tk_FreeConfigOptions_nulls_released_witness :
    (Tk_FreeConfigOptions paneRecord paneTable 0).1.objs 64 = none ∧
    ((Tk_FreeConfigOptions paneRecord paneTable 0).1.internals 48).isNull = true ∧
    ((Tk_FreeConfigOptions paneRecord paneTable 0).1.internals 56).isNull = true ∧
    (Tk_FreeConfigOptions paneRecord paneTable 0).1.internals 8 = paneRecord.internals 8 := by
  have h := Tk_FreeConfigOptions_nulls_released paneRecord paneTable 0
  have hnc : ∀ o ∈ allOptions paneTable, o.specPtr.type ≠ TK_OPTION_CUSTOM := by decide
  have h8 : ∀ o ∈ allOptions paneTable, o.specPtr.internalOffset ≠ some 8 := by decide
  refine ⟨h.1 _ (List.mem_cons_self _ _) (by decide) 64 rfl,
    h.2.1 _ (List.mem_cons_self _ _) 48 ⟨by decide, by decide, rfl⟩ (by decide) rfl
      (fun o ho _ => hnc o ho),
    h.2.1 _ (List.mem_cons_of_mem _ (List.mem_cons_self _ _)) 56
      ⟨by decide, by decide, rfl⟩ (by decide)
      (by show TK_OPTION_FONT ≠ TK_OPTION_STRING; decide) (fun o ho _ => hnc o ho),
    h.2.2 8 (fun o ho hf => h8 o ho hf.2.2)⟩

theorem releasePairs_append (l1 l2 : List (Tk_Window × Tk_SavedOption)) :
    releasePairs (l1 ++ l2) = releasePairs l1 ++ releasePairs l2 := by
  induction l1 with
  | nil => rfl
  | cons p rest ih =>
    obtain ⟨tkwin, item⟩ := p
    simp only [List.cons_append, releasePairs, List.append_eq, ih, List.append_assoc]

theorem Tk_FreeSavedOptions.items_eq (tkwin : Tk_Window) (l : List Tk_SavedOption) :
    Tk_FreeSavedOptions.items tkwin l = releasePairs (l.map fun item => (tkwin, item)) := by
  induction l with
  | nil => rfl
  | cons item rest ih =>
    simp only [Tk_FreeSavedOptions.items, List.map_cons, releasePairs, ih]

theorem Tk_FreeSavedOptions_eq (recordPtr : Record) (savePtr : Tk_SavedOptions)
    (chained : SavePtr) :
    (Tk_FreeSavedOptions recordPtr savePtr chained).recordPtr = recordPtr ∧
    (Tk_FreeSavedOptions recordPtr savePtr chained).effects =
      releasePairs (flatItems (savePtr :: chained)).reverse := by
  induction chained generalizing savePtr with
  | nil =>
    simp only [Tk_FreeSavedOptions, flatItems, List.append_nil, Tk_FreeSavedOptions.items_eq,
      List.map_reverse, and_self]
  | cons next rest ih =>
    obtain ⟨h1, h2⟩ := ih next
    simp only [Tk_FreeSavedOptions, h1, h2, true_and]
    have e : flatItems (savePtr :: next :: rest) =
        savePtr.items.map (fun item => (savePtr.tkwin, item)) ++ flatItems (next :: rest) := rfl
    rw [e, List.reverse_append, releasePairs_append, Tk_FreeSavedOptions.items_eq,
      List.map_reverse]

theorem FreeResources_untagged (o : TkOption) (p : Option Tcl_Obj) (c : Cell)
    (tkwin : Tk_Window) (hn : needsFreeing o.specPtr = false)
    (hs : o.specPtr.type ≠ TK_OPTION_STYLE) : (FreeResources o p c tkwin).2 = [] := by
  unfold needsFreeing at hn
  unfold FreeResources
  cases ht : o.specPtr.type <;> simp only [ht] at hn ⊢ <;>
    first
    | exact absurd ht hs
    | rfl
    | (simp at hn; done)
    | (simp at hn; simp [hn])

theorem releasePairs_decr (l : List (Tk_Window × Tk_SavedOption)) :
    (releasePairs l).filterMap Effect.decrOf = l.filterMap fun p => p.2.valuePtr := by
  induction l with
  | nil => rfl
  | cons p rest ih =>
    obtain ⟨tkwin, item⟩ := p
    simp only [releasePairs, Tk_FreeSavedOptions.release, List.filterMap_append, ih]
    have hfree : (if item.optionPtr.flags &&& OPTION_NEEDS_FREEING ≠ 0 then
          (FreeResources item.optionPtr item.valuePtr item.internalForm tkwin).2
        else []).filterMap Effect.decrOf = [] := by
      apply filterMap_none
      intro e he
      split_ifs at he
      · exact (FreeResources_no_refcount _ _ _ _ e he).2
      · simp at he
    rw [hfree, List.nil_append]
    cases hv : item.valuePtr with
    | none => simp [List.filterMap_cons, hv]
    | some v => simp [List.filterMap_cons, hv, Effect.decrOf]

/-- C23. `Tk_FreeSavedOptions` does not touch the record.  It leaves the
record the log belongs to as it was, whatever the log holds.  What it does is,
for the entries of the log taken in the reverse of the order in which they
were saved (the last node first, each node from its last entry to its first):
for an option marked `OPTION_NEEDS_FREEING`, run `FreeResources` on the saved
internal form, then call `Tcl_DecrRefCount` on the saved value pointer when it
is not `NULL`.  So every saved value that is not `NULL` is released exactly
once.  The options that `Tk_CreateOptionTable` leaves unmarked, the Style
options apart, are those for which `FreeResources` has nothing to do. -/
theorem Tk_FreeSavedOptions_leaves_record (recordPtr : Record) (savePtr : Tk_SavedOptions)
    (chained : SavePtr) :
    (Tk_FreeSavedOptions recordPtr savePtr chained).recordPtr = recordPtr ∧
    (Tk_FreeSavedOptions recordPtr savePtr chained).effects =
      releasePairs (flatItems (savePtr :: chained)).reverse ∧
    (Tk_FreeSavedOptions recordPtr savePtr chained).effects.filterMap Effect.decrOf =
      (flatItems (savePtr :: chained)).reverse.filterMap (fun p => p.2.valuePtr) ∧
    (∀ tkwin (item : Tk_SavedOption),
      (item.optionPtr.flags &&& OPTION_NEEDS_FREEING ≠ 0 ↔
        needsFreeing item.optionPtr.specPtr = true) →
      item.optionPtr.specPtr.type ≠ TK_OPTION_STYLE →
      Tk_FreeSavedOptions.release tkwin item =
        (FreeResources item.optionPtr item.valuePtr item.internalForm tkwin).2 ++
          item.valuePtr.toList.map Effect.Tcl_DecrRefCount) := by
  obtain ⟨h1, h2⟩ := Tk_FreeSavedOptions_eq recordPtr savePtr chained
  refine ⟨h1, h2, ?_, ?_⟩
  · rw [h2, releasePairs_decr]
  · intro tkwin item hflag hstyle
    unfold Tk_FreeSavedOptions.release
    congr 1
    · by_cases hf : item.optionPtr.flags &&& OPTION_NEEDS_FREEING ≠ 0
      · rw [if_pos hf]
      · rw [if_neg hf]
        have hn : needsFreeing item.optionPtr.specPtr = false := by
          cases hb : needsFreeing item.optionPtr.specPtr with
          | false => rfl
          | true => exact absurd (hflag.2 hb) hf
        exact (FreeResources_untagged _ _ _ _ hn hstyle).symm
    · cases item.valuePtr <;> rfl

/-- C23 (witness). The log of two nodes that the batch
`-width 1 -width 2 -width 3` leaves with nodes of two entries, on the widget
with width 10: `Tk_FreeSavedOptions` leaves the record as the batch has left
it, with width 3, and releases the saved values `2`, `1` and `10`, each
once. -/
theorem Tk_FreeSavedOptions_leaves_record_witness :
    ∃ r1 root node m e,
      Tk_SetOptions smallNodeEnv true widgetRecord widgetTable thriceArgs 0 true none
        = .ok r1 [root, node] m e ∧
      (Tk_FreeSavedOptions r1 root [node]).recordPtr = r1 ∧
      r1.internals 8 = .int 3 ∧
      (Tk_FreeSavedOptions r1 root [node]).effects
        = [.Tcl_DecrRefCount (strObj "2"), .Tcl_DecrRefCount (strObj "1"),
           .Tcl_DecrRefCount (strObj "10")] := by
  refine ⟨_, _, _, _, _, rfl, ?_, rfl, rfl⟩
  exact (Tk_FreeSavedOptions_leaves_record _ _ _).1

theorem GetOption.scanChain_congr (name : CString) (c1 c2 : TableChain)
    (h : c1.map (fun t => t.options) = c2.map (fun t => t.options)) (t : Nat)
    (bestPtr : Option (OptionPtr × CString)) :
    GetOption.scanChain name c1 t bestPtr = GetOption.scanChain name c2 t bestPtr := by
  induction c1 generalizing c2 t bestPtr with
  | nil =>
    cases c2 with
    | nil => rfl
    | cons b rest => simp at h
  | cons a rest ih =>
    cases c2 with
    | nil => simp at h
    | cons b rest2 =>
      simp only [List.map_cons, List.cons.injEq] at h
      simp only [GetOption.scanChain, h.1]
      cases GetOption.scanTable name t b.options 0 bestPtr with
      | returned r => rfl
      | running best => exact ih rest2 h.2 _ _

theorem GetOption_congr (name : CString) (c1 c2 : TableChain)
    (h : c1.map (fun t => t.options) = c2.map (fun t => t.options)) :
    GetOption name c1 = GetOption name c2 :=
  GetOption.scanChain_congr name c1 c2 h 0 none

theorem Registry.chainAt_set_refCount (reg : Registry) (a : Nat) (t : OptionTable) (n : Nat)
    (ha : reg a = some t) (fuel : Nat) (start : Option Nat) :
    ((reg.set a (some { t with refCount := n })).chainAt fuel start).map (fun t => t.options)
      = (reg.chainAt fuel start).map (fun t => t.options) := by
  induction fuel generalizing start with
  | zero => rfl
  | succ fuel ih =>
    cases start with
    | none => rfl
    | some b =>
      simp only [Registry.chainAt]
      by_cases hb : b = a
      · subst hb
        rw [Registry.set_same, ha]
        simp only [List.map_cons, ih]
      · rw [Registry.set_other _ _ _ _ hb]
        cases reg b with
        | none => rfl
        | some tb => simp only [List.map_cons, ih]

/-- C25. A failed lookup leaves the cache alone.  When the object does not
hold the cached result of a lookup in the table and `GetOption` finds no entry
for its string (no option has the name or the abbreviation, or the
abbreviation is ambiguous), `GetOptionFromObj` returns `NULL`; and whenever
`GetOptionFromObj` returns `NULL`, the object (its string, its type tag and
the two pointers of its internal representation) and the registry (every
table with its reference count) are what they were before the call; likewise
for the function as `Tk_SetOptions` uses it on a chain of tables. -/
theorem GetOptionFromObj_failure_frame (fuel : Nat) (reg : Registry) (objPtr : Tcl_Obj)
    (tablePtr : Nat) :
    (¬ (objPtr.typePtr = .optionObjType ∧ objPtr.ptr1 = tablePtr) →
      GetOption objPtr.bytes (reg.chainAt fuel (some tablePtr)) = none →
      GetOptionFromObj.inRegistry fuel reg objPtr tablePtr
        = some { result := none, objPtr := objPtr, reg := reg }) ∧
    (∀ l, GetOptionFromObj.inRegistry fuel reg objPtr tablePtr = some l → l.result = none →
      l.objPtr = objPtr ∧ l.reg = reg) ∧
    (∀ chain : TableChain, (GetOptionFromObj objPtr chain).result = none →
      (GetOptionFromObj objPtr chain).objPtr = objPtr ∧
        (GetOptionFromObj objPtr chain).tablePtr = chain) := by
  refine ⟨?_, ?_, ?_⟩
  · intro hmiss hnone
    unfold GetOptionFromObj.inRegistry
    rw [if_neg hmiss, hnone]
  · intro l hl hres
    unfold GetOptionFromObj.inRegistry at hl
    by_cases hhit : objPtr.typePtr = .optionObjType ∧ objPtr.ptr1 = tablePtr
    · rw [if_pos hhit] at hl
      cases hl
      simp at hres
    · rw [if_neg hhit] at hl
      cases hg : GetOption objPtr.bytes (reg.chainAt fuel (some tablePtr)) with
      | none =>
        rw [hg] at hl
        cases hl
        exact ⟨rfl, rfl⟩
      | some b =>
        rw [hg] at hl
        simp only at hl
        cases hf : (if objPtr.typePtr = ObjTypeTag.optionObjType then
            FreeOptionInternalRep fuel reg objPtr else some (reg, objPtr)) with
        | none =>
          rw [hf] at hl
          cases hl
        | some p =>
          obtain ⟨reg1, o1⟩ := p
          rw [hf] at hl
          simp only at hl
          cases ht : reg1 tablePtr with
          | none =>
            rw [ht] at hl
            cases hl
          | some t =>
            rw [ht] at hl
            cases hl
            simp at hres
  · intro chain hres
    unfold GetOptionFromObj at hres ⊢
    by_cases hhit : objPtr.typePtr = .optionObjType ∧ objPtr.ptr1 = chain.addr
    · rw [if_pos hhit] at hres
      simp at hres
    · rw [if_neg hhit] at hres ⊢
      cases hg : GetOption objPtr.bytes chain with
      | none => exact ⟨rfl, rfl⟩
      | some b => simp [hg] at hres

/-- C25 (witness). The name `-x`, which no option of the table of
`-borderwidth` and `-bd` has, in an object that holds the type tag and the
pointers of another type: the lookup fails and leaves the object and the
table with one reference. -/
theorem GetOptionFromObj_failure_frame_witness :
    GetOptionFromObj.inRegistry 2 borderRegistry
        { bytes := "-x".toList, typePtr := .other 1, ptr1 := 7, ptr2 := (8, 9) } 3
      = some { result := none,
               objPtr := { bytes := "-x".toList, typePtr := .other 1, ptr1 := 7,
                           ptr2 := (8, 9) },
               reg := borderRegistry } :=
  (GetOptionFromObj_failure_frame 2 borderRegistry
    { bytes := "-x".toList, typePtr := .other 1, ptr1 := 7, ptr2 := (8, 9) } 3).1
    (by decide) (by decide)

theorem FreeOptionInternalRep_bytes (fuel : Nat) (reg reg1 : Registry) (objPtr objPtr1 : Tcl_Obj)
    (h : (if objPtr.typePtr = ObjTypeTag.optionObjType then
        FreeOptionInternalRep fuel reg objPtr else some (reg, objPtr)) = some (reg1, objPtr1)) :
    objPtr1.bytes = objPtr.bytes := by
  by_cases ht : objPtr.typePtr = ObjTypeTag.optionObjType
  · rw [if_pos ht] at h
    unfold FreeOptionInternalRep at h
    split at h
    · cases h
      rfl
    · cases h
  · rw [if_neg ht] at h
    cases h
    rfl

/-- C24. The cache of an option name.  Let the object not hold the cached
result of a lookup in the table at `tablePtr`, let `GetOption` find the entry
`bestPtr` for its string, and let the freeing of the former internal
representation of the object (which releases a table only when that
representation is the cache of a name looked up in another table) leave the
tables of the chain as they are.  Then `GetOptionFromObj` returns `bestPtr`;
the object keeps its string and holds the type tag `optionObjType`, the
address of the table and `bestPtr`; the reference count of the table is one
more than before and no other table is touched by the caching.  A second
`GetOptionFromObj` of the same object in the same table returns `bestPtr`
again, which is what `GetOption` finds for the string of the object, and
changes neither the object nor the registry. -/
theorem GetOptionFromObj_caches (fuel : Nat) (reg reg1 : Registry) (objPtr objPtr1 : Tcl_Obj)
    (tablePtr : Nat) (t : OptionTable) (bestPtr : OptionPtr)
    (hmiss : ¬ (objPtr.typePtr = .optionObjType ∧ objPtr.ptr1 = tablePtr))
    (hfound : GetOption objPtr.bytes (reg.chainAt fuel (some tablePtr)) = some bestPtr)
    (hfreed : (if objPtr.typePtr = ObjTypeTag.optionObjType then
        FreeOptionInternalRep fuel reg objPtr else some (reg, objPtr)) = some (reg1, objPtr1))
    (hkept : reg1.chainAt fuel (some tablePtr) = reg.chainAt fuel (some tablePtr))
    (ht : reg tablePtr = some t) (hcount : t.refCount + 1 < SIZE_MOD) :
    ∃ l, GetOptionFromObj.inRegistry fuel reg objPtr tablePtr = some l ∧
      l.result = some bestPtr ∧
      l.objPtr.bytes = objPtr.bytes ∧ l.objPtr.typePtr = .optionObjType ∧
      l.objPtr.ptr1 = tablePtr ∧ l.objPtr.ptr2 = bestPtr ∧
      l.reg tablePtr = some { t with refCount := t.refCount + 1 } ∧
      (∀ a, a ≠ tablePtr → l.reg a = reg1 a) ∧
      GetOptionFromObj.inRegistry fuel l.reg l.objPtr tablePtr
        = some { result := some bestPtr, objPtr := l.objPtr, reg := l.reg } ∧
      GetOption l.objPtr.bytes (l.reg.chainAt fuel (some tablePtr)) = some bestPtr := by
  obtain ⟨f, rfl⟩ : ∃ f, fuel = f + 1 := by
    cases fuel with
    | zero => simp [Registry.chainAt, GetOption, GetOption.scanChain] at hfound
    | succ f => exact ⟨f, rfl⟩
  have hr1 : reg1 tablePtr = some t := by
    simp only [Registry.chainAt, ht] at hkept
    cases h1 : reg1 tablePtr with
    | none => simp [h1] at hkept
    | some t1 =>
      simp only [h1, List.cons.injEq] at hkept
      rw [hkept.1]
  have hbytes := FreeOptionInternalRep_bytes (f + 1) reg reg1 objPtr objPtr1 hfreed
  refine ⟨{ result := some bestPtr,
            objPtr := { objPtr1 with typePtr := .optionObjType, ptr1 := tablePtr,
                                     ptr2 := bestPtr },
            reg := reg1.set tablePtr
              (some { t with refCount := (t.refCount + 1) % SIZE_MOD }) },
    ?_, rfl, hbytes, rfl, rfl, rfl, ?_, ?_, ?_, ?_⟩
  · unfold GetOptionFromObj.inRegistry
    rw [if_neg hmiss, hfound]
    simp only
    rw [hfreed]
    simp only [hr1]
  · simp only [Registry.set_same, size_incr _ hcount]
  · intro a ha
    exact Registry.set_other _ _ _ _ ha
  · unfold GetOptionFromObj.inRegistry
    rw [if_pos ⟨rfl, rfl⟩]
  · simp only
    rw [GetOption_congr _ _ _ (Registry.chainAt_set_refCount reg1 tablePtr t _ hr1 _ _), hkept,
      hbytes]
    exact hfound

/-- C24 (witness). The name `-bd` in a fresh string object, looked up in the
table of `-borderwidth` and `-bd`, which has one reference: the lookup finds
the entry at index 1, caches it and leaves the table with two references,
and a second lookup returns the cached entry and changes nothing. -/
theorem GetOptionFromObj_caches_witness :
    ∃ l, GetOptionFromObj.inRegistry 2 borderRegistry (strObj "-bd") 3 = some l ∧
      l.result = some (0, 1) ∧
      l.objPtr.bytes = "-bd".toList ∧ l.objPtr.typePtr = .optionObjType ∧
      l.objPtr.ptr1 = 3 ∧ l.objPtr.ptr2 = (0, 1) ∧
      (l.reg 3).map (fun t => t.refCount) = some 2 ∧
      (∀ a, a ≠ 3 → l.reg a = borderRegistry a) ∧
      GetOptionFromObj.inRegistry 2 l.reg l.objPtr 3
        = some { result := some (0, 1), objPtr := l.objPtr, reg := l.reg } ∧
      GetOption l.objPtr.bytes (l.reg.chainAt 2 (some 3)) = some (0, 1) := by
  obtain ⟨l, h1, h2, h3, h4, h5, h6, h7, h8, h9, h10⟩ :=
    GetOptionFromObj_caches 2 borderRegistry borderRegistry (strObj "-bd") (strObj "-bd") 3
      (OptionTable.mk 1 3 none _) (0, 1) (by decide) (by decide) rfl rfl rfl two_lt_size
  exact ⟨l, h1, h2, h3, h4, h5, h6, by rw [h7]; rfl, h8, h9, h10⟩

/-- For an object that holds no cached option name, `GetOptionFromObj` on a
chain of tables, as `Tk_SetOptions` uses it, returns the entry and leaves the
object that `GetOptionFromObj.inRegistry` returns and leaves for the registry
the chain is read from. -/
theorem GetOptionFromObj_inRegistry_agrees (fuel : Nat) (reg : Registry) (objPtr : Tcl_Obj)
    (tablePtr : Nat) (t : OptionTable) (rest : TableChain)
    (hfresh : objPtr.typePtr ≠ .optionObjType)
    (hchain : reg.chainAt fuel (some tablePtr) = t :: rest)
    (haddr : t.hashEntryPtr = tablePtr) :
    ∃ l, GetOptionFromObj.inRegistry fuel reg objPtr tablePtr = some l ∧
      l.result = (GetOptionFromObj objPtr (t :: rest)).result ∧
      l.objPtr = (GetOptionFromObj objPtr (t :: rest)).objPtr := by
  have hmiss : ¬ (objPtr.typePtr = .optionObjType ∧ objPtr.ptr1 = tablePtr) :=
    fun h => hfresh h.1
  have hmiss2 : ¬ (objPtr.typePtr = .optionObjType ∧ objPtr.ptr1 = TableChain.addr (t :: rest)) :=
    fun h => hfresh h.1
  have ht : reg tablePtr = some t := by
    cases fuel with
    | zero => simp [Registry.chainAt] at hchain
    | succ f =>
      simp only [Registry.chainAt] at hchain
      cases h1 : reg tablePtr with
      | none => simp [h1] at hchain
      | some t1 =>
        simp only [h1, List.cons.injEq] at hchain
        rw [hchain.1]
  unfold GetOptionFromObj.inRegistry GetOptionFromObj
  rw [if_neg hmiss, if_neg hmiss2, hchain]
  cases GetOption objPtr.bytes (t :: rest) with
  | none => exact ⟨_, rfl, rfl, rfl⟩
  | some b =>
    simp only [if_neg hfresh, ht]
    refine ⟨_, rfl, rfl, ?_⟩
    simp only [TableChain.addr, haddr]

theorem optIterate_succ_last {α : Type} (f : α → Option α) (k : Nat) (a : α) :
    optIterate f (k + 1) a = (optIterate f k a).bind f := by
  induction k generalizing a with
  | zero =>
    show (f a).bind (optIterate f 0) = (some a).bind f
    rw [Option.some_bind, show optIterate f 0 = some from funext (fun _ => rfl),
      Option.bind_some]
  | succ k ih =>
    show (f a).bind (optIterate f (k + 1)) = ((f a).bind (optIterate f k)).bind f
    cases hfa : f a with
    | none => rfl
    | some b => exact ih b

theorem Registry.set_set (reg : Registry) (a : Nat) (x y : Option OptionTable) :
    (reg.set a x).set a y = reg.set a y := by
  funext b
  simp only [Registry.set]
  split_ifs <;> rfl

theorem Registry.set_self (reg : Registry) (a : Nat) (x : Option OptionTable)
    (h : reg a = x) : reg.set a x = reg := by
  funext b
  simp only [Registry.set]
  split_ifs with hb
  · rw [hb, h]
  · rfl

theorem Tk_DeleteOptionTable_shared (reg : Registry) (p : Nat) (tbl : OptionTable)
    (fuel : Nat) (h : reg p = some tbl) (h1 : 1 < tbl.refCount)
    (h2 : tbl.refCount < SIZE_MOD) :
    Tk_DeleteOptionTable (fuel + 1) reg p =
      some (.done (reg.set p (some { tbl with refCount := tbl.refCount - 1 })) []) := by
  simp only [Tk_DeleteOptionTable, h, size_decr _ (Nat.le_of_lt h1) h2]
  rw [if_pos h1]

theorem Tk_DeleteOptionTable_last (reg reg1 : Registry) (p : Nat) (tbl : OptionTable)
    (fuel : Nat) (released : List Tcl_Obj) (h : reg p = some tbl) (h1 : tbl.refCount = 1)
    (hd : Tk_DeleteOptionTable (fuel + 1) reg p = some (.done reg1 released)) :
    reg1 p = none ∧
    (tbl.nextPtr = none →
      reg1 = ((reg.set p (some { tbl with refCount := 0 })).set tbl.hashEntryPtr none).set
        p none) ∧
    (∀ n, tbl.nextPtr = some n →
      ∃ reg2 rel2 t2,
        Tk_DeleteOptionTable fuel (reg.set p (some { tbl with refCount := 0 })) n
          = some (.done reg2 rel2) ∧
        reg2 p = some t2 ∧ reg1 = (reg2.set t2.hashEntryPtr none).set p none) := by
  have hdec : (tbl.refCount + SIZE_MOD - 1) % SIZE_MOD = 0 := by
    rw [h1]
    exact size_decr 1 (Nat.le_refl 1) one_lt_size
  have hle : ¬ tbl.refCount > 1 := by omega
  simp only [Tk_DeleteOptionTable, h, hdec, if_neg hle] at hd
  cases hn : tbl.nextPtr with
  | none =>
    simp only [hn, Registry.set_same] at hd
    simp only [Option.some.injEq, DeleteResult.done.injEq] at hd
    refine ⟨?_, fun _ => ?_, fun n hn2 => by cases hn2⟩
    · rw [← hd.1]
      exact Registry.set_same _ _ _
    · rw [← hd.1]
  | some n =>
    simp only [hn] at hd
    cases hnext : Tk_DeleteOptionTable fuel
        (reg.set p (some { tbl with refCount := 0 })) n with
    | none =>
      simp only [hn] at hnext
      simp [hnext] at hd
    | some res =>
      simp only [hn] at hnext
      cases res with
      | dangling => simp [hnext] at hd
      | done reg2 rel2 =>
        simp only [hnext] at hd
        cases h2 : reg2 p with
        | none => simp [h2] at hd
        | some t2 =>
          simp only [h2, Option.some.injEq, DeleteResult.done.injEq] at hd
          refine ⟨?_, nofun, fun m hm => ?_⟩
          · rw [← hd.1]
            exact Registry.set_same _ _ _
          · cases hm
            exact ⟨reg2, rel2, t2, hnext, h2, hd.1.symm⟩

theorem Registry.create_hit_times (t : Template) (chained : TemplateChain) (j : Nat) :
    ∀ (reg : Registry) (tbl : OptionTable), reg t.addr = some tbl →
      tbl.refCount + j < SIZE_MOD →
      optIterate (Registry.create (t :: chained)) j reg =
        some (reg.set t.addr (some { tbl with refCount := tbl.refCount + j })) := by
  induction j with
  | zero =>
    intro reg tbl h _
    simp only [optIterate, Nat.add_zero]
    rw [Registry.set_self reg t.addr _ h]
  | succ j ih =>
    intro reg tbl h hlt
    have hstep : Registry.create (t :: chained) reg =
        some (reg.set t.addr (some { tbl with refCount := tbl.refCount + 1 })) := by
      simp only [Registry.create, Tk_CreateOptionTable, h, size_incr tbl.refCount (by omega)]
    simp only [optIterate, hstep, Option.some_bind]
    rw [ih _ { tbl with refCount := tbl.refCount + 1 } (Registry.set_same _ _ _)
      (by simp only; omega), Registry.set_set]
    simp only [Nat.add_assoc, Nat.add_comm 1 j]

theorem Registry.release_times (p fuel : Nat) (j : Nat) :
    ∀ (reg : Registry) (tbl : OptionTable) (c : Nat), reg p = some tbl →
      tbl.refCount = c + j → 1 ≤ c → c + j < SIZE_MOD →
      optIterate (Registry.release (fuel + 1) p) j reg =
        some (reg.set p (some { tbl with refCount := c })) := by
  induction j with
  | zero =>
    intro reg tbl c h hc _ _
    simp only [optIterate]
    have hc2 : c = tbl.refCount := hc.symm
    subst hc2
    rw [Registry.set_self reg p _ h]
  | succ j ih =>
    intro reg tbl c h hc h1 hlt
    have hstep : Registry.release (fuel + 1) p reg =
        some (reg.set p (some { tbl with refCount := tbl.refCount - 1 })) := by
      simp only [Registry.release,
        Tk_DeleteOptionTable_shared reg p tbl fuel h (by omega) (by omega)]
    simp only [optIterate, hstep, Option.some_bind]
    rw [ih _ { tbl with refCount := tbl.refCount - 1 } c (Registry.set_same _ _ _)
      (by simp only; omega) h1 (by omega), Registry.set_set]

theorem Tk_CreateOptionTable_head (reg reg1 : Registry) (t : Template)
    (chained : TemplateChain) (p : Nat) (k : Nat)
    (hnodup : ((t :: chained).map Template.addr).Nodup)
    (hk : ∀ tbl, reg t.addr = some tbl → tbl.refCount + (k + 1) < SIZE_MOD)
    (hk2 : k + 1 < SIZE_MOD)
    (hok : Tk_CreateOptionTable reg (t :: chained) = .ok reg1 p) :
    ∃ tbl1, reg1 t.addr = some tbl1 ∧ 1 ≤ tbl1.refCount ∧ tbl1.refCount + k < SIZE_MOD := by
  cases hr : reg t.addr with
  | some tbl =>
    have h1 := hk tbl hr
    unfold Tk_CreateOptionTable at hok
    simp only [hr, size_incr tbl.refCount (by omega)] at hok
    cases hok
    exact ⟨_, Registry.set_same _ _ _, by simp only; omega, by simp only; omega⟩
  | none =>
    have hb : t ∈ builtTemplates reg (t :: chained) := by
      simp [builtTemplates, List.takeWhile_cons, hr]
    obtain ⟨opts, tbl, _, hr1, _, hrc, _⟩ :=
      Tk_CreateOptionTable_built reg reg1 _ _ hnodup hok t hb
    exact ⟨tbl, hr1, by omega, by omega⟩

/-- C27. Release is balanced along a chain.  A `Tk_DeleteOptionTable` of a
table whose reference count is more than 1 lowers the count by one and does
nothing else.  A `Tk_DeleteOptionTable` of a table whose reference count is 1
removes the table from the registry after releasing the table it chains to
once, with one `Tk_DeleteOptionTable`.  So `k` calls of
`Tk_CreateOptionTable` for a template and the templates it chains to,
followed by `k` calls of `Tk_DeleteOptionTable` for the table the creation
returns, leave the registry as it was before the first call: every table that
was registered has the reference count it had, and an address of the chain
that had no table has none.  The templates of the chain are assumed to have
distinct addresses, the registered tables a positive reference count, and no
reference count is assumed to reach the size of the machine word. -/
theorem Tk_DeleteOptionTable_balanced (reg : Registry) (t : Template)
    (chained : TemplateChain) (fuel k : Nat)
    (hnodup : ((t :: chained).map Template.addr).Nodup)
    (hreg : reg.CountsOk)
    (hk : ∀ tbl, reg t.addr = some tbl → tbl.refCount + (k + 1) < SIZE_MOD)
    (hk2 : k + 1 < SIZE_MOD)
    (hfuel : (t :: chained).length ≤ fuel)
    (hcreate : ∃ reg1 p, Tk_CreateOptionTable reg (t :: chained) = .ok reg1 p) :
    (∀ (g : Registry) (p : Nat) (tbl : OptionTable) (f : Nat), g p = some tbl →
      1 < tbl.refCount → tbl.refCount < SIZE_MOD →
      Tk_DeleteOptionTable (f + 1) g p =
        some (.done (g.set p (some { tbl with refCount := tbl.refCount - 1 })) [])) ∧
    (∀ (g g1 : Registry) (p : Nat) (tbl : OptionTable) (f : Nat) (released : List Tcl_Obj),
      g p = some tbl → tbl.refCount = 1 →
      Tk_DeleteOptionTable (f + 1) g p = some (.done g1 released) →
      g1 p = none ∧
      ∀ n, tbl.nextPtr = some n →
        ∃ g2 rel2 t2,
          Tk_DeleteOptionTable f (g.set p (some { tbl with refCount := 0 })) n
            = some (.done g2 rel2) ∧
          g2 p = some t2 ∧ g1 = (g2.set t2.hashEntryPtr none).set p none) ∧
    ∃ regk, optIterate (Registry.create (t :: chained)) k reg = some regk ∧
      optIterate (Registry.release fuel t.addr) k regk = some reg ∧
      (0 < k → ∃ tblk, regk t.addr = some tblk ∧ k ≤ tblk.refCount) := by
  refine ⟨fun g p tbl f h h1 h2 => Tk_DeleteOptionTable_shared g p tbl f h h1 h2,
    fun g g1 p tbl f released h h1 hd =>
      ⟨(Tk_DeleteOptionTable_last g g1 p tbl f released h h1 hd).1,
       (Tk_DeleteOptionTable_last g g1 p tbl f released h h1 hd).2.2⟩, ?_⟩
  cases k with
  | zero => exact ⟨reg, rfl, rfl, fun h => absurd h (Nat.lt_irrefl 0)⟩
  | succ j =>
    obtain ⟨reg1, p, hok⟩ := hcreate
    have hp := Tk_CreateOptionTable_ptr _ _ _ _ _ hok
    subst hp
    obtain ⟨tbl1, hr1, hc1, hlt1⟩ :=
      Tk_CreateOptionTable_head reg reg1 t chained _ (j + 1) hnodup hk hk2 hok
    obtain ⟨fuel, rfl⟩ : ∃ f, fuel = f + 1 := ⟨fuel - 1, by simp at hfuel; omega⟩
    have hfirst : Registry.create (t :: chained) reg = some reg1 := by
      simp only [Registry.create, hok]
    have hcr := Registry.create_hit_times t chained j reg1 tbl1 hr1 (by omega)
    refine ⟨reg1.set t.addr (some { tbl1 with refCount := tbl1.refCount + j }), ?_, ?_,
      fun _ => ⟨{ tbl1 with refCount := tbl1.refCount + j },
        Registry.set_same _ _ _, show j + 1 ≤ tbl1.refCount + j by omega⟩⟩
    · simp only [optIterate, hfirst, Option.some_bind]
      exact hcr
    · rw [optIterate_succ_last,
        Registry.release_times t.addr fuel j _ { tbl1 with refCount := tbl1.refCount + j }
          tbl1.refCount (Registry.set_same _ _ _) rfl hc1 (by omega),
        Registry.set_set, Registry.set_self reg1 t.addr _ hr1, Option.some_bind]
      obtain ⟨rel, hdel⟩ := Tk_DeleteOptionTable_undoes_create _ reg reg1 _ hnodup hreg hok
        reg1 (fun _ _ => rfl) (fuel + 1) hfuel
      simp only [Registry.release, hdel, Option.some.injEq]
      funext a
      by_cases hmem : a ∈ List.map Template.addr (t :: chained)
      · rw [if_pos hmem]
      · rw [if_neg hmem]
        exact Tk_CreateOptionTable_frame _ _ _ _ hok a hmem

theorem three_lt_size : 2 + 1 < SIZE_MOD := by
  rw [SIZE_MOD]
  norm_num

/-- C27 (witness). The template of `-text`, which chains to the template of
`-bd` and `-borderwidth`, in the empty registry: the first creation registers
both tables with one reference, the first chained to the second; two creations
leave the first table with at least two references; two releases then give
back the empty registry. -/
theorem Tk_DeleteOptionTable_balanced_witness :
    (∃ reg1, Registry.create chainedTemplate emptyRegistry = some reg1 ∧
      (reg1 2).map (fun t => t.refCount) = some 1 ∧
      (reg1 1).map (fun t => t.refCount) = some 1 ∧
      (reg1 2).bind (fun t => t.nextPtr) = some 1) ∧
    ∃ regk, optIterate (Registry.create chainedTemplate) 2 emptyRegistry = some regk ∧
      optIterate (Registry.release 2 2) 2 regk = some emptyRegistry ∧
      (0 < 2 → ∃ tblk, regk 2 = some tblk ∧ 2 ≤ tblk.refCount) :=
  ⟨⟨_, rfl, rfl, rfl, rfl⟩,
    (Tk_DeleteOptionTable_balanced emptyRegistry { addr := 2, specs := [stringSpec "-text"] }
      borderTemplate 2 2 (by decide) emptyRegistry_countsOk nofun three_lt_size
      (by decide) ⟨_, _, rfl⟩).2.2⟩

theorem castInt_id (v : Int) (h1 : INT_MIN ≤ v) (h2 : v ≤ INT_MAX) : castInt v = v := by
  unfold castInt
  unfold INT_MIN at h1
  unfold INT_MAX at h2
  omega

/-- C28. `TkParsePadAmount`.  A specification that is a list of one distance
`v` gives `half = v` and `all = 2 * v`, and so does a specification held as a
pixel object of distance `v`; a specification that is a list of two distances
`a` and `b` gives `half = a` and `all = a + b`; a list of no element or of
more than two elements is rejected with `TCL_ERROR`.  The distances of a list
are padding amounts, not negative (the function rejects a negative element),
and the total is one an `int` holds; `half` is written when `halfPtr` is not
`NULL`. -/
theorem TkParsePadAmount_spec (env : PadEnv) (tkwin : Tk_Window) (specObj : Tcl_Obj)
    (halfPtr : Option Int) :
    (∀ o v, specObj.typePtr ≠ env.pixelObjType →
      env.Tcl_ListObjGetElements specObj = some [o] →
      env.Tk_GetPixelsFromObj tkwin o = some v → 0 ≤ v → 2 * v ≤ INT_MAX →
      TkParsePadAmount env tkwin specObj halfPtr = .ok (halfPtr.map fun _ => v) (2 * v)) ∧
    (∀ v, specObj.typePtr = env.pixelObjType →
      env.Tk_GetPixelsFromObj tkwin specObj = some v → INT_MIN ≤ 2 * v → 2 * v ≤ INT_MAX →
      TkParsePadAmount env tkwin specObj halfPtr = .ok (halfPtr.map fun _ => v) (2 * v)) ∧
    (∀ o1 o2 a b, specObj.typePtr ≠ env.pixelObjType →
      env.Tcl_ListObjGetElements specObj = some [o1, o2] →
      env.Tk_GetPixelsFromObj tkwin o1 = some a →
      env.Tk_GetPixelsFromObj tkwin o2 = some b → 0 ≤ a → 0 ≤ b → a + b ≤ INT_MAX →
      TkParsePadAmount env tkwin specObj halfPtr = .ok (halfPtr.map fun _ => a) (a + b)) ∧
    (∀ objv, specObj.typePtr ≠ env.pixelObjType →
      env.Tcl_ListObjGetElements specObj = some objv →
      objv.length = 0 ∨ 2 < objv.length →
      TkParsePadAmount env tkwin specObj halfPtr = .error) := by
  refine ⟨?_, ?_, ?_, ?_⟩
  · intro o v ht hl hp h0 hmax
    have hmin : INT_MIN ≤ v + v := by unfold INT_MIN; omega
    simp only [TkParsePadAmount, if_neg ht, hl, hp, List.length_singleton,
      List.getElem?_cons_zero, if_neg (not_lt.mpr h0)]
    simp [castInt_id (v + v) hmin (by omega), two_mul]
  · intro v ht hp hmin hmax
    simp only [TkParsePadAmount, if_pos ht, hp]
    rw [castInt_id (v + v) (by omega) (by omega), two_mul]
  · intro o1 o2 a b ht hl hp1 hp2 ha hb hmax
    have hmin : INT_MIN ≤ a + b := by unfold INT_MIN; omega
    simp only [TkParsePadAmount, if_neg ht, hl, hp1, hp2, List.length_cons,
      List.length_singleton, List.length_nil, List.getElem?_cons_zero,
      List.getElem?_cons_succ, if_neg (not_lt.mpr ha), if_neg (not_lt.mpr hb)]
    simp [castInt_id (a + b) hmin hmax]
  · intro objv ht hl hlen
    simp only [TkParsePadAmount, if_neg ht, hl]
    rw [if_pos (by omega)]

/-- C28 (witness). With decimal distances and lists separated by spaces: the
specification `3` gives `half = 3` and `all = 6`, the specification `3 4`
gives `half = 3` and `all = 7`, and the empty specification and the
specification `1 2 3` are rejected. -/
theorem TkParsePadAmount_spec_witness :
    TkParsePadAmount examplePadEnv 0 (strObj "3") (some 0) = .ok (some 3) 6 ∧
    TkParsePadAmount examplePadEnv 0 (strObj "3 4") (some 0) = .ok (some 3) 7 ∧
    TkParsePadAmount examplePadEnv 0 (strObj "") (some 0) = .error ∧
    TkParsePadAmount examplePadEnv 0 (strObj "1 2 3") (some 0) = .error :=
  ⟨(TkParsePadAmount_spec examplePadEnv 0 (strObj "3") (some 0)).1 (strObj "3") 3
      (by decide) rfl rfl (by decide) (by decide),
    (TkParsePadAmount_spec examplePadEnv 0 (strObj "3 4") (some 0)).2.2.1
      (strObj "3") (strObj "4") 3 4 (by decide) rfl rfl rfl (by decide) (by decide)
      (by decide),
    (TkParsePadAmount_spec examplePadEnv 0 (strObj "") (some 0)).2.2.2 []
      (by decide) rfl (Or.inl rfl),
    (TkParsePadAmount_spec examplePadEnv 0 (strObj "1 2 3") (some 0)).2.2.2
      [strObj "1", strObj "2", strObj "3"] (by decide) rfl (Or.inr (by decide))⟩

theorem NextBitmapWord.skip_spec (s : CString) :
    ∃ pre, s = pre ++ NextBitmapWord.skip s ∧ ∀ c ∈ pre, (isspace c || c = ',') = true := by
  induction s with
  | nil => exact ⟨[], rfl, fun c hc => by simp at hc⟩
  | cons c rest ih =>
    obtain ⟨pre, h1, h2⟩ := ih
    by_cases hc : (isspace c || c = ',') = true
    · refine ⟨c :: pre, ?_, ?_⟩
      · simp only [NextBitmapWord.skip, if_pos hc, List.cons_append]
        rw [← h1]
      · intro d hd
        rcases List.mem_cons.mp hd with e | e
        · rw [e]; exact hc
        · exact h2 d e
    · exact ⟨[], by simp only [NextBitmapWord.skip, if_neg hc, List.nil_append],
        fun c hc => by simp at hc⟩

theorem NextBitmapWord.copy_spec (s : CString) (n : Nat) (w rest : CString)
    (h : NextBitmapWord.copy s n = some (w, rest)) :
    s = w ++ rest ∧ (w ≠ [] → n + w.length ≤ MAX_WORD_LENGTH) ∧
      ∀ c ∈ w, (isspace c || c = ',') = false := by
  induction s generalizing n w with
  | nil =>
    simp only [NextBitmapWord.copy, Option.some.injEq, Prod.mk.injEq] at h
    obtain ⟨h1, h2⟩ := h
    subst h1 h2
    simp
  | cons c src ih =>
    simp only [NextBitmapWord.copy] at h
    by_cases hc : (!isspace c && c != ',') = true
    · rw [if_pos hc] at h
      by_cases hlen : n + 1 > MAX_WORD_LENGTH
      · rw [if_pos hlen] at h
        cases h
      · rw [if_neg hlen] at h
        cases hr : NextBitmapWord.copy src (n + 1) with
        | none => simp [hr] at h
        | some r =>
          obtain ⟨w2, rest2⟩ := r
          simp only [hr, Option.map_some', Option.some.injEq, Prod.mk.injEq] at h
          obtain ⟨h1, h2⟩ := h
          subst h1 h2
          obtain ⟨i1, i2, i3⟩ := ih (n + 1) w2 hr
          refine ⟨by rw [i1]; rfl, ?_, ?_⟩
          · intro _
            simp only [List.length_cons]
            by_cases hw : w2 = []
            · subst hw
              simp only [List.length_nil]
              omega
            · have := i2 hw
              omega
          · intro d hd
            rcases List.mem_cons.mp hd with e | e
            · rw [e]
              simp only [Bool.and_eq_true, Bool.not_eq_true', bne_iff_ne, ne_eq] at hc
              simp [hc.1, hc.2]
            · exact i3 d e
    · rw [if_neg hc] at h
      simp only [Option.some.injEq, Prod.mk.injEq] at h
      obtain ⟨h1, h2⟩ := h
      subst h1 h2
      simp

/-- What `NextBitmapWord` returns: the string is white space and commas, then
the word, then the rest; the word is not empty, has at most `MAX_WORD_LENGTH`
bytes and holds no white space and no comma. -/
theorem NextBitmapWord_spec (s w rest : CString) (h : NextBitmapWord s = some (w, rest)) :
    w ≠ [] ∧ w.length ≤ MAX_WORD_LENGTH ∧ (∀ c ∈ w, (isspace c || c = ',') = false) ∧
      ∃ pre, s = pre ++ w ++ rest ∧ ∀ c ∈ pre, (isspace c || c = ',') = true := by
  unfold NextBitmapWord at h
  cases hc : NextBitmapWord.copy (NextBitmapWord.skip s) 0 with
  | none => simp [hc] at h
  | some r =>
    obtain ⟨w2, rest2⟩ := r
    simp only [hc] at h
    split_ifs at h with hlen
    simp only [Option.some.injEq, Prod.mk.injEq] at h
    obtain ⟨h1, h2⟩ := h
    subst h1 h2
    obtain ⟨c1, c2, c3⟩ := NextBitmapWord.copy_spec _ 0 _ _ hc
    obtain ⟨pre, p1, p2⟩ := NextBitmapWord.skip_spec s
    have hne : w2 ≠ [] := fun e => hlen (by rw [e]; rfl)
    refine ⟨hne, ?_, c3, pre, ?_, p2⟩
    · have := c2 hne
      omega
    · rw [List.append_assoc, ← c1]
      exact p1

theorem NextBitmapWord_length (s w rest : CString) (h : NextBitmapWord s = some (w, rest)) :
    rest.length < s.length := by
  obtain ⟨h1, _, _, pre, h4, _⟩ := NextBitmapWord_spec s w rest h
  have : 0 < w.length := List.length_pos.mpr h1
  rw [h4]
  simp only [List.length_append]
  omega

theorem bitmapWords.go_stable (fuel : Nat) :
    ∀ (fuel2 : Nat) (s : CString), s.length ≤ fuel → s.length ≤ fuel2 →
      bitmapWords.go fuel s = bitmapWords.go fuel2 s := by
  induction fuel with
  | zero =>
    intro fuel2 s h1 _
    have hs : s = [] := List.length_eq_zero.mp (Nat.le_zero.mp h1)
    subst hs
    cases fuel2 with
    | zero => rfl
    | succ f => simp [bitmapWords.go, NextBitmapWord, NextBitmapWord.skip, NextBitmapWord.copy]
  | succ fuel ih =>
    intro fuel2 s h1 h2
    cases fuel2 with
    | zero =>
      have hs : s = [] := List.length_eq_zero.mp (Nat.le_zero.mp h2)
      subst hs
      simp [bitmapWords.go, NextBitmapWord, NextBitmapWord.skip, NextBitmapWord.copy]
    | succ f =>
      simp only [bitmapWords.go]
      cases hn : NextBitmapWord s with
      | none => rfl
      | some r =>
        obtain ⟨w, rest⟩ := r
        have hl := NextBitmapWord_length s w rest hn
        simp only
        rw [ih f rest (by omega) (by omega)]

/-- The words of a description are the word that `NextBitmapWord` returns
followed by the words of the string it leaves, and there is none when
`NextBitmapWord` returns `TCL_ERROR`. -/
theorem bitmapWords_eq (s : CString) :
    bitmapWords s =
      match NextBitmapWord s with
      | none => []
      | some (word, src) => word :: bitmapWords src := by
  unfold bitmapWords
  cases hs : s.length with
  | zero =>
    have : s = [] := List.length_eq_zero.mp hs
    subst this
    simp [bitmapWords.go, NextBitmapWord, NextBitmapWord.skip, NextBitmapWord.copy]
  | succ n =>
    simp only [bitmapWords.go]
    cases hn : NextBitmapWord s with
    | none => rfl
    | some r =>
      obtain ⟨w, rest⟩ := r
      have hl := NextBitmapWord_length s w rest hn
      simp only
      rw [bitmapWords.go_stable n rest.length rest (by omega) (Nat.le_refl _)]

theorem TkGetBitmapData.dimOf_suffix (word : CString) (name : DimName)
    (h : TkGetBitmapData.dimOf word = some name) : hasSuffix word name.suffix = true := by
  unfold TkGetBitmapData.dimOf at h
  split_ifs at h with h1 h2 h3 h4 <;> cases h <;> assumption

theorem TkGetBitmapData.toBrace_spec (pi pi2 : List CString)
    (h : TkGetBitmapData.toBrace pi = some pi2) :
    ∃ skipped, pi = skipped ++ "\x7b".toList :: pi2 ∧ "\x7b".toList ∉ skipped := by
  induction pi with
  | nil => simp [TkGetBitmapData.toBrace] at h
  | cons word rest ih =>
    simp only [TkGetBitmapData.toBrace] at h
    by_cases hw : word = "\x7b".toList
    · rw [if_pos hw] at h
      cases h
      exact ⟨[], by rw [hw]; rfl, by simp⟩
    · rw [if_neg hw] at h
      obtain ⟨skipped, h1, h2⟩ := ih h
      refine ⟨word :: skipped, by rw [h1]; rfl, ?_⟩
      intro hmem
      rcases List.mem_cons.mp hmem with e | e
      · exact hw e.symm
      · exact h2 e

theorem TkGetBitmapData.value_spec (env : BitmapEnv) (word : CString) (v : Int)
    (h : TkGetBitmapData.value env word = some v) :
    (env.strtol word).2 ≠ 0 ∧ (env.strtol word).2 = word.length ∧
      v = castInt (env.strtol word).1 := by
  unfold TkGetBitmapData.value at h
  split_ifs at h with hc
  simp only [Option.some.injEq] at h
  simp only [not_or, not_not] at hc
  exact ⟨hc.1, hc.2, h.symm⟩

theorem Declared.cons (env : BitmapEnv) (header : List CString) (name : DimName) (v : Int)
    (x : CString) (h : Declared env header name v) : Declared env (x :: header) name v := by
  obtain ⟨i, word, value, h1, h2, h3⟩ := h
  exact ⟨i + 1, word, value, by simpa using h1, by simpa using h2, h3⟩

theorem Declared.mem (env : BitmapEnv) (header : List CString) (name : DimName) (v : Int)
    (h : Declared env header name v) : ∃ word ∈ header, hasSuffix word name.suffix = true := by
  obtain ⟨i, word, value, h1, _, h3, _⟩ := h
  exact ⟨word, List.getElem?_mem h1, h3⟩

theorem BitmapDims.get_set (dims : BitmapDims) (name name2 : DimName) (v : Int) :
    (dims.set name v).get name2 = if name2 = name then v else dims.get name2 := by
  cases name <;> cases name2 <;> rfl

/-- The first loop of `TkGetBitmapData` reaches `getData` only past a header,
the word `char`, words other than `{`, and the word `{`; each variable then
holds the value it had at the start or a value that a line of the header
gives it. -/
theorem TkGetBitmapData.header_getData (env : BitmapEnv) :
    ∀ (n : Nat) (ws : List CString), ws.length ≤ n → ∀ (d d2 : BitmapDims) (pi : List CString),
      TkGetBitmapData.header env ws d = .getData pi d2 →
      ∃ hdr skipped, ws = hdr ++ "char".toList :: (skipped ++ "\x7b".toList :: pi) ∧
        "\x7b".toList ∉ skipped ∧
        ∀ name, d2.get name = d.get name ∨ Declared env hdr name (d2.get name) := by
  intro n
  induction n with
  | zero =>
    intro ws hlen d d2 pi h
    have : ws = [] := List.length_eq_zero.mp (Nat.le_zero.mp hlen)
    subst this
    simp [TkGetBitmapData.header] at h
  | succ n ih =>
    intro ws hlen d d2 pi h
    cases ws with
    | nil => simp [TkGetBitmapData.header] at h
    | cons word rest =>
      simp only [List.length_cons] at hlen
      simp only [TkGetBitmapData.header] at h
      cases hd : TkGetBitmapData.dimOf word with
      | some name =>
        simp only [hd] at h
        cases rest with
        | nil => simp at h
        | cons value rest2 =>
          simp only at h
          cases hv : TkGetBitmapData.value env value with
          | none => simp [hv] at h
          | some v =>
            simp only [hv] at h
            simp only [List.length_cons] at hlen
            obtain ⟨hdr, skipped, h1, h2, h3⟩ := ih rest2 (by omega) _ _ _ h
            obtain ⟨v1, v2, v3⟩ := TkGetBitmapData.value_spec env value v hv
            have hsuf := TkGetBitmapData.dimOf_suffix word name hd
            refine ⟨word :: value :: hdr, skipped, by rw [h1]; rfl, h2, ?_⟩
            intro name2
            rcases h3 name2 with e | e
            · rw [BitmapDims.get_set] at e
              by_cases hn : name2 = name
              · rw [if_pos hn] at e
                right
                rw [e, hn]
                exact ⟨0, word, value, rfl, by simp, hsuf, v1, v2, v3⟩
              · rw [if_neg hn] at e
                exact Or.inl e
            · exact Or.inr (Declared.cons _ _ _ _ _ (Declared.cons _ _ _ _ _ e))
      | none =>
        simp only [hd] at h
        by_cases hc : word = "char".toList
        · rw [if_pos hc] at h
          cases ht : TkGetBitmapData.toBrace rest with
          | none => simp [ht] at h
          | some pi2 =>
            simp only [ht, HeaderEnd.getData.injEq] at h
            obtain ⟨skipped, s1, s2⟩ := TkGetBitmapData.toBrace_spec rest pi2 ht
            refine ⟨[], skipped, ?_, s2, fun name => Or.inl (by rw [h.2])⟩
            rw [hc, s1, h.1]
            rfl
        · rw [if_neg hc] at h
          by_cases hb : word = "\x7b".toList
          · rw [if_pos hb] at h
            cases h
          · rw [if_neg hb] at h
            obtain ⟨hdr, skipped, h1, h2, h3⟩ := ih rest (by omega) _ _ _ h
            refine ⟨word :: hdr, skipped, by rw [h1]; rfl, h2, ?_⟩
            intro name2
            rcases h3 name2 with e | e
            · exact Or.inl e
            · exact Or.inr (Declared.cons _ _ _ _ _ e)

/-- The first loop of `TkGetBitmapData` does not reach `getData` when the
word `{` comes before any word `char`. -/
theorem TkGetBitmapData.header_brace (env : BitmapEnv) (hbrace : (env.strtol "\x7b".toList).2 = 0) :
    ∀ (n : Nat) (pre post : List CString), pre.length ≤ n → "char".toList ∉ pre →
      ∀ d, TkGetBitmapData.header env (pre ++ "\x7b".toList :: post) d = .error ∨
        TkGetBitmapData.header env (pre ++ "\x7b".toList :: post) d = .errorCleanup := by
  have hval : TkGetBitmapData.value env "\x7b".toList = none := by
    unfold TkGetBitmapData.value
    rw [if_pos (Or.inl hbrace)]
  have hstart : ∀ post d,
      TkGetBitmapData.header env ("\x7b".toList :: post) d = .errorCleanup := by
    intro post d
    rw [TkGetBitmapData.header]
    have h1 : TkGetBitmapData.dimOf "\x7b".toList = none := by decide
    have h2 : ¬ "\x7b".toList = "char".toList := by decide
    simp only [h1, if_neg h2, if_true]
  intro n
  induction n with
  | zero =>
    intro pre post hlen _ d
    have : pre = [] := List.length_eq_zero.mp (Nat.le_zero.mp hlen)
    subst this
    exact Or.inr (hstart post d)
  | succ n ih =>
    intro pre post hlen hchar d
    cases pre with
    | nil => exact Or.inr (hstart post d)
    | cons word rest =>
      simp only [List.length_cons] at hlen
      have hw : ¬ word = "char".toList := fun e => hchar (by rw [e]; exact List.mem_cons_self _ _)
      have hrest : "char".toList ∉ rest := fun e => hchar (List.mem_cons_of_mem _ e)
      simp only [List.cons_append, TkGetBitmapData.header]
      cases hd : TkGetBitmapData.dimOf word with
      | some name =>
        simp only
        cases rest with
        | nil =>
          simp only [List.nil_append, hval]
          exact Or.inl trivial
        | cons value rest2 =>
          simp only [List.cons_append]
          cases hv : TkGetBitmapData.value env value with
          | none => exact Or.inl rfl
          | some v =>
            simp only [List.length_cons] at hlen
            exact ih rest2 post (by omega) (fun e => hrest (List.mem_cons_of_mem _ e)) _
      | none =>
        simp only [if_neg hw]
        by_cases hb : word = "\x7b".toList
        · rw [if_pos hb]
          exact Or.inr rfl
        · rw [if_neg hb]
          exact ih rest post (by omega) hrest d

theorem TkGetBitmapData.readData_spec (env : BitmapEnv) :
    ∀ (n : Nat) (pi : List CString) (data : List Nat),
      TkGetBitmapData.readData env n pi = some data →
      ∃ body rest, pi = body ++ rest ∧ body.length = n ∧
        data = body.map (TkGetBitmapData.byte env) ∧
        ∀ word ∈ body, (env.strtol word).2 ≠ 0 := by
  intro n
  induction n with
  | zero =>
    intro pi data h
    simp only [TkGetBitmapData.readData, Option.some.injEq] at h
    exact ⟨[], pi, rfl, rfl, by rw [← h]; rfl, fun w hw => by simp at hw⟩
  | succ n ih =>
    intro pi data h
    cases pi with
    | nil => simp [TkGetBitmapData.readData] at h
    | cons word rest =>
      simp only [TkGetBitmapData.readData] at h
      by_cases hs : (env.strtol word).2 = 0
      · rw [if_pos hs] at h
        cases h
      · rw [if_neg hs] at h
        cases hr : TkGetBitmapData.readData env n rest with
        | none => simp [hr] at h
        | some data2 =>
          simp only [hr, Option.map_some', Option.some.injEq] at h
          obtain ⟨body, rest2, h1, h2, h3, h4⟩ := ih rest data2 hr
          refine ⟨word :: body, rest2, by rw [h1]; rfl, by simp [h2], ?_, ?_⟩
          · rw [← h, h3]
            rfl
          · intro w hw
            rcases List.mem_cons.mp hw with e | e
            · rw [e]; exact hs
            · exact h4 w e

theorem TkGetBitmapData.readData_short (env : BitmapEnv) :
    ∀ (n : Nat) (pi : List CString), pi.length < n →
      TkGetBitmapData.readData env n pi = none := by
  intro n
  induction n with
  | zero => intro pi h; omega
  | succ n ih =>
    intro pi h
    cases pi with
    | nil => rfl
    | cons word rest =>
      simp only [List.length_cons] at h
      simp only [TkGetBitmapData.readData]
      split_ifs
      · rfl
      · rw [ih rest (by omega)]
        rfl

theorem TkGetBitmapData.numBytes_fits (d : BitmapDims) (hw : 0 < d.width) (hh : 0 < d.height)
    (h1 : d.width + 7 ≤ INT_MAX) (h2 : (d.width + 7) / 8 * d.height ≤ INT_MAX) :
    TkGetBitmapData.numBytes d = (d.width + 7) / 8 * d.height := by
  unfold TkGetBitmapData.numBytes
  have hmin : INT_MIN ≤ d.width + 7 := by unfold INT_MIN; omega
  rw [castInt_id _ hmin h1, Int.tdiv_eq_ediv (by omega) (by omega)]
  have hq : 0 ≤ (d.width + 7) / 8 := Int.ediv_nonneg (by omega) (by omega)
  have hp : 0 ≤ (d.width + 7) / 8 * d.height := Int.mul_nonneg hq (by omega)
  exact castInt_id _ (by unfold INT_MIN; omega) h2

/-- What the claim C29 states of a successful `TkGetBitmapData` on a string,
with the numbers as the `int` variables of the function hold them.  The width
and the height returned are positive and are values that lines of the header
(the words before the word `char`) give to `_width` and `_height`; the hot
spot returned is, in each coordinate, `-1` or a value that a line of the
header gives, and `-1` when no word of the header has the suffix; the bytes
returned are the low 8 bits of the numbers that `strtol` finds in the words
that follow the word `{`, one byte for each word, as many as the `int`
computation of `((width+7)/8) * height` gives, which is that product when the
`int` holds it. -/
theorem TkGetBitmapData_success (env : BitmapEnv) (s : CString) (data : List Nat)
    (w h hx hy : Int) (hok : TkGetBitmapData env s = .ok data w h hx hy) :
    0 < w ∧ 0 < h ∧
    ∃ hdr skipped body rest,
      bitmapWords s = hdr ++ "char".toList :: (skipped ++ "\x7b".toList :: (body ++ rest)) ∧
      "\x7b".toList ∉ skipped ∧
      Declared env hdr .width w ∧ Declared env hdr .height h ∧
      (hx = -1 ∨ Declared env hdr .hotX hx) ∧ (hy = -1 ∨ Declared env hdr .hotY hy) ∧
      ((∀ x ∈ hdr, hasSuffix x "_x_hot".toList = false) → hx = -1) ∧
      ((∀ x ∈ hdr, hasSuffix x "_y_hot".toList = false) → hy = -1) ∧
      data = body.map (TkGetBitmapData.byte env) ∧
      (∀ word ∈ body, (env.strtol word).2 ≠ 0) ∧
      (data.length : Int) =
        TkGetBitmapData.numBytes { width := w, height := h, hotX := hx, hotY := hy } ∧
      (w + 7 ≤ INT_MAX → (w + 7) / 8 * h ≤ INT_MAX →
        (data.length : Int) = (w + 7) / 8 * h) := by
  unfold TkGetBitmapData at hok
  cases hh : TkGetBitmapData.header env (bitmapWords s)
      { width := 0, height := 0, hotX := -1, hotY := -1 } with
  | error => simp [hh] at hok
  | errorCleanup => simp [hh] at hok
  | getData pi d =>
    simp only [hh] at hok
    by_cases hpos : d.width ≤ 0 ∨ d.height ≤ 0
    · rw [if_pos hpos] at hok
      cases hok
    · rw [if_neg hpos] at hok
      by_cases hneg : TkGetBitmapData.numBytes d < 0
      · rw [if_pos hneg] at hok
        cases hok
      · rw [if_neg hneg] at hok
        cases hr : TkGetBitmapData.readData env (TkGetBitmapData.numBytes d).toNat pi with
        | none => simp [hr] at hok
        | some data2 =>
          simp only [hr, BitmapResult.ok.injEq] at hok
          obtain ⟨e1, e2, e3, e4, e5⟩ := hok
          subst e1
          have hd : d = { width := w, height := h, hotX := hx, hotY := hy } := by
            cases d
            simp only at e2 e3 e4 e5
            subst e2 e3 e4 e5
            rfl
          subst hd
          simp only [not_or, not_le] at hpos
          obtain ⟨hdr, skipped, h1, h2, h3⟩ :=
            TkGetBitmapData.header_getData env _ _ (Nat.le_refl _) _ _ _ hh
          obtain ⟨body, rest, r1, r2, r3, r4⟩ :=
            TkGetBitmapData.readData_spec env _ _ _ hr
          have hW : Declared env hdr .width w := by
            rcases h3 .width with e | e
            · simp only [BitmapDims.get] at e
              omega
            · exact e
          have hH : Declared env hdr .height h := by
            rcases h3 .height with e | e
            · simp only [BitmapDims.get] at e
              omega
            · exact e
          have hX : hx = -1 ∨ Declared env hdr .hotX hx := h3 .hotX
          have hY : hy = -1 ∨ Declared env hdr .hotY hy := h3 .hotY
          have hlen : (data2.length : Int) = TkGetBitmapData.numBytes
              { width := w, height := h, hotX := hx, hotY := hy } := by
            rw [r3, List.length_map, r2]
            exact Int.toNat_of_nonneg (not_lt.mp hneg)
          refine ⟨hpos.1, hpos.2, hdr, skipped, body, rest, by rw [h1, r1], h2, hW, hH, hX, hY,
            ?_, ?_, r3, r4, hlen, ?_⟩
          · intro hno
            rcases hX with e | e
            · exact e
            · obtain ⟨word, hm, hs⟩ := Declared.mem _ _ _ _ e
              have := hno word hm
              simp only [DimName.suffix] at hs
              rw [hs] at this
              cases this
          · intro hno
            rcases hY with e | e
            · exact e
            · obtain ⟨word, hm, hs⟩ := Declared.mem _ _ _ _ e
              have := hno word hm
              simp only [DimName.suffix] at hs
              rw [hs] at this
              cases this
          · intro f1 f2
            rw [hlen]
            exact TkGetBitmapData.numBytes_fits _ hpos.1 hpos.2 f1 f2

/-- The failures that the claim C29 states: `TkGetBitmapData` returns `NULL`
when the first loop ends with a width or a height that is not positive, when
fewer words follow the word `{` than there are bytes to read, and when the
word `{` comes before any word `char` (`strtol` finding no number in the word
`{`). -/
theorem TkGetBitmapData_failures (env : BitmapEnv) (s : CString) :
    (∀ pi d, TkGetBitmapData.header env (bitmapWords s)
        { width := 0, height := 0, hotX := -1, hotY := -1 } = .getData pi d →
      d.width ≤ 0 ∨ d.height ≤ 0 → TkGetBitmapData env s = .NULL) ∧
    (∀ pi d, TkGetBitmapData.header env (bitmapWords s)
        { width := 0, height := 0, hotX := -1, hotY := -1 } = .getData pi d →
      (pi.length : Int) < TkGetBitmapData.numBytes d → TkGetBitmapData env s = .NULL) ∧
    (∀ pre post, bitmapWords s = pre ++ "\x7b".toList :: post → "char".toList ∉ pre →
      (env.strtol "\x7b".toList).2 = 0 → TkGetBitmapData env s = .NULL) := by
  refine ⟨?_, ?_, ?_⟩
  · intro pi d hh hpos
    unfold TkGetBitmapData
    simp only [hh, if_pos hpos]
  · intro pi d hh hshort
    unfold TkGetBitmapData
    simp only [hh]
    split_ifs with h1 h2
    · rfl
    · omega
    · rw [TkGetBitmapData.readData_short env _ pi (by omega)]
  · intro pre post hw hchar hbrace
    unfold TkGetBitmapData
    rw [hw]
    rcases TkGetBitmapData.header_brace env hbrace _ pre post (Nat.le_refl _) hchar
      { width := 0, height := 0, hotX := -1, hotY := -1 } with e | e <;> rw [e]

set_option maxRecDepth 100000 in
/-- C29 (failing input). A description that declares 524288 by 65536 pixels
and gives no data: the `int` computation of `((width+7)/8) * height`, which is
2^32, gives 0, so `TkGetBitmapData` reads no byte and succeeds with an array
of no byte for the dimensions 524288 by 65536, where the claim has it return
2^32 bytes or fail because the input ends before all bytes are read.  And a
description that declares the width 4294967304: the width returned is 8, the
`int` that `strtol` leaves of the number, and not the declared width. -/
theorem TkGetBitmapData_overflow :
    TkGetBitmapData exampleBitmapEnv hugeBitmap = .ok [] 524288 65536 (-1) (-1) ∧
    ((524288 + 7) / 8 * 65536 : Int) = 4294967296 ∧
    (bitmapWords hugeBitmap).drop 10 = ["\x7b".toList, "\x7d;".toList] ∧
    TkGetBitmapData exampleBitmapEnv wideBitmap = .ok [1] 8 1 (-1) (-1) ∧
    (bitmapWords wideBitmap).take 3
      = ["#define".toList, "a_width".toList, "4294967304".toList] ∧
    exampleStrtol "4294967304".toList = (4294967304, 10) := by
  decide

set_option maxRecDepth 100000 in
/-- The statements of `TkGetBitmapData_success` and `TkGetBitmapData_failures`
on examples: the bitmap of 9 by 2 pixels with the hot spot (3, 1) gives the 4
bytes `0x01`, `0xff` (the low 8 bits of `0x1ff`), `0x03` and `4`; a
description with the word `{` before the word `char` gives `NULL`. -/
theorem TkGetBitmapData_examples :
    TkGetBitmapData exampleBitmapEnv smallBitmap = .ok [1, 255, 3, 4] 9 2 3 1 ∧
    ((0 : Int) < 9 ∧ (0 : Int) < 2) ∧
    TkGetBitmapData exampleBitmapEnv "a_width 1 \x7b char \x7b 1".toList = .NULL :=
  ⟨by decide,
    ⟨(TkGetBitmapData_success exampleBitmapEnv smallBitmap [1, 255, 3, 4] 9 2 3 1
        (by decide)).1,
      (TkGetBitmapData_success exampleBitmapEnv smallBitmap [1, 255, 3, 4] 9 2 3 1
        (by decide)).2.1⟩,
    (TkGetBitmapData_failures exampleBitmapEnv "a_width 1 \x7b char \x7b 1".toList).2.2
      ["a_width".toList, "1".toList] ["char".toList, "\x7b".toList, "1".toList]
      (by decide) (by decide) (by decide)⟩

theorem decimal_negSucc (n : Nat) :
    decimal (Int.negSucc n) = '-' :: decimal ((n + 1 : Nat) : Int) := by
  rfl

theorem decimal_neg (x : Int) (h : x < 0) : decimal x = '-' :: decimal (-x) := by
  cases x with
  | ofNat n => exact absurd h (by simp)
  | negSucc n => exact decimal_negSucc n

theorem DoObjConfig_index (env : Env) (r : Record) (o : TkOption) (v : Tcl_Obj)
    (tkwin : Tk_Window) (sv : Bool) (idx : Int) (ht : o.specPtr.type = TK_OPTION_INDEX)
    (hp : TkGetIntForIndex env (some v) (-1) 0 = some idx) :
    ∃ s e, DoObjConfig env r o v tkwin sv =
      .ok ((r.setAt o.specPtr.internalOffset (.int (clampIndex idx))).setObjAt
        o.specPtr.objOffset (some v)) s e := by
  have ha : applyValue env r o v tkwin =
      .stored (some v) (r.setAt o.specPtr.internalOffset (.int (clampIndex idx)))
        (match o.specPtr.internalOffset with
          | some off => r.internals off
          | none => .int 0) [] := by
    simp only [applyValue, ht, applyIndex, hp, storeInternal, Record.setAt]
    cases o.specPtr.internalOffset <;> rfl
  exact DoObjConfig_of_stored env r o v tkwin sv _ _ _ _ ha

/-- C31. For an option of type index with an internal form, when
`TkGetIntForIndex` reads the value as the index `idx`, `DoObjConfig` succeeds
and the internal form it stores is `idx` clamped into the range of `int`:
`INT_MIN` for an index below `INT_MIN`, `INT_MAX` for one above `INT_MAX`, and
`idx` itself for any other; what is stored always lies in
`[INT_MIN, INT_MAX]`. -/
theorem DoObjConfig_index_clamps (env : Env) (r : Record) (o : TkOption) (v : Tcl_Obj)
    (tkwin : Tk_Window) (sv : Bool) (idx : Int) (off : Nat)
    (ht : o.specPtr.type = TK_OPTION_INDEX) (hoff : o.specPtr.internalOffset = some off)
    (hp : TkGetIntForIndex env (some v) (-1) 0 = some idx) :
    ∃ r1 s e stored,
      DoObjConfig env r o v tkwin sv = .ok r1 s e ∧ r1.internals off = .int stored ∧
      (idx < INT_MIN → stored = INT_MIN) ∧ (INT_MAX < idx → stored = INT_MAX) ∧
      (INT_MIN ≤ idx → idx ≤ INT_MAX → stored = idx) ∧
      INT_MIN ≤ stored ∧ stored ≤ INT_MAX := by
  obtain ⟨s, e, h⟩ := DoObjConfig_index env r o v tkwin sv idx ht hp
  refine ⟨_, s, e, clampIndex idx, h, ?_, ?_, ?_, ?_, (clampIndex_range idx).1,
    (clampIndex_range idx).2⟩
  · rw [Record.setObjAt_internals, hoff]
    exact Record.set_internals_same r off _
  · intro hlt
    simp only [clampIndex, hlt, if_true]
  · intro hgt
    have hn : ¬ idx < INT_MIN := by
      unfold INT_MIN
      unfold INT_MAX at hgt
      omega
    have hg : idx > INT_MAX := hgt
    simp only [clampIndex, hn, hg, if_true, if_false]
  · exact clampIndex_id idx

/-- C31 (witness). The option `-underline` set to `5000000000`, an index above
`INT_MAX`: the internal form stored is `INT_MAX`. -/
theorem DoObjConfig_index_clamps_witness :
    TkGetIntForIndex indexEnv (some (strObj "5000000000")) (-1) 0 = some 5000000000 ∧
    ∃ r1 s e stored,
      DoObjConfig indexEnv widgetRecord underlineOption (strObj "5000000000") 0 false
        = .ok r1 s e ∧ r1.internals 8 = .int stored ∧
      (5000000000 < INT_MIN → stored = INT_MIN) ∧ (INT_MAX < 5000000000 → stored = INT_MAX) ∧
      (INT_MIN ≤ 5000000000 → 5000000000 ≤ INT_MAX → stored = 5000000000) ∧
      INT_MIN ≤ stored ∧ stored ≤ INT_MAX :=
  ⟨by decide, DoObjConfig_index_clamps indexEnv widgetRecord underlineOption
    (strObj "5000000000") 0 false 5000000000 8 rfl rfl (by decide)⟩

/-- C35. For an option of type index, null allowed or not, and a value whose
string is empty, which `Tcl_GetIntForIndex` does not read as an index:
`TkGetIntForIndex` called with `-1` as the end gives `-1 - TCL_SIZE_MAX`, the
least value of `Tcl_Size`, and `DoObjConfig` succeeds, stores `INT_MIN` as the
internal form, and stores the pointer to the given empty value, not `NULL`, in
the `Tcl_Obj *` field of the option. -/
theorem DoObjConfig_index_empty (env : Env) (r : Record) (o : TkOption) (v : Tcl_Obj)
    (tkwin : Tk_Window) (sv : Bool) (ht : o.specPtr.type = TK_OPTION_INDEX)
    (he : v.bytes = []) (hrej : env.Tcl_GetIntForIndex v (-1) = none)
    (hsize : INT_MAX ≤ env.TCL_SIZE_MAX) :
    TkGetIntForIndex env (some v) (-1) 0 = some (-1 - env.TCL_SIZE_MAX) ∧
    ∃ r1 s e,
      DoObjConfig env r o v tkwin sv = .ok r1 s e ∧
      (∀ off, o.specPtr.internalOffset = some off → r1.internals off = .int INT_MIN) ∧
      (∀ off, o.specPtr.objOffset = some off → r1.objs off = some v) := by
  have e0 : ((-1 : Int) + 0) = -1 := by omega
  have hp : TkGetIntForIndex env (some v) (-1) 0 = some (-1 - env.TCL_SIZE_MAX) := by
    simp only [TkGetIntForIndex, e0, hrej, he]
    rfl
  have hclamp : clampIndex (-1 - env.TCL_SIZE_MAX) = INT_MIN := by
    unfold clampIndex
    unfold INT_MAX at hsize
    unfold INT_MIN INT_MAX
    split
    · rfl
    · split <;> omega
  obtain ⟨s, e, h⟩ := DoObjConfig_index env r o v tkwin sv _ ht hp
  rw [hclamp] at h
  refine ⟨hp, _, s, e, h, ?_, ?_⟩
  · intro off hoff
    rw [Record.setObjAt_internals, hoff]
    exact Record.set_internals_same r off _
  · intro off hoff
    rw [hoff]
    simp [Record.setObjAt, Record.setObj]

/-- C35 (witness). The null-allowed option `-underline` and the option
`-active`, which does not allow null, set to the empty string: both calls
succeed and store `INT_MIN`, and the value pointer of `-underline` is the
empty value given. -/
theorem DoObjConfig_index_empty_witness :
    nullOK indexEnv underlineOption.specPtr = true ∧
    nullOK indexEnv activeOption.specPtr = false ∧
    (TkGetIntForIndex indexEnv (some (strObj "")) (-1) 0
        = some (-1 - indexEnv.TCL_SIZE_MAX) ∧
      ∃ r1 s e,
        DoObjConfig indexEnv widgetRecord underlineOption (strObj "") 0 false = .ok r1 s e ∧
        (∀ off, underlineOption.specPtr.internalOffset = some off →
          r1.internals off = .int INT_MIN) ∧
        (∀ off, underlineOption.specPtr.objOffset = some off →
          r1.objs off = some (strObj ""))) ∧
    ∃ r1 s e,
      DoObjConfig indexEnv widgetRecord activeOption (strObj "") 0 false = .ok r1 s e ∧
      r1.internals 8 = .int INT_MIN :=
  ⟨by decide, by decide,
    DoObjConfig_index_empty indexEnv widgetRecord underlineOption (strObj "") 0 false rfl rfl
      rfl (by decide),
    _, _, _, rfl, rfl⟩

/-- C32. For an option of type index with an internal form that holds the
integer `v`, where `Tcl_NewWideIntObj` writes a number
as its decimal text, `GetObjectForOption` returns an object whose string is:
empty for `INT_MIN`, `end+1` for `INT_MAX`, `end` for `-1`, `end-N` with
`N = -(v+1)` for every other negative `v`, and the decimal text of `v` for
`0 ≤ v < INT_MAX`. -/
theorem GetObjectForOption_index (env : Env) (names : Names) (r : Record) (o : TkOption)
    (tkwin : Tk_Window) (off : Nat) (v : Int)
    (ht : o.specPtr.type = TK_OPTION_INDEX) (hoff : o.specPtr.internalOffset = some off)
    (hv : r.internals off = .int v)
    (hdec : ∀ n, (names.Tcl_NewWideIntObj n).bytes = decimal n) :
    ∃ obj, GetObjectForOption env names r o tkwin = some obj ∧
      (v = INT_MIN → obj.bytes = []) ∧
      (v = INT_MAX → obj.bytes = "end+1".toList) ∧
      (v = -1 → obj.bytes = "end".toList) ∧
      (v < 0 → v ≠ -1 → v ≠ INT_MIN → obj.bytes = "end-".toList ++ decimal (-(v + 1))) ∧
      (0 ≤ v → v < INT_MAX → obj.bytes = decimal v) := by
  simp only [GetObjectForOption, hoff, formatInternal, ht, hv, formatIndex, Cell.asInt]
  have hmin : INT_MIN = -2147483648 := rfl
  have hmax : INT_MAX = 2147483647 := rfl
  by_cases h1 : v = INT_MIN
  · have hobj : (if ¬ nullOK env o.specPtr = true ∨ v ≠ INT_MIN then
          if v = INT_MIN then some (TkNewIndexObj names (-1))
          else if v = INT_MAX then some (Tcl_NewStringObj "end+1".toList)
          else if v = -1 then some (Tcl_NewStringObj "end".toList)
          else if v < 0 then some (Tcl_NewStringObj ("end".toList ++ decimal (1 + v)))
          else some (names.Tcl_NewWideIntObj v)
        else none).getD Tcl_NewObj = Tcl_NewObj := by
      by_cases hn : ¬ nullOK env o.specPtr = true ∨ v ≠ INT_MIN
      · rw [if_pos hn, if_pos h1]
        rfl
      · rw [if_neg hn]
        rfl
    refine ⟨_, rfl, ?_⟩
    rw [hobj]
    refine ⟨fun _ => rfl, ?_, ?_, ?_, ?_⟩ <;> intros <;> omega
  · have hn : ¬ nullOK env o.specPtr = true ∨ v ≠ INT_MIN := Or.inr h1
    rw [if_pos hn, if_neg h1]
    by_cases h2 : v = INT_MAX
    · rw [if_pos h2]
      refine ⟨_, rfl, fun h => absurd h h1, fun _ => rfl, ?_, ?_, ?_⟩ <;> intros <;> omega
    · rw [if_neg h2]
      by_cases h3 : v = -1
      · rw [if_pos h3]
        refine ⟨_, rfl, fun h => absurd h h1, fun h => absurd h h2, fun _ => rfl, ?_, ?_⟩ <;>
          intros <;> omega
      · rw [if_neg h3]
        by_cases h4 : v < 0
        · rw [if_pos h4]
          refine ⟨_, rfl, fun h => absurd h h1, fun h => absurd h h2, fun h => absurd h h3,
            ?_, ?_⟩
          · intro _ _ _
            have hneg : 1 + v < 0 := by omega
            have e : -(1 + v) = -(v + 1) := by omega
            show "end".toList ++ decimal (1 + v) = "end-".toList ++ decimal (-(v + 1))
            rw [decimal_neg _ hneg, e]
            rfl
          · intros
            omega
        · rw [if_neg h4]
          refine ⟨_, rfl, fun h => absurd h h1, fun h => absurd h h2, fun h => absurd h h3,
            ?_, ?_⟩
          · intros
            omega
          · intro _ _
            exact hdec v

/-- C32 (witness). The option `-active` with the internal form `-2`: the
string returned is `end-1`. -/
theorem GetObjectForOption_index_witness :
    ∃ obj, GetObjectForOption exampleEnv exampleNames (indexRecord (-2)) activeOption 0
        = some obj ∧
      (-2 = INT_MIN → obj.bytes = []) ∧
      (-2 = INT_MAX → obj.bytes = "end+1".toList) ∧
      ((-2 : Int) = -1 → obj.bytes = "end".toList) ∧
      ((-2 : Int) < 0 → (-2 : Int) ≠ -1 → -2 ≠ INT_MIN →
        obj.bytes = "end-".toList ++ decimal (-(-2 + 1))) ∧
      ((0 : Int) ≤ -2 → -2 < INT_MAX → obj.bytes = decimal (-2)) :=
  GetObjectForOption_index exampleEnv exampleNames (indexRecord (-2)) activeOption 0 8 (-2)
    rfl rfl rfl (fun _ => rfl)

theorem GetObjectForOption_index_examples :
    (GetObjectForOption exampleEnv exampleNames (indexRecord (-2)) activeOption 0).map
        (fun o => o.bytes) = some "end-1".toList ∧
    (GetObjectForOption exampleEnv exampleNames (indexRecord INT_MIN) activeOption 0).map
        (fun o => o.bytes) = some [] ∧
    (GetObjectForOption exampleEnv exampleNames (indexRecord INT_MIN) underlineOption 0).map
        (fun o => o.bytes) = some [] ∧
    (GetObjectForOption exampleEnv exampleNames (indexRecord INT_MAX) activeOption 0).map
        (fun o => o.bytes) = some "end+1".toList ∧
    (GetObjectForOption exampleEnv exampleNames (indexRecord (-1)) activeOption 0).map
        (fun o => o.bytes) = some "end".toList ∧
    (GetObjectForOption exampleEnv exampleNames (indexRecord 12) activeOption 0).map
        (fun o => o.bytes) = some "12".toList := by
  refine ⟨?_, ?_, ?_, ?_, ?_, ?_⟩ <;> decide

theorem decimal_ofNat_ne_nil (n : Nat) : decimal ((n : Nat) : Int) ≠ [] := by
  have h : decimal ((n : Nat) : Int) = Nat.toDigits 10 n := rfl
  rw [h]
  intro hnil
  have hlen : (Nat.toDigits 10 n).length = 0 := by rw [hnil]; rfl
  unfold Nat.toDigits at hlen
  rw [Nat.toDigitsCore] at hlen
  split at hlen
  · simp at hlen
  · rw [Nat.toDigitsCore_lens_eq] at hlen
    omega

theorem decimal_ne_nil (x : Int) : decimal x ≠ [] := by
  cases x with
  | ofNat n => exact decimal_ofNat_ne_nil n
  | negSucc n =>
    rw [decimal_negSucc]
    exact List.cons_ne_nil _ _

theorem formatInt_bytes (env : Env) (names : Names) (specPtr : Tk_OptionSpec) (n : Int)
    (hn : nullOK env specPtr = true) (hfl : intFlagsOk specPtr = true) :
    ∃ objPtr, formatInt env names specPtr (.int n) = some objPtr ∧
      (n = intNull specPtr → objPtr = none) ∧
      (n ≠ intNull specPtr → objPtr = some (names.Tcl_NewWideIntObj n)) := by
  unfold intFlagsOk at hfl
  have hm : ¬ TYPE_MASK = 0 := by decide
  simp only [formatInt, intNull, Cell.asInt, hn, true_and]
  by_cases h0 : specPtr.flags &&& TYPE_MASK = 0
  · have hne : ¬ ((0 : Nat) = TYPE_MASK) := by decide
    simp only [h0, ne_eq, not_true_eq_false, if_false, hne]
    by_cases hv : n = INT_MIN
    · exact ⟨_, by rw [if_pos hv], fun _ => rfl, fun h => absurd hv h⟩
    · exact ⟨_, by rw [if_neg hv], fun h => absurd h hv, fun _ => rfl⟩
  · have h1 : specPtr.flags &&& TYPE_MASK = TYPE_MASK := by simpa [h0] using hfl
    simp only [h1, ne_eq, hm, not_false_eq_true, if_true]
    by_cases hv : n = LONG_MIN
    · exact ⟨_, by rw [if_pos hv], fun _ => rfl, fun h => absurd hv h⟩
    · exact ⟨_, by rw [if_neg hv], fun h => absurd h hv, fun _ => rfl⟩

/-- C36 (counterexample). The null-allowed integer option `-borderwidth` is
stored only in internal form, as an `int`.  Applying the text `-2147483648`,
which is not the empty string, succeeds; `Tk_GetOptionValue` then returns the
empty string, not the decimal text of the integer applied. -/
theorem Tk_GetOptionValue_int_min_reads_unset :
    borderTable.deref (0, 0) = some borderwidthOption ∧
    nullOK exampleEnv borderwidthOption.specPtr = true ∧
    borderwidthOption.specPtr.objOffset = none ∧
    (strObj "-2147483648").bytes ≠ [] ∧
    exampleEnv.Tcl_GetIntFromObj (strObj "-2147483648") = some (-2147483648) ∧
    ∃ r1 s e,
      DoObjConfig exampleEnv widgetRecord borderwidthOption (strObj "-2147483648") 0 false
        = .ok r1 s e ∧
      Tk_GetOptionValue exampleEnv exampleNames r1 borderTable (strObj "-borderwidth") 0
        = .value Tcl_NewObj ∧
      Tcl_NewObj.bytes = [] ∧ Tcl_NewObj.bytes ≠ decimal (-2147483648) :=
  ⟨rfl, by decide, rfl, by decide, by decide, _, _, _, rfl, rfl, rfl, by decide⟩

/-- C36 (amended). For a null-allowed integer option stored only in internal
form, with flags that name `int` or `long` as the storage type, and a
`Tcl_NewWideIntObj` that writes a number as its decimal text: after
`DoObjConfig` has applied the value `v` successfully, `Tk_GetOptionValue`
called with a name that resolves to the option returns the empty string if and
only if `v` was the empty string or was read as the null value of the storage
type (`INT_MIN` for an `int`, `LONG_MIN` for a `long`); every other integer
that was read from `v` is returned as its decimal text. -/
theorem Tk_GetOptionValue_int_unset (env : Env) (names : Names) (r r1 : Record)
    (chain : TableChain) (namePtr v : Tcl_Obj) (tkwin : Tk_Window) (saved : Bool)
    (p : OptionPtr) (found o : TkOption) (off : Nat) (s : Tk_SavedOption) (e : List Effect)
    (ht : o.specPtr.type = TK_OPTION_INT) (hn : nullOK env o.specPtr = true)
    (hfl : intFlagsOk o.specPtr = true) (hobj : o.specPtr.objOffset = none)
    (hoff : o.specPtr.internalOffset = some off)
    (hp : (GetOptionFromObj namePtr chain).result = some p)
    (hf : chain.deref p = some found) (hs : followSynonym chain p found = some o)
    (hdec : ∀ n, (names.Tcl_NewWideIntObj n).bytes = decimal n)
    (h : DoObjConfig env r o v tkwin saved = .ok r1 s e) :
    ∃ obj, Tk_GetOptionValue env names r1 chain namePtr tkwin = .value obj ∧
      (obj.bytes = [] ↔
        (v.bytes = [] ∨ codedInt env o.specPtr v = some (intNull o.specPtr))) ∧
      (∀ n, codedInt env o.specPtr v = some n → n ≠ intNull o.specPtr →
        obj.bytes = decimal n) := by
  have hk : o.specPtr.type ∈ intCodedTypes := by rw [ht]; decide
  have hst : StorageOk o.specPtr := by unfold StorageOk; rw [ht]; exact hfl
  obtain ⟨hnone, hsome⟩ := applyValue_coded env r o v tkwin off hk hoff hst
  have hempty : v.bytes = [] → codedInt env o.specPtr v = some (intNull o.specPtr) := by
    intro he
    have hnull : isNullValue env o.specPtr v = true := by
      simp [isNullValue, hn, TkObjIsEmpty, he]
    simp only [codedInt, ht, hnull, if_true, intNull]
    unfold intFlagsOk at hfl
    by_cases h0 : o.specPtr.flags &&& TYPE_MASK = 0
    · have hne : ¬ ((0 : Nat) = TYPE_MASK) := by decide
      simp only [h0, if_true, hne, if_false]
    · have h1 : o.specPtr.flags &&& TYPE_MASK = TYPE_MASK := by simpa [h0] using hfl
      have hm : ¬ TYPE_MASK = 0 := by decide
      simp only [h1, hm, if_true, if_false]
  cases hc : codedInt env o.specPtr v with
  | none =>
    have ha := hnone hc
    unfold DoObjConfig at h
    simp [ha] at h
  | some n =>
    obtain ⟨v2, ha⟩ := hsome n hc
    have hr1 : r1 = r.set off (.int n) := by
      unfold DoObjConfig at h
      simp only [ha, hobj, DoResult.ok.injEq] at h
      have hnar : narrowed o.specPtr n = n := by simp only [narrowed, ht]
      rw [← h.1, hnar]
      rfl
    obtain ⟨objPtr, hfmt, hnul, hval⟩ := formatInt_bytes env names o.specPtr n hn hfl
    have hget : Tk_GetOptionValue env names r1 chain namePtr tkwin
        = .value (objPtr.getD Tcl_NewObj) := by
      unfold Tk_GetOptionValue
      simp only [hp, hf, hs, hobj, GetObjectForOption, hoff, formatInternal, ht, hr1,
        Record.set_internals_same, hfmt]
    refine ⟨_, hget, ?_, ?_⟩
    · by_cases hv : n = intNull o.specPtr
      · rw [hnul hv]
        exact ⟨fun _ => Or.inr (by rw [hv]), fun _ => rfl⟩
      · rw [hval hv]
        constructor
        · intro hb
          rw [Option.getD_some, hdec] at hb
          exact absurd hb (decimal_ne_nil n)
        · rintro (he | hsent)
          · have h2 := hempty he
            rw [hc] at h2
            exact absurd (Option.some.inj h2) hv
          · exact absurd (Option.some.inj hsent) hv
    · intro m hm hne
      cases hm
      rw [hval hne, Option.getD_some, hdec]

/-- C36 (witness). The text `25` applied to `-borderwidth` and read under the
name `-bd`. -/
theorem Tk_GetOptionValue_int_unset_witness :
    ∃ obj, Tk_GetOptionValue exampleEnv exampleNames (widgetRecord.set 8 (.int 25))
        borderTable (strObj "-bd") 0 = .value obj ∧
      (obj.bytes = [] ↔
        ((strObj "25").bytes = [] ∨
          codedInt exampleEnv borderwidthOption.specPtr (strObj "25")
            = some (intNull borderwidthOption.specPtr))) ∧
      (∀ n, codedInt exampleEnv borderwidthOption.specPtr (strObj "25") = some n →
        n ≠ intNull borderwidthOption.specPtr → obj.bytes = decimal n) :=
  Tk_GetOptionValue_int_unset exampleEnv exampleNames widgetRecord _ borderTable
    (strObj "-bd") (strObj "25") 0 false (0, 1) bdOption borderwidthOption 8 _ _ rfl
    (by decide) (by decide) rfl rfl rfl rfl rfl (fun _ => rfl) rfl

/-- The loop of `Tk_SetOptions` on name/value pairs that it applies
successfully, followed by one more name that resolves to an option: with an
interpreter it ends at `goto error`; without one the test `interp != NULL`
skips the `goto error` and the loop goes on to read `objv[1]`, which is not
there. -/
theorem setOptionsLoop_missing_value (env : Env) (interp : Bool) (chain : TableChain)
    (tkwin : Tk_Window) (sv : Bool) (name : Tcl_Obj) (p : OptionPtr) (found o : TkOption)
    (hp : (GetOptionFromObj name chain).result = some p)
    (hf : chain.deref p = some found) (hs : followSynonym chain p found = some o)
    (pairs : List Tcl_Obj) :
    ∀ st st1 : SetState, pairs.length % 2 = 0 →
      setOptionsLoop env interp chain tkwin sv pairs st = .done st1 →
      setOptionsLoop env interp chain tkwin sv (pairs ++ [name]) st
        = if interp then .error st1 else .badRead := by
  induction pairs using pair_induction with
  | h0 =>
    intro st st1 _ h
    simp only [setOptionsLoop, LoopEnd.done.injEq] at h
    subst h
    simp only [List.nil_append, setOptionsLoop, hp, hf, hs]
  | h1 a =>
    intro st st1 hlen _
    simp at hlen
  | h2 a b l ih =>
    intro st st1 hlen h
    have hl : l.length % 2 = 0 := by
      simp only [List.length_cons] at hlen
      omega
    have e : (a :: b :: l) ++ [name] = a :: b :: (l ++ [name]) := rfl
    rw [e]
    rw [setOptionsLoop] at h ⊢
    cases hr : (GetOptionFromObj a chain).result with
    | none => simp [hr] at h
    | some q =>
      simp only [hr] at h ⊢
      cases hd : chain.deref q with
      | none => simp [hd] at h
      | some fnd =>
        simp only [hd] at h ⊢
        cases hsyn : followSynonym chain q fnd with
        | none => simp [hsyn] at h
        | some opt =>
          simp only [hsyn] at h ⊢
          cases hdo : DoObjConfig env st.recordPtr opt b tkwin sv with
          | error r1 => simp [hdo] at h
          | panic => simp [hdo] at h
          | ok r1 saved effects =>
            simp only [hdo] at h ⊢
            exact ih _ _ hl h

/-- `Tk_SetOptions` without an interpreter, on name/value pairs that it
applies successfully followed by one more name that resolves to an option:
it reads the value `objv[1]` past the end of the arguments. -/
theorem Tk_SetOptions_missing_value (env : Env) (r : Record) (chain : TableChain)
    (tkwin : Tk_Window) (sv : Bool) (maskPtr : Option Nat) (name : Tcl_Obj) (p : OptionPtr)
    (found o : TkOption) (pairs : List Tcl_Obj) (st1 : SetState)
    (hp : (GetOptionFromObj name chain).result = some p)
    (hf : chain.deref p = some found) (hs : followSynonym chain p found = some o)
    (hlen : pairs.length % 2 = 0)
    (h : setOptionsLoop env false chain tkwin sv pairs
        { recordPtr := r, savePtr := if sv then [{ tkwin := tkwin, items := [] }] else [],
          mask := 0, effects := [] } = .done st1) :
    Tk_SetOptions env false r chain (pairs ++ [name]) tkwin sv maskPtr = .badRead := by
  unfold Tk_SetOptions
  simp only []
  rw [setOptionsLoop_missing_value env false chain tkwin sv name p found o hp hf hs pairs _
    st1 hlen h]
  rfl

/-- C34. `Tk_SetOptions` called with the single argument `-width`, a name of
the table without a value: with an interpreter it returns `TCL_ERROR` and
leaves the record alone; without an interpreter it does not return
`TCL_ERROR` but goes on to read the value `objv[1]` past the end of the
arguments.  The same happens after a pair that was applied, with a log. -/
theorem Tk_SetOptions_missing_value_reads_past_end :
    Tk_SetOptions exampleEnv true widgetRecord widgetTable [strObj "-width"] 0 false none
      = .error widgetRecord [] none [] ∧
    Tk_SetOptions exampleEnv false widgetRecord widgetTable [strObj "-width"] 0 false none
      = .badRead ∧
    Tk_SetOptions exampleEnv false widgetRecord widgetTable
      [strObj "-width", strObj "1", strObj "-state"] 0 true none = .badRead :=
  ⟨rfl, rfl, rfl⟩

/-- On the path of `TkParsePadAmount` that reads the specification as a list,
success means that the half value is not negative and that the total is the
half value plus a distance that is not negative, as an `int`. -/
theorem TkParsePadAmount_list_nonneg (env : PadEnv) (tkwin : Tk_Window) (specObj : Tcl_Obj)
    (h0 half all : Int) (ht : specObj.typePtr ≠ env.pixelObjType)
    (h : TkParsePadAmount env tkwin specObj (some h0) = .ok (some half) all) :
    0 ≤ half ∧ ∃ b, 0 ≤ b ∧ all = castInt (half + b) := by
  simp only [TkParsePadAmount, if_neg ht] at h
  cases hl : env.Tcl_ListObjGetElements specObj with
  | none => simp [hl] at h
  | some objv =>
    simp only [hl] at h
    split at h
    · cases h
    · cases h1 : objv[0]? with
      | none => simp [h1] at h
      | some first =>
        simp only [h1] at h
        cases hp : env.Tk_GetPixelsFromObj tkwin first with
        | none => simp [hp] at h
        | some a =>
          simp only [hp] at h
          by_cases ha : a < 0
          · simp [ha] at h
          · rw [if_neg ha] at h
            by_cases hlen : objv.length = 1
            · rw [if_pos hlen] at h
              simp only [Option.map_some', PadResult.ok.injEq, Option.some.injEq] at h
              obtain ⟨e1, e2⟩ := h
              subst e1
              exact ⟨not_lt.mp ha, a, not_lt.mp ha, e2.symm⟩
            · rw [if_neg hlen] at h
              cases h2 : objv[1]? with
              | none => simp [h2] at h
              | some second =>
                simp only [h2] at h
                cases hq : env.Tk_GetPixelsFromObj tkwin second with
                | none => simp [hq] at h
                | some b =>
                  simp only [hq] at h
                  by_cases hb : b < 0
                  · simp [hb] at h
                  · rw [if_neg hb] at h
                    simp only [Option.map_some', PadResult.ok.injEq, Option.some.injEq] at h
                    obtain ⟨e1, e2⟩ := h
                    subst e1
                    exact ⟨not_lt.mp ha, b, not_lt.mp hb, e2.symm⟩

/-- On the path of `TkParsePadAmount` taken for a specification that holds the
pixel representation, whatever distance `Tk_GetPixelsFromObj` gives is
accepted: the half value is that distance and the total is twice it, negative
when the distance is. -/
theorem TkParsePadAmount_pixel_unchecked (env : PadEnv) (tkwin : Tk_Window)
    (specObj : Tcl_Obj) (h0 v : Int) (ht : specObj.typePtr = env.pixelObjType)
    (hp : env.Tk_GetPixelsFromObj tkwin specObj = some v) (hmin : INT_MIN ≤ 2 * v)
    (hneg : v < 0) :
    TkParsePadAmount env tkwin specObj (some h0) = .ok (some v) (2 * v) ∧ 2 * v < v := by
  have hmax : v + v ≤ INT_MAX := by unfold INT_MAX; omega
  simp only [TkParsePadAmount, if_pos ht, hp]
  rw [castInt_id (v + v) (by omega) hmax, two_mul]
  exact ⟨rfl, by omega⟩

/-- C38. A specification that holds the pixel representation of the distance
`-3`: `TkParsePadAmount` succeeds with the half value `-3` and the total `-6`,
which is less than the half value.  The same distance given as a list of one
element is rejected. -/
theorem TkParsePadAmount_negative_pixel :
    (pixelObj "-3").typePtr = examplePadEnv.pixelObjType ∧
    examplePadEnv.Tk_GetPixelsFromObj 0 (pixelObj "-3") = some (-3) ∧
    TkParsePadAmount examplePadEnv 0 (pixelObj "-3") (some 0) = .ok (some (-3)) (-6) ∧
    TkParsePadAmount examplePadEnv 0 (strObj "-3") (some 0) = .error :=
  ⟨rfl, by decide, by decide, by decide⟩

theorem DoObjConfig_saved (env : Env) (r r1 : Record) (o : TkOption) (v : Tcl_Obj)
    (tkwin : Tk_Window) (sv : Bool) (saved : Tk_SavedOption) (eff : List Effect)
    (h : DoObjConfig env r o v tkwin sv = .ok r1 saved eff) :
    saved.optionPtr = o ∧ saved.valuePtr = r.objAt o.specPtr.objOffset ∧
    (o.specPtr.type ≠ TK_OPTION_CUSTOM →
      ∀ x, o.specPtr.internalOffset = some x → saved.internalForm = r.internals x) := by
  have hloc := applyValue_local env r o v tkwin
  unfold DoObjConfig at h
  cases ha : applyValue env r o v tkwin with
  | fail r2 => simp [ha] at h
  | abort => simp [ha] at h
  | stored new r2 old effs =>
    rw [ha] at hloc
    simp only [ha, DoResult.ok.injEq] at h
    obtain ⟨_, h2, _⟩ := h
    subst h2
    exact ⟨rfl, rfl, fun hc x hx => (hloc hc).2.2 x hx⟩

theorem NodesFull_step (env : Env) (tkwin : Tk_Window) (saved : Tk_SavedOption)
    (hN : 0 < env.TK_NUM_SAVED_OPTIONS) (sp : SavePtr)
    (h : NodesFull env.TK_NUM_SAVED_OPTIONS sp) :
    NodesFull env.TK_NUM_SAVED_OPTIONS (appendToLast saved (growIfFull env tkwin sp)) := by
  induction sp with
  | nil => exact h
  | cons n rest ih =>
    cases rest with
    | nil =>
      simp only [NodesFull] at h
      simp only [growIfFull]
      by_cases hfull : n.items.length ≥ env.TK_NUM_SAVED_OPTIONS
      · rw [if_pos hfull]
        simp only [appendToLast, NodesFull, List.nil_append, List.length_singleton]
        exact ⟨by omega, hN⟩
      · rw [if_neg hfull]
        simp only [appendToLast, NodesFull, List.length_append, List.length_singleton]
        omega
    | cons n2 rest =>
      simp only [NodesFull] at h
      have e : appendToLast saved (growIfFull env tkwin (n :: n2 :: rest))
          = n :: appendToLast saved (growIfFull env tkwin (n2 :: rest)) := by
        have hne := growIfFull_ne_nil env tkwin (n2 :: rest) (by simp)
        simp only [growIfFull]
        cases hg : growIfFull env tkwin (n2 :: rest) with
        | nil => exact absurd hg hne
        | cons g gs => rfl
      rw [e]
      have hne2 := appendToLast_ne_nil saved _ (growIfFull_ne_nil env tkwin (n2 :: rest)
        (by simp))
      cases ha : appendToLast saved (growIfFull env tkwin (n2 :: rest)) with
      | nil => exact absurd ha hne2
      | cons g gs =>
        have := ih h.2
        rw [ha] at this
        exact ⟨h.1, this⟩

theorem setOptionsLoop_log (env : Env) (interp : Bool) (chain : TableChain)
    (tkwin : Tk_Window) (hN : 0 < env.TK_NUM_SAVED_OPTIONS) (objv : List Tcl_Obj) :
    ∀ st st1 : SetState, st.savePtr ≠ [] → NodesFull env.TK_NUM_SAVED_OPTIONS st.savePtr →
      setOptionsLoop env interp chain tkwin true objv st = .done st1 →
      st1.savePtr ≠ [] ∧ NodesFull env.TK_NUM_SAVED_OPTIONS st1.savePtr ∧
      objv.length % 2 = 0 ∧
      ∃ new, (flatItems st1.savePtr).map Prod.snd
          = (flatItems st.savePtr).map Prod.snd ++ new ∧
        new.length = objv.length / 2 ∧
        SavedInOrder env chain tkwin objv st.recordPtr new st1.recordPtr := by
  induction objv using pair_induction with
  | h0 =>
    intro st st1 hne hfull h
    simp only [setOptionsLoop, LoopEnd.done.injEq] at h
    subst h
    exact ⟨hne, hfull, rfl, [], by simp, rfl, rfl, rfl⟩
  | h1 a =>
    intro st st1 _ _ h
    simp only [setOptionsLoop] at h
    split at h
    · cases h
    · split at h
      · cases h
      · split at h
        · cases h
        · split at h <;> cases h
  | h2 a b l ih =>
    intro st st1 hne hfull h
    rw [setOptionsLoop] at h
    cases hr : (GetOptionFromObj a chain).result with
    | none => simp [hr] at h
    | some q =>
      simp only [hr] at h
      cases hd : chain.deref q with
      | none => simp [hd] at h
      | some fnd =>
        simp only [hd] at h
        cases hsyn : followSynonym chain q fnd with
        | none => simp [hsyn] at h
        | some opt =>
          simp only [hsyn] at h
          cases hdo : DoObjConfig env st.recordPtr opt b tkwin true with
          | error r1 => simp [hdo] at h
          | panic => simp [hdo] at h
          | ok r1 saved effects =>
            simp only [hdo, if_true] at h
            have hne1 := appendToLast_ne_nil saved _ (growIfFull_ne_nil env tkwin _ hne)
            obtain ⟨h1, h2, h3, new, h4, h5, h6⟩ :=
              ih _ st1 hne1 (NodesFull_step env tkwin saved hN _ hfull) h
            obtain ⟨w, hw⟩ := flatItems_appendToLast saved _ (growIfFull_ne_nil env tkwin _ hne)
            have hcan : canonicalOption chain a = some opt := by
              simp only [canonicalOption, hr, hd, hsyn]
            obtain ⟨s1, s2, s3⟩ := DoObjConfig_saved env _ _ _ _ _ _ _ _ hdo
            refine ⟨h1, h2, ?_, saved :: new, ?_, ?_, ?_⟩
            · simp only [List.length_cons]
              omega
            · rw [h4]
              simp only [hw, flatItems_growIfFull, List.map_append, List.map_cons,
                List.map_nil, List.append_assoc, List.singleton_append]
            · simp only [List.length_cons, h5]
              omega
            · exact ⟨opt, r1, saved, effects, new, hcan, hdo, rfl, s1, s2, s3, h6⟩

theorem NodesFull_le (n : Nat) (sp : SavePtr) (h : NodesFull n sp) :
    ∀ node ∈ sp, node.items.length ≤ n := by
  induction sp with
  | nil => intro node hm; cases hm
  | cons a rest ih =>
    cases rest with
    | nil =>
      intro node hm
      simp only [List.mem_singleton] at hm
      subst hm
      exact h
    | cons b rest =>
      intro node hm
      rcases List.mem_cons.mp hm with e | hm2
      · subst e
        exact le_of_eq h.1
      · exact ih h.2 node hm2

theorem NodesFull_dropLast (n : Nat) (sp : SavePtr) (h : NodesFull n sp) :
    ∀ node ∈ sp.dropLast, node.items.length = n := by
  induction sp with
  | nil => intro node hm; cases hm
  | cons a rest ih =>
    cases rest with
    | nil => intro node hm; cases hm
    | cons b rest =>
      intro node hm
      rw [List.dropLast_cons₂] at hm
      rcases List.mem_cons.mp hm with e | hm2
      · subst e
        exact h.1
      · exact ih h.2 node hm2

/-- C33. After `Tk_SetOptions` has returned `TCL_OK` for a call with a log,
where a node has room for at least one entry: the arguments are `n` pairs of
name and value, the nodes of the log from the root on hold exactly `n`
entries, in the order in which the pairs were applied, the entry of pair `i`
holding the canonical entry of the name of the pair and the value the record
held for that option just before the pair was applied; every node holds at
most `TK_NUM_SAVED_OPTIONS` entries and every node but the last holds exactly
that many. -/
theorem Tk_SetOptions_log_shape (env : Env) (interp : Bool) (r r1 : Record)
    (chain : TableChain) (objv : List Tcl_Obj) (tkwin : Tk_Window) (maskPtr m : Option Nat)
    (log : SavePtr) (e : List Effect) (hN : 0 < env.TK_NUM_SAVED_OPTIONS)
    (h : Tk_SetOptions env interp r chain objv tkwin true maskPtr = .ok r1 log m e) :
    objv.length % 2 = 0 ∧ (flatItems log).length = objv.length / 2 ∧
    SavedInOrder env chain tkwin objv r ((flatItems log).map Prod.snd) r1 ∧
    log ≠ [] ∧
    (∀ node ∈ log, node.items.length ≤ env.TK_NUM_SAVED_OPTIONS) ∧
    (∀ node ∈ log.dropLast, node.items.length = env.TK_NUM_SAVED_OPTIONS) := by
  rw [Tk_SetOptions_eq] at h
  cases hl : setOptionsLoop env interp chain tkwin true objv (initialState r tkwin true) with
  | error st =>
    rw [hl] at h
    simp only at h
    split at h
    · cases h
    · split at h <;> cases h
  | panic => rw [hl] at h; cases h
  | badRead => rw [hl] at h; cases h
  | done st =>
    rw [hl] at h
    simp only [SetResult.ok.injEq] at h
    obtain ⟨e1, e2, _, _⟩ := h
    subst e1 e2
    have hne0 : (initialState r tkwin true).savePtr ≠ [] := by simp [initialState]
    have hfull0 : NodesFull env.TK_NUM_SAVED_OPTIONS (initialState r tkwin true).savePtr := by
      simp [initialState, NodesFull]
    obtain ⟨h1, h2, h3, new, h4, h5, h6⟩ :=
      setOptionsLoop_log env interp chain tkwin hN objv _ st hne0 hfull0 hl
    have hflat0 : (flatItems (initialState r tkwin true).savePtr).map Prod.snd = [] := by
      simp [initialState, flatItems]
    rw [hflat0, List.nil_append] at h4
    refine ⟨h3, ?_, ?_, h1, NodesFull_le _ _ h2, NodesFull_dropLast _ _ h2⟩
    · have := congrArg List.length h4
      rw [List.length_map] at this
      rw [this, h5]
    · rw [h4]
      exact h6

/-- C33 (witness). The arguments `-width 1 -width 2 -width 3` applied to the
widget with nodes of two entries: the log has a full root node and a second
node of one entry, and the three entries hold the values `10`, `1` and `2`
that the option had before each pair. -/
theorem Tk_SetOptions_log_shape_witness :
    ∃ r1 log m e,
      Tk_SetOptions smallNodeEnv true widgetRecord widgetTable thriceArgs 0 true none
        = .ok r1 log m e ∧
      (log.map fun node => node.items.length) = [2, 1] ∧
      ((flatItems log).map fun item => item.2.valuePtr)
        = [some (strObj "10"), some (strObj "1"), some (strObj "2")] ∧
      thriceArgs.length % 2 = 0 ∧ (flatItems log).length = thriceArgs.length / 2 ∧
      SavedInOrder smallNodeEnv widgetTable 0 thriceArgs widgetRecord
        ((flatItems log).map Prod.snd) r1 ∧
      log ≠ [] ∧
      (∀ node ∈ log, node.items.length ≤ smallNodeEnv.TK_NUM_SAVED_OPTIONS) ∧
      (∀ node ∈ log.dropLast, node.items.length = smallNodeEnv.TK_NUM_SAVED_OPTIONS) :=
  ⟨_, _, _, _, rfl, rfl, rfl,
    Tk_SetOptions_log_shape smallNodeEnv true widgetRecord _ widgetTable thriceArgs 0 none _ _
      _ (by decide) rfl⟩

theorem Tk_RestoreSavedOptions_result (recordPtr : Record) (savePtr : Tk_SavedOptions)
    (chained : SavePtr) (res : Restored)
    (h : Tk_RestoreSavedOptions recordPtr savePtr chained = some res) :
    res.savePtr = [{ savePtr with items := [] }] := by
  rw [Tk_RestoreSavedOptions_eq_restorePairs] at h
  cases hr : restorePairs (flatItems (savePtr :: chained)).reverse recordPtr with
  | none => simp [hr] at h
  | some p =>
    simp only [hr, Option.map_some', Option.some.injEq] at h
    rw [← h]

/-- C37. When `Tk_RestoreSavedOptions` has returned for a log, a second call
for the same log, on the record the first call has left, returns too, leaves
the record and the log as they are, and does nothing outside the record: no
reference count is changed and no resource is freed.  The first call has left
the root with no entry and no chained node. -/
theorem Tk_RestoreSavedOptions_idempotent (recordPtr : Record) (savePtr : Tk_SavedOptions)
    (chained : SavePtr) (res : Restored)
    (h : Tk_RestoreSavedOptions recordPtr savePtr chained = some res) :
    ∃ root, res.savePtr = [root] ∧ root.items = [] ∧
      Tk_RestoreSavedOptions res.recordPtr root [] =
        some { savePtr := res.savePtr, recordPtr := res.recordPtr, effects := [] } := by
  have hs := Tk_RestoreSavedOptions_result recordPtr savePtr chained res h
  refine ⟨{ savePtr with items := [] }, hs, rfl, ?_⟩
  rw [hs]
  rfl

/-- C37 (witness). The arguments `-width 20 -state xyz` fail on the widget
after `-width` has been applied, and `Tk_SetOptions` restores the log itself;
a call of `Tk_RestoreSavedOptions` by the caller on the log that is returned
leaves the record and the log as they are and does nothing else. -/
theorem Tk_RestoreSavedOptions_idempotent_witness :
    ∃ r1 root m e,
      Tk_SetOptions exampleEnv true widgetRecord widgetTable failingArgs 0 true none
        = .error r1 [root] m e ∧
      Tk_RestoreSavedOptions r1 root []
        = some { savePtr := [root], recordPtr := r1, effects := [] } ∧
      ∃ res, Tk_RestoreSavedOptions (widgetRecord.set 8 (.int 20))
          { tkwin := 0, items := [{ optionPtr := widthOption, valuePtr := some (strObj "10"),
                                    internalForm := .int 10 }] } [] = some res ∧
        ∃ root2, res.savePtr = [root2] ∧ root2.items = [] ∧
          Tk_RestoreSavedOptions res.recordPtr root2 [] =
            some { savePtr := res.savePtr, recordPtr := res.recordPtr, effects := [] } :=
  ⟨_, _, _, _, rfl, rfl, _, rfl,
    Tk_RestoreSavedOptions_idempotent (widgetRecord.set 8 (.int 20))
      { tkwin := 0, items := [{ optionPtr := widthOption, valuePtr := some (strObj "10"),
                                internalForm := .int 10 }] } [] _ rfl⟩

theorem setOptionsLoop_savePtr_ne_nil (env : Env) (interp : Bool) (chain : TableChain)
    (tkwin : Tk_Window) (objv : List Tcl_Obj) :
    ∀ st st1 : SetState, st.savePtr ≠ [] →
      setOptionsLoop env interp chain tkwin true objv st = .error st1 →
      st1.savePtr ≠ [] := by
  induction objv using pair_induction with
  | h0 =>
    intro st st1 _ h
    simp only [setOptionsLoop] at h
    cases h
  | h1 a =>
    intro st st1 hne h
    simp only [setOptionsLoop] at h
    split at h
    · cases h; exact hne
    · split at h
      · cases h
      · split at h
        · cases h
        · split at h
          · cases h; exact hne
          · cases h
  | h2 a b l ih =>
    intro st st1 hne h
    rw [setOptionsLoop] at h
    cases hr : (GetOptionFromObj a chain).result with
    | none =>
      simp only [hr, LoopEnd.error.injEq] at h
      rw [← h]
      exact hne
    | some q =>
      simp only [hr] at h
      cases hd : chain.deref q with
      | none => simp [hd] at h
      | some fnd =>
        simp only [hd] at h
        cases hsyn : followSynonym chain q fnd with
        | none => simp [hsyn] at h
        | some opt =>
          simp only [hsyn] at h
          cases hdo : DoObjConfig env st.recordPtr opt b tkwin true with
          | error r1 =>
            simp only [hdo, if_true, LoopEnd.error.injEq] at h
            rw [← h]
            exact growIfFull_ne_nil env tkwin _ hne
          | panic => simp [hdo] at h
          | ok r1 saved effects =>
            simp only [hdo, if_true] at h
            exact ih _ st1
              (appendToLast_ne_nil saved _ (growIfFull_ne_nil env tkwin _ hne)) h

/-- After `Tk_SetOptions` has returned `TCL_ERROR` for a call with a log, the
log is a root with no entry and no chained node, and a call of
`Tk_RestoreSavedOptions` for it leaves the record and the log as they are and
does nothing outside the record. -/
theorem Tk_SetOptions_error_then_restore (env : Env) (interp : Bool) (r r1 : Record)
    (chain : TableChain) (objv : List Tcl_Obj) (tkwin : Tk_Window) (maskPtr m : Option Nat)
    (log : SavePtr) (e : List Effect)
    (h : Tk_SetOptions env interp r chain objv tkwin true maskPtr = .error r1 log m e) :
    ∃ root, log = [root] ∧ root.items = [] ∧
      Tk_RestoreSavedOptions r1 root [] =
        some { savePtr := log, recordPtr := r1, effects := [] } := by
  rw [Tk_SetOptions_eq] at h
  cases hl : setOptionsLoop env interp chain tkwin true objv (initialState r tkwin true) with
  | done st => rw [hl] at h; cases h
  | panic => rw [hl] at h; cases h
  | badRead => rw [hl] at h; cases h
  | error st =>
    rw [hl] at h
    have hne := setOptionsLoop_savePtr_ne_nil env interp chain tkwin objv _ st
      (by simp [initialState]) hl
    cases hsp : st.savePtr with
    | nil => exact absurd hsp hne
    | cons root chained =>
      simp only [hsp] at h
      cases hres : Tk_RestoreSavedOptions st.recordPtr root chained with
      | none => simp [hres] at h
      | some res =>
        simp only [hres, SetResult.error.injEq] at h
        obtain ⟨e1, e2, _, _⟩ := h
        have hs := Tk_RestoreSavedOptions_result _ _ _ _ hres
        refine ⟨{ root with items := [] }, ?_, rfl, ?_⟩
        · rw [← e2, hs]
        · rw [← e2, ← e1, hs]
          rfl

set_option maxRecDepth 1000000 in
/-- C39. The array `bit_reverse` of `ImgBmapPsImagemask` has 256 entries, and
for every byte `b` bit `i` of `bit_reverse[b]` is bit `7 - i` of `b`, for every
`i` from 0 to 7; every entry is a byte, the array is a permutation of the
numbers 0 to 255, and `bit_reverse[bit_reverse[b]]` is `b`. -/
theorem bit_reverse_reverses :
    bit_reverse.length = 256 ∧
    (∀ b < 256, ∀ i < 8, (bit_reverse.getD b 0).testBit i = b.testBit (7 - i)) ∧
    (∀ b < 256, bit_reverse.getD b 0 < 256) ∧
    bit_reverse.Perm (List.range 256) ∧
    (∀ b < 256, bit_reverse.getD (bit_reverse.getD b 0) 0 = b) := by
  refine ⟨rfl, ?_, ?_, ?_, ?_⟩ <;> decide

/-- C39 (witness). The byte `0x01` is written as `0x80`, and the byte `0x80`
as `0x01`; the byte `0xfe`, read from a signed `char` as `-2`, is written as
`0x7f`. -/
theorem bit_reverse_reverses_witness :
    bit_reverse.getD 1 0 = 128 ∧ bit_reverse.getD (bit_reverse.getD 1 0) 0 = 1 ∧
    (bit_reverse.getD 1 0).testBit 7 = (1 : Nat).testBit (7 - 7) ∧
    ImgBmapPsImagemask.byte (-2) = 127 :=
  ⟨rfl, bit_reverse_reverses.2.2.2.2 1 (by decide),
    bit_reverse_reverses.2.1 1 (by decide) 7 (by decide), rfl⟩

end TkConfig
